import Mathlib

/-!
# Small-C toolchain: preprocessor, lexer and expression code generator

A shallow embedding of parts of the Small-C toolchain:

* `Sppe`: the enhanced preprocessor `sppe.c`;
* `Scc`: the lexer and the expression parser / code generator of
  `scc_enhanced.c`, with a small x86-64 machine to run the emitted code.

Conventions of the embedding.

* A C string is the list of its characters before the terminating NUL.
* A loop whose pointer jumps forward by a computed amount runs on a fuel
  counter; running out of fuel is reported (`none`, `Step.hang`), never
  silently turned into a result.
* Array capacities are modelled where the source tests them (the explicit
  truncation of names, values and lines); a write past the end of an array
  that the source does not guard is undefined behaviour in C and the model
  simply keeps the data.
-/

namespace SmallC

/-- A C string: its characters up to, not including, the terminating NUL. -/
abbrev Str := List Char

/-- The characters of a buffer seen as a C string: everything before the first NUL. -/
def cstr : Str → Str
  | [] => []
  | c :: cs => if c = '\x00' then [] else c :: cstr cs

namespace Sppe

/-! ## Configuration constants of `sppe.c` -/

def MAXLINE : Nat := 512
def MAXDEFINES : Nat := 200
def MAXNAMESIZE : Nat := 64
def MAXVALUESIZE : Nat := 256
def MAXPARAMS : Nat := 10
def MAXINCLUDES : Nat := 16
def MAXIFSTACK : Nat := 32

/-- One row of the parallel arrays `defnames`, `defvalues`, `defnparams`,
`defparams`.  `nparams = -1` marks an object-like macro; only
`params[0 .. nparams-1]` is ever read by the source. -/
structure MacroDef where
  name : Str
  value : Str
  nparams : Int
  params : List Str
deriving DecidableEq, Repr

/-- The macro table: rows `0 .. defcount-1`, so `defcount` is the length. -/
abbrev Table := List MacroDef

/-! ## Character helpers -/

/-- The function `whitespace` of the source. -/
def whitespace (c : Char) : Bool :=
  c = ' ' || c = '\t' || c = '\n' || c = '\r'

/-- The function `skipwhite`: skips blanks and tabs only. -/
def skipwhite : Str → Str
  | [] => []
  | c :: p => if c = ' ' || c = '\t' then skipwhite p else c :: p

/-- The function `startswith`. -/
def startswith : Str → Str → Bool
  | _, [] => true
  | [], _ :: _ => false
  | c :: s, d :: p => if c = d then startswith s p else false

/-- The test `(*src >= 'A' && *src <= 'Z') || (*src >= 'a' && *src <= 'z') || *src == '_'`. -/
def isIdentStart (c : Char) : Bool :=
  (65 ≤ c.toNat && c.toNat ≤ 90) || (97 ≤ c.toNat && c.toNat ≤ 122) || c = '_'

/-- The loop test of `copyword`: letters, digits and underscore. -/
def isIdentChar (c : Char) : Bool :=
  (65 ≤ c.toNat && c.toNat ≤ 90) || (97 ≤ c.toNat && c.toNat ≤ 122) ||
    (48 ≤ c.toNat && c.toNat ≤ 57) || c = '_'

/-- The loop of `copyword`: `len` counts every identifier character, `dst`
keeps the first `MAXNAMESIZE - 1` of them. -/
def copywordLoop : Str → Nat → Str → Str × Nat
  | [], len, dst => (dst, len)
  | c :: src, len, dst =>
    if isIdentChar c then
      copywordLoop src (len + 1) (if len < MAXNAMESIZE - 1 then dst ++ [c] else dst)
    else (dst, len)

/-- The function `copyword`: the (truncated) word and the full length of the identifier. -/
def copyword (src : Str) : Str × Nat := copywordLoop src 0 []

/-- The loop of `finddefine`, started at index `i`. -/
def finddefineFrom (name : Str) : Table → Nat → Option Nat
  | [], _ => none
  | d :: ds, i => if name = d.name then some i else finddefineFrom name ds (i + 1)

/-- The function `finddefine`: index of the first row with this name; `none` is the `-1` of the source. -/
def finddefine (name : Str) (T : Table) : Option Nat := finddefineFrom name T 0

/-- The local array `args` of `substitute`, indexed by argument number. -/
abbrev Args := Nat → Str

/-- The assignment `args[k] = s` (as a string). -/
def Args.store (a : Args) (k : Nat) (s : Str) : Args := fun j => if j = k then s else a j

/-- Appending one character to the argument being collected: `if (i < MAXNAMESIZE - 1) args[nargs][i++] = *p`. -/
def pushArgChar (cur : Str) (c : Char) : Str :=
  if cur.length < MAXNAMESIZE - 1 then cur ++ [c] else cur

/-- The loop of `parsemacroargs`.  `cur` is the text written so far into
`args[nargs]` (so `i = cur.length`). -/
def parsemacroargsLoop : Nat → Str → Nat → Str → Nat → Args → Option (Nat × Args)
  | 0, _, _, _, _, _ => none
  | fuel + 1, p, nargs, cur, parens, args =>
    match p with
    | [] => some (if 0 < cur.length ∨ 0 < nargs then nargs + 1 else nargs, args.store nargs cur)
    | c :: rest =>
      if c = ')' ∧ ¬ 0 < parens then
        some (if 0 < cur.length ∨ 0 < nargs then nargs + 1 else nargs, args.store nargs cur)
      else if c = '(' then
        parsemacroargsLoop fuel rest nargs (pushArgChar cur c) (parens + 1) args
      else if c = ')' then
        parsemacroargsLoop fuel rest nargs (pushArgChar cur c) (parens - 1) args
      else if c = ',' ∧ parens = 0 then
        parsemacroargsLoop fuel (skipwhite rest) (nargs + 1) [] parens (args.store nargs cur)
      else
        parsemacroargsLoop fuel rest nargs (pushArgChar cur c) parens args

/-- The function `parsemacroargs`: the argument count and the updated array. -/
def parsemacroargs (src : Str) (args : Args) : Option (Nat × Args) :=
  parsemacroargsLoop (src.length + 1) (skipwhite src) 0 [] 0 args

/-- The parameter search of `expandmacro`: first `i < nparams` with `strcmp(word, defparams[defidx][i]) == 0`. -/
def findparam (word : Str) : List Str → Nat → Option Nat
  | [], _ => none
  | q :: qs, i => if word = q then some i else findparam word qs (i + 1)

/-- The loop of `expandmacro` over the macro body.  When no parameter
matches, the word is copied only if `i == defnparams[defidx]` after the
search; with a negative `defnparams` the search leaves `i = 0`, nothing is
copied and `src` stays where it is, so the loop goes round on the same text. -/
def expandmacroLoop (d : MacroDef) (args : Args) : Nat → Str → Option Str
  | 0, _ => none
  | _ + 1, [] => some []
  | fuel + 1, c :: src =>
    if isIdentStart c then
      let w := copyword (c :: src)
      match findparam w.1 (d.params.take d.nparams.toNat) 0 with
      | some i => (expandmacroLoop d args fuel ((c :: src).drop w.2)).map (fun r => args i ++ r)
      | none =>
        if 0 ≤ d.nparams then
          (expandmacroLoop d args fuel ((c :: src).drop w.2)).map (fun r => (c :: src).take w.2 ++ r)
        else expandmacroLoop d args fuel (c :: src)
    else (expandmacroLoop d args fuel src).map (fun r => c :: r)

/-- The function `expandmacro`: the body with parameters replaced by arguments. -/
def expandmacro (d : MacroDef) (args : Args) : Option Str :=
  expandmacroLoop d args (d.value.length + 1) d.value

/-- The two statements `while (*src && *src != ')') src++; if (*src == ')') src++;`. -/
def skipPastParen : Str → Str
  | [] => []
  | c :: src => if c = ')' then src else skipPastParen src

/-- The main loop of `substitute`; the result is the text written to
`newline`.  The sizes of the local arrays are not looked at here: this is
the text the loop writes as long as it fits them; `substituteLoopSized`
below follows the same lines with the sizes. -/
def substituteLoop (T : Table) : Nat → Str → Args → Option Str
  | 0, _, _ => none
  | _ + 1, [], _ => some []
  | fuel + 1, c :: src, args =>
    if isIdentStart c then
      let w := copyword (c :: src)
      match finddefine w.1 T with
      | some idx =>
        let d := T.getD idx ⟨[], [], -1, []⟩
        let src1 := (c :: src).drop w.2
        if 0 ≤ d.nparams then
          match skipwhite src1 with
          | '(' :: src3 =>
            match parsemacroargs src3 args with
            | none => none
            | some (_, args1) =>
              match expandmacro d args1 with
              | none => none
              | some expanded =>
                (substituteLoop T fuel (skipPastParen src3) args1).map (fun r => expanded ++ r)
          | src2 => (substituteLoop T fuel src2 args).map (fun r => w.1 ++ r)
        else (substituteLoop T fuel src1 args).map (fun r => d.value ++ r)
      | none =>
        (substituteLoop T fuel ((c :: src).drop w.2) args).map (fun r => (c :: src).take w.2 ++ r)
    else (substituteLoop T fuel src args).map (fun r => c :: r)

/-- The function `substitute`: the new contents of `line`.  `junk` is the
indeterminate initial contents of the uninitialised local array `args`. -/
def substitute (T : Table) (junk : Args) (line : Str) : Option Str :=
  substituteLoop T (line.length + 1) line junk

/-! ## The same functions with the sizes of their arrays

`substitute` writes its result into the local array `newline[MAXLINE * 2]`,
the expansion of a call into `expanded[MAXVALUESIZE * 2]` and the arguments
into `args[MAXPARAMS][MAXNAMESIZE]`; none of the stores into them is
guarded by the size.  The functions below follow the same source lines as
the ones above and keep, next to the text, the number of characters written
so far; a store behind the end of one of the three arrays ends the run as
`overrun`, after which the program has no defined behaviour. -/

/-- How a run over the local arrays ends: with its result, with a store
behind the end of an array, or not at all. -/
inductive Run (α : Type) where
  | ok (a : α)
  | overrun
  | hang
deriving DecidableEq, Repr

/-- The result with a function applied to it. -/
def Run.map {α β : Type} (f : α → β) : Run α → Run β
  | .ok a => .ok (f a)
  | .overrun => .overrun
  | .hang => .hang

/-- The loop of `parsemacroargs`, with the number of rows of `args`: the
stores `args[nargs][i] = 0` and `args[nargs][i++] = *p` need `nargs < MAXPARAMS`. -/
def parsemacroargsLoopSized : Nat → Str → Nat → Str → Nat → Args → Run (Nat × Args)
  | 0, _, _, _, _, _ => .hang
  | fuel + 1, p, nargs, cur, parens, args =>
    match p with
    | [] =>
      if nargs < MAXPARAMS then
        .ok (if 0 < cur.length ∨ 0 < nargs then nargs + 1 else nargs, args.store nargs cur)
      else .overrun
    | c :: rest =>
      if c = ')' ∧ ¬ 0 < parens then
        if nargs < MAXPARAMS then
          .ok (if 0 < cur.length ∨ 0 < nargs then nargs + 1 else nargs, args.store nargs cur)
        else .overrun
      else if c = '(' then
        if cur.length < MAXNAMESIZE - 1 ∧ MAXPARAMS ≤ nargs then .overrun
        else parsemacroargsLoopSized fuel rest nargs (pushArgChar cur c) (parens + 1) args
      else if c = ')' then
        if cur.length < MAXNAMESIZE - 1 ∧ MAXPARAMS ≤ nargs then .overrun
        else parsemacroargsLoopSized fuel rest nargs (pushArgChar cur c) (parens - 1) args
      else if c = ',' ∧ parens = 0 then
        if nargs < MAXPARAMS then
          parsemacroargsLoopSized fuel (skipwhite rest) (nargs + 1) [] parens (args.store nargs cur)
        else .overrun
      else
        if cur.length < MAXNAMESIZE - 1 ∧ MAXPARAMS ≤ nargs then .overrun
        else parsemacroargsLoopSized fuel rest nargs (pushArgChar cur c) parens args

/-- The function `parsemacroargs` with the number of rows of `args`. -/
def parsemacroargsSized (src : Str) (args : Args) : Run (Nat × Args) :=
  parsemacroargsLoopSized (src.length + 1) (skipwhite src) 0 [] 0 args

/-- The loop of `expandmacro` with the size of the array behind `dst`
(it is called with `expanded`); `pos` is `d - dst`.  `strcpy(d, args[i])`
stores the argument and its terminating zero, the copying loops store one
character at a time, and `*d = 0` ends the text. -/
def expandmacroLoopSized (d : MacroDef) (args : Args) : Nat → Str → Nat → Run Str
  | 0, _, _ => .hang
  | _ + 1, [], pos => if pos < MAXVALUESIZE * 2 then .ok [] else .overrun
  | fuel + 1, c :: src, pos =>
    if isIdentStart c then
      let w := copyword (c :: src)
      match findparam w.1 (d.params.take d.nparams.toNat) 0 with
      | some i =>
        if pos + (args i).length < MAXVALUESIZE * 2 then
          (expandmacroLoopSized d args fuel ((c :: src).drop w.2) (pos + (args i).length)).map
            (fun r => args i ++ r)
        else .overrun
      | none =>
        if 0 ≤ d.nparams then
          if pos + w.2 ≤ MAXVALUESIZE * 2 then
            (expandmacroLoopSized d args fuel ((c :: src).drop w.2) (pos + w.2)).map
              (fun r => (c :: src).take w.2 ++ r)
          else .overrun
        else expandmacroLoopSized d args fuel (c :: src) pos
    else if pos < MAXVALUESIZE * 2 then
      (expandmacroLoopSized d args fuel src (pos + 1)).map (fun r => c :: r)
    else .overrun

/-- The function `expandmacro` writing into `expanded`. -/
def expandmacroSized (d : MacroDef) (args : Args) : Run Str :=
  expandmacroLoopSized d args (d.value.length + 1) d.value 0

/-- The main loop of `substitute` with the size of `newline`; `pos` is
`dst - newline`.  Each `strcpy(dst, ...)` stores the text and its
terminating zero, the copying loops store one character at a time, and
`*dst = 0` ends the line. -/
def substituteLoopSized (T : Table) : Nat → Str → Args → Nat → Run Str
  | 0, _, _, _ => .hang
  | _ + 1, [], _, pos => if pos < MAXLINE * 2 then .ok [] else .overrun
  | fuel + 1, c :: src, args, pos =>
    if isIdentStart c then
      let w := copyword (c :: src)
      match finddefine w.1 T with
      | some idx =>
        let d := T.getD idx ⟨[], [], -1, []⟩
        let src1 := (c :: src).drop w.2
        if 0 ≤ d.nparams then
          match skipwhite src1 with
          | '(' :: src3 =>
            match parsemacroargsSized src3 args with
            | .hang => .hang
            | .overrun => .overrun
            | .ok (_, args1) =>
              match expandmacroSized d args1 with
              | .hang => .hang
              | .overrun => .overrun
              | .ok expanded =>
                if pos + expanded.length < MAXLINE * 2 then
                  (substituteLoopSized T fuel (skipPastParen src3) args1 (pos + expanded.length)).map
                    (fun r => expanded ++ r)
                else .overrun
          | src2 =>
            if pos + w.1.length < MAXLINE * 2 then
              (substituteLoopSized T fuel src2 args (pos + w.1.length)).map (fun r => w.1 ++ r)
            else .overrun
        else if pos + d.value.length < MAXLINE * 2 then
          (substituteLoopSized T fuel src1 args (pos + d.value.length)).map (fun r => d.value ++ r)
        else .overrun
      | none =>
        if pos + w.2 ≤ MAXLINE * 2 then
          (substituteLoopSized T fuel ((c :: src).drop w.2) args (pos + w.2)).map
            (fun r => (c :: src).take w.2 ++ r)
        else .overrun
    else if pos < MAXLINE * 2 then
      (substituteLoopSized T fuel src args (pos + 1)).map (fun r => c :: r)
    else .overrun

/-- The function `substitute` with the sizes of its local arrays.  The
final `strcpy(line, newline)` stores at most `MAXLINE * 2` characters into
the caller's `linebuf[MAXLINE * 4]`. -/
def substituteSized (T : Table) (junk : Args) (line : Str) : Run Str :=
  substituteLoopSized T (line.length + 1) line junk 0


/-! ## Global state, diagnostics and the line loop -/

/-- The global variables of `sppe.c` together with the two output streams.
`ifstack` holds `ifstack[0 .. ifstacklevel-1]` with the most recently pushed
entry first, so `ifstacklevel` is its length.  `stdout` and `stderr` collect
what was written to file descriptors 1 and 2. -/
structure State where
  defs : Table
  ifstack : List Bool
  skipping : Bool
  includelevel : Nat
  linenumber : List Int
  filename : List Str
  linebuf : Str
  continuation : Bool
  stdout : Str
  stderr : Str
deriving DecidableEq

/-- The value of `ifstacklevel`. -/
def State.ifstacklevel (s : State) : Nat := s.ifstack.length

/-- How a run of a piece of the program ends: it returns normally in a new
state, it calls `exit(code)`, or it does not finish. -/
inductive Step where
  | cont (s : State)
  | exit (code : Int) (s : State)
  | hang
deriving DecidableEq

/-- Sequencing: continue with `f` after a normal return, stop otherwise. -/
def Step.bind (r : Step) (f : State → Step) : Step :=
  match r with
  | .cont s => f s
  | .exit c s => .exit c s
  | .hang => .hang

/-- The digit loop of `itoa` (`do *--p = '0' + n % 10; n = n / 10; while (n > 0)`). -/
def itoaDigits : Nat → Nat → Str → Str
  | 0, _, acc => acc
  | fuel + 1, n, acc =>
    let acc1 := Char.ofNat (48 + n % 10) :: acc
    if 0 < n / 10 then itoaDigits fuel (n / 10) acc1 else acc1

/-- The function `itoa`. -/
def itoa (n : Int) : Str :=
  if n < 0 then '-' :: itoaDigits (n.natAbs + 1) n.natAbs []
  else itoaDigits (n.natAbs + 1) n.natAbs []

/-- Writing a string to standard error (`fputs(s, 2)`). -/
def State.eputs (s : State) (msg : Str) : State := { s with stderr := s.stderr ++ msg }

/-- Writing a string to standard output (`fputs(s, 1)`). -/
def State.oputs (s : State) (msg : Str) : State := { s with stdout := s.stdout ++ msg }

/-- The function `error`: prints `Error at file:line: msg` on standard error and returns. -/
def error (msg : Str) (s : State) : State :=
  s.eputs ("Error at ".toList ++ s.filename.getD s.includelevel [] ++ [':'] ++
    itoa (s.linenumber.getD s.includelevel 0) ++ ": ".toList ++ msg ++ ['\n'])

/-- The function `readline`: the characters stored in `buf` and the unread rest of the file. -/
def readlineLoop (max : Nat) : Str → Nat → Str → Str × Str
  | [], _, buf => (buf, [])
  | c :: inp, i, buf =>
    if i < max - 1 then
      if c = '\n' then (buf ++ [c], inp) else readlineLoop max inp (i + 1) (buf ++ [c])
    else (buf, c :: inp)

/-- The function `readline` on the unread part of a file. -/
def readline (inp : Str) (max : Nat) : Str × Str := readlineLoop max inp 0 []

/-- A copy loop `while (*p && !stop(*p) && i < max) dst[i++] = *p++`: the
copied text and the new `p`. -/
def copyUntil (stop : Char → Bool) (max : Nat) : Str → Str → Str × Str
  | [], dst => (dst, [])
  | c :: p, dst =>
    if !stop c && dst.length < max then copyUntil stop max p (dst ++ [c]) else (dst, c :: p)

/-- The parameter loop of the `#define` branch: `while (*p && *p != ')') ...`.
Returns the parameter names and the new `p`; `none` when an iteration makes
no progress, in which case the source loops forever. -/
def defineParamsLoop : Nat → Str → List Str → Option (List Str × Str)
  | 0, _, _ => none
  | fuel + 1, p, params =>
    match p with
    | [] => some (params, [])
    | c :: _ =>
      if c = ')' then some (params, p)
      else
        let p1 := skipwhite p
        match p1 with
        | ')' :: _ => some (params, p1)
        | _ =>
          let r := copyUntil (fun c => whitespace c || c = ',' || c = ')') (MAXNAMESIZE - 1) p1 []
          let p2 := skipwhite r.2
          let p3 := match p2 with
            | ',' :: q => q
            | q => q
          defineParamsLoop fuel p3 (params ++ [r.1])

/-- The shifting loop of `undefine`: `for (i = idx; i < defcount - 1; i++)` row `i` := row `i + 1`. -/
def undefineShift : Nat → Table → Nat → Table
  | 0, T, _ => T
  | k + 1, T, i => undefineShift k (T.set i (T.getD (i + 1) ⟨[], [], -1, []⟩)) (i + 1)

/-- The function `undefine` on the macro table; `defcount--` drops the last row. -/
def undefine (name : Str) (T : Table) : Table :=
  match finddefine name T with
  | some idx => (undefineShift (T.length - 1 - idx) T idx).take (T.length - 1)
  | none => T

/-- The files that `open` can find: a name is mapped to the file's contents. -/
abbrev Files := Str → Option Str

/-- The function `processline`.  `incl` runs `processfile` on the contents of
an included file; `junk` is the initial contents of the uninitialised array
`args` of `substitute`. -/
def processline (fs : Files) (junk : Args) (incl : Str → State → Step) (line : Str)
    (s : State) : Step :=
  match skipwhite line with
  | '#' :: p0 =>
    let p := skipwhite p0
    if startswith p "include".toList && !s.skipping then
      match skipwhite (p.drop 7) with
      | '"' :: q =>
        let incname := (copyUntil (fun c => c = '"') 127 q []).1
        if MAXINCLUDES - 1 ≤ s.includelevel then
          .exit 1 (error "Too many nested includes".toList s)
        else
          match fs incname with
          | none =>
            .exit 1 (((s.eputs "Error: Cannot open include file: ".toList).eputs incname).eputs ['\n'])
          | some content =>
            let s1 := { s with
              includelevel := s.includelevel + 1
              filename := s.filename.set (s.includelevel + 1) incname
              linenumber := s.linenumber.set (s.includelevel + 1) 0 }
            (incl content s1).bind fun s2 => .cont { s2 with includelevel := s2.includelevel - 1 }
      | _ => .cont s
    else if startswith p "define".toList && !s.skipping then
      let r := copyUntil (fun c => whitespace c || c = '(') (MAXNAMESIZE - 1) (skipwhite (p.drop 6)) []
      let parsed : Option (Int × List Str × Str) :=
        match r.2 with
        | '(' :: q =>
          match defineParamsLoop (q.length + 1) q [] with
          | none => none
          | some (params, q1) =>
            some (params.length, params, match q1 with
              | ')' :: q2 => q2
              | q2 => q2)
        | q => some (-1, [], q)
      match parsed with
      | none => .hang
      | some (nparams, params, q) =>
        let defvalue := (copyUntil (fun c => c = '\n') (MAXVALUESIZE - 1) (skipwhite q) []).1
        if s.defs.length < MAXDEFINES then
          .cont { s with defs := s.defs ++ [⟨r.1, defvalue, nparams, params⟩] }
        else .cont s
    else if startswith p "undef".toList && !s.skipping then
      let defname := (copyUntil whitespace (MAXNAMESIZE - 1) (skipwhite (p.drop 5)) []).1
      .cont { s with defs := undefine defname s.defs }
    else if startswith p "ifdef".toList then
      let defname := (copyUntil whitespace (MAXNAMESIZE - 1) (skipwhite (p.drop 5)) []).1
      if MAXIFSTACK - 1 ≤ s.ifstacklevel then
        .exit 1 (error "Too many nested #ifdef".toList s)
      else
        let defined := (finddefine defname s.defs).isSome
        .cont { s with
          ifstack := s.skipping :: s.ifstack
          skipping := if !defined && !s.skipping then true else s.skipping }
    else if startswith p "ifndef".toList then
      let defname := (copyUntil whitespace (MAXNAMESIZE - 1) (skipwhite (p.drop 6)) []).1
      if MAXIFSTACK - 1 ≤ s.ifstacklevel then
        .exit 1 (error "Too many nested #ifndef".toList s)
      else
        let defined := (finddefine defname s.defs).isSome
        .cont { s with
          ifstack := s.skipping :: s.ifstack
          skipping := if defined && !s.skipping then true else s.skipping }
    else if startswith p "else".toList then
      match s.ifstack with
      | [] => .exit 1 (error "#else without #ifdef/#ifndef".toList s)
      | top :: _ => .cont (if !top then { s with skipping := !s.skipping } else s)
    else if startswith p "endif".toList then
      match s.ifstack with
      | [] => .exit 1 (error "#endif without #ifdef/#ifndef".toList s)
      | top :: below => .cont { s with skipping := top, ifstack := below }
    else if startswith p "error".toList && !s.skipping then
      .exit 1 ((s.eputs "Error: #error ".toList).eputs (skipwhite (p.drop 5)))
    else .cont s
  | _ =>
    if !s.skipping then
      match substitute s.defs junk line with
      | none => .hang
      | some newline => .cont (s.oputs newline)
    else .cont s

/-- The pointer `p` of the continuation test of `processfile`, as the text
from `linebuf` up to and including `*p`: `p` starts at the last character
and moves left over `\n` and `\r` while `p > linebuf`. -/
def dropLineEnd (buf : Str) : Str :=
  match buf.reverse.dropWhile (fun c => c = '\n' || c = '\r') with
  | [] => buf.take 1
  | t => t.reverse

/-- The function `processfile` on the unread contents `inp` of the file. -/
def processfile (fs : Files) (junk : Args) : Nat → Str → State → Step
  | 0, _, _ => .hang
  | fuel + 1, inp, s =>
    let r := readline inp MAXLINE
    if 0 < r.1.length then
      let n := s.linenumber.getD s.includelevel 0 + 1
      let s1 := { s with linenumber := s.linenumber.set s.includelevel n }
      let buf := if s1.continuation then s1.linebuf ++ cstr r.1 else cstr r.1
      let upto := dropLineEnd buf
      if upto.getLast? = some '\\' then
        processfile fs junk fuel r.2 { s1 with linebuf := upto.dropLast, continuation := true }
      else
        (processline fs junk (processfile fs junk fuel) buf
            { s1 with linebuf := buf, continuation := false }).bind
          fun s2 => processfile fs junk fuel r.2 s2
    else .cont s

/-- What a terminated run of the program leaves behind. -/
structure Outcome where
  status : Int
  stdout : Str
  stderr : Str
deriving DecidableEq

/-- The state after the initialisations at the start of `main`; global
arrays start zeroed. -/
def initState : State :=
  { defs := [], ifstack := [], skipping := false, includelevel := 0,
    linenumber := List.replicate MAXINCLUDES 0, filename := List.replicate MAXINCLUDES [],
    linebuf := [], continuation := false, stdout := [], stderr := [] }

/-- The function `main`; `argv` is the argument vector, `none` means the run does not finish. -/
def main (fs : Files) (junk : Args) (fuel : Nat) (argv : List Str) : Option Outcome :=
  let s0 := initState
  if argv.length < 2 then
    some ⟨1, "Usage: sppe filename.c\n".toList, []⟩
  else
    let name := argv.getD 1 []
    match fs name with
    | none =>
      let s1 := error "Cannot open input file".toList s0
      some ⟨1, s1.stdout, s1.stderr⟩
    | some content =>
      let s1 := { s0 with
        filename := s0.filename.set 0 name
        linenumber := s0.linenumber.set 0 0
        defs := [⟨"__SMALLC__".toList, "1".toList, -1, []⟩] }
      match processfile fs junk fuel content s1 with
      | .hang => none
      | .exit code s2 => some ⟨code, s2.stdout, s2.stderr⟩
      | .cont s2 =>
        let s3 := if 0 < s2.ifstacklevel then error "Unterminated #ifdef/#ifndef".toList s2 else s2
        some ⟨0, s3.stdout, s3.stderr⟩

end Sppe

namespace Scc

/-! ## Configuration and token codes of `scc_enhanced.c` -/

def NAMESIZE : Nat := 32
def MAXARGS : Nat := 8
def MAXLOCALS : Nat := 32
def MAXGLOBALS : Nat := 200
def MAXWHILE : Nat := 20
def LINESIZE : Nat := 256
/-- The enumeration `TARGET_X64`, `TARGET_ARM64`. -/
inductive Target where
  | x64
  | arm64
deriving DecidableEq, Repr

def T_EOF : Int := -1
def T_INT : Int := 256
def T_CHAR : Int := 257
def T_IF : Int := 258
def T_ELSE : Int := 259
def T_WHILE : Int := 260
def T_FOR : Int := 261
def T_RETURN : Int := 262
def T_BREAK : Int := 263
def T_CONTINUE : Int := 264
def T_IDENT : Int := 265
def T_NUMBER : Int := 266
def T_STRING : Int := 267
def T_EQ : Int := 268
def T_NE : Int := 269
def T_LE : Int := 270
def T_GE : Int := 271
def T_SHL : Int := 272
def T_SHR : Int := 273
def T_AND : Int := 274
def T_OR : Int := 275
def T_INC : Int := 276
def T_DEC : Int := 277
def T_PLUSEQ : Int := 278
def T_MINUSEQ : Int := 279
def T_STAREQ : Int := 280
def T_SLASHEQ : Int := 281
def T_CHARLIT : Int := 282

/-- The value of a `char` read from the buffer, as the `int` it converts to
(`char` is signed on both targets). -/
def charVal (c : Char) : Int :=
  if c.toNat < 128 then (c.toNat : Int) else (c.toNat : Int) - 256

/-- A C `int` after an arithmetic step: the result reduced to 32 bits, two's complement. -/
def wrap32 (x : Int) : Int := (x + 2147483648) % 4294967296 - 2147483648

/-- The library function `isspace` (C locale). -/
def isspace (c : Char) : Bool :=
  c = ' ' || c = '\t' || c = '\n' || c = '\x0b' || c = '\x0c' || c = '\r'

/-- The library function `isdigit`. -/
def isdigit (c : Char) : Bool := 48 ≤ c.toNat && c.toNat ≤ 57

/-- The library function `isalpha` (C locale). -/
def isalpha (c : Char) : Bool :=
  (65 ≤ c.toNat && c.toNat ≤ 90) || (97 ≤ c.toNat && c.toNat ≤ 122)

/-- The library function `isalnum`. -/
def isalnum (c : Char) : Bool := isalpha c || isdigit c

/-- Decimal text of an integer, as `printf("%d")` prints it. -/
def decimal (n : Int) : Str := Sppe.itoa n

/-- The structure `struct symbol`. -/
structure Symbol where
  name : Str
  type : Int
  offset : Int
  isarray : Bool
  size : Int
  isparam : Bool
deriving DecidableEq, Repr

/-- The structure `struct function`. -/
structure Function where
  name : Str
  defined : Bool
  nparams : Int
  param_types : List Int
deriving DecidableEq, Repr


/-! ## Emitted assembly

Every call of `emit` in the expression code generator has one constructor;
`Asm.text` gives the line that the source prints for it. -/

/-- The register names passed to `pop`: the x86-64 names and `x0`, `x1`, ... on AArch64. -/
inductive Reg where
  | rax | rdx | rdi | rsi | rcx | r8 | r9
  | x (n : Nat)
deriving DecidableEq, Repr

/-- The register name as written in the source, e.g. `%rdx` or `x1`. -/
def Reg.text : Reg → String
  | .rax => "%rax" | .rdx => "%rdx" | .rdi => "%rdi" | .rsi => "%rsi"
  | .rcx => "%rcx" | .r8 => "%r8" | .r9 => "%r9"
  | .x n => "x" ++ String.mk (decimal n)

/-- One emitted line of assembly. -/
inductive Asm where
  | label (n : Int)
  | jmp (n : Int)
  | b (n : Int)
  | testq_rax_rax
  | jz (n : Int)
  | jnz (n : Int)
  | cbz_x0 (n : Int)
  | cbnz_x0 (n : Int)
  | pushq_rax
  | str_x0_push
  | popq (r : Reg)
  | ldr_pop (r : Reg)
  | movq_rbp_rax (off : Int)
  | ldr_x0_x29 (off : Int)
  | movq_rax_rbp (off : Int)
  | str_x0_x29 (off : Int)
  | movq_atrsp_rdx
  | movq_atrdx_rax
  | ldr_x1_atsp
  | ldr_x0_atx1
  | addq_rdx_rax
  | subq_rax_rdx
  | movq_rdx_rax
  | imulq_rdx_rax
  | movq_rax_rbx
  | cqo
  | idivq_rbx
  | add_x0_x1_x0
  | sub_x0_x1_x0
  | mul_x0_x1_x0
  | sdiv_x0_x1_x0
  | movq_rax_atrdx
  | str_x0_atx1
  | setcc_al (cc : String)
  | movzbq_al_rax
  | cmp_x0_0
  | cset_x0 (cc : String)
  | xorq_rax_rax
  | mov_x0_imm (n : Int)
  | orq_rdx_rax
  | orr_x0_x0_x1
  | xorq_rdx_rax
  | eor_x0_x0_x1
  | andq_rdx_rax
  | and_x0_x0_x1
  | cmpq_rax_rdx
  | cmp_x1_x0
  | movq_rax_rcx
  | shift_cl_rax (mn : String)
  | mov_x2_x0
  | shift_x0_x0_x2 (mn : String)
  | sdiv_x2_x1_x0
  | mov_x0_x2
  | msub_x0_x2_x0_x1
  | notq_rax
  | mvn_x0_x0
  | negq_rax
  | neg_x0_x0
  | movq_atrax_rax
  | ldr_x0_atx0
  | leaq_rbp_rax (off : Int)
  | add_x0_x29 (off : Int)
  | movq_sym_rax (name : Str)
  | adrp_x0 (name : Str)
  | add_x0_lo12 (name : Str)
  | incdecq_atrax (mn : String)
  | ldr_x1_atx0
  | addsub_x1_x1_1 (mn : String)
  | str_x1_atx0
  | mov_x0_x1
  | shlq_3_rax
  | lsl_x0_x0_3
  | movq_rax_rdx
  | incdecq_atrdx (mn : String)
  | mov_x1_x0
  | ldr_x2_atx1
  | addsub_x2_x2_1 (mn : String)
  | str_x2_atx1
  | call (name : Str)
  | bl (name : Str)
  | movq_imm_rax (n : Int)
  | data
  | strlabel (n : Int)
  | asciz (s : Str)
  | text_
  | movq_strlab_rax (n : Int)
  | adrp_x0_strlab (n : Int)
  | add_x0_lo12_strlab (n : Int)
  | movq_rip_rax (name : Str)
  | ldr_x0_lo12 (name : Str)
  | subq_imm_rsp (n : Int)
  | sub_sp_sp_imm (n : Int)
  | blank
  | globl (name : Str)
  | name_label (name : Str)
  | pushq_rbp
  | movq_rsp_rbp
  | pushq_arg (r : Reg)
  | stp_x29_x30
  | mov_x29_sp
  | str_x_push (i : Int)
  | movq_rbp_rsp
  | popq_rbp
  | ret
  | mov_sp_x29
  | ldp_x29_x30
  | ascii (s : Str)
  | zero (n : Int)
  | quad (n : Int)
  | space (n : Int)
deriving Repr

/-- The `%d` conversion as a `String`. -/
def dec (n : Int) : String := String.mk (decimal n)

/-- The line of assembly text the source prints (without the final newline). -/
def Asm.text : Asm → String
  | .label n => "L" ++ dec n ++ ":"
  | .jmp n => "  jmp L" ++ dec n
  | .b n => "  b L" ++ dec n
  | .testq_rax_rax => "  testq %rax, %rax"
  | .jz n => "  jz L" ++ dec n
  | .jnz n => "  jnz L" ++ dec n
  | .cbz_x0 n => "  cbz x0, L" ++ dec n
  | .cbnz_x0 n => "  cbnz x0, L" ++ dec n
  | .pushq_rax => "  pushq %rax"
  | .str_x0_push => "  str x0, [sp, #-16]!"
  | .popq r => "  popq " ++ r.text
  | .ldr_pop r => "  ldr " ++ r.text ++ ", [sp], #16"
  | .movq_rbp_rax off => "  movq " ++ dec off ++ "(%rbp), %rax"
  | .ldr_x0_x29 off => "  ldr x0, [x29, #" ++ dec off ++ "]"
  | .movq_rax_rbp off => "  movq %rax, " ++ dec off ++ "(%rbp)"
  | .str_x0_x29 off => "  str x0, [x29, #" ++ dec off ++ "]"
  | .movq_atrsp_rdx => "  movq (%rsp), %rdx"
  | .movq_atrdx_rax => "  movq (%rdx), %rax"
  | .ldr_x1_atsp => "  ldr x1, [sp]"
  | .ldr_x0_atx1 => "  ldr x0, [x1]"
  | .addq_rdx_rax => "  addq %rdx, %rax"
  | .subq_rax_rdx => "  subq %rax, %rdx"
  | .movq_rdx_rax => "  movq %rdx, %rax"
  | .imulq_rdx_rax => "  imulq %rdx, %rax"
  | .movq_rax_rbx => "  movq %rax, %rbx"
  | .cqo => "  cqo"
  | .idivq_rbx => "  idivq %rbx"
  | .add_x0_x1_x0 => "  add x0, x1, x0"
  | .sub_x0_x1_x0 => "  sub x0, x1, x0"
  | .mul_x0_x1_x0 => "  mul x0, x1, x0"
  | .sdiv_x0_x1_x0 => "  sdiv x0, x1, x0"
  | .movq_rax_atrdx => "  movq %rax, (%rdx)"
  | .str_x0_atx1 => "  str x0, [x1]"
  | .setcc_al cc => "  " ++ cc ++ " %al"
  | .movzbq_al_rax => "  movzbq %al, %rax"
  | .cmp_x0_0 => "  cmp x0, #0"
  | .cset_x0 cc => "  cset x0, " ++ cc
  | .xorq_rax_rax => "  xorq %rax, %rax"
  | .mov_x0_imm n => "  mov x0, #" ++ dec n
  | .orq_rdx_rax => "  orq %rdx, %rax"
  | .orr_x0_x0_x1 => "  orr x0, x0, x1"
  | .xorq_rdx_rax => "  xorq %rdx, %rax"
  | .eor_x0_x0_x1 => "  eor x0, x0, x1"
  | .andq_rdx_rax => "  andq %rdx, %rax"
  | .and_x0_x0_x1 => "  and x0, x0, x1"
  | .cmpq_rax_rdx => "  cmpq %rax, %rdx"
  | .cmp_x1_x0 => "  cmp x1, x0"
  | .movq_rax_rcx => "  movq %rax, %rcx"
  | .shift_cl_rax mn => "  " ++ mn ++ " %cl, %rax"
  | .mov_x2_x0 => "  mov x2, x0"
  | .shift_x0_x0_x2 mn => "  " ++ mn ++ " x0, x0, x2"
  | .sdiv_x2_x1_x0 => "  sdiv x2, x1, x0"
  | .mov_x0_x2 => "  mov x0, x2"
  | .msub_x0_x2_x0_x1 => "  msub x0, x2, x0, x1"
  | .notq_rax => "  notq %rax"
  | .mvn_x0_x0 => "  mvn x0, x0"
  | .negq_rax => "  negq %rax"
  | .neg_x0_x0 => "  neg x0, x0"
  | .movq_atrax_rax => "  movq (%rax), %rax"
  | .ldr_x0_atx0 => "  ldr x0, [x0]"
  | .leaq_rbp_rax off => "  leaq " ++ dec off ++ "(%rbp), %rax"
  | .add_x0_x29 off => "  add x0, x29, #" ++ dec off
  | .movq_sym_rax name => "  movq $" ++ String.mk name ++ ", %rax"
  | .adrp_x0 name => "  adrp x0, " ++ String.mk name
  | .add_x0_lo12 name => "  add x0, x0, :lo12:" ++ String.mk name
  | .incdecq_atrax mn => "  " ++ mn ++ "q (%rax)"
  | .ldr_x1_atx0 => "  ldr x1, [x0]"
  | .addsub_x1_x1_1 mn => "  " ++ mn ++ " x1, x1, #1"
  | .str_x1_atx0 => "  str x1, [x0]"
  | .mov_x0_x1 => "  mov x0, x1"
  | .shlq_3_rax => "  shlq $3, %rax"
  | .lsl_x0_x0_3 => "  lsl x0, x0, #3"
  | .movq_rax_rdx => "  movq %rax, %rdx"
  | .incdecq_atrdx mn => "  " ++ mn ++ "q (%rdx)"
  | .mov_x1_x0 => "  mov x1, x0"
  | .ldr_x2_atx1 => "  ldr x2, [x1]"
  | .addsub_x2_x2_1 mn => "  " ++ mn ++ " x2, x2, #1"
  | .str_x2_atx1 => "  str x2, [x1]"
  | .call name => "  call " ++ String.mk name
  | .bl name => "  bl " ++ String.mk name
  | .movq_imm_rax n => "  movq $" ++ dec n ++ ", %rax"
  | .data => ".data"
  | .strlabel n => "S" ++ dec n ++ ":"
  | .asciz s => "  .asciz \"" ++ String.mk s ++ "\""
  | .text_ => ".text"
  | .movq_strlab_rax n => "  movq $S" ++ dec n ++ ", %rax"
  | .adrp_x0_strlab n => "  adrp x0, S" ++ dec n
  | .add_x0_lo12_strlab n => "  add x0, x0, :lo12:S" ++ dec n
  | .movq_rip_rax name => "  movq " ++ String.mk name ++ "(%rip), %rax"
  | .ldr_x0_lo12 name => "  ldr x0, [x0, :lo12:" ++ String.mk name ++ "]"
  | .subq_imm_rsp n => "  subq $" ++ dec n ++ ", %rsp"
  | .sub_sp_sp_imm n => "  sub sp, sp, #" ++ dec n
  | .blank => ""
  | .globl name => ".globl " ++ String.mk name
  | .name_label name => String.mk name ++ ":"
  | .pushq_rbp => "  pushq %rbp"
  | .movq_rsp_rbp => "  movq %rsp, %rbp"
  | .pushq_arg r => "  pushq " ++ r.text
  | .stp_x29_x30 => "  stp x29, x30, [sp, #-16]!"
  | .mov_x29_sp => "  mov x29, sp"
  | .str_x_push i => "  str x" ++ dec i ++ ", [sp, #-16]!"
  | .movq_rbp_rsp => "  movq %rbp, %rsp"
  | .popq_rbp => "  popq %rbp"
  | .ret => "  ret"
  | .mov_sp_x29 => "  mov sp, x29"
  | .ldp_x29_x30 => "  ldp x29, x30, [sp], #16"
  | .ascii s => "  .ascii \"" ++ String.mk s ++ "\""
  | .zero n => "  .zero " ++ dec n
  | .quad n => "  .quad " ++ dec n
  | .space n => "  .space " ++ dec n

/-! ## Lexer state and lexical analyser -/

/-- The global variables the lexer works on, the text still to be read from
`input`, and what `error` has written to standard error.  `lptr` is the text
from the pointer `lptr` to the end of the string in `line`. -/
structure Lexer where
  filename : Str
  line : Str
  lptr : Str
  input : Str
  lineno : Int
  tokval : Int
  tokstr : Str
  stderr : Str
deriving DecidableEq, Repr

/-- The output of `error` before it calls `exit(1)`. -/
def Lexer.error (msg : Str) (l : Lexer) : Lexer :=
  let l1 := l.filename ++ [':'] ++ decimal l.lineno ++ ": Error: ".toList ++ msg ++ ['\n']
  let l2 := if l.lptr = [] then [] else "  Near: ".toList ++ l.lptr.take 20 ++ "...\n".toList
  { l with stderr := l.stderr ++ l1 ++ l2 }

/-- The loop of `skip_white` on the text at `lptr`: the new text and line number. -/
def skipWhiteLoop : Str → Int → Str × Int
  | [], n => ([], n)
  | c :: p, n =>
    if isspace c then skipWhiteLoop p (if c = '\n' then n + 1 else n) else (c :: p, n)

/-- The function `skip_white`. -/
def skip_white (l : Lexer) : Lexer :=
  let r := skipWhiteLoop l.lptr l.lineno
  { l with lptr := r.1, lineno := r.2 }

/-- The first branch of `skip_comment`, after `//` was seen: to the end of the line. -/
def skipLineComment : Str → Int → Str × Int
  | [], n => ([], n)
  | c :: p, n => if c = '\n' then (p, n + 1) else skipLineComment p n

/-- The second branch of `skip_comment`, after `lptr += 2`: up to and over the closing `*/`. -/
def skipBlockComment : Str → Int → Str × Int
  | [], n => ([], n)
  | [c], n => if c = '\n' then ([], n + 1) else ([], n)
  | c :: d :: p, n =>
    if c = '*' ∧ d = '/' then (p, n)
    else skipBlockComment (d :: p) (if c = '\n' then n + 1 else n)

/-- The function `skip_comment`: at most one comment is skipped. -/
def skip_comment (l : Lexer) : Lexer :=
  match l.lptr with
  | '/' :: '/' :: p =>
    let r := skipLineComment ('/' :: '/' :: p) l.lineno
    { l with lptr := r.1, lineno := r.2 }
  | '/' :: '*' :: p =>
    let r := skipBlockComment p l.lineno
    { l with lptr := r.1, lineno := r.2 }
  | _ => l

/-- The loop of the library function `fgets(line, n, input)`: at most `n - 1`
characters, stopping after a newline. -/
def fgetsLoop (n : Nat) : Str → Nat → Str → Str × Str
  | [], _, buf => (buf, [])
  | c :: inp, i, buf =>
    if i < n - 1 then
      if c = '\n' then (buf ++ [c], inp) else fgetsLoop n inp (i + 1) (buf ++ [c])
    else (buf, c :: inp)

/-- The call `fgets(line, LINESIZE, input)`: `none` at end of file, else the
line read and the rest of the input. -/
def fgets (inp : Str) : Option (Str × Str) :=
  match inp with
  | [] => none
  | _ :: _ => some (fgetsLoop LINESIZE inp 0 [])

/-- What `gettoken` does: it returns a token, it ends the program through
`error`, or it does not finish. -/
inductive GRes where
  | ok (tok : Int) (l : Lexer)
  | fail (l : Lexer)
  | hang
deriving DecidableEq, Repr

/-- The escape table shared by character and string literals, without the quote cases. -/
def escapeChar (c : Char) : Char :=
  if c = 'n' then '\n' else if c = 't' then '\t' else if c = 'r' then '\r'
  else if c = 'b' then '\x08' else if c = '\\' then '\\' else if c = '0' then '\x00' else c

/-- The two-character operators recognised after the first character `c`
when the next character is `d`, in the order of the source. -/
def twoCharToken (c d : Char) : Option Int :=
  if c = '=' ∧ d = '=' then some T_EQ
  else if c = '!' ∧ d = '=' then some T_NE
  else if c = '<' ∧ d = '=' then some T_LE
  else if c = '>' ∧ d = '=' then some T_GE
  else if c = '<' ∧ d = '<' then some T_SHL
  else if c = '>' ∧ d = '>' then some T_SHR
  else if c = '&' ∧ d = '&' then some T_AND
  else if c = '|' ∧ d = '|' then some T_OR
  else if c = '+' ∧ d = '+' then some T_INC
  else if c = '-' ∧ d = '-' then some T_DEC
  else if c = '+' ∧ d = '=' then some T_PLUSEQ
  else if c = '-' ∧ d = '=' then some T_MINUSEQ
  else if c = '*' ∧ d = '=' then some T_STAREQ
  else if c = '/' ∧ d = '=' then some T_SLASHEQ
  else none

/-- The characters of the string `"+-*/%&|^~!<>()[]{}.,;="` given to `strchr`. -/
def punctuators : Str :=
  ['+', '-', '*', '/', '%', '&', '|', '^', '~', '!', '<', '>', '(', ')', '[', ']',
   '\x7b', '\x7d', '.', ',', ';', '=']

/-- The number loop: `tokval = tokval * 10 + (*lptr++ - '0')` in `int` arithmetic. -/
def numberLoop : Str → Int → Str × Int
  | [], v => ([], v)
  | c :: p, v =>
    if isdigit c then numberLoop p (wrap32 (wrap32 (v * 10) + (charVal c - 48))) else (c :: p, v)

/-- The identifier loop: every character is consumed, the first
`NAMESIZE - 1` are stored in `tokstr`. -/
def identLoop : Str → Str → Str × Str
  | [], acc => ([], acc)
  | c :: p, acc =>
    if isalnum c || c = '_' then
      identLoop p (if acc.length < NAMESIZE - 1 then acc ++ [c] else acc)
    else (c :: p, acc)

/-- The keyword tests after an identifier was read. -/
def keyword (w : Str) : Int :=
  if w = "int".toList then T_INT
  else if w = "char".toList then T_CHAR
  else if w = "if".toList then T_IF
  else if w = "else".toList then T_ELSE
  else if w = "while".toList then T_WHILE
  else if w = "for".toList then T_FOR
  else if w = "return".toList then T_RETURN
  else if w = "break".toList then T_BREAK
  else if w = "continue".toList then T_CONTINUE
  else T_IDENT

/-- The loop of the string-literal branch: the characters stored through
`p`, the new `lptr` and the new `lineno`.  A backslash that is the last
character of the buffer makes the source step over the terminator; the
model stops at the end of the buffer there. -/
def stringLoop : Str → Str → Int → Str × Str × Int
  | [], acc, n => (acc, [], n)
  | c :: p, acc, n =>
    if c = '"' then (acc, c :: p, n)
    else if c = '\\' then
      match p with
      | [] => (acc ++ ['\x00'], [], n)
      | e :: q => stringLoop q (acc ++ [escapeChar e]) n
    else stringLoop p (acc ++ [c]) (if c = '\n' then n + 1 else n)

/-- The character-literal branch of `gettoken`, entered after the opening
quote; `p` is the text after it. -/
def charLiteral (l : Lexer) (p : Str) : GRes :=
  let r : Int × Str :=
    match p with
    | '\\' :: e :: q => (charVal (escapeChar e), q)
    | ['\\'] => (0, [])
    | d :: q => (charVal d, q)
    | [] => (0, [])
  let l1 := { l with tokval := r.1, lptr := r.2 }
  match r.2 with
  | '\'' :: q1 => .ok T_CHARLIT { l1 with lptr := q1 }
  | _ => .fail (l1.error "Unterminated character constant".toList)

/-- The function `gettoken`; the fuel bounds the number of lines fetched with `fgets`. -/
def gettokenFuel : Nat → Lexer → GRes
  | 0, _ => .hang
  | fuel + 1, l =>
    let l1 := skip_white (skip_comment (skip_white l))
    match l1.lptr with
    | [] =>
      match fgets l1.input with
      | none => .ok T_EOF l1
      | some r => gettokenFuel fuel { l1 with line := cstr r.1, lptr := cstr r.1, input := r.2 }
    | c :: p =>
      if c = '\'' then charLiteral l1 p
      else if c ∈ punctuators then
        match p with
        | d :: q =>
          match twoCharToken c d with
          | some t => .ok t { l1 with lptr := q }
          | none => .ok (charVal c) { l1 with lptr := p }
        | [] => .ok (charVal c) { l1 with lptr := p }
      else if isdigit c then
        let r := numberLoop (c :: p) 0
        .ok T_NUMBER { l1 with lptr := r.1, tokval := r.2 }
      else if isalpha c || c = '_' then
        let r := identLoop (c :: p) []
        .ok (keyword r.2) { l1 with lptr := r.1, tokstr := r.2 }
      else if c = '"' then
        let r := stringLoop p [] l1.lineno
        let l2 := { l1 with tokstr := cstr r.1, lptr := r.2.1, lineno := r.2.2 }
        match r.2.1 with
        | '"' :: q => .ok T_STRING { l2 with lptr := q }
        | _ => .fail (l2.error "Unterminated string literal".toList)
      else .fail (l1.error "Unknown character".toList)

/-- The function `gettoken`: every `fgets` that returns a line consumes
input, so `input.length + 1` rounds are enough. -/
def gettoken (l : Lexer) : GRes := gettokenFuel (l.input.length + 1) l

/-- The fourteen two-character operators as the specification lists them,
each with the token code the source defines for it. -/
def twoCharOperators : List (Char × Char × Int) :=
  [('=', '=', T_EQ), ('!', '=', T_NE), ('<', '=', T_LE), ('>', '=', T_GE), ('<', '<', T_SHL),
   ('>', '>', T_SHR), ('&', '&', T_AND), ('|', '|', T_OR), ('+', '+', T_INC),
   ('-', '-', T_DEC), ('+', '=', T_PLUSEQ), ('-', '=', T_MINUSEQ), ('*', '=', T_STAREQ),
   ('/', '=', T_SLASHEQ)]

/-- The lexer of a compilation that has not read anything yet (`lptr = line`,
`lineno = 1`, both buffers empty). -/
def Lexer.start (filename input : Str) : Lexer :=
  { filename := filename, line := [], lptr := [], input := input, lineno := 1,
    tokval := 0, tokstr := [], stderr := [] }

/-- The tokens (code and `tokval`) returned by up to `n` calls of
`gettoken`, up to and including `T_EOF`, and the lexer after the last call;
`none` if a call ends in `error`. -/
def tokenize : Nat → Lexer → Option (List (Int × Int) × Lexer)
  | 0, l => some ([], l)
  | n + 1, l =>
    match gettoken l with
    | .ok t l1 =>
      if t = T_EOF then some ([(t, l1.tokval)], l1)
      else (tokenize n l1).map fun r => ((t, l1.tokval) :: r.1, r.2)
    | _ => none


/-! ## Parser state and the expression parser -/

/-- The global variables of the compiler besides the lexer's, and the lines
written to standard output (`out`, one entry per `emit`). -/
structure CState where
  target : Target
  lex : Lexer
  token : Int
  globals : List Symbol
  locals : List Symbol
  sp : Int
  param_offset : Int
  functions : List Function
  curfunc : Str
  breaklab : List Int
  contlab : List Int
  wsp : Int
  lab : Int
  out : List Asm

/-- The result of a compiler routine: it returns in a new state, it ends
the program through `error` (which calls `exit(1)`), or it does not finish. -/
inductive Res where
  | ok (s : CState)
  | fail (s : CState)
  | hang

/-- Sequencing of compiler routines. -/
def Res.bind (r : Res) (f : CState → Res) : Res :=
  match r with
  | .ok s => f s
  | .fail s => .fail s
  | .hang => .hang

/-- The function `emit` for one line. -/
def emit (a : Asm) (s : CState) : CState := { s with out := s.out ++ [a] }

/-- The function `error`: the diagnostic, then `exit(1)`. -/
def error (msg : String) (s : CState) : Res := .fail { s with lex := s.lex.error msg.toList }

/-- The statement `token = gettoken();`. -/
def nexttoken (s : CState) : Res :=
  match gettoken s.lex with
  | .ok t l => .ok { s with lex := l, token := t }
  | .fail l => .fail { s with lex := l }
  | .hang => .hang

/-- The token code of a single-character token. -/
def tk (c : Char) : Int := charVal c

/-- The search loops of `lookup` over one table. -/
def lookupIn (name : Str) : List Symbol → Option Symbol
  | [] => none
  | y :: ys => if y.name = name then some y else lookupIn name ys

/-- The function `lookup`: locals first, then globals. -/
def lookup (name : Str) (s : CState) : Option Symbol :=
  match lookupIn name s.locals with
  | some y => some y
  | none => lookupIn name s.globals

/-- The function `lookup_func`. -/
def lookup_func (name : Str) : List Function → Option Function
  | [] => none
  | g :: gs => if g.name = name then some g else lookup_func name gs

/-- The function `push`. -/
def push (s : CState) : CState :=
  match s.target with
  | .x64 => { emit .pushq_rax s with sp := s.sp - 8 }
  | .arm64 => { emit .str_x0_push s with sp := s.sp - 16 }

/-- The function `pop`. -/
def pop (reg : Reg) (s : CState) : CState :=
  match s.target with
  | .x64 => { emit (.popq reg) s with sp := s.sp + 8 }
  | .arm64 => { emit (.ldr_pop reg) s with sp := s.sp + 16 }

/-- The function `emit_load_local`. -/
def emit_load_local (offset : Int) (s : CState) : CState :=
  match s.target with
  | .x64 => emit (.movq_rbp_rax offset) s
  | .arm64 => emit (.ldr_x0_x29 offset) s

/-- The function `emit_label`. -/
def emit_label (n : Int) (s : CState) : CState := emit (.label n) s

/-- The function `emit_jump`. -/
def emit_jump (n : Int) (s : CState) : CState :=
  match s.target with
  | .x64 => emit (.jmp n) s
  | .arm64 => emit (.b n) s

/-- Emitting several lines in order. -/
def emits (l : List Asm) (s : CState) : CState := { s with out := s.out ++ l }

/-- The table `arg_regs` of the call branch of `postfix`. -/
def arg_regs : List Reg := [.rdi, .rsi, .rdx, .rcx, .r8, .r9]

/-- The body of the pop loops of a call, for `i = n - 1` down to `0`. -/
def popArgsLoop : Nat → CState → CState
  | 0, s => s
  | i + 1, s =>
    match s.target with
    | .x64 => popArgsLoop i (pop (arg_regs.getD i .rax) s)
    | .arm64 => popArgsLoop i (pop (.x i) s)

/-- The loops `for (i = arg_count - 1; i >= 0 && i < 6; i--) pop(arg_regs[i])`
(bound 8 and `x<i>` on AArch64): nothing is popped when the first `i` fails the test. -/
def popArgs (arg_count : Nat) (s : CState) : CState :=
  match s.target with
  | .x64 => if arg_count ≤ 6 then popArgsLoop arg_count s else s
  | .arm64 => if arg_count ≤ 8 then popArgsLoop arg_count s else s

/-- The code of the compound-assignment operation in `assignment`, after the second `pop`. -/
def compoundOp (op : Int) (s : CState) : CState :=
  match s.target with
  | .x64 =>
    let s1 := pop .rdx s
    if op = T_PLUSEQ then emit .addq_rdx_rax s1
    else if op = T_MINUSEQ then emits [.subq_rax_rdx, .movq_rdx_rax] s1
    else if op = T_STAREQ then emit .imulq_rdx_rax s1
    else if op = T_SLASHEQ then emits [.movq_rax_rbx, .movq_rdx_rax, .cqo, .idivq_rbx] s1
    else s1
  | .arm64 =>
    let s1 := pop (.x 1) s
    if op = T_PLUSEQ then emit .add_x0_x1_x0 s1
    else if op = T_MINUSEQ then emit .sub_x0_x1_x0 s1
    else if op = T_STAREQ then emit .mul_x0_x1_x0 s1
    else if op = T_SLASHEQ then emit .sdiv_x0_x1_x0 s1
    else s1

/-- The code of a variable reference in `primary` (the branches for a known symbol). -/
def loadSymbol (sym : Symbol) (s : CState) : CState :=
  if sym.isarray then
    if sym.isparam ∨ sym.offset < 0 then
      match s.target with
      | .x64 => emit (.leaq_rbp_rax sym.offset) s
      | .arm64 => emit (.add_x0_x29 sym.offset) s
    else
      match s.target with
      | .x64 => emit (.movq_sym_rax sym.name) s
      | .arm64 => emits [.adrp_x0 sym.name, .add_x0_lo12 sym.name] s
  else
    if sym.isparam ∨ sym.offset < 0 then emit_load_local sym.offset s
    else
      match s.target with
      | .x64 => emit (.movq_rip_rax sym.name) s
      | .arm64 => emits [.adrp_x0 sym.name, .ldr_x0_lo12 sym.name] s

mutual

/-- The function `expression`. -/
def expression : Nat → CState → Res
  | 0, _ => .hang
  | f + 1, s => assignment f s

/-- The function `assignment`. -/
def assignment : Nat → CState → Res
  | 0, _ => .hang
  | f + 1, s => (logical_or f s).bind (assignmentLoop f)

/-- The `while` loop of `assignment`. -/
def assignmentLoop : Nat → CState → Res
  | 0, _ => .hang
  | f + 1, s =>
    if s.token = tk '=' ∨ s.token = T_PLUSEQ ∨ s.token = T_MINUSEQ ∨ s.token = T_STAREQ ∨
        s.token = T_SLASHEQ then
      let op := s.token
      (nexttoken (push s)).bind fun s1 =>
        let s2 :=
          if op ≠ tk '=' then
            match s1.target with
            | .x64 =>
              { emits [.movq_atrsp_rdx, .movq_atrdx_rax, .pushq_rax] s1 with sp := s1.sp - 8 }
            | .arm64 =>
              { emits [.ldr_x1_atsp, .ldr_x0_atx1, .str_x0_push] s1 with sp := s1.sp - 16 }
          else s1
        (assignment f s2).bind fun s3 =>
          let s4 := if op ≠ tk '=' then compoundOp op s3 else s3
          let s5 :=
            match s4.target with
            | .x64 => emit .movq_rax_atrdx (pop .rdx s4)
            | .arm64 => emit .str_x0_atx1 (pop (.x 1) s4)
          assignmentLoop f s5
    else .ok s

/-- The function `logical_or`. -/
def logical_or : Nat → CState → Res
  | 0, _ => .hang
  | f + 1, s => (logical_and f s).bind (logical_orLoop f)

/-- The `while` loop of `logical_or`. -/
def logical_orLoop : Nat → CState → Res
  | 0, _ => .hang
  | f + 1, s =>
    if s.token = T_OR then
      let lab1 := s.lab
      let lab2 := s.lab + 1
      let s0 := { s with lab := s.lab + 2 }
      let s1 :=
        match s0.target with
        | .x64 => emits [.testq_rax_rax, .jnz lab1] s0
        | .arm64 => emit (.cbnz_x0 lab1) s0
      (nexttoken s1).bind fun s2 =>
        (logical_and f s2).bind fun s3 =>
          let s4 := emit_label lab1 s3
          let s5 :=
            match s4.target with
            | .x64 => emits [.testq_rax_rax, .setcc_al "setne", .movzbq_al_rax] s4
            | .arm64 => emits [.cmp_x0_0, .cset_x0 "ne"] s4
          logical_orLoop f (emit_label lab2 s5)
    else .ok s

/-- The function `logical_and`. -/
def logical_and : Nat → CState → Res
  | 0, _ => .hang
  | f + 1, s => (bitwise_or f s).bind (logical_andLoop f)

/-- The `while` loop of `logical_and`. -/
def logical_andLoop : Nat → CState → Res
  | 0, _ => .hang
  | f + 1, s =>
    if s.token = T_AND then
      let lab1 := s.lab
      let lab2 := s.lab + 1
      let s0 := { s with lab := s.lab + 2 }
      let s1 :=
        match s0.target with
        | .x64 => emits [.testq_rax_rax, .jz lab1] s0
        | .arm64 => emit (.cbz_x0 lab1) s0
      (nexttoken s1).bind fun s2 =>
        (bitwise_or f s2).bind fun s3 =>
          let s4 :=
            match s3.target with
            | .x64 => emits [.testq_rax_rax, .setcc_al "setne", .movzbq_al_rax] s3
            | .arm64 => emits [.cmp_x0_0, .cset_x0 "ne"] s3
          let s5 := emit_label lab1 (emit_jump lab2 s4)
          let s6 :=
            match s5.target with
            | .x64 => emit .xorq_rax_rax s5
            | .arm64 => emit (.mov_x0_imm 0) s5
          logical_andLoop f (emit_label lab2 s6)
    else .ok s

/-- The function `bitwise_or`. -/
def bitwise_or : Nat → CState → Res
  | 0, _ => .hang
  | f + 1, s => (bitwise_xor f s).bind (bitwise_orLoop f)

/-- The `while` loop of `bitwise_or`. -/
def bitwise_orLoop : Nat → CState → Res
  | 0, _ => .hang
  | f + 1, s =>
    if s.token = tk '|' then
      (nexttoken (push s)).bind fun s1 =>
        (bitwise_xor f s1).bind fun s2 =>
          bitwise_orLoop f
            (match s2.target with
            | .x64 => emit .orq_rdx_rax (pop .rdx s2)
            | .arm64 => emit .orr_x0_x0_x1 (pop (.x 1) s2))
    else .ok s

/-- The function `bitwise_xor`. -/
def bitwise_xor : Nat → CState → Res
  | 0, _ => .hang
  | f + 1, s => (bitwise_and f s).bind (bitwise_xorLoop f)

/-- The `while` loop of `bitwise_xor`. -/
def bitwise_xorLoop : Nat → CState → Res
  | 0, _ => .hang
  | f + 1, s =>
    if s.token = tk '^' then
      (nexttoken (push s)).bind fun s1 =>
        (bitwise_and f s1).bind fun s2 =>
          bitwise_xorLoop f
            (match s2.target with
            | .x64 => emit .xorq_rdx_rax (pop .rdx s2)
            | .arm64 => emit .eor_x0_x0_x1 (pop (.x 1) s2))
    else .ok s

/-- The function `bitwise_and`. -/
def bitwise_and : Nat → CState → Res
  | 0, _ => .hang
  | f + 1, s => (equality f s).bind (bitwise_andLoop f)

/-- The `while` loop of `bitwise_and`. -/
def bitwise_andLoop : Nat → CState → Res
  | 0, _ => .hang
  | f + 1, s =>
    if s.token = tk '&' then
      (nexttoken (push s)).bind fun s1 =>
        (equality f s1).bind fun s2 =>
          bitwise_andLoop f
            (match s2.target with
            | .x64 => emit .andq_rdx_rax (pop .rdx s2)
            | .arm64 => emit .and_x0_x0_x1 (pop (.x 1) s2))
    else .ok s

/-- The function `equality`. -/
def equality : Nat → CState → Res
  | 0, _ => .hang
  | f + 1, s => (relational f s).bind (equalityLoop f)

/-- The `while` loop of `equality`. -/
def equalityLoop : Nat → CState → Res
  | 0, _ => .hang
  | f + 1, s =>
    if s.token = T_EQ ∨ s.token = T_NE then
      let op := s.token
      (nexttoken (push s)).bind fun s1 =>
        (relational f s1).bind fun s2 =>
          equalityLoop f
            (match s2.target with
            | .x64 =>
              emits [.cmpq_rax_rdx, .setcc_al (if op = T_EQ then "sete" else "setne"),
                .movzbq_al_rax] (pop .rdx s2)
            | .arm64 =>
              emits [.cmp_x1_x0, .cset_x0 (if op = T_EQ then "eq" else "ne")] (pop (.x 1) s2))
    else .ok s

/-- The function `relational`. -/
def relational : Nat → CState → Res
  | 0, _ => .hang
  | f + 1, s => (shift f s).bind (relationalLoop f)

/-- The `while` loop of `relational`. -/
def relationalLoop : Nat → CState → Res
  | 0, _ => .hang
  | f + 1, s =>
    if s.token = tk '<' ∨ s.token = tk '>' ∨ s.token = T_LE ∨ s.token = T_GE then
      let op := s.token
      (nexttoken (push s)).bind fun s1 =>
        (shift f s1).bind fun s2 =>
          relationalLoop f
            (match s2.target with
            | .x64 =>
              let s3 := emit .cmpq_rax_rdx (pop .rdx s2)
              let s4 :=
                if op = tk '<' then emit (.setcc_al "setl") s3
                else if op = tk '>' then emit (.setcc_al "setg") s3
                else if op = T_LE then emit (.setcc_al "setle") s3
                else if op = T_GE then emit (.setcc_al "setge") s3
                else s3
              emit .movzbq_al_rax s4
            | .arm64 =>
              let s3 := emit .cmp_x1_x0 (pop (.x 1) s2)
              if op = tk '<' then emit (.cset_x0 "lt") s3
              else if op = tk '>' then emit (.cset_x0 "gt") s3
              else if op = T_LE then emit (.cset_x0 "le") s3
              else if op = T_GE then emit (.cset_x0 "ge") s3
              else s3)
    else .ok s

/-- The function `shift`. -/
def shift : Nat → CState → Res
  | 0, _ => .hang
  | f + 1, s => (additive f s).bind (shiftLoop f)

/-- The `while` loop of `shift`. -/
def shiftLoop : Nat → CState → Res
  | 0, _ => .hang
  | f + 1, s =>
    if s.token = T_SHL ∨ s.token = T_SHR then
      let op := s.token
      (nexttoken (push s)).bind fun s1 =>
        (additive f s1).bind fun s2 =>
          shiftLoop f
            (match s2.target with
            | .x64 =>
              emit (.shift_cl_rax (if op = T_SHL then "shl" else "shr"))
                (pop .rax (emit .movq_rax_rcx s2))
            | .arm64 =>
              emit (.shift_x0_x0_x2 (if op = T_SHL then "lsl" else "lsr"))
                (pop (.x 0) (emit .mov_x2_x0 s2)))
    else .ok s

/-- The function `additive`. -/
def additive : Nat → CState → Res
  | 0, _ => .hang
  | f + 1, s => (multiplicative f s).bind (additiveLoop f)

/-- The `while` loop of `additive`. -/
def additiveLoop : Nat → CState → Res
  | 0, _ => .hang
  | f + 1, s =>
    if s.token = tk '+' ∨ s.token = tk '-' then
      let op := s.token
      (nexttoken (push s)).bind fun s1 =>
        (multiplicative f s1).bind fun s2 =>
          additiveLoop f
            (match s2.target with
            | .x64 =>
              if op = tk '+' then emit .addq_rdx_rax (pop .rdx s2)
              else emits [.subq_rax_rdx, .movq_rdx_rax] (pop .rdx s2)
            | .arm64 =>
              if op = tk '+' then emit .add_x0_x1_x0 (pop (.x 1) s2)
              else emit .sub_x0_x1_x0 (pop (.x 1) s2))
    else .ok s

/-- The function `multiplicative`. -/
def multiplicative : Nat → CState → Res
  | 0, _ => .hang
  | f + 1, s => (unary f s).bind (multiplicativeLoop f)

/-- The `while` loop of `multiplicative`. -/
def multiplicativeLoop : Nat → CState → Res
  | 0, _ => .hang
  | f + 1, s =>
    if s.token = tk '*' ∨ s.token = tk '/' ∨ s.token = tk '%' then
      let op := s.token
      (nexttoken (push s)).bind fun s1 =>
        (unary f s1).bind fun s2 =>
          multiplicativeLoop f
            (match s2.target with
            | .x64 =>
              if op = tk '*' then emit .imulq_rdx_rax (pop .rdx s2)
              else
                let s3 := emits [.cqo, .idivq_rbx] (pop .rax (emit .movq_rax_rbx s2))
                if op = tk '%' then emit .movq_rdx_rax s3 else s3
            | .arm64 =>
              let s3 := pop (.x 1) s2
              if op = tk '*' then emit .mul_x0_x1_x0 s3
              else
                let s4 := emit .sdiv_x2_x1_x0 s3
                if op = tk '/' then emit .mov_x0_x2 s4 else emit .msub_x0_x2_x0_x1 s4)
    else .ok s

/-- The function `unary`. -/
def unary : Nat → CState → Res
  | 0, _ => .hang
  | f + 1, s =>
    if s.token = tk '!' then
      (nexttoken s).bind fun s1 => (unary f s1).bind fun s2 =>
        .ok (match s2.target with
          | .x64 => emits [.testq_rax_rax, .setcc_al "setz", .movzbq_al_rax] s2
          | .arm64 => emits [.cmp_x0_0, .cset_x0 "eq"] s2)
    else if s.token = tk '~' then
      (nexttoken s).bind fun s1 => (unary f s1).bind fun s2 =>
        .ok (match s2.target with
          | .x64 => emit .notq_rax s2
          | .arm64 => emit .mvn_x0_x0 s2)
    else if s.token = tk '-' then
      (nexttoken s).bind fun s1 => (unary f s1).bind fun s2 =>
        .ok (match s2.target with
          | .x64 => emit .negq_rax s2
          | .arm64 => emit .neg_x0_x0 s2)
    else if s.token = tk '*' then
      (nexttoken s).bind fun s1 => (unary f s1).bind fun s2 =>
        .ok (match s2.target with
          | .x64 => emit .movq_atrax_rax s2
          | .arm64 => emit .ldr_x0_atx0 s2)
    else if s.token = tk '&' then
      (nexttoken s).bind fun s1 =>
        if s1.token ≠ T_IDENT then error "Expected identifier" s1
        else
          match lookup s1.lex.tokstr s1 with
          | none => error "Undefined variable" s1
          | some sym =>
            (nexttoken s1).bind fun s2 =>
              .ok (if sym.isparam ∨ sym.offset < 0 then
                  match s2.target with
                  | .x64 => emit (.leaq_rbp_rax sym.offset) s2
                  | .arm64 => emit (.add_x0_x29 sym.offset) s2
                else
                  match s2.target with
                  | .x64 => emit (.movq_sym_rax sym.name) s2
                  | .arm64 => emits [.adrp_x0 sym.name, .add_x0_lo12 sym.name] s2)
    else if s.token = T_INC ∨ s.token = T_DEC then
      let op := s.token
      (nexttoken s).bind fun s1 => (unary f s1).bind fun s2 =>
        .ok (match s2.target with
          | .x64 =>
            emits [.incdecq_atrax (if op = T_INC then "inc" else "dec"), .movq_atrax_rax] s2
          | .arm64 =>
            emits [.ldr_x1_atx0, .addsub_x1_x1_1 (if op = T_INC then "add" else "sub"),
              .str_x1_atx0, .mov_x0_x1] s2)
    else postfixExpr f s

/-- The function `postfix`. -/
def postfixExpr : Nat → CState → Res
  | 0, _ => .hang
  | f + 1, s => (primary f s).bind (postfixExprLoop f)

/-- The `while (1)` loop of `postfix`.  The argument-counting loop of the
call branch only changes local variables (`lptr` and `lineno` are restored,
`nargs` is not used afterwards) and is left out. -/
def postfixExprLoop : Nat → CState → Res
  | 0, _ => .hang
  | f + 1, s =>
    if s.token = tk '[' then
      (nexttoken (push s)).bind fun s1 =>
        (expression f s1).bind fun s2 =>
          if s2.token ≠ tk ']' then error "Expected ]" s2
          else (nexttoken s2).bind fun s3 =>
            postfixExprLoop f
              (match s3.target with
              | .x64 =>
                emits [.addq_rdx_rax, .movq_atrax_rax] (pop .rdx (emit .shlq_3_rax s3))
              | .arm64 =>
                emits [.add_x0_x1_x0, .ldr_x0_atx0] (pop (.x 1) (emit .lsl_x0_x0_3 s3)))
    else if s.token = T_INC ∨ s.token = T_DEC then
      let op := s.token
      (nexttoken s).bind fun s1 =>
        postfixExprLoop f
          (match s1.target with
          | .x64 =>
            emits [.movq_rax_rdx, .movq_atrax_rax,
              .incdecq_atrdx (if op = T_INC then "inc" else "dec")] s1
          | .arm64 =>
            emits [.mov_x1_x0, .ldr_x0_atx0, .ldr_x2_atx1,
              .addsub_x2_x2_1 (if op = T_INC then "add" else "sub"), .str_x2_atx1] s1)
    else if s.token = tk '(' then
      let fname := s.lex.tokstr
      (nexttoken s).bind fun s1 =>
        (if s1.token ≠ tk ')' then callArgs f s1 0 else .ok s1).bind fun s2 =>
          if s2.token ≠ tk ')' then error "Expected )" s2
          else (nexttoken s2).bind fun s3 =>
            postfixExprLoop f
              (match s3.target with
              | .x64 => emit (.call fname) s3
              | .arm64 => emit (.bl fname) s3)
    else .ok s

/-- The argument loop `while (token != ')')` of a call, followed by the pops
into the argument registers. -/
def callArgs : Nat → CState → Nat → Res
  | 0, _, _ => .hang
  | f + 1, s, arg_count =>
    if s.token ≠ tk ')' then
      (expression f s).bind fun s1 =>
        let s2 := push s1
        if s2.token = tk ',' then (nexttoken s2).bind fun s3 => callArgs f s3 (arg_count + 1)
        else if s2.token ≠ tk ')' then error "Expected , or )" s2
        else callArgs f s2 (arg_count + 1)
    else .ok (popArgs arg_count s)

/-- The function `primary`. -/
def primary : Nat → CState → Res
  | 0, _ => .hang
  | f + 1, s =>
    if s.token = T_NUMBER ∨ s.token = T_CHARLIT then
      nexttoken
        (match s.target with
        | .x64 => emit (.movq_imm_rax s.lex.tokval) s
        | .arm64 => emit (.mov_x0_imm s.lex.tokval) s)
    else if s.token = T_STRING then
      let slab := s.lab
      let s1 := emits [.data, .strlabel slab, .asciz s.lex.tokstr, .text_] { s with lab := s.lab + 1 }
      nexttoken
        (match s1.target with
        | .x64 => emit (.movq_strlab_rax slab) s1
        | .arm64 => emits [.adrp_x0_strlab slab, .add_x0_lo12_strlab slab] s1)
    else if s.token = T_IDENT then
      let name := s.lex.tokstr
      let sym := lookup name s
      (nexttoken s).bind fun s1 =>
        if s1.token = tk '(' then
          postfixExpr f { s1 with lex := { s1.lex with tokstr := name } }
        else
          match sym with
          | none =>
            match lookup_func name s1.functions with
            | some _ =>
              .ok (match s1.target with
                | .x64 => emit (.movq_sym_rax name) s1
                | .arm64 => emits [.adrp_x0 name, .add_x0_lo12 name] s1)
            | none => error "Undefined variable" s1
          | some y => .ok (loadSymbol y s1)
    else if s.token = tk '(' then
      (nexttoken s).bind fun s1 =>
        (expression f s1).bind fun s2 =>
          if s2.token ≠ tk ')' then error "Expected )" s2 else nexttoken s2
    else error "Expected primary expression" s

end


/-! ## A small x86-64 machine for straight-line code

Registers hold 64-bit values (natural numbers, reduced modulo `2^64` by every
instruction that writes one); memory maps a byte address to a byte, and a
64-bit access reads or writes eight consecutive bytes, little endian, with
addresses taken modulo `2^64`.  Jumps, calls, flag-setting instructions and
the AArch64 lines are not given a meaning (`none`).  `sym` gives the address
at which the linker places each symbol. -/

/-- The number of values of a 64-bit register. -/
def W : Nat := 18446744073709551616

/-- The machine state. -/
structure Machine where
  rax : Nat
  rbx : Nat
  rcx : Nat
  rdx : Nat
  rsi : Nat
  rdi : Nat
  r8 : Nat
  r9 : Nat
  rsp : Nat
  rbp : Nat
  mem : Nat → Nat
  sym : Str → Nat

/-- The 64-bit little-endian load from address `a`. -/
def load64 (mem : Nat → Nat) (a : Nat) : Nat :=
  mem (a % W) % 256 + mem ((a + 1) % W) % 256 * 256 + mem ((a + 2) % W) % 256 * 65536 +
    mem ((a + 3) % W) % 256 * 16777216 + mem ((a + 4) % W) % 256 * 4294967296 +
    mem ((a + 5) % W) % 256 * 1099511627776 + mem ((a + 6) % W) % 256 * 281474976710656 +
    mem ((a + 7) % W) % 256 * 72057594037927936

/-- The 64-bit little-endian store of `v` at address `a`. -/
def store64 (mem : Nat → Nat) (a v : Nat) : Nat → Nat := fun b =>
  if b = a % W then v % 256
  else if b = (a + 1) % W then v / 256 % 256
  else if b = (a + 2) % W then v / 65536 % 256
  else if b = (a + 3) % W then v / 16777216 % 256
  else if b = (a + 4) % W then v / 4294967296 % 256
  else if b = (a + 5) % W then v / 1099511627776 % 256
  else if b = (a + 6) % W then v / 281474976710656 % 256
  else if b = (a + 7) % W then v / 72057594037927936 % 256
  else mem b

/-- A signed immediate or displacement as a 64-bit value. -/
def imm64 (n : Int) : Nat := (n % (W : Int)).toNat

/-- The signed reading of a 64-bit value. -/
def signed64 (v : Nat) : Int :=
  if v % W < 9223372036854775808 then ((v % W : Nat) : Int) else ((v % W : Nat) : Int) - (W : Int)

/-- Writing a register named in a `popq`. -/
def Machine.setReg (m : Machine) (r : Reg) (v : Nat) : Option Machine :=
  match r with
  | .rax => some { m with rax := v }
  | .rdx => some { m with rdx := v }
  | .rdi => some { m with rdi := v }
  | .rsi => some { m with rsi := v }
  | .rcx => some { m with rcx := v }
  | .r8 => some { m with r8 := v }
  | .r9 => some { m with r9 := v }
  | .x _ => none

/-- The effect of one emitted x86-64 line. -/
def exec1 (m : Machine) : Asm → Option Machine
  | .movq_imm_rax n => some { m with rax := imm64 n }
  | .pushq_rax =>
    some { m with rsp := (m.rsp + (W - 8)) % W,
                  mem := store64 m.mem ((m.rsp + (W - 8)) % W) m.rax }
  | .popq r => ({ m with rsp := (m.rsp + 8) % W } : Machine).setReg r (load64 m.mem m.rsp)
  | .addq_rdx_rax => some { m with rax := (m.rax + m.rdx) % W }
  | .subq_rax_rdx => some { m with rdx := (m.rdx % W + (W - m.rax % W)) % W }
  | .imulq_rdx_rax => some { m with rax := (m.rax * m.rdx) % W }
  | .movq_rdx_rax => some { m with rax := m.rdx }
  | .movq_rax_rbx => some { m with rbx := m.rax }
  | .movq_rax_rcx => some { m with rcx := m.rax }
  | .movq_rax_rdx => some { m with rdx := m.rax }
  | .movq_rbp_rax off => some { m with rax := load64 m.mem (m.rbp + imm64 off) }
  | .movq_rax_rbp off => some { m with mem := store64 m.mem (m.rbp + imm64 off) m.rax }
  | .leaq_rbp_rax off => some { m with rax := (m.rbp + imm64 off) % W }
  | .movq_atrsp_rdx => some { m with rdx := load64 m.mem m.rsp }
  | .movq_atrdx_rax => some { m with rax := load64 m.mem m.rdx }
  | .movq_atrax_rax => some { m with rax := load64 m.mem m.rax }
  | .movq_rax_atrdx => some { m with mem := store64 m.mem m.rdx m.rax }
  | .movq_rip_rax name => some { m with rax := load64 m.mem (m.sym name) }
  | .movq_sym_rax name => some { m with rax := m.sym name % W }
  | .xorq_rax_rax => some { m with rax := 0 }
  | .andq_rdx_rax => some { m with rax := (m.rax &&& m.rdx) % W }
  | .orq_rdx_rax => some { m with rax := (m.rax ||| m.rdx) % W }
  | .xorq_rdx_rax => some { m with rax := (m.rax ^^^ m.rdx) % W }
  | .notq_rax => some { m with rax := W - 1 - m.rax % W }
  | .negq_rax => some { m with rax := (W - m.rax % W) % W }
  | .shlq_3_rax => some { m with rax := (m.rax * 8) % W }
  | .cqo => some { m with rdx := if m.rax % W < 9223372036854775808 then 0 else W - 1 }
  | .idivq_rbx =>
    let dividend : Int := signed64 m.rdx * (W : Int) + ((m.rax % W : Nat) : Int)
    let divisor : Int := signed64 m.rbx
    if divisor = 0 then none
    else
      let q := Int.tdiv dividend divisor
      let r := Int.tmod dividend divisor
      if q < -9223372036854775808 ∨ 9223372036854775807 < q then none
      else some { m with rax := imm64 q, rdx := imm64 r }
  | .shift_cl_rax mn =>
    if mn = "shl" then some { m with rax := ((m.rax % W) <<< (m.rcx % 64)) % W }
    else if mn = "shr" then some { m with rax := (m.rax % W) >>> (m.rcx % 64) }
    else none
  | _ => none

/-- Running straight-line code, one line after the other. -/
def exec : List Asm → Machine → Option Machine
  | [], m => some m
  | a :: code, m =>
    match exec1 m a with
    | some m1 => exec code m1
    | none => none

/-! ## Expressions over decimal literals, `+`, `*` and parentheses

The grammar `expr := term | expr + term`, `term := prim | term * prim`,
`prim := literal | ( expr )`: a tree of these types is an expression read
with `*` binding tighter than `+` and both associating to the left. -/

mutual

/-- Sums. -/
inductive Expr where
  | term (t : Term)
  | add (e : Expr) (t : Term)

/-- Products. -/
inductive Term where
  | prim (p : Prim)
  | mul (t : Term) (p : Prim)

/-- Literals and parenthesised expressions. -/
inductive Prim where
  | num (n : Nat)
  | paren (e : Expr)

end

/-- The tokens of this fragment. -/
inductive Tok where
  | num (n : Nat)
  | plus
  | star
  | lparen
  | rparen
deriving DecidableEq, Repr

/-- Whether a token code returned by `gettoken`, with the `tokval` it left, is this token. -/
def Tok.agrees (t : Tok) (code : Int) (tokval : Int) : Bool :=
  match t with
  | .num n => code = T_NUMBER && tokval = (n : Int)
  | .plus => code = tk '+'
  | .star => code = tk '*'
  | .lparen => code = tk '('
  | .rparen => code = tk ')'

mutual

/-- The token sequence of a sum. -/
def Expr.toks : Expr → List Tok
  | .term t => t.toks
  | .add e t => e.toks ++ Tok.plus :: t.toks

/-- The token sequence of a product. -/
def Term.toks : Term → List Tok
  | .prim p => p.toks
  | .mul t p => t.toks ++ Tok.star :: p.toks

/-- The token sequence of a primary. -/
def Prim.toks : Prim → List Tok
  | .num n => [Tok.num n]
  | .paren e => Tok.lparen :: (e.toks ++ [Tok.rparen])

end

mutual

/-- The value of a sum. -/
def Expr.val : Expr → Nat
  | .term t => t.val
  | .add e t => e.val + t.val

/-- The value of a product. -/
def Term.val : Term → Nat
  | .prim p => p.val
  | .mul t p => t.val * p.val

/-- The value of a primary. -/
def Prim.val : Prim → Nat
  | .num n => n
  | .paren e => e.val

end

mutual

/-- Every literal of the sum is below `b`. -/
def Expr.litsBelow (b : Nat) : Expr → Prop
  | .term t => t.litsBelow b
  | .add e t => e.litsBelow b ∧ t.litsBelow b

/-- Every literal of the product is below `b`. -/
def Term.litsBelow (b : Nat) : Term → Prop
  | .prim p => p.litsBelow b
  | .mul t p => t.litsBelow b ∧ p.litsBelow b

/-- Every literal of the primary is below `b`. -/
def Prim.litsBelow (b : Nat) : Prim → Prop
  | .num n => n < b
  | .paren e => e.litsBelow b

end

mutual

/-- The largest number of values the code of the sum keeps on the stack at once. -/
def Expr.slots : Expr → Nat
  | .term t => t.slots
  | .add e t => max e.slots (t.slots + 1)

/-- The largest number of values the code of the product keeps on the stack at once. -/
def Term.slots : Term → Nat
  | .prim p => p.slots
  | .mul t p => max t.slots (p.slots + 1)

/-- The largest number of values the code of the primary keeps on the stack at once. -/
def Prim.slots : Prim → Nat
  | .num _ => 0
  | .paren e => e.slots

end

mutual

/-- The x86-64 lines that `additive` emits for a sum. -/
def Expr.code : Expr → List Asm
  | .term t => t.code
  | .add e t => e.code ++ Asm.pushq_rax :: (t.code ++ [Asm.popq .rdx, Asm.addq_rdx_rax])

/-- The x86-64 lines that `multiplicative` emits for a product. -/
def Term.code : Term → List Asm
  | .prim p => p.code
  | .mul t p => t.code ++ Asm.pushq_rax :: (p.code ++ [Asm.popq .rdx, Asm.imulq_rdx_rax])

/-- The x86-64 lines that `primary` emits for a primary. -/
def Prim.code : Prim → List Asm
  | .num n => [Asm.movq_imm_rax (n : Int)]
  | .paren e => e.code

end

/-- Reading the tokens `ts` with successive calls of `gettoken`, then one
more token: that last token and the lexer after it, or `none` when the
lexer returns something else. -/
def readToks : List Tok → Lexer → Option (Int × Lexer)
  | [], l =>
    match gettoken l with
    | .ok t l1 => some (t, l1)
    | _ => none
  | t :: ts, l =>
    match gettoken l with
    | .ok c l1 => if t.agrees c l1.tokval then readToks ts l1 else none
    | _ => none

/-- A token that cannot continue an expression: none of the operator tokens
tested by the loops of `assignment` ... `postfix`. -/
def endsExpression (t : Int) : Prop :=
  t ≠ tk '=' ∧ t ≠ T_PLUSEQ ∧ t ≠ T_MINUSEQ ∧ t ≠ T_STAREQ ∧ t ≠ T_SLASHEQ ∧ t ≠ T_OR ∧
  t ≠ T_AND ∧ t ≠ tk '|' ∧ t ≠ tk '^' ∧ t ≠ tk '&' ∧ t ≠ T_EQ ∧ t ≠ T_NE ∧ t ≠ tk '<' ∧
  t ≠ tk '>' ∧ t ≠ T_LE ∧ t ≠ T_GE ∧ t ≠ T_SHL ∧ t ≠ T_SHR ∧ t ≠ tk '+' ∧ t ≠ tk '-' ∧
  t ≠ tk '*' ∧ t ≠ tk '/' ∧ t ≠ tk '%' ∧ t ≠ tk '[' ∧ t ≠ T_INC ∧ t ≠ T_DEC ∧ t ≠ tk '('

/-- The code `gettoken` returns for a token of the fragment. -/
def Tok.code : Tok → Int
  | .num _ => T_NUMBER
  | .plus => tk '+'
  | .star => tk '*'
  | .lparen => tk '('
  | .rparen => tk ')'

/-- The parser stands in front of the tokens `ts`: the current token (`tok`,
read from lexer state `lx`) is the first of them and `gettoken` delivers the
others, then the token `tend` in lexer state `lend`. -/
def Ready (tok : Int) (lx : Lexer) : List Tok → Int → Lexer → Prop
  | [], tend, lend => tok = tend ∧ lx = lend
  | t :: ts, tend, lend => t.agrees tok lx.tokval = true ∧ readToks ts lx = some (tend, lend)

/-- The code of the first of the tokens `ts`, or `tend` when there is none. -/
def peek (ts : List Tok) (tend : Int) : Int :=
  match ts with
  | [] => tend
  | t :: _ => t.code

/-- State `s1` is what parsing leaves of state `s`: the same target, the
lines `code` added to the output, and the parser in front of the tokens `rest`. -/
def Parsed (s s1 : CState) (code : List Asm) (rest : List Tok) (tend : Int) (lend : Lexer) :
    Prop :=
  s1.target = s.target ∧ s1.out = s.out ++ code ∧ Ready s1.token s1.lex rest tend lend

/-- A token at which the loop of `postfix` stops. -/
def stopsPostfix (t : Int) : Prop := t ≠ tk '[' ∧ t ≠ T_INC ∧ t ≠ T_DEC ∧ t ≠ tk '('

/-- A token at which the loop of `multiplicative` stops. -/
def stopsMul (t : Int) : Prop := t ≠ tk '*' ∧ t ≠ tk '/' ∧ t ≠ tk '%'

/-- A token at which the loop of `additive` stops. -/
def stopsAdd (t : Int) : Prop := t ≠ tk '+' ∧ t ≠ tk '-'

/-- A token at which the loops of `shift` ... `assignment` stop. -/
def stopsUpper (t : Int) : Prop :=
  t ≠ tk '=' ∧ t ≠ T_PLUSEQ ∧ t ≠ T_MINUSEQ ∧ t ≠ T_STAREQ ∧ t ≠ T_SLASHEQ ∧ t ≠ T_OR ∧
  t ≠ T_AND ∧ t ≠ tk '|' ∧ t ≠ tk '^' ∧ t ≠ tk '&' ∧ t ≠ T_EQ ∧ t ≠ T_NE ∧ t ≠ tk '<' ∧
  t ≠ tk '>' ∧ t ≠ T_LE ∧ t ≠ T_GE ∧ t ≠ T_SHL ∧ t ≠ T_SHR

mutual

/-- The number of `+` signs of a sum outside parentheses and products. -/
def Expr.iters : Expr → Nat
  | .term _ => 0
  | .add e _ => e.iters + 1

/-- The number of `*` signs of a product outside parentheses. -/
def Term.iters : Term → Nat
  | .prim _ => 0
  | .mul t _ => t.iters + 1

end

/-- The code computes `v` into `%rax` from every machine state, using at
most `d` stack slots below the stack pointer: it runs to the end, leaves the
stack pointer where it was and changes no memory outside those slots. -/
def Computes (code : List Asm) (v : Nat) (d : Nat) : Prop :=
  ∀ m : Machine, ∃ m1, exec code m = some m1 ∧ m1.rax = v ∧ m1.rsp % W = m.rsp % W ∧
    ∀ a, (∀ j, 1 ≤ j → j ≤ 8 * d → a ≠ (m.rsp % W + W - j) % W) → m1.mem a = m.mem a

/-- The lines written by a compiler routine, when it returns. -/
def Res.code (r : Res) : Option (List Asm) :=
  match r with
  | .ok s => some s.out
  | _ => none

/-- The statements `token = gettoken(); expression();`. -/
def compileExpression (fuel : Nat) (s : CState) : Res := (nexttoken s).bind (expression fuel)

/-- A compiler state that has read nothing yet, with empty tables. -/
def CState.start (target : Target) (filename input : Str) : CState :=
  { target := target, lex := Lexer.start filename input, token := 0, globals := [], locals := [],
    sp := 0, param_offset := 16, functions := [], curfunc := [], breaklab := [], contlab := [],
    wsp := 0, lab := 1, out := [] }

/-! ## Symbol table entries, parameter lists and the allocation of locals -/

/-- What `add_symbol` does: it returns the new entry in a new state, or it
ends the program through `error`. -/
inductive SymRes where
  | ok (sym : Symbol) (s : CState)
  | fail (s : CState)

/-- The function `add_symbol`; `nlocals` and `nglobals` are the lengths of the two tables. -/
def add_symbol (name : Str) (type size : Int) (s : CState) : SymRes :=
  if 0 < s.locals.length ∨ s.param_offset < 16 then
    if MAXLOCALS ≤ s.locals.length then
      .fail { s with lex := s.lex.error "Too many local variables".toList }
    else if s.param_offset < 16 then
      let sym : Symbol := ⟨name, type, s.param_offset, decide (0 < size), size, true⟩
      .ok sym { s with locals := s.locals ++ [sym], param_offset := wrap32 (s.param_offset + 8) }
    else
      let sp1 := wrap32 (s.sp - wrap32 (8 * (if 0 < size then size else 1)))
      let sym : Symbol := ⟨name, type, sp1, decide (0 < size), size, false⟩
      .ok sym { s with locals := s.locals ++ [sym], sp := sp1 }
  else
    if MAXGLOBALS ≤ s.globals.length then
      .fail { s with lex := s.lex.error "Too many global variables".toList }
    else
      let sym : Symbol := ⟨name, type, s.lab, decide (0 < size), size, false⟩
      .ok sym { s with globals := s.globals ++ [sym], lab := s.lab + 1 }

/-- The entry `add_symbol` returns and the two tables (globals, locals) it leaves. -/
def SymRes.entry (r : SymRes) : Option (Symbol × List Symbol × List Symbol) :=
  match r with
  | .ok sym s => some (sym, s.globals, s.locals)
  | .fail _ => none

/-- The index of the entry to which `lookup_func` returns a pointer. -/
def lookupFuncIdx (name : Str) : List Function → Option Nat
  | [] => none
  | g :: gs => if g.name = name then some 0 else (lookupFuncIdx name gs).map (fun i => i + 1)

/-- The assignment `a[i] = v` on an array given by the entries written so
far (entries never written read as 0). -/
def writeAt (a : List Int) (i : Nat) (v : Int) : List Int :=
  (a ++ List.replicate (i + 1 - a.length) 0).set i v

/-- The `while` loop of `parameter_list`; `func` is the index of the entry
that `lookup_func(curfunc)` returned, if any. -/
def parameter_listLoop (func : Option Nat) : Nat → CState → Res
  | 0, _ => .hang
  | fuel + 1, s =>
    if s.token ≠ tk ')' then
      let type := if s.token = T_INT ∨ s.token = T_CHAR then s.token else T_INT
      (if s.token = T_INT ∨ s.token = T_CHAR then nexttoken s else .ok s).bind fun s1 =>
        if s1.token ≠ T_IDENT then error "Expected parameter name" s1
        else
          match add_symbol s1.lex.tokstr (if type = T_CHAR then 1 else 0) 0 s1 with
          | .fail s2 => .fail s2
          | .ok _ s2 =>
            let r : Res :=
              match func with
              | none => .ok s2
              | some i =>
                match s2.functions.get? i with
                | none => .ok s2
                | some g =>
                  if (MAXARGS : Int) ≤ g.nparams then error "Too many parameters" s2
                  else
                    let g1 := { g with param_types := writeAt g.param_types g.nparams.toNat type,
                                       nparams := g.nparams + 1 }
                    .ok { s2 with functions := s2.functions.set i g1 }
            r.bind fun s3 =>
              (nexttoken s3).bind fun s4 =>
                if s4.token = tk ',' then (nexttoken s4).bind (parameter_listLoop func fuel)
                else if s4.token ≠ tk ')' then error "Expected , or )" s4
                else parameter_listLoop func fuel s4
    else .ok s

/-- The function `parameter_list`. -/
def parameter_list (fuel : Nat) (s : CState) : Res :=
  parameter_listLoop (lookupFuncIdx s.curfunc s.functions) fuel s

/-- The lexer delivers a parameter list: with `tok` the current token read
in lexer state `lx`, the parameters `ps` (type keyword and name), separated
by commas, and the closing parenthesis follow; the result is the lexer
state in which the parenthesis was read. -/
def readParams : List (Int × Str) → Int → Lexer → Option Lexer
  | [], tok, lx => if tok = tk ')' then some lx else none
  | (ty, name) :: ps, tok, lx =>
    if tok = ty ∧ (ty = T_INT ∨ ty = T_CHAR) then
      match gettoken lx with
      | .ok t1 l1 =>
        if t1 = T_IDENT ∧ l1.tokstr = name then
          match gettoken l1 with
          | .ok t2 l2 =>
            if t2 = tk ',' then
              match gettoken l2 with
              | .ok t3 l3 => if ps = [] then none else readParams ps t3 l3
              | _ => none
            else if ps = [] ∧ t2 = tk ')' then some l2 else none
          | _ => none
        else none
      | _ => none
    else none

/-- The function `emit_branch_false`. -/
def emit_branch_false (n : Int) (s : CState) : CState :=
  match s.target with
  | .x64 => emits [.testq_rax_rax, .jz n] s
  | .arm64 => emit (.cbz_x0 n) s

/-- The lexer delivers the rest of an argument list of numbers: the current
token, read in lexer state `l`, is a number with value `v`; the other
numbers of the list follow, each after a comma, and then the closing
parenthesis.  The result is the lexer state in which the parenthesis was read. -/
def readArgs : List Int → Lexer → Option Lexer
  | [], _ => none
  | v :: vs, l =>
    if l.tokval = v then
      match gettoken l with
      | .ok t l1 =>
        if t = tk ',' then
          match gettoken l1 with
          | .ok t2 l2 => if t2 = T_NUMBER ∧ vs ≠ [] then readArgs vs l2 else none
          | _ => none
        else if t = tk ')' ∧ vs = [] then some l1 else none
      | _ => none
    else none

/-- The token, the stack-offset counter and the lines a routine leaves, when it returns. -/
def Res.summary (r : Res) : Option (Int × Int × List Asm) :=
  match r with
  | .ok s => some (s.token, s.sp, s.out)
  | _ => none

/-- The diagnostic a routine has written when it ended the program through `error`. -/
def Res.diagnostic (r : Res) : Option Str :=
  match r with
  | .fail s => some s.lex.stderr
  | _ => none

/-- The two symbol tables and the parameter offset a routine leaves, when it returns. -/
def Res.tables (r : Res) : Option (List Symbol × List Symbol × Int) :=
  match r with
  | .ok s => some (s.globals, s.locals, s.param_offset)
  | _ => none

/-- The computation `((-sp + 15) / 16) * 16` in `int` arithmetic. -/
def allocSize (sp : Int) : Int := wrap32 (Int.tdiv (wrap32 (wrap32 (-sp) + 15)) 16 * 16)

/-- The block `Allocate locals` of `function`. -/
def allocateLocals (s : CState) : CState :=
  if s.sp < 0 then
    match s.target with
    | .x64 => emit (.subq_imm_rsp (allocSize s.sp)) s
    | .arm64 => emit (.sub_sp_sp_imm (allocSize s.sp)) s
  else s

end Scc

namespace Sppe

/-! ## Notions used to state properties of the preprocessor -/

/-- A line that is not a directive: its first character after blanks and tabs is not `#`. -/
def directiveFree (line : Str) : Prop := (skipwhite line).head? ≠ some '#'

/-- The identifiers of a text, left to right: the maximal runs of letters,
digits and underscores, each taken from its first letter or underscore on.
The second argument is the identifier being collected. -/
def identifiersFrom : Str → Option Str → List Str
  | [], none => []
  | [], some w => [w]
  | c :: rest, none =>
    if isIdentStart c then identifiersFrom rest (some [c]) else identifiersFrom rest none
  | c :: rest, some w =>
    if isIdentChar c then identifiersFrom rest (some (w ++ [c])) else w :: identifiersFrom rest none

/-- The identifiers of a text. -/
def identifiers (text : Str) : List Str := identifiersFrom text none

/-- No identifier of the text names a macro of the table (names are compared
on their first `MAXNAMESIZE - 1` characters, as `copyword` stores them). -/
def usesNoMacro (T : Table) (text : Str) : Prop :=
  ∀ w ∈ identifiers text, finddefine (w.take (MAXNAMESIZE - 1)) T = none

/-- The last character of the line other than trailing `\n` and `\r` is a backslash. -/
def endsWithBackslash (line : Str) : Prop :=
  (line.reverse.dropWhile (fun c => c = '\n' || c = '\r')).head? = some '\\'

/-- A line (without its newline) that the preprocessor has nothing to do
with: no newline and no NUL inside, not a directive, no trailing backslash,
and the predefined macro name does not occur as an identifier. -/
def PlainLine (line : Str) : Prop :=
  '\n' ∉ line ∧ '\x00' ∉ line ∧ directiveFree line ∧ ¬ endsWithBackslash line ∧
    "__SMALLC__".toList ∉ identifiers line

/-- State `s1` is state `s` after plain text `out` went through `processfile`:
the macro table, the conditional stack and the flags are as before and the
standard output has grown by `out`. -/
def Same (s s1 : State) (out : Str) : Prop :=
  s1.defs = s.defs ∧ s1.ifstack = s.ifstack ∧ s1.skipping = s.skipping ∧
    s1.includelevel = s.includelevel ∧ s1.continuation = false ∧
    s1.stdout = s.stdout ++ out ∧ s1.stderr = s.stderr

end Sppe
end SmallC

namespace SmallC

/-! # The assembler `sas.c`

The global variables of `sas.c` are the fields of `Sas.State`.  The code
buffer is the list of the `codesize` bytes written so far, the symbol and
relocation tables are lists, `lptr` is the text from the pointer `lptr` to
the end of the line, and `stdout` collects what `printf` writes.  No routine
of `sas.c` ends the program: `error` prints and returns. -/

namespace Sas

def MAXSYMS : Nat := 1000
def MAXRELS : Nat := 1000
def MAXCODE : Nat := 65536
def MAXLINE : Nat := 256
def TARGET_X64 : Int := 0
def TARGET_ARM64 : Int := 1
def SEC_TEXT : Int := 0
def SEC_DATA : Int := 1
def SYM_LOCAL : Int := 0
def SYM_GLOBAL : Int := 1
def SYM_EXTERN : Int := 2
def REL_CALL : Int := 2

/-- The value of an `int` as an unsigned 32-bit number. -/
def u32 (x : Int) : Nat := (x % 4294967296).toNat

/-- The operator `|` on `int` values. -/
def bor (a b : Int) : Int := Scc.wrap32 ((u32 a ||| u32 b : Nat) : Int)

/-- The operator `<<` on an `int` with a shift count below 32. -/
def shl (a : Int) (k : Nat) : Int := Scc.wrap32 (a * (2 ^ k : Nat))

/-- One row of the symbol table. -/
structure Sym where
  name : Str
  val : Int
  type : Int
  sec : Int
deriving DecidableEq, Repr

/-- One row of the relocation table. -/
structure Rel where
  off : Int
  sym : Int
  type : Int
deriving DecidableEq, Repr

/-- The global variables and the text written to standard output. -/
structure State where
  target : Int
  pass : Int
  section_ : Int
  pc : Int
  code : List Nat
  syms : List Sym
  rels : List Rel
  lptr : Str
  token : Str
  tokval : Int
  stdout : Str
deriving DecidableEq, Repr

/-- The function `error`: it prints and returns. -/
def error (msg : String) (s : State) : State :=
  { s with stdout := s.stdout ++ "Error: ".toList ++ msg.toList ++ ['\n'] ++
      (if s.token = [] then [] else "  Near: ".toList ++ s.token ++ ['\n']) }

/-- The function `skip_white`. -/
def skip_white (s : State) : State :=
  { s with lptr := s.lptr.dropWhile (fun c => c = ' ' || c = '\t') }

/-- The digit tests of `get_number` for one character. -/
def digitValue (base : Int) (c : Char) : Option Int :=
  if 48 ≤ c.toNat ∧ c.toNat ≤ 57 then some ((c.toNat : Int) - 48)
  else if base = 16 ∧ 97 ≤ c.toNat ∧ c.toNat ≤ 102 then some ((c.toNat : Int) - 97 + 10)
  else if base = 16 ∧ 65 ≤ c.toNat ∧ c.toNat ≤ 70 then some ((c.toNat : Int) - 65 + 10)
  else none

/-- The loop of `get_number`. -/
def numberLoop (base : Int) : Str → Int → Str × Int
  | [], v => ([], v)
  | c :: p, v =>
    match digitValue base c with
    | some d => numberLoop base p (Scc.wrap32 (Scc.wrap32 (v * base) + d))
    | none => (c :: p, v)

/-- The function `get_number`; it returns `'N'` and leaves `token` as it was. -/
def get_number (s : State) : State × Int :=
  let neg : Bool := s.lptr.head? = some '-'
  let p1 := if neg then s.lptr.drop 1 else s.lptr
  let bp : Int × Str :=
    match p1 with
    | '$' :: q => (16, q)
    | '0' :: 'x' :: q => (16, q)
    | _ => (10, p1)
  let r := numberLoop bp.1 bp.2 0
  ({ s with lptr := r.1, tokval := if neg then Scc.wrap32 (-r.2) else r.2 }, 78)

/-- The characters of labels and identifiers. -/
def identChar (c : Char) : Bool :=
  (65 ≤ c.toNat && c.toNat ≤ 90) || (97 ≤ c.toNat && c.toNat ≤ 122) ||
    (48 ≤ c.toNat && c.toNat ≤ 57) || c = '_' || c = '.'

/-- The characters that may start a label or an identifier. -/
def identStart (c : Char) : Bool :=
  (65 ≤ c.toNat && c.toNat ≤ 90) || (97 ≤ c.toNat && c.toNat ≤ 122) || c = '_' || c = '.'

/-- The function `get_token`: the new state and the returned code (`0`,
`'N'`, `':'`, `'I'`, `'R'` or a single character). -/
def get_token (s : State) : State × Int :=
  let s1 := skip_white s
  match s1.lptr with
  | [] => ({ s1 with token := [] }, 0)
  | c :: p =>
    if c = '\n' then ({ s1 with token := [] }, 0)
    else if c = '#' ∨ c = ';' then ({ s1 with token := [] }, 0)
    else if c = '$' ∨ (48 ≤ c.toNat ∧ c.toNat ≤ 57) ∨ c = '-' then get_number s1
    else if identStart c then
      let s2 := skip_white { s1 with token := (c :: p).takeWhile identChar,
                                     lptr := (c :: p).dropWhile identChar }
      match s2.lptr with
      | ':' :: q => ({ s2 with lptr := q }, 58)
      | _ => (s2, 73)
    else if c = ',' ∨ c = '(' ∨ c = ')' ∨ c = '[' ∨ c = ']' ∨ c = '!' ∨ c = '+' ∨ c = '-' ∨
        c = ':' then
      ({ s1 with token := [c], lptr := p }, (c.toNat : Int))
    else if c = '%' ∨ c = 'x' ∨ c = 'w' ∨ c = 'r' then
      let stop : Char → Bool := fun d => d = ' ' || d = '\t' || d = ',' || d = ')' || d = '\n'
      ({ s1 with token := (c :: p).takeWhile (fun d => !stop d),
                 lptr := (c :: p).dropWhile (fun d => !stop d) }, 82)
    else (error "Unknown character" s1, 0)

/-- The function `emit_byte`. -/
def emit_byte (b : Int) (s : State) : State × Int :=
  if MAXCODE ≤ s.code.length then (error "Code buffer overflow" s, -1)
  else ({ s with code := s.code ++ [(b % 256).toNat], pc := s.pc + 1 }, 0)

/-- The function `emit_word`. -/
def emit_word (w : Int) (s : State) : State :=
  (emit_byte (w / 256) (emit_byte w s).1).1

/-- The function `emit_dword`. -/
def emit_dword (d : Int) (s : State) : State :=
  (emit_byte (d / 16777216) (emit_byte (d / 65536) (emit_byte (d / 256) (emit_byte d s).1).1).1).1

/-- The function `emit_qword`. -/
def emit_qword (low high : Int) (s : State) : State :=
  emit_dword high (emit_dword low s)

/-- The search loop of `lookup_sym` from index `i` on. -/
def lookupFrom (name : Str) : List Sym → Int → Int
  | [], _ => -1
  | y :: ys, i => if y.name = name then i else lookupFrom name ys (i + 1)

/-- The function `lookup_sym`. -/
def lookup_sym (name : Str) (s : State) : Int := lookupFrom name s.syms 0

/-- The assignments to row `i` of the symbol table in `add_sym`. -/
def updateSym (val type : Int) : List Sym → Nat → List Sym
  | [], _ => []
  | y :: ys, 0 => { y with val := val, type := if type = SYM_GLOBAL then SYM_GLOBAL else y.type } :: ys
  | y :: ys, i + 1 => y :: updateSym val type ys i

/-- The function `add_sym`. -/
def add_sym (name : Str) (val type sec : Int) (s : State) : State × Int :=
  let i := lookup_sym name s
  if 0 ≤ i then
    let changed : Bool :=
      match s.syms.get? i.toNat with
      | some y => y.val ≠ val
      | none => false
    let s1 := if s.pass = 2 ∧ changed = true then error "Symbol value changed between passes" s
              else s
    ({ s1 with syms := updateSym val type s1.syms i.toNat }, i)
  else if MAXSYMS ≤ s.syms.length then (error "Too many symbols" s, -1)
  else ({ s with syms := s.syms ++ [⟨name, val, type, sec⟩] }, (s.syms.length : Int))

/-- The function `add_reloc`. -/
def add_reloc (off sym type : Int) (s : State) : State × Int :=
  if s.pass ≠ 2 then (s, 0)
  else if MAXRELS ≤ s.rels.length then (error "Too many relocations" s, -1)
  else ({ s with rels := s.rels ++ [⟨off, sym, type⟩] }, 0)

/-- The function `encode_x64_mov`. -/
def encode_x64_mov (dst src : Str) (s : State) : State × Int :=
  if dst.head? = some '%' ∧ src.head? = some '$' ∧ dst = "%rax".toList then
    (emit_qword s.tokval 0 (emit_byte 184 (emit_byte 72 s).1).1, 0)
  else (error "Unsupported mov instruction" s, -1)

/-- The function `encode_x64_push`. -/
def encode_x64_push (reg : Str) (s : State) : State × Int :=
  if reg = "%rax".toList then ((emit_byte 80 s).1, 0)
  else if reg = "%rbp".toList then ((emit_byte 85 s).1, 0)
  else (error "Unsupported push register" s, -1)

/-- The function `encode_x64_pop`. -/
def encode_x64_pop (reg : Str) (s : State) : State × Int :=
  if reg = "%rax".toList then ((emit_byte 88 s).1, 0)
  else if reg = "%rbp".toList then ((emit_byte 93 s).1, 0)
  else (error "Unsupported pop register" s, -1)

/-- The symbol lookup shared by `encode_x64_call` and `encode_arm64_bl`. -/
def callSymbol (target : Str) (s : State) : State × Int :=
  let sym := lookup_sym target s
  if sym < 0 then add_sym target 0 SYM_EXTERN SEC_TEXT s else (s, sym)

/-- The function `encode_x64_call`. -/
def encode_x64_call (target : Str) (s : State) : State × Int :=
  let s1 := (emit_byte 232 s).1
  let r := callSymbol target s1
  let s2 := (add_reloc r.1.pc r.2 REL_CALL r.1).1
  (emit_dword 0 s2, 0)

/-- The function `encode_x64_ret`. -/
def encode_x64_ret (s : State) : State × Int := ((emit_byte 195 s).1, 0)

/-- The code of a character as the `char` value the source computes with. -/
def charCode (c : Option Char) : Int :=
  match c with
  | some d => (d.toNat : Int)
  | none => 0

/-- The function `encode_arm64_mov`. -/
def encode_arm64_mov (dst src : Str) (s : State) : State × Int :=
  if dst.head? = some 'x' ∧ src.head? = some '#' then
    let reg := charCode (dst.get? 1) - 48
    let imm := s.tokval
    (emit_dword (bor (bor 3531603968 (shl imm 5)) reg) s, 0)
  else (error "Unsupported ARM64 mov" s, -1)

/-- The function `encode_arm64_bl`. -/
def encode_arm64_bl (target : Str) (s : State) : State × Int :=
  let r := callSymbol target s
  let s2 := (add_reloc r.1.pc r.2 REL_CALL r.1).1
  (emit_dword 2483027968 s2, 0)

/-- The function `encode_arm64_ret`. -/
def encode_arm64_ret (s : State) : State × Int := (emit_dword 3596551104 s, 0)

/-- The function `parse_instruction`. -/
def parse_instruction (s : State) : State × Int :=
  let opcode := s.token
  let r1 := get_token s
  let ops : State × Str × Str :=
    if r1.2 ≠ 0 then
      let op1 := r1.1.token
      let r2 := get_token r1.1
      if r2.2 = 44 then
        let r3 := get_token r2.1
        if r3.2 ≠ 0 then (r3.1, op1, r3.1.token) else (r3.1, op1, [])
      else (r2.1, op1, [])
    else (r1.1, [], [])
  let s1 := ops.1
  let op1 := ops.2.1
  let op2 := ops.2.2
  if s1.target = TARGET_X64 then
    if opcode = "movq".toList then encode_x64_mov op2 op1 s1
    else if opcode = "pushq".toList then encode_x64_push op1 s1
    else if opcode = "popq".toList then encode_x64_pop op1 s1
    else if opcode = "call".toList then encode_x64_call op1 s1
    else if opcode = "ret".toList then encode_x64_ret s1
    else (error "Unknown instruction" s1, -1)
  else
    if opcode = "mov".toList then encode_arm64_mov op1 op2 s1
    else if opcode = "bl".toList then encode_arm64_bl op1 s1
    else if opcode = "ret".toList then encode_arm64_ret s1
    else (error "Unknown instruction" s1, -1)

/-- The loops `while (get_token() == 'N') ...` of the data directives, with
`put` the emit routine of the directive. -/
def dataLoop (put : Int → State → State) : Nat → State → State
  | 0, s => s
  | fuel + 1, s =>
    let r := get_token s
    if r.2 = 78 then
      let s1 := put r.1.tokval r.1
      let r2 := get_token s1
      if r2.2 ≠ 44 then r2.1 else dataLoop put fuel r2.1
    else r.1

/-- The character loop of `.ascii` and `.asciz`, after the opening quote. -/
def asciiLoop : Str → State → State
  | [], s => { s with lptr := [] }
  | c :: p, s =>
    if c = '"' then { s with lptr := c :: p }
    else if c = '\\' then
      match p with
      | [] => { (emit_byte 0 s).1 with lptr := [] }
      | e :: q =>
        let b : Int :=
          if e = 'n' then 10 else if e = 't' then 9 else if e = 'r' then 13
          else (e.toNat : Int)
        asciiLoop q (emit_byte b s).1
    else asciiLoop p (emit_byte (c.toNat : Int) s).1

/-- The loop `while (count-- > 0) emit_byte(0)`. -/
def spaceLoop : Nat → State → State
  | 0, s => s
  | n + 1, s => spaceLoop n (emit_byte 0 s).1

/-- The function `parse_directive`. -/
def parse_directive (s : State) : State × Int :=
  if s.token = ".text".toList then ({ s with section_ := SEC_TEXT }, 0)
  else if s.token = ".data".toList then ({ s with section_ := SEC_DATA }, 0)
  else if s.token = ".globl".toList ∨ s.token = ".global".toList then
    let r := get_token s
    ((add_sym r.1.token 0 SYM_GLOBAL r.1.section_ r.1).1, 0)
  else if s.token = ".extern".toList then
    let r := get_token s
    ((add_sym r.1.token 0 SYM_EXTERN r.1.section_ r.1).1, 0)
  else if s.token = ".byte".toList then
    (dataLoop (fun v t => (emit_byte v t).1) (s.lptr.length + 1) s, 0)
  else if s.token = ".word".toList then (dataLoop emit_word (s.lptr.length + 1) s, 0)
  else if s.token = ".long".toList ∨ s.token = ".int".toList then
    (dataLoop emit_dword (s.lptr.length + 1) s, 0)
  else if s.token = ".quad".toList then
    (dataLoop (fun v t => emit_qword v 0 t) (s.lptr.length + 1) s, 0)
  else if s.token = ".ascii".toList ∨ s.token = ".asciz".toList then
    let addnull : Bool := s.token = ".asciz".toList
    let s1 := skip_white s
    match s1.lptr with
    | '"' :: p =>
      let s2 := asciiLoop p { s1 with lptr := p }
      let s3 :=
        match s2.lptr with
        | '"' :: q => { s2 with lptr := q }
        | _ => s2
      (if addnull then (emit_byte 0 s3).1 else s3, 0)
    | _ => (s1, 0)
  else if s.token = ".space".toList ∨ s.token = ".zero".toList then
    let r := get_token s
    (spaceLoop r.1.tokval.toNat r.1, 0)
  else (error "Unknown directive" s, -1)

/-- The function `process_line` on the line in the buffer `line`. -/
def process_line (line : Str) (s : State) : State × Int :=
  let r := get_token { s with lptr := line }
  if r.2 = 0 then (r.1, 0)
  else
    let r1 : State × Int :=
      if r.2 = 58 then
        get_token (add_sym r.1.token r.1.pc SYM_LOCAL r.1.section_ r.1).1
      else r
    if r1.2 = 0 then (r1.1, 0)
    else if r1.1.token.head? = some '.' then parse_directive r1.1
    else parse_instruction r1.1

/-- The string in the buffer `line` after the characters of `text` were
stored: at most `MAXLINE - 1` of them, up to the first NUL. -/
def lineOf (text : Str) : Str := cstr (text.take (MAXLINE - 1))

/-- The reading loop of one pass of `assemble_file`: `cur` holds the
characters of the current line read so far. -/
def passLoop : Str → Str → State → State
  | [], cur, s => if cur.length > 0 then (process_line (lineOf cur) s).1 else s
  | c :: rest, cur, s =>
    if c = '\n' then passLoop rest [] (process_line (lineOf cur) s).1
    else passLoop rest (cur ++ [c]) s

/-- The function `assemble_file`; `fs` gives the content of the files that
can be opened. -/
def assemble_file (fs : Str → Option Str) (filename : Str) (s : State) : State × Int :=
  match fs filename with
  | none =>
    ({ s with stdout := s.stdout ++ "Cannot open ".toList ++ filename ++ ['\n'] }, -1)
  | some text =>
    let s1 := passLoop text [] { s with pass := 1, pc := 0, code := [] }
    let s2 := passLoop text [] { s1 with pass := 2, pc := 0, code := [] }
    ({ s2 with pass := 3 }, 0)

/-- The bytes that `write_elf_header` writes. -/
def elfHeader (target : Int) : List Nat :=
  [127, 69, 76, 70, 2, 1, 1, 0, 0, 0, 0, 0, 0, 0, 0, 0, 1, 0] ++
    (if target = TARGET_X64 then [62, 0] else [183, 0])

/-- What a run of `sas` leaves: the exit status, the text on standard
output and, if it was written, the name and the bytes of the output file. -/
structure Outcome where
  status : Int
  stdout : Str
  written : Option (Str × List Nat)
deriving DecidableEq, Repr

/-- The argument loop of `main`: the target, the input and the output file. -/
def parseArgs : List Str → Int × Option Str × Option Str → Int × Option Str × Option Str
  | [], acc => acc
  | a :: rest, acc =>
    if a = "-x64".toList then parseArgs rest (TARGET_X64, acc.2.1, acc.2.2)
    else if a = "-arm64".toList then parseArgs rest (TARGET_ARM64, acc.2.1, acc.2.2)
    else if a = "-o".toList ∧ rest ≠ [] then
      match rest with
      | o :: rest1 => parseArgs rest1 (acc.1, acc.2.1, some o)
      | [] => acc
    else if a.head? ≠ some '-' then parseArgs rest (acc.1, some a, acc.2.2)
    else parseArgs rest acc

/-- The global variables at program start. -/
def initState : State :=
  { target := TARGET_X64, pass := 0, section_ := SEC_TEXT, pc := 0, code := [], syms := [],
    rels := [], lptr := [], token := [], tokval := 0, stdout := [] }

/-- The `%d` conversion. -/
def decimal (n : Int) : Str := Sppe.itoa n

/-- The function `main`, for an output file that can be created; `argv`
includes the program name. -/
def main (fs : Str → Option Str) (argv : List Str) : Outcome :=
  let a := parseArgs (argv.drop 1) (TARGET_X64, none, none)
  match a.2.1, a.2.2 with
  | some infile, some outfile =>
    let r := assemble_file fs infile { initState with target := a.1 }
    if r.2 < 0 then ⟨1, r.1.stdout, none⟩
    else
      ⟨0, r.1.stdout ++ "Assembled ".toList ++ decimal r.1.code.length ++ " bytes\n".toList,
        some (outfile, elfHeader r.1.target ++ r.1.code)⟩
  | _, _ => ⟨1, "Usage: sas [-x64|-arm64] input.s -o output.o\n".toList, none⟩

end Sas

end SmallC

namespace SmallC

/-! # The assembler `sas_enhanced.c`

The global variables of `sas_enhanced.c` are the fields of `SasE.State`.
The parallel arrays of sections, symbols and relocations are lists of
records.  The buffer `output` is the list of its bytes up to the last one
written, and `section_data[i]` is the index in `output` at which section
`i` starts.  `error` is never called in `sas_enhanced.c`, so every routine
returns. -/

namespace SasE

def MAX_LINE : Nat := 512
def MAX_NAME : Nat := 128
def SEC_CODE : Int := 1
def SEC_DATA : Int := 2
def SEC_BSS : Int := 4
def SYM_LOCAL : Int := 0
def SYM_GLOBAL : Int := 1
def SYM_EXTERN : Int := 3

/-- The value of an `int` as an unsigned 32-bit number. -/
def u32 (x : Int) : Nat := (x % 4294967296).toNat

/-- The operator `|` on `int` values. -/
def bor (a b : Int) : Int := Scc.wrap32 ((u32 a ||| u32 b : Nat) : Int)

/-- The operator `&` on `int` values. -/
def band (a b : Int) : Int := Scc.wrap32 ((u32 a &&& u32 b : Nat) : Int)

/-- The operator `^` on `int` values. -/
def bxor (a b : Int) : Int := Scc.wrap32 ((u32 a ^^^ u32 b : Nat) : Int)

/-- The operator `<<` on `int` values; the shift count is taken modulo 32,
as the shift instructions of both targets do. -/
def shl (a b : Int) : Int := Scc.wrap32 (a * (2 ^ (u32 b % 32) : Nat))

/-- The operator `>>` on `int` values (arithmetic shift, count modulo 32). -/
def shr (a b : Int) : Int := a / ((2 ^ (u32 b % 32) : Nat) : Int)

/-- One section: its row in the arrays `section_names`, ..., `section_data`. -/
structure Section where
  name : Str
  offset : Int
  size : Int
  flags : Int
  align : Int
  data : Nat
deriving DecidableEq, Repr

/-- One symbol: its row in the arrays `symbol_names`, ..., `symbol_defined`. -/
structure Symbol where
  name : Str
  value : Int
  section_ : Int
  type : Int
  defined : Int
deriving DecidableEq, Repr

/-- One relocation. -/
structure Reloc where
  offset : Int
  symbol : Int
  type : Int
  section_ : Int
  addend : Int
deriving DecidableEq, Repr

/-- The global variables and the text written to standard output. -/
structure State where
  is_arm64 : Int
  current_section : Int
  line_number : Int
  current_file : Str
  sections : List Section
  symbols : List Symbol
  relocs : List Reloc
  output : List Nat
  output_size : Int
  stdout : Str
deriving DecidableEq, Repr

/-- The function `skip_space`. -/
def skip_space (p : Str) : Str := p.dropWhile (fun c => c = ' ' || c = '\t')

/-- The digit of `parse_number` for one character, if it is a digit or a letter `a`..`f`. -/
def digitOf (c : Char) : Option Int :=
  if 48 ≤ c.toNat ∧ c.toNat ≤ 57 then some ((c.toNat : Int) - 48)
  else if 97 ≤ c.toNat ∧ c.toNat ≤ 102 then some ((c.toNat : Int) - 97 + 10)
  else if 65 ≤ c.toNat ∧ c.toNat ≤ 70 then some ((c.toNat : Int) - 65 + 10)
  else none

/-- The digit loop of `parse_number`. -/
def parseDigits (base : Int) : Str → Int → Int
  | [], v => v
  | c :: p, v =>
    match digitOf c with
    | some d => if base ≤ d then v else parseDigits base p (Scc.wrap32 (Scc.wrap32 (v * base) + d))
    | none => v

/-- The function `parse_number`. -/
def parse_number (str : Str) : Int :=
  let neg : Bool := str.head? = some '-'
  let p1 := if neg then str.drop 1 else str
  let bp : Int × Str :=
    match p1 with
    | '0' :: q =>
      match q with
      | 'x' :: r => (16, r)
      | 'X' :: r => (16, r)
      | 'b' :: r => (2, r)
      | 'B' :: r => (2, r)
      | d :: _ => if 48 ≤ d.toNat ∧ d.toNat ≤ 55 then (8, q) else (10, q)
      | [] => (10, q)
    | _ => (10, p1)
  let v := parseDigits bp.1 bp.2 0
  if neg then Scc.wrap32 (-v) else v

/-- The loop of the string-literal branch of `get_token`: the characters
stored and the text at which the loop stops. -/
def stringToken : Str → Str → Str × Str
  | [], acc => (acc, [])
  | c :: p, acc =>
    if c = '"' then (acc, c :: p)
    else if c = '\\' then
      match p with
      | [] => (acc ++ [c], [])
      | e :: q =>
        let b : Char := if e = 'n' then '\n' else if e = 't' then '\t' else if e = 'r' then '\r'
          else e
        stringToken q (acc ++ [b])
    else stringToken p (acc ++ [c])

/-- The characters at which a regular token of `get_token` ends. -/
def delimiter (c : Char) : Bool :=
  c = ' ' || c = '\t' || c = ',' || c = ':' || c = ';' || c = '[' || c = ']' || c = '(' ||
    c = ')' || c = '+' || c = '-' || c = '*' || c = '/' || c = '#'

/-- The function `get_token`: the token stored in `buf` and the returned pointer. -/
def get_token (line : Str) : Str × Str :=
  match skip_space line with
  | '"' :: p =>
    let r := stringToken p []
    match r.2 with
    | '"' :: q => (r.1, q)
    | _ => (r.1, r.2)
  | '\'' :: c :: '\'' :: q => ([c], q)
  | l1 => (l1.takeWhile (fun c => !delimiter c), l1.dropWhile (fun c => !delimiter c))

/-- The search loop of `find_section` and `find_symbol` over the names, from index `i` on. -/
def findFrom (name : Str) : List Str → Int → Int
  | [], _ => -1
  | y :: ys, i => if y = name then i else findFrom name ys (i + 1)

/-- The function `find_section`. -/
def find_section (name : Str) (s : State) : Int :=
  findFrom name (s.sections.map (fun x => x.name)) 0

/-- The function `add_section`. -/
def add_section (name : Str) (flags align : Int) (s : State) : State × Int :=
  let idx := find_section name s
  if 0 ≤ idx then (s, idx)
  else
    ({ s with sections := s.sections ++ [⟨name, 0, 0, flags, align, s.output_size.toNat⟩] },
      (s.sections.length : Int))

/-- The function `find_symbol`. -/
def find_symbol (name : Str) (s : State) : Int :=
  findFrom name (s.symbols.map (fun x => x.name)) 0

/-- The assignments to row `i` of the symbol arrays in `add_symbol`. -/
def defineSymbol (value section_ type : Int) : List Symbol → Nat → List Symbol
  | [], _ => []
  | y :: ys, 0 => { y with value := value, section_ := section_, type := type, defined := 1 } :: ys
  | y :: ys, i + 1 => y :: defineSymbol value section_ type ys i

/-- The function `add_symbol`. -/
def add_symbol (name : Str) (value section_ type : Int) (s : State) : State × Int :=
  let found := find_symbol name s
  let idx : Int := if found < 0 then (s.symbols.length : Int) else found
  let s1 := if found < 0 then { s with symbols := s.symbols ++ [⟨name, 0, 0, 0, 0⟩] } else s
  if 0 ≤ section_ then
    ({ s1 with symbols := defineSymbol value section_ type s1.symbols idx.toNat }, idx)
  else (s1, idx)

/-- The value `section_sizes[current_section]`. -/
def curSize (s : State) : Int :=
  match s.sections.get? s.current_section.toNat with
  | some x => x.size
  | none => 0

/-- The assignment `a[i] = v` on a byte buffer given up to its last written byte. -/
def writeByte (a : List Nat) (i : Nat) (v : Nat) : List Nat :=
  (a ++ List.replicate (i + 1 - a.length) 0).set i v

/-- The function `emit_byte`. -/
def emit_byte (byte : Int) (s : State) : State :=
  match s.sections.get? s.current_section.toNat with
  | some x =>
    { s with output := writeByte s.output (x.data + x.size.toNat) (byte % 256).toNat,
             sections := s.sections.set s.current_section.toNat { x with size := x.size + 1 },
             output_size := s.output_size + 1 }
  | none => { s with output_size := s.output_size + 1 }

/-- The function `emit_word`. -/
def emit_word (word : Int) (s : State) : State := emit_byte (word / 256) (emit_byte word s)

/-- The function `emit_dword`. -/
def emit_dword (dword : Int) (s : State) : State :=
  emit_byte (dword / 16777216) (emit_byte (dword / 65536) (emit_byte (dword / 256)
    (emit_byte dword s)))

/-- The function `emit_qword`. -/
def emit_qword (qword : Int) (s : State) : State := emit_dword 0 (emit_dword qword s)

/-- The function `add_relocation`. -/
def add_relocation (offset symbol type addend : Int) (s : State) : State :=
  { s with relocs := s.relocs ++ [⟨offset, symbol, type, s.current_section, addend⟩] }

/-- Whether a token starts like a number for `eval_primary`. -/
def numberToken (t : Str) : Bool :=
  match t with
  | c :: rest =>
    (48 ≤ c.toNat && c.toNat ≤ 57) ||
      (c = '-' && match rest with
        | d :: _ => 48 ≤ d.toNat && d.toNat ≤ 57
        | [] => false)
  | [] => false

/-- The value of a symbol reference in `eval_primary`. -/
def symbolValue (name : Str) (s : State) : Int :=
  let sym := find_symbol name s
  if 0 ≤ sym then
    match s.symbols.get? sym.toNat with
    | some y => if y.defined ≠ 0 then y.value else 0
    | none => 0
  else 0

mutual

/-- The function `eval_primary`: the value and the new `*line`; the fuel
bounds the depth of the calls. -/
def eval_primary : Nat → State → Str → Option (Int × Str)
  | 0, _, _ => none
  | f + 1, s, line =>
    match skip_space line with
    | '(' :: p =>
      (eval_expr f s p).map fun r =>
        match skip_space r.2 with
        | ')' :: q => (r.1, q)
        | l2 => (r.1, l2)
    | '-' :: p => (eval_primary f s p).map fun r => (Scc.wrap32 (-r.1), r.2)
    | '~' :: p => (eval_primary f s p).map fun r => (-r.1 - 1, r.2)
    | '$' :: p => some (curSize s, p)
    | l1 =>
      let t := get_token l1
      if numberToken t.1 then some (parse_number t.1, t.2) else some (symbolValue t.1 s, t.2)

/-- The function `eval_term`. -/
def eval_term : Nat → State → Str → Option (Int × Str)
  | 0, _, _ => none
  | f + 1, s, line => (eval_primary f s line).bind fun r => eval_termLoop f s r.1 r.2

/-- The loop of `eval_term`.  `int` arithmetic is taken modulo 2^32; for
`INT_MIN / -1` and `INT_MIN % -1`, which C leaves undefined, this gives
`INT_MIN` and 0. -/
def eval_termLoop : Nat → State → Int → Str → Option (Int × Str)
  | 0, _, _, _ => none
  | f + 1, s, left, line =>
    match skip_space line with
    | '*' :: p =>
      (eval_primary f s p).bind fun r => eval_termLoop f s (Scc.wrap32 (left * r.1)) r.2
    | '/' :: p =>
      (eval_primary f s p).bind fun r =>
        eval_termLoop f s (if r.1 ≠ 0 then Scc.wrap32 (Int.tdiv left r.1) else left) r.2
    | '%' :: p =>
      (eval_primary f s p).bind fun r =>
        eval_termLoop f s (if r.1 ≠ 0 then Int.tmod left r.1 else left) r.2
    | l1 => some (left, l1)

/-- The function `eval_expr`. -/
def eval_expr : Nat → State → Str → Option (Int × Str)
  | 0, _, _ => none
  | f + 1, s, line => (eval_term f s line).bind fun r => eval_exprLoop f s r.1 r.2

/-- The loop of `eval_expr`. -/
def eval_exprLoop : Nat → State → Int → Str → Option (Int × Str)
  | 0, _, _, _ => none
  | f + 1, s, left, line =>
    let l1 := skip_space line
    match l1 with
    | '+' :: p => (eval_term f s p).bind fun r => eval_exprLoop f s (Scc.wrap32 (left + r.1)) r.2
    | '-' :: p =>
      if p.head? ≠ some '>' then
        (eval_term f s p).bind fun r => eval_exprLoop f s (Scc.wrap32 (left - r.1)) r.2
      else some (left, l1)
    | '<' :: '<' :: p => (eval_term f s p).bind fun r => eval_exprLoop f s (shl left r.1) r.2
    | '>' :: '>' :: p => (eval_term f s p).bind fun r => eval_exprLoop f s (shr left r.1) r.2
    | '&' :: p =>
      if p.head? ≠ some '&' then
        (eval_term f s p).bind fun r => eval_exprLoop f s (band left r.1) r.2
      else some (left, l1)
    | '|' :: p =>
      if p.head? ≠ some '|' then
        (eval_term f s p).bind fun r => eval_exprLoop f s (bor left r.1) r.2
      else some (left, l1)
    | '^' :: p => (eval_term f s p).bind fun r => eval_exprLoop f s (bxor left r.1) r.2
    | _ => some (left, l1)

end

/-- The value of `eval_expr(&p)` where the caller does not use the new `p`:
every call consumes a character or ends, so three rounds per character are
enough fuel. -/
def evalValue (s : State) (p : Str) : Int :=
  match eval_expr (3 * p.length + 3) s p with
  | some r => r.1
  | none => 0

/-- The position of a name in a `NULL`-terminated register table. -/
def regIndex (name : Str) (table : List String) : Int :=
  findFrom name (table.map String.toList) 0

/-- The table `x64_regs_64`. -/
def x64_regs_64 : List String :=
  ["rax", "rcx", "rdx", "rbx", "rsp", "rbp", "rsi", "rdi",
   "r8", "r9", "r10", "r11", "r12", "r13", "r14", "r15"]

/-- The table `x64_regs_32`. -/
def x64_regs_32 : List String :=
  ["eax", "ecx", "edx", "ebx", "esp", "ebp", "esi", "edi",
   "r8d", "r9d", "r10d", "r11d", "r12d", "r13d", "r14d", "r15d"]

/-- Whether the character at index `i` of a C string is a decimal digit. -/
def digitAt (name : Str) (i : Nat) : Bool :=
  match name.get? i with
  | some c => 48 ≤ c.toNat && c.toNat ≤ 57
  | none => false

/-- The code of the character at index `i` of a C string (0 at its end). -/
def charAt (name : Str) (i : Nat) : Int :=
  match name.get? i with
  | some c => (c.toNat : Int)
  | none => 0

/-- The function `encode_x64_mov`. -/
def encode_x64_mov (dst src : Str) (s : State) : State :=
  let d64 := regIndex dst x64_regs_64
  let d32 := regIndex dst x64_regs_32
  let dst_reg : Int := if 0 ≤ d64 then d64 else d32
  let dst_size : Int := if 0 ≤ d64 then 64 else if 0 ≤ d32 then 32 else 0
  if digitAt src 0 ∨ src.head? = some '-' ∨ src.head? = some '$' then
    let value := evalValue s src
    if dst_size = 64 then
      emit_qword value (emit_byte (184 + band dst_reg 7)
        (if 8 ≤ dst_reg then emit_byte 73 s else emit_byte 72 s))
    else
      emit_dword value (emit_byte (184 + band dst_reg 7)
        (if 8 ≤ dst_reg then emit_byte 65 s else s))
  else
    let s64 := regIndex src x64_regs_64
    let s32 := regIndex src x64_regs_32
    let src_reg : Int := if 0 ≤ s64 then s64 else s32
    if 0 ≤ dst_reg ∧ 0 ≤ src_reg then
      let rex0 : Int := 64
      let rex1 := if dst_size = 64 then bor rex0 8 else rex0
      let rex2 := if 8 ≤ src_reg then bor rex1 4 else rex1
      let rex3 := if 8 ≤ dst_reg then bor rex2 1 else rex2
      let s1 := if rex3 ≠ 64 then emit_byte rex3 s else s
      emit_byte (bor (bor 192 (shl (band src_reg 7) 3)) (band dst_reg 7)) (emit_byte 137 s1)
    else s

/-- The function `encode_x64_push`. -/
def encode_x64_push (reg : Str) (s : State) : State :=
  let reg_num := regIndex reg x64_regs_64
  if 0 ≤ reg_num then
    if 8 ≤ reg_num then emit_byte (80 + band reg_num 7) (emit_byte 65 s)
    else emit_byte (80 + reg_num) s
  else s

/-- The function `encode_x64_pop`. -/
def encode_x64_pop (reg : Str) (s : State) : State :=
  let reg_num := regIndex reg x64_regs_64
  if 0 ≤ reg_num then
    if 8 ≤ reg_num then emit_byte (88 + band reg_num 7) (emit_byte 65 s)
    else emit_byte (88 + reg_num) s
  else s

/-- The body shared by `encode_x64_call` (opcode `0xE8`) and `encode_x64_jmp` (`0xE9`). -/
def encodeBranch (opcode : Int) (target : Str) (s : State) : State :=
  if digitAt target 0 ∨ target.head? = some '-' then
    emit_dword (parse_number target) (emit_byte opcode s)
  else
    let r := add_symbol target 0 (-1) SYM_EXTERN s
    let s1 := emit_byte opcode r.1
    emit_dword 0 (add_relocation (curSize s1) r.2 2 (-4) s1)

/-- The function `encode_x64_call`. -/
def encode_x64_call (target : Str) (s : State) : State := encodeBranch 232 target s

/-- The function `encode_x64_jmp`. -/
def encode_x64_jmp (target : Str) (s : State) : State := encodeBranch 233 target s

/-- The function `encode_x64_ret`. -/
def encode_x64_ret (s : State) : State := emit_byte 195 s

/-- The function `encode_x64_nop`. -/
def encode_x64_nop (s : State) : State := emit_byte 144 s

/-- The function `encode_x64_int`. -/
def encode_x64_int (num : Str) (s : State) : State :=
  let value := parse_number num
  if value = 3 then emit_byte 204 s else emit_byte value (emit_byte 205 s)

/-- The function `get_arm64_reg`. -/
def get_arm64_reg (name : Str) : Int :=
  if (name.head? = some 'x' ∨ name.head? = some 'w') ∧ digitAt name 1 then
    let reg := charAt name 1 - 48
    if digitAt name 2 then reg * 10 + charAt name 2 - 48 else reg
  else if name = "sp".toList then 31
  else if name = "xzr".toList then 31
  else if name = "wzr".toList then 31
  else if name = "fp".toList then 29
  else if name = "lr".toList then 30
  else -1

/-- An instruction word given as an unsigned constant, stored in an `int`. -/
def word (n : Nat) : Int := Scc.wrap32 n

/-- The text after an optional `#`. -/
def skipHash (p : Str) : Str :=
  match p with
  | '#' :: q => q
  | _ => p

/-- The function `encode_arm64_mov`. -/
def encode_arm64_mov (dst src : Str) (s : State) : State :=
  let dst_reg := get_arm64_reg dst
  let src_reg := get_arm64_reg src
  let is_64bit : Bool := dst.head? = some 'x'
  if 0 ≤ dst_reg ∧ 0 ≤ src_reg then
    let instr := if is_64bit then word 2852127712 else word 704644064
    emit_dword (bor (bor instr dst_reg) (shl src_reg 16)) s
  else if 0 ≤ dst_reg ∧ (src.head? = some '#' ∨ digitAt src 0) then
    let value := evalValue s (skipHash src)
    if 0 ≤ value ∧ value ≤ 65535 then
      let instr := if is_64bit then word 3531603968 else word 1384120320
      emit_dword (bor (bor instr dst_reg) (shl (band value 65535) 5)) s
    else if value = -1 then
      let instr := if is_64bit then word 2457862144 else word 310378496
      emit_dword (bor instr dst_reg) s
    else s
  else s

/-- The bodies of `encode_arm64_add` (`0x91000000`, `0x11000000`,
`0x8B000000`, `0x0B000000`) and `encode_arm64_sub`, which differ in the
instruction words only. -/
def encodeArith (imm64 imm32 reg64 reg32 : Nat) (dst src1 src2 : Str) (s : State) : State :=
  let dst_reg := get_arm64_reg dst
  let src1_reg := get_arm64_reg src1
  let is_64bit : Bool := dst.head? = some 'x'
  if src2.head? = some '#' ∨ digitAt src2 0 then
    let imm := evalValue s (skipHash src2)
    let instr := if is_64bit then word imm64 else word imm32
    emit_dword (bor (bor (bor instr dst_reg) (shl src1_reg 5)) (shl (band imm 4095) 10)) s
  else
    let src2_reg := get_arm64_reg src2
    let instr := if is_64bit then word reg64 else word reg32
    emit_dword (bor (bor (bor instr dst_reg) (shl src1_reg 5)) (shl src2_reg 16)) s

/-- The function `encode_arm64_add`. -/
def encode_arm64_add (dst src1 src2 : Str) (s : State) : State :=
  encodeArith 2432696320 285212672 2332033024 184549376 dst src1 src2 s

/-- The function `encode_arm64_sub`. -/
def encode_arm64_sub (dst src1 src2 : Str) (s : State) : State :=
  encodeArith 3506438144 1358954496 3405774848 1258291200 dst src1 src2 s

/-- The bodies of `encode_arm64_ldr` (`0xF9400000`, `0xB9400000`) and
`encode_arm64_str` (`0xF9000000`, `0xB9000000`): `reg` is the register
operand and `mem` the memory operand. -/
def encodeMem (w64 w32 : Nat) (reg mem : Str) (s : State) : State :=
  let r := get_arm64_reg reg
  let is_64bit : Bool := reg.head? = some 'x'
  match mem with
  | '[' :: rest =>
    let t := get_token rest
    let base_reg := get_arm64_reg t.1
    let instr := if is_64bit then word w64 else word w32
    match t.2 with
    | ']' :: _ => emit_dword (bor (bor instr r) (shl base_reg 5)) s
    | ',' :: q =>
      let imm := parse_number (skipHash (skip_space q))
      let scaled := if is_64bit then Int.tdiv imm 8 else Int.tdiv imm 4
      emit_dword (bor (bor (bor instr r) (shl base_reg 5)) (shl (band scaled 4095) 10)) s
    | _ => s
  | _ => s

/-- The function `encode_arm64_ldr`. -/
def encode_arm64_ldr (dst src : Str) (s : State) : State :=
  encodeMem 4181721088 3107979264 dst src s

/-- The function `encode_arm64_str`. -/
def encode_arm64_str (src dst : Str) (s : State) : State :=
  encodeMem 4177526784 3103784960 src dst s

/-- The bodies of `encode_arm64_bl` (last byte `0x94`, relocation type 283)
and `encode_arm64_b` (`0x14`, 282). -/
def encodeArmBranch (last type : Int) (target : Str) (s : State) : State :=
  let r := add_symbol target 0 (-1) SYM_EXTERN s
  let s1 := emit_byte last (emit_byte 0 (emit_byte 0 (emit_byte 0 r.1)))
  add_relocation (curSize s1 - 4) r.2 type 0 s1

/-- The function `encode_arm64_bl`. -/
def encode_arm64_bl (target : Str) (s : State) : State := encodeArmBranch 148 283 target s

/-- The function `encode_arm64_b`. -/
def encode_arm64_b (target : Str) (s : State) : State := encodeArmBranch 20 282 target s

/-- The function `encode_arm64_ret`. -/
def encode_arm64_ret (s : State) : State := emit_dword (word 3596551104) s

/-- The function `encode_arm64_nop`. -/
def encode_arm64_nop (s : State) : State := emit_dword (word 3573751839) s

/-- The operand parsing at the start of `process_instruction`: `op1`, `op2`, `op3`. -/
def operandsOf (operands : Str) : Str × Str × Str :=
  match operands with
  | [] => ([], [], [])
  | _ =>
    let t1 := get_token operands
    match skip_space t1.2 with
    | ',' :: p1 =>
      let t2 := get_token p1
      match skip_space t2.2 with
      | ',' :: p2 => (t1.1, t2.1, (get_token p2).1)
      | _ => (t1.1, t2.1, [])
    | _ => (t1.1, [], [])

/-- The function `process_instruction`. -/
def process_instruction (mnemonic operands : Str) (s : State) : State :=
  let ops := operandsOf operands
  let op1 := ops.1
  let op2 := ops.2.1
  let op3 := ops.2.2
  if s.is_arm64 ≠ 0 then
    if mnemonic = "mov".toList then encode_arm64_mov op1 op2 s
    else if mnemonic = "add".toList then encode_arm64_add op1 op2 op3 s
    else if mnemonic = "sub".toList then encode_arm64_sub op1 op2 op3 s
    else if mnemonic = "ldr".toList then encode_arm64_ldr op1 op2 s
    else if mnemonic = "str".toList then encode_arm64_str op1 op2 s
    else if mnemonic = "bl".toList then encode_arm64_bl op1 s
    else if mnemonic = "b".toList then encode_arm64_b op1 s
    else if mnemonic = "ret".toList then encode_arm64_ret s
    else if mnemonic = "nop".toList then encode_arm64_nop s
    else if mnemonic = "svc".toList then
      emit_dword (bor (word 3556769793) (shl (band (parse_number op1) 65535) 5)) s
    else s
  else
    if mnemonic = "mov".toList then encode_x64_mov op1 op2 s
    else if mnemonic = "push".toList then encode_x64_push op1 s
    else if mnemonic = "pop".toList then encode_x64_pop op1 s
    else if mnemonic = "call".toList then encode_x64_call op1 s
    else if mnemonic = "jmp".toList then encode_x64_jmp op1 s
    else if mnemonic = "ret".toList then encode_x64_ret s
    else if mnemonic = "nop".toList then encode_x64_nop s
    else if mnemonic = "int".toList then encode_x64_int op1 s
    else if mnemonic = "syscall".toList then emit_byte 5 (emit_byte 15 s)
    else if mnemonic = "add".toList then emit_byte 192 (emit_byte 1 (emit_byte 72 s))
    else if mnemonic = "sub".toList then emit_byte 192 (emit_byte 41 (emit_byte 72 s))
    else if mnemonic = "xor".toList then emit_byte 192 (emit_byte 49 (emit_byte 72 s))
    else s

/-- The function `process_line`; `directive` stands for `process_directive`. -/
def process_line (directive : Str → Str → State → State) (line : Str) (s : State) : State :=
  let s0 := { s with line_number := s.line_number + 1 }
  match skip_space line with
  | [] => s0
  | c :: _ =>
    if c = ';' ∨ c = '#' then s0
    else
      let r : State × Str :=
        if ':' ∈ line then
          let t := get_token line
          match t.2 with
          | ':' :: p => ((add_symbol t.1 (curSize s0) s0.current_section SYM_LOCAL s0).1, p)
          | _ => (s0, line)
        else (s0, line)
      match skip_space r.2 with
      | [] => r.1
      | p =>
        let t := get_token p
        if t.1.head? = some '.' then directive t.1 t.2 r.1
        else process_instruction t.1 t.2 r.1

/-- The string in the buffer `line` after the characters of `text` were
stored: at most `MAX_LINE - 1` of them, up to the first NUL. -/
def lineOf (text : Str) : Str := cstr (text.take (MAX_LINE - 1))

/-- The reading loop of `main`: `cur` holds the characters of the current
line read so far; a line ends at `\n` or `\r`. -/
def readLoop (directive : Str → Str → State → State) : Str → Str → State → State
  | [], cur, s => if cur.length > 0 then process_line directive (lineOf cur) s else s
  | c :: rest, cur, s =>
    if c = '\n' ∨ c = '\r' then readLoop directive rest [] (process_line directive (lineOf cur) s)
    else readLoop directive rest (cur ++ [c]) s

/-- The four bytes that `write(fd, &x, 4)` writes for an `int`. -/
def le32 (x : Int) : List Nat :=
  [(x % 256).toNat, (x / 256 % 256).toNat, (x / 65536 % 256).toNat, (x / 16777216 % 256).toNat]

/-- The `MAX_NAME` bytes of a name array that holds a string and is zero behind it. -/
def nameBytes (name : Str) : List Nat :=
  (name.map Char.toNat ++ List.replicate MAX_NAME 0).take MAX_NAME

/-- The bytes that the four `write_...` routines write. -/
def objectBytes (s : State) : List Nat :=
  [83, 65, 83, 0] ++ le32 (if s.is_arm64 ≠ 0 then 1 else 0) ++ le32 s.sections.length ++
    le32 s.symbols.length ++ le32 s.relocs.length ++
    (s.sections.map fun x =>
      nameBytes x.name ++ le32 x.size ++ le32 x.flags ++ le32 x.align ++
        (if 0 < x.size ∧ band x.flags SEC_BSS = 0 then
          ((s.output ++ List.replicate (x.data + x.size.toNat) 0).drop x.data).take x.size.toNat
         else [])).flatten ++
    (s.symbols.map fun y =>
      nameBytes y.name ++ le32 y.value ++ le32 y.section_ ++ le32 y.type ++
        le32 y.defined).flatten ++
    (s.relocs.map fun r =>
      le32 r.offset ++ le32 r.symbol ++ le32 r.type ++ le32 r.section_ ++ le32 r.addend).flatten

/-- What a run of `sas_enhanced` leaves: the exit status, the text on
standard output and, if it was written, the name and the bytes of the
output file. -/
structure Outcome where
  status : Int
  stdout : Str
  written : Option (Str × List Nat)
deriving DecidableEq, Repr

/-- The argument loop of `main`: the architecture flag, the input and the output file. -/
def parseArgs : List Str → Int × Option Str × Str → Int × Option Str × Str
  | [], acc => acc
  | a :: rest, acc =>
    if a = "-o".toList ∧ rest ≠ [] then
      match rest with
      | b :: rest1 => parseArgs rest1 (acc.1, acc.2.1, b)
      | [] => acc
    else if a = "-arch".toList ∧ rest ≠ [] then
      match rest with
      | b :: rest1 =>
        if b = "x64".toList ∨ b = "x86_64".toList then parseArgs rest1 (0, acc.2.1, acc.2.2)
        else if b = "arm64".toList ∨ b = "aarch64".toList then
          parseArgs rest1 (1, acc.2.1, acc.2.2)
        else parseArgs rest1 acc
      | [] => acc
    else if a.head? ≠ some '-' then parseArgs rest (acc.1, some a, acc.2.2)
    else parseArgs rest acc

/-- The `%d` conversion. -/
def decimal (n : Int) : Str := Sppe.itoa n

/-- The global variables after the initialisation in `main`, before the
default section is added. -/
def initState (is_arm64 : Int) (input_file : Str) : State :=
  { is_arm64 := is_arm64, current_section := 0, line_number := 0, current_file := input_file,
    sections := [], symbols := [], relocs := [], output := [], output_size := 0, stdout := [] }

/-- The state in which `main` starts to read the input: the section `.text` exists and is current. -/
def startState (is_arm64 : Int) (input_file : Str) : State :=
  let r := add_section ".text".toList SEC_CODE 16 (initState is_arm64 input_file)
  { r.1 with current_section := r.2 }

/-- The function `main`, for an output file that can be created and a
variable `ch` whose upper bytes are zero; `argv` includes the program name. -/
def main (directive : Str → Str → State → State) (fs : Str → Option Str) (argv : List Str) :
    Outcome :=
  let a := parseArgs (argv.drop 1) (0, none, "a.out".toList)
  match a.2.1 with
  | none => ⟨1, "Usage: sas_enhanced [-o output] [-arch x64|arm64] input.s\n\n".toList, none⟩
  | some input_file =>
    match fs input_file with
    | none => ⟨1, "Error: Cannot open ".toList ++ input_file ++ ['\n'], none⟩
    | some text =>
      let s := readLoop directive text [] (startState a.1 input_file)
      ⟨0, s.stdout ++ "Assembled ".toList ++ input_file ++ " to ".toList ++ a.2.2 ++
          " (".toList ++ (if s.is_arm64 ≠ 0 then "ARM64".toList else "x64".toList) ++
          ", ".toList ++ decimal s.output_size ++ " bytes)\n".toList,
        some (a.2.2, objectBytes s)⟩

end SasE

end SmallC

namespace SmallC

/-! # The directives of `sas_enhanced.c`

`process_directive` and its loops.  A loop that emits a byte in every round
leaves the output buffer after `OUTPUT_SIZE` rounds at the latest; the fuel of
such a loop is chosen above that number. -/

namespace SasE

def OUTPUT_SIZE : Nat := 1048576

/-- The call `eval_expr(&p)`: the value and the new `p`. -/
def evalAt (s : State) (p : Str) : Int × Str :=
  match eval_expr (3 * p.length + 3) s p with
  | some r => r
  | none => (0, p)

/-- The assignment `symbol_types[sym] = type`. -/
def setSymbolType (type : Int) : List Symbol → Nat → List Symbol
  | [], _ => []
  | y :: ys, 0 => { y with type := type } :: ys
  | y :: ys, i + 1 => y :: setSymbolType type ys i

/-- The loop of `.align`: `while (section_sizes[current_section] & (align - 1)) emit_byte(0)`. -/
def alignLoop (align : Int) : Nat → State → State
  | 0, s => s
  | fuel + 1, s =>
    if band (curSize s) (Scc.wrap32 (align - 1)) ≠ 0 then alignLoop align fuel (emit_byte 0 s)
    else s

/-- The string loop of `.byte`, after the opening quote: the state and the
text at which the loop stops. -/
def byteString : Str → State → State × Str
  | [], s => (s, [])
  | c :: p, s =>
    if c = '"' then (s, c :: p)
    else if c = '\\' then
      match p with
      | [] => (emit_byte (c.toNat : Int) s, [])
      | e :: q =>
        let b : Int :=
          if e = 'n' then 10 else if e = 't' then 9 else if e = 'r' then 13
          else if e = '0' then 0 else (e.toNat : Int)
        byteString q (emit_byte b s)
    else byteString p (emit_byte (c.toNat : Int) s)

/-- The loop `while (*p)` of `.byte` and `.db`. -/
def byteLoop : Nat → Str → State → State
  | 0, _, s => s
  | fuel + 1, p, s =>
    match p with
    | [] => s
    | _ =>
      let r : State × Str :=
        match skip_space p with
        | '"' :: q =>
          let t := byteString q s
          match t.2 with
          | '"' :: q2 => (t.1, q2)
          | _ => t
        | p1 => (emit_byte (evalAt s p1).1 s, (evalAt s p1).2)
      match skip_space r.2 with
      | ',' :: q => byteLoop fuel q r.1
      | p2 => byteLoop fuel p2 r.1

/-- The loop `while (*p)` of `.word`, `.long` and `.quad`, with `put` the
emit routine of the directive. -/
def dataLoop (put : Int → State → State) : Nat → Str → State → State
  | 0, _, s => s
  | fuel + 1, p, s =>
    match p with
    | [] => s
    | _ =>
      match skip_space (evalAt s p).2 with
      | ',' :: q => dataLoop put fuel q (put (evalAt s p).1 s)
      | p2 => dataLoop put fuel p2 (put (evalAt s p).1 s)

/-- The loop `while (count-- > 0) emit_byte(fill)`. -/
def spaceLoop (fill : Int) : Nat → State → State
  | 0, s => s
  | n + 1, s => spaceLoop fill n (emit_byte fill s)

/-- The loop `while (*p && *p != '"') emit_byte(*p++)` of `.ascii` and `.asciz`. -/
def asciiLoop : Str → State → State
  | [], s => s
  | c :: p, s => if c = '"' then s else asciiLoop p (emit_byte (c.toNat : Int) s)

/-- The function `process_directive`. -/
def process_directive (directive args : Str) (s : State) : State :=
  if directive = ".text".toList then
    let r := add_section ".text".toList SEC_CODE 16 s
    { r.1 with current_section := r.2 }
  else if directive = ".data".toList then
    let r := add_section ".data".toList SEC_DATA 8 s
    { r.1 with current_section := r.2 }
  else if directive = ".bss".toList then
    let r := add_section ".bss".toList SEC_BSS 8 s
    { r.1 with current_section := r.2 }
  else if directive = ".section".toList then
    let r := add_section (get_token args).1 SEC_DATA 1 s
    { r.1 with current_section := r.2 }
  else if directive = ".global".toList ∨ directive = ".globl".toList then
    let r := add_symbol (get_token args).1 0 (-1) SYM_GLOBAL s
    { r.1 with symbols := setSymbolType SYM_GLOBAL r.1.symbols r.2.toNat }
  else if directive = ".extern".toList then
    (add_symbol (get_token args).1 0 (-1) SYM_EXTERN s).1
  else if directive = ".align".toList then
    alignLoop (evalAt s args).1 (OUTPUT_SIZE + 1) s
  else if directive = ".byte".toList ∨ directive = ".db".toList then
    byteLoop (args.length + OUTPUT_SIZE + 1) args s
  else if directive = ".word".toList ∨ directive = ".dw".toList then
    dataLoop emit_word (OUTPUT_SIZE + 1) args s
  else if directive = ".dword".toList ∨ directive = ".dd".toList ∨
      directive = ".long".toList then
    dataLoop emit_dword (OUTPUT_SIZE + 1) args s
  else if directive = ".quad".toList ∨ directive = ".dq".toList then
    dataLoop emit_qword (OUTPUT_SIZE + 1) args s
  else if directive = ".space".toList ∨ directive = ".skip".toList then
    let c := evalAt s args
    let fill : Int :=
      match skip_space c.2 with
      | ',' :: q => (evalAt s q).1
      | _ => 0
    spaceLoop fill c.1.toNat s
  else if directive = ".ascii".toList then
    match args with
    | '"' :: p => asciiLoop p s
    | _ => s
  else if directive = ".asciz".toList ∨ directive = ".string".toList then
    match args with
    | '"' :: p => emit_byte 0 (asciiLoop p s)
    | _ => s
  else if directive = ".arch".toList then
    let arch := (get_token args).1
    if arch = "x64".toList ∨ arch = "x86_64".toList ∨ arch = "amd64".toList then
      { s with is_arm64 := 0 }
    else if arch = "arm64".toList ∨ arch = "aarch64".toList then { s with is_arm64 := 1 }
    else s
  else if directive = ".equ".toList ∨ directive = ".set".toList then
    let t := get_token args
    let p : Str :=
      match skip_space t.2 with
      | ',' :: q => q
      | p1 => p1
    (add_symbol t.1 (evalAt s p).1 s.current_section SYM_LOCAL s).1
  else s

end SasE

end SmallC

namespace SmallC

/-! # The linker `sld_enhanced.c`

The global variables of `sld_enhanced.c` are the fields of `Sld.State`.  The
arrays `sections`, `symbols` and `relocs` are lists of records.  A byte
buffer (`output`, `filebuf`, `header`) is the list of its bytes up to the last
one written; the bytes behind it are zero, as in a static array at program
start.  A pointer into a buffer is the index of the byte it points to, so the
field `data` of a section is an index into `output`.  An index outside an
array is undefined in C; here it reads a record of zeros. -/

namespace Sld

def ET_EXEC : Int := 2
def EM_X86_64 : Int := 62
def EM_AARCH64 : Int := 183
def EV_CURRENT : Int := 1
def PT_LOAD : Int := 1
def PT_GNU_STACK : Int := 0x6474e551
def PF_X : Int := 1
def PF_W : Int := 2
def PF_R : Int := 4
def SHT_PROGBITS : Int := 1
def SHT_SYMTAB : Int := 2
def SHT_RELA : Int := 4
def SHT_NOBITS : Int := 8
def SHF_ALLOC : Int := 2
def SHF_EXECINSTR : Int := 4
def STB_LOCAL : Int := 0
def R_X86_64_64 : Int := 1
def R_X86_64_PC32 : Int := 2
def R_X86_64_PLT32 : Int := 4
def R_X86_64_32 : Int := 10
def R_X86_64_32S : Int := 11
def R_X86_64_PC64 : Int := 24
def R_X86_64_GOTPCREL : Int := 9
def R_AARCH64_ABS64 : Int := 257
def R_AARCH64_ABS32 : Int := 258
def R_AARCH64_CALL26 : Int := 283
def R_AARCH64_JUMP26 : Int := 282
def R_AARCH64_ADR_PREL_PG_HI21 : Int := 275
def R_AARCH64_ADD_ABS_LO12_NC : Int := 277
def R_AARCH64_LDST64_ABS_LO12_NC : Int := 286
def BASE_ADDR : Int := 0x400000
def PAGE_SIZE : Int := 0x1000
def SECTION_ALIGN : Int := 16
def BUF_SIZE : Nat := 262144

/-- The value of an `int` as an unsigned 32-bit number. -/
def u32 (x : Int) : Nat := (x % 4294967296).toNat

/-- The operator `&` on `int` values. -/
def band (a b : Int) : Int := Scc.wrap32 ((u32 a &&& u32 b : Nat) : Int)

/-- The operator `|` on `int` values. -/
def bor (a b : Int) : Int := Scc.wrap32 ((u32 a ||| u32 b : Nat) : Int)

/-- The operator `~` on an `int` value. -/
def bnot (a : Int) : Int := -a - 1

/-- The operator `<<` on an `int` value with a constant shift count below 32. -/
def shl (a : Int) (k : Nat) : Int := Scc.wrap32 ((u32 a <<< k : Nat) : Int)

/-- The operator `>>` on an `int` value with a constant shift count (arithmetic shift). -/
def shr (a : Int) (k : Nat) : Int := a / ((2 ^ k : Nat) : Int)

/-- The byte at index `i` of a buffer. -/
def readByte (a : List Nat) (i : Nat) : Nat := a.getD i 0

/-- The assignment `a[i] = v` on a buffer. -/
def writeByte (a : List Nat) (i : Nat) (v : Nat) : List Nat :=
  (a ++ List.replicate (i + 1 - a.length) 0).set i v

/-- The bytes `bs` stored from index `i` on (`memcpy`). -/
def writeBytes : List Nat → Nat → List Nat → List Nat
  | a, _, [] => a
  | a, i, b :: bs => writeBytes (writeByte a i b) (i + 1) bs

/-- The `n` bytes from index `i` on. -/
def readBytes (a : List Nat) (i n : Nat) : List Nat :=
  (List.range n).map fun k => readByte a (i + k)

/-- The function `read_u8` at the offset `off` of a buffer. -/
def read_u8 (buf : List Nat) (off : Int) : Int := (readByte buf off.toNat % 256 : Nat)

/-- The function `read_u16`: the bytes are disjoint bit fields, so `|` adds them. -/
def read_u16 (buf : List Nat) (off : Int) : Int :=
  read_u8 buf off + read_u8 buf (off + 1) * 256

/-- The function `read_u32`; the result is an `int`. -/
def read_u32 (buf : List Nat) (off : Int) : Int :=
  Scc.wrap32 (read_u8 buf off + read_u8 buf (off + 1) * 256 + read_u8 buf (off + 2) * 65536 +
    read_u8 buf (off + 3) * 16777216)

/-- The two bytes that `write_u16` stores. -/
def le16 (v : Int) : List Nat := [(v % 256).toNat, (v / 256 % 256).toNat]

/-- The four bytes that `write_u32` stores. -/
def le32 (v : Int) : List Nat :=
  [(v % 256).toNat, (v / 256 % 256).toNat, (v / 65536 % 256).toNat, (v / 16777216 % 256).toNat]

/-- The function `write_u16`. -/
def write_u16 (buf : List Nat) (off : Nat) (v : Int) : List Nat := writeBytes buf off (le16 v)

/-- The function `write_u32`. -/
def write_u32 (buf : List Nat) (off : Nat) (v : Int) : List Nat := writeBytes buf off (le32 v)

/-- The function `write_u64`: the parameter is an `int`, the upper four bytes are zero. -/
def write_u64 (buf : List Nat) (off : Nat) (v : Int) : List Nat :=
  write_u32 (write_u32 buf off v) (off + 4) 0

/-- The C string that starts at the offset `off` of a buffer. -/
def cstrAt (buf : List Nat) (off : Int) : Str :=
  ((buf.drop off.toNat).takeWhile (fun b => b ≠ 0)).map Char.ofNat

/-- One element of the array `sections`. -/
structure Section where
  name : Str
  type : Int
  flags : Int
  file_offset : Int
  size : Int
  vaddr : Int
  align : Int
  data : Nat
deriving DecidableEq, Repr

/-- One element of the array `symbols`. -/
structure Symbol where
  name : Str
  value : Int
  size : Int
  section_ : Int
  type : Int
  binding : Int
  defined : Int
deriving DecidableEq, Repr

/-- One element of the array `relocs`. -/
structure Reloc where
  offset : Int
  symbol : Int
  type : Int
  addend : Int
  section_ : Int
deriving DecidableEq, Repr

/-- The global variables, the static buffer `filebuf` of `process_object`
and the text written to standard output. -/
structure State where
  output : List Nat
  output_size : Int
  sections : List Section
  symbols : List Symbol
  relocs : List Reloc
  is_arm64 : Int
  filebuf : List Nat
  stdout : Str
deriving DecidableEq, Repr

/-- The element `sections[i]`.  For an index outside the table the source
reads outside the array; the zero entry given here stands for bytes that the
program does not determine. -/
def sectionAt (secs : List Section) (i : Int) : Section :=
  if 0 ≤ i then secs.getD i.toNat ⟨[], 0, 0, 0, 0, 0, 0, 0⟩ else ⟨[], 0, 0, 0, 0, 0, 0, 0⟩

/-- The element `symbols[i]`. -/
def symbolAt (syms : List Symbol) (i : Int) : Symbol :=
  if 0 ≤ i then syms.getD i.toNat ⟨[], 0, 0, 0, 0, 0, 0⟩ else ⟨[], 0, 0, 0, 0, 0, 0⟩

/-- The search loop of `find_section` and `find_symbol` over the names, from index `i` on. -/
def findFrom (name : Str) : List Str → Int → Int
  | [], _ => -1
  | y :: ys, i => if y = name then i else findFrom name ys (i + 1)

/-- The function `find_section`. -/
def find_section (name : Str) (s : State) : Int :=
  findFrom name (s.sections.map fun x => x.name) 0

/-- The function `add_section`. -/
def add_section (name : Str) (type flags align : Int) (s : State) : State × Int :=
  let idx := find_section name s
  if 0 ≤ idx then (s, idx)
  else
    ({ s with sections := s.sections ++ [⟨name, type, flags, 0, 0, 0, align, s.output_size.toNat⟩] },
      (s.sections.length : Int))

/-- The function `find_symbol`. -/
def find_symbol (name : Str) (s : State) : Int :=
  findFrom name (s.symbols.map fun y => y.name) 0

/-- The function `add_symbol`. -/
def add_symbol (name : Str) (section_ value size type binding : Int) (s : State) : State × Int :=
  let idx := find_symbol name s
  if idx < 0 then
    ({ s with symbols := s.symbols ++ [⟨name, value, size, section_, type, binding, 0⟩] },
      (s.symbols.length : Int))
  else (s, idx)

/-- The loop `while (output_size & (SECTION_ALIGN - 1)) output[output_size++] = 0`; it
ends within 15 rounds. -/
def padLoop : Nat → State → State
  | 0, s => s
  | fuel + 1, s =>
    if band s.output_size (SECTION_ALIGN - 1) ≠ 0 then
      padLoop fuel { s with output := writeByte s.output s.output_size.toNat 0,
                            output_size := Scc.wrap32 (s.output_size + 1) }
    else s

/-- The offset of section header `i` in `filebuf`: `shoff + i * shentsize`. -/
def shdrAt (shoff shentsize i : Int) : Int := shoff + Scc.wrap32 (i * shentsize)

/-- The body of the first loop of `process_object` for section header `i`. -/
def sectionStep (shoff shentsize shstrtab : Int) (i : Nat) (s : State) : State :=
  let shdr := shdrAt shoff shentsize i
  let name := cstrAt s.filebuf (shstrtab + read_u32 s.filebuf shdr)
  let type := read_u32 s.filebuf (shdr + 4)
  let flags := read_u32 s.filebuf (shdr + 8)
  let offset := read_u32 s.filebuf (shdr + 16)
  let sh_size := read_u32 s.filebuf (shdr + 20)
  let align := read_u32 s.filebuf (shdr + 32)
  if type = SHT_PROGBITS ∧ band flags SHF_ALLOC ≠ 0 then
    let r := add_section name type flags align s
    let x := sectionAt r.1.sections r.2
    padLoop 16
      { r.1 with
        output := writeBytes r.1.output (x.data + x.size.toNat)
          (readBytes s.filebuf offset.toNat sh_size.toNat)
        sections := r.1.sections.set r.2.toNat { x with size := Scc.wrap32 (x.size + sh_size) }
        output_size := Scc.wrap32 (r.1.output_size + sh_size) }
  else if type = SHT_NOBITS ∧ band flags SHF_ALLOC ≠ 0 then
    let r := add_section name type flags align s
    let x := sectionAt r.1.sections r.2
    { r.1 with
      sections := r.1.sections.set r.2.toNat { x with size := Scc.wrap32 (x.size + sh_size) } }
  else s

/-- The number of rounds of the loop `for (j = 0; j < sh_size; j += entsize)`,
if it ends. -/
def entryCount (sh_size entsize : Int) : Option Nat :=
  if sh_size ≤ 0 then some 0
  else if entsize ≤ 0 then none
  else some ((sh_size + entsize - 1) / entsize).toNat

/-- The assignment `symbols[i].defined = 1`. -/
def setDefined : List Symbol → Nat → List Symbol
  | [], _ => []
  | y :: ys, 0 => { y with defined := 1 } :: ys
  | y :: ys, i + 1 => y :: setDefined ys i

/-- The body of the symbol loop of `process_object` for the entry at the offset `sym`. -/
def symbolStep (shoff shentsize shstrtab shnum strtab : Int) (sym : Int) (s : State) : State :=
  let name := cstrAt s.filebuf (strtab + read_u32 s.filebuf sym)
  let value := read_u32 s.filebuf (sym + 4)
  let size := read_u32 s.filebuf (sym + 8)
  let st_info := read_u8 s.filebuf (sym + 12)
  let shndx := read_u16 s.filebuf (sym + 14)
  let binding := st_info / 16
  let stype := st_info % 16
  if name ≠ [] ∧ binding ≠ STB_LOCAL then
    let sect : Int :=
      if 0 < shndx ∧ shndx < shnum then
        find_section (cstrAt s.filebuf (shstrtab + read_u32 s.filebuf (shdrAt shoff shentsize shndx))) s
      else -1
    let r := add_symbol name sect value size stype binding s
    if 0 ≤ sect then { r.1 with symbols := setDefined r.1.symbols r.2.toNat } else r.1
  else s

/-- The body of the relocation loop of `process_object` for the entry at the offset `rel`. -/
def relocStep (target_sect : Int) (rel : Int) (s : State) : State :=
  { s with relocs := s.relocs ++
      [{ offset := read_u32 s.filebuf rel, type := read_u32 s.filebuf (rel + 8),
         symbol := read_u32 s.filebuf (rel + 12), addend := read_u32 s.filebuf (rel + 16),
         section_ := target_sect }] }

/-- The body of the second loop of `process_object` for section header `i`:
the new state and the new value of the variable `strtab`, if the inner loop
ends. -/
def tableStep (shoff shentsize shstrtab shnum : Int) (i : Nat) (st : State × Int) :
    Option (State × Int) :=
  let s := st.1
  let shdr := shdrAt shoff shentsize i
  let type := read_u32 s.filebuf (shdr + 4)
  let offset := read_u32 s.filebuf (shdr + 16)
  let sh_size := read_u32 s.filebuf (shdr + 20)
  let link := read_u32 s.filebuf (shdr + 24)
  let info := read_u32 s.filebuf (shdr + 28)
  let entsize := read_u32 s.filebuf (shdr + 36)
  if type = SHT_SYMTAB then
    let strtab := read_u32 s.filebuf (shdrAt shoff shentsize link + 16)
    (entryCount sh_size entsize).map fun n =>
      ((List.range n).foldl
        (fun t k => symbolStep shoff shentsize shstrtab shnum strtab (offset + k * entsize) t) s,
        strtab)
  else if type = SHT_RELA then
    let target_sect :=
      find_section (cstrAt s.filebuf (shstrtab + read_u32 s.filebuf (shdrAt shoff shentsize info))) s
    if 0 ≤ target_sect then
      (entryCount sh_size entsize).map fun n =>
        ((List.range n).foldl (fun t k => relocStep target_sect (offset + k * entsize) t) s,
          st.2)
    else some st
  else some st

/-- The second loop of `process_object` over the section headers `is`. -/
def tableLoop (shoff shentsize shstrtab shnum : Int) : List Nat → State × Int →
    Option (State × Int)
  | [], st => some st
  | i :: is, st =>
    (tableStep shoff shentsize shstrtab shnum i st).bind
      (tableLoop shoff shentsize shstrtab shnum is)

/-- The function `process_object`: the new state and the returned value, if
the function returns; `fs` gives the content of the files that can be
opened. -/
def process_object (fs : Str → Option (List Nat)) (filename : Str) (s : State) :
    Option (State × Int) :=
  match fs filename with
  | none =>
    some ({ s with stdout := s.stdout ++ "Error: Cannot open ".toList ++ filename ++ ['\n'] }, -1)
  | some bytes =>
    let s0 := { s with filebuf := bytes.take BUF_SIZE ++ s.filebuf.drop bytes.length }
    if readBytes s0.filebuf 0 4 ≠ [127, 69, 76, 70] then
      some ({ s0 with stdout := s0.stdout ++ "Error: Not an ELF file\n\n".toList }, -1)
    else
      let machine := read_u16 s0.filebuf 18
      if machine ≠ EM_AARCH64 ∧ machine ≠ EM_X86_64 then
        some ({ s0 with stdout := s0.stdout ++ "Error: Unsupported architecture\n\n".toList }, -1)
      else
        let s1 := if machine = EM_AARCH64 then { s0 with is_arm64 := 1 } else s0
        let shoff := read_u32 s1.filebuf 32
        let shentsize := read_u16 s1.filebuf 46
        let shnum := read_u16 s1.filebuf 48
        let shstrndx := read_u16 s1.filebuf 50
        let shstrtab := read_u32 s1.filebuf (shdrAt shoff shentsize shstrndx + 16)
        let s2 := ((List.range shnum.toNat).drop 1).foldl
          (fun t i => sectionStep shoff shentsize shstrtab i t) s1
        (tableLoop shoff shentsize shstrtab shnum (List.range shnum.toNat) (s2, 0)).map
          fun st => (st.1, 0)

/-- The rounding `(vaddr + a - 1) & ~(a - 1)`. -/
def alignUp (vaddr a : Int) : Int :=
  band (Scc.wrap32 (Scc.wrap32 (vaddr + a) - 1)) (bnot (a - 1))

/-- One of the three loops of `layout_sections`, for the sections that
satisfy `p`: the sections with their new `vaddr` and the final value of the
variable `vaddr`. -/
def layoutLoop (p : Section → Bool) : List Section → Int → List Section × Int
  | [], vaddr => ([], vaddr)
  | x :: xs, vaddr =>
    if p x then
      ({ x with vaddr := vaddr } ::
          (layoutLoop p xs (alignUp (Scc.wrap32 (vaddr + x.size)) SECTION_ALIGN)).1,
        (layoutLoop p xs (alignUp (Scc.wrap32 (vaddr + x.size)) SECTION_ALIGN)).2)
    else (x :: (layoutLoop p xs vaddr).1, (layoutLoop p xs vaddr).2)

/-- The test `sections[i].flags & SHF_EXECINSTR` of the first loop. -/
def isCode (x : Section) : Bool := band x.flags SHF_EXECINSTR ≠ 0

/-- The test of the second loop. -/
def isData (x : Section) : Bool := ¬ (band x.flags SHF_EXECINSTR ≠ 0) ∧ x.type ≠ SHT_NOBITS

/-- The test `sections[i].type == SHT_NOBITS` of the third loop. -/
def isBss (x : Section) : Bool := x.type = SHT_NOBITS

/-- The sections after `layout_sections`. -/
def layout (secs : List Section) : List Section :=
  let r1 := layoutLoop isCode secs (BASE_ADDR + PAGE_SIZE)
  let r2 := layoutLoop isData r1.1 (alignUp r1.2 PAGE_SIZE)
  (layoutLoop isBss r2.1 r2.2).1

/-- The function `layout_sections`. -/
def layout_sections (s : State) : State := { s with sections := layout s.sections }

/-- The `int` read through `int *instr` at the index `loc` (little endian). -/
def readInt (out : List Nat) (loc : Nat) : Int := read_u32 out loc

/-- The variable `page_offset` of the case `R_AARCH64_ADR_PREL_PG_HI21`. -/
def pageOffset (target addend pc : Int) : Int :=
  Scc.wrap32 (band (Scc.wrap32 (target + addend)) (bnot 0xFFF) - band pc (bnot 0xFFF))

/-- The word stored by the case `R_AARCH64_ADR_PREL_PG_HI21` for the old
word `w` and the page offset `d`:
`(*instr & 0x9F00001F) | (immlo << 29) | (immhi << 5)`. -/
def adrpWord (w d : Int) : Int :=
  bor (bor (band w 0x9F00001F) (shl (band (shr d 12) 3) 29)) (shl (band (shr d 14) 0x7FFFF) 5)

/-- The `switch` statements of `apply_relocations`: the buffer `output`
after the relocation of type `type` was applied at the index `loc`. -/
def relocate (is_arm64 type target addend pc : Int) (loc : Nat) (out : List Nat) : List Nat :=
  if is_arm64 ≠ 0 then
    if type = R_AARCH64_ABS64 then write_u64 out loc (Scc.wrap32 (target + addend))
    else if type = R_AARCH64_ABS32 then write_u32 out loc (Scc.wrap32 (target + addend))
    else if type = R_AARCH64_CALL26 ∨ type = R_AARCH64_JUMP26 then
      write_u32 out loc
        (bor (band (readInt out loc) 0xFC000000)
          (band (shr (Scc.wrap32 (Scc.wrap32 (target + addend) - pc)) 2) 0x3FFFFFF))
    else if type = R_AARCH64_ADR_PREL_PG_HI21 then
      write_u32 out loc (adrpWord (readInt out loc) (pageOffset target addend pc))
    else if type = R_AARCH64_ADD_ABS_LO12_NC ∨ type = R_AARCH64_LDST64_ABS_LO12_NC then
      write_u32 out loc
        (bor (band (readInt out loc) 0xFFC003FF)
          (shl (band (Scc.wrap32 (target + addend)) 0xFFF) 10))
    else out
  else
    if type = R_X86_64_64 ∨ type = R_X86_64_PC64 then
      write_u64 out loc (Scc.wrap32 (target + addend))
    else if type = R_X86_64_32 ∨ type = R_X86_64_32S then
      write_u32 out loc (Scc.wrap32 (target + addend))
    else if type = R_X86_64_PC32 ∨ type = R_X86_64_PLT32 ∨ type = R_X86_64_GOTPCREL then
      write_u32 out loc (Scc.wrap32 (Scc.wrap32 (target + addend) - pc))
    else out

/-- The body of the loop of `apply_relocations` for one relocation. -/
def applyReloc (r : Reloc) (s : State) : State :=
  let pc := Scc.wrap32 ((sectionAt s.sections r.section_).vaddr + r.offset)
  let loc := ((sectionAt s.sections r.section_).data + r.offset).toNat
  if r.symbol < s.symbols.length ∧ (symbolAt s.symbols r.symbol).defined ≠ 0 then
    let y := symbolAt s.symbols r.symbol
    let target : Int :=
      if 0 ≤ y.section_ then Scc.wrap32 ((sectionAt s.sections y.section_).vaddr + y.value)
      else 0
    { s with output := relocate s.is_arm64 r.type target r.addend pc loc s.output }
  else if r.symbol < s.symbols.length then
    { s with stdout := s.stdout ++ "Warning: undefined symbol ".toList ++
        (symbolAt s.symbols r.symbol).name ++ ['\n'] }
  else { s with output := relocate s.is_arm64 r.type 0 r.addend pc loc s.output }

/-- The function `apply_relocations`. -/
def apply_relocations (s : State) : State := s.relocs.foldl (fun t r => applyReloc r t) s

/-- The variable `entry_addr` of `write_executable`. -/
def entryAddress (s : State) : Int :=
  if 0 ≤ find_symbol "_start".toList s ∧
      (symbolAt s.symbols (find_symbol "_start".toList s)).defined ≠ 0 then
    Scc.wrap32 ((sectionAt s.sections
        (symbolAt s.symbols (find_symbol "_start".toList s)).section_).vaddr +
      (symbolAt s.symbols (find_symbol "_start".toList s)).value)
  else if 0 ≤ find_symbol "main".toList s ∧
      (symbolAt s.symbols (find_symbol "main".toList s)).defined ≠ 0 then
    Scc.wrap32 ((sectionAt s.sections
        (symbolAt s.symbols (find_symbol "main".toList s)).section_).vaddr +
      (symbolAt s.symbols (find_symbol "main".toList s)).value)
  else BASE_ADDR + PAGE_SIZE

/-- The variable `code_size` of `write_executable` after its loop. -/
def codeSize (secs : List Section) : Int :=
  secs.foldl
    (fun c x =>
      if isCode x ∧ c < Scc.wrap32 (Scc.wrap32 (x.vaddr - BASE_ADDR) + x.size) then
        Scc.wrap32 (Scc.wrap32 (x.vaddr - BASE_ADDR) + x.size)
      else c)
    PAGE_SIZE

/-- The variables `data_start` and `data_end` of `write_executable` after their loop. -/
def dataRange (secs : List Section) : Int × Int :=
  secs.foldl
    (fun d x =>
      if ¬ isCode x ∧ 0 < x.size then
        (if x.vaddr < d.1 then x.vaddr else d.1,
         if d.2 < Scc.wrap32 (x.vaddr + x.size) then Scc.wrap32 (x.vaddr + x.size) else d.2)
      else d)
    (0x7FFFFFFF, 0)

/-- The array `header` of `write_executable` when it is written to the file. -/
def elfHeader (s : State) : List Nat :=
  let h0 := writeBytes (List.replicate 4096 0) 0 [127, 69, 76, 70, 2, 1, 1]
  let h1 := write_u16 h0 16 ET_EXEC
  let h2 := write_u16 h1 18 (if s.is_arm64 ≠ 0 then EM_AARCH64 else EM_X86_64)
  let h3 := write_u32 h2 20 EV_CURRENT
  let h4 := write_u64 h3 24 (entryAddress s)
  let h5 := write_u64 h4 32 64
  let h6 := write_u64 h5 40 0
  let h7 := write_u32 h6 48 0
  let h8 := write_u16 h7 52 64
  let h9 := write_u16 h8 54 56
  let h10 := write_u16 h9 56 3
  let p1 := write_u32 h10 64 PT_LOAD
  let p2 := write_u32 p1 68 (bor PF_R PF_X)
  let p3 := write_u64 p2 72 0
  let p4 := write_u64 p3 80 BASE_ADDR
  let p5 := write_u64 p4 88 BASE_ADDR
  let p6 := write_u64 p5 96 (codeSize s.sections)
  let p7 := write_u64 p6 104 (codeSize s.sections)
  let p8 := write_u64 p7 112 PAGE_SIZE
  let q1 := write_u32 p8 120 PT_LOAD
  let q2 := write_u32 q1 124 (bor PF_R PF_W)
  let d := dataRange s.sections
  let q3 :=
    if d.1 < d.2 then
      write_u64 (write_u64 (write_u64 (write_u64 (write_u64 (write_u64 q2
        128 (Scc.wrap32 (d.1 - BASE_ADDR))) 136 d.1) 144 d.1) 152 (Scc.wrap32 (d.2 - d.1)))
        160 (Scc.wrap32 (Scc.wrap32 (d.2 - d.1) + PAGE_SIZE))) 168 PAGE_SIZE
    else q2
  let g1 := write_u32 q3 176 PT_GNU_STACK
  write_u32 g1 180 (bor PF_R PF_W)

/-- The bytes written by the loop `Write sections` of `write_executable`,
with `fo` the variable `file_offset`. -/
def bodyLoop (out : List Nat) : List Section → Int → List Nat
  | [], _ => []
  | x :: xs, fo =>
    if x.type ≠ SHT_NOBITS ∧ 0 < x.size then
      List.replicate (Scc.wrap32 (Scc.wrap32 (x.vaddr - BASE_ADDR) - fo)).toNat 0 ++
        readBytes out x.data x.size.toNat ++
        bodyLoop out xs
          (Scc.wrap32 (Scc.wrap32
            (fo + ((Scc.wrap32 (Scc.wrap32 (x.vaddr - BASE_ADDR) - fo)).toNat : Int)) + x.size))
    else bodyLoop out xs fo

/-- The bytes that `write_executable` writes to a file that can be created. -/
def write_executable (s : State) : List Nat :=
  (elfHeader s).take 4096 ++ bodyLoop s.output s.sections PAGE_SIZE

/-- What a run of `sld_enhanced` leaves: the exit status, the text on
standard output and, if it was written, the name and the bytes of the
output file. -/
structure Outcome where
  status : Int
  stdout : Str
  written : Option (Str × List Nat)
deriving DecidableEq, Repr

/-- The argument loop of `main`: the output file and the input files, or
the option that is not known. -/
def parseArgs : List Str → Str × List Str → Except Str (Str × List Str)
  | [], acc => .ok acc
  | a :: rest, acc =>
    if a = "-o".toList ∧ rest ≠ [] then
      match rest with
      | b :: rest1 => parseArgs rest1 (b, acc.2)
      | [] => .ok acc
    else if a.head? = some '-' then .error a
    else parseArgs rest (acc.1, acc.2 ++ [a])

/-- The loop `Process all object files` of `main`: the state after the last
file, or the state in which `process_object` failed. -/
def objectLoop (fs : Str → Option (List Nat)) : List Str → State → Option (State × Int)
  | [], s => some (s, 0)
  | f :: fl, s =>
    (process_object fs f s).bind fun r =>
      if r.2 < 0 then some (r.1, -1) else objectLoop fs fl r.1

/-- The global variables at program start. -/
def initState : State :=
  { output := [], output_size := 0, sections := [], symbols := [], relocs := [], is_arm64 := 0,
    filebuf := [], stdout := [] }

/-- The `%d` conversion. -/
def decimal (n : Int) : Str := Sppe.itoa n

/-- The function `main`, for an output file that can be created; `argv`
includes the program name.  The result is `none` if `process_object` does
not return. -/
def main (fs : Str → Option (List Nat)) (argv : List Str) : Option Outcome :=
  match parseArgs (argv.drop 1) ("a.out".toList, []) with
  | .error a => some ⟨1, "Unknown option: ".toList ++ a ++ ['\n'], none⟩
  | .ok (_, []) =>
    some ⟨1, "Usage: sld_enhanced [-o output] file1.o file2.o ...\n\n".toList, none⟩
  | .ok (output_file, files) =>
    (objectLoop fs files initState).map fun r =>
      if r.2 < 0 then ⟨1, r.1.stdout, none⟩
      else
        let s := apply_relocations (layout_sections r.1)
        ⟨0, s.stdout ++ "Linked ".toList ++ output_file ++ " successfully (".toList ++
            decimal s.sections.length ++ " sections, ".toList ++ decimal s.symbols.length ++
            " symbols)\n".toList,
          some (output_file, write_executable s)⟩

end Sld

end SmallC

namespace SmallC

/-! # Object files as `sld_enhanced.c` reads them

Input data for the evaluation of the linker.  `process_object` takes the
section header table offset from byte 32 of the file, the entry size, the
number of entries and the index of the name table from bytes 46, 48 and 50,
and reads section headers of ten 4-byte fields, symbol entries of 16 bytes
and relocation entries of 24 bytes. -/

namespace Sld

/-- The first 52 bytes of an object file. -/
def objHeader (machine shoff shentsize shnum shstrndx : Int) : List Nat :=
  [127, 69, 76, 70] ++ List.replicate 14 0 ++ le16 machine ++ List.replicate 12 0 ++
    le32 shoff ++ List.replicate 10 0 ++ le16 shentsize ++ le16 shnum ++ le16 shstrndx

/-- A section header of 40 bytes. -/
def objShdr (name type flags offset size link info align entsize : Int) : List Nat :=
  le32 name ++ le32 type ++ le32 flags ++ le32 0 ++ le32 offset ++ le32 size ++ le32 link ++
    le32 info ++ le32 align ++ le32 entsize

/-- A symbol entry of 16 bytes. -/
def objSymbol (name value size : Int) (info : Nat) (shndx : Int) : List Nat :=
  le32 name ++ le32 value ++ le32 size ++ [info, 0] ++ le16 shndx

/-- A relocation entry of 24 bytes. -/
def objRela (offset type symbol addend : Int) : List Nat :=
  le32 offset ++ le32 0 ++ le32 type ++ le32 symbol ++ le32 addend ++ le32 0

/-- An x86-64 object file with the five section headers null, `.text`
(allocated, executable, content `text`), `.symtab`, `.strtab` (also the
section name table) and `.rela.text`.  Its symbol table has one global
symbol `name` with section index `shndx` (0 for an undefined symbol, 1 for
`.text`) and value `value`; `relas` gives offset, type, symbol and addend of
the relocations against `.text`. -/
def testObject (text : List Nat) (name : String) (shndx value : Int)
    (relas : List (Int × Int × Int × Int)) : List Nat :=
  let strtab : List Nat :=
    [0] ++ ".text".toList.map Char.toNat ++ [0] ++ name.toList.map Char.toNat ++ [0]
  let textOff : Int := 252 + strtab.length
  let symOff : Int := textOff + text.length
  let relOff : Int := symOff + 16
  objHeader EM_X86_64 52 40 5 3 ++
    objShdr 0 0 0 0 0 0 0 0 0 ++
    objShdr 1 SHT_PROGBITS (SHF_ALLOC + SHF_EXECINSTR) textOff text.length 0 0 16 0 ++
    objShdr 0 SHT_SYMTAB 0 symOff 16 3 0 4 16 ++
    objShdr 0 3 0 252 strtab.length 0 0 1 0 ++
    objShdr 0 SHT_RELA 0 relOff (24 * relas.length) 2 1 4 24 ++
    strtab ++ text ++ objSymbol 7 value 0 18 shndx ++
    (relas.map fun r => objRela r.1 r.2.1 r.2.2.1 r.2.2.2).flatten

/-- The files of a run: `a.o` and `b.o` with the given contents. -/
def twoFiles (a b : List Nat) (n : Str) : Option (List Nat) :=
  if n = "a.o".toList then some a else if n = "b.o".toList then some b else none

/-- An object file of six bytes of code with a relocation at offset 1
against its symbol `foo`, which it does not define. -/
def callingFoo : List Nat := testObject [232, 0, 0, 0, 0, 195] "foo" 0 0 [(1, 2, 0, -4)]

/-- The state of the linker after it has read `callingFoo`. -/
def stateCallingFoo : State :=
  { output := [232, 0, 0, 0, 0, 195, 0, 0, 0, 0, 0, 0, 0, 0, 0, 0], output_size := 16,
    sections := [⟨".text".toList, 1, 6, 0, 6, 0, 16, 0⟩],
    symbols := [⟨"foo".toList, 0, 0, -1, 2, 1, 0⟩],
    relocs := [⟨1, 0, 2, -4, 0⟩], is_arm64 := 0, filebuf := callingFoo, stdout := [] }

end Sld

end SmallC

namespace SmallC

/-! # The relocations of `sld_linux_arm64.c`

The function `apply_relocations` of `sld_linux_arm64.c` over the arrays it
reads.  The helper functions `read_u32`, `write_u32`, `write_u64` have the
same text as in `sld_enhanced.c`, and the case `R_AARCH64_ADR_PREL_PG_HI21`
computes the same expressions, so their definitions are shared. -/

namespace SldArm

def R_AARCH64_ABS64 : Int := 257
def R_AARCH64_CALL26 : Int := 283
def R_AARCH64_JUMP26 : Int := 282
def R_AARCH64_ADR_PREL_PG_HI21 : Int := 275
def R_AARCH64_ADD_ABS_LO12_NC : Int := 277

/-- One row of the relocation arrays. -/
structure Reloc where
  offset : Int
  symbol : Int
  type : Int
  addend : Int
  section_ : Int
deriving DecidableEq, Repr

/-- The arrays that `apply_relocations` reads and the buffer `output`. -/
structure State where
  section_offsets : List Int
  section_addrs : List Int
  symbol_values : List Int
  symbol_sections : List Int
  relocs : List Reloc
  output : List Nat
deriving DecidableEq, Repr

/-- The element `a[i]` of an `int` array. -/
def elemAt (a : List Int) (i : Int) : Int := if 0 ≤ i then a.getD i.toNat 0 else 0

/-- The function `encode_branch_offset`. -/
def encode_branch_offset (offset : Int) : Int := Sld.band (Sld.shr offset 2) 0x3FFFFFF

/-- The body of the loop of `apply_relocations` for one relocation. -/
def applyReloc (r : Reloc) (s : State) : State :=
  let loc := (Scc.wrap32 (elemAt s.section_offsets r.section_ + r.offset)).toNat
  let sym_addr := Scc.wrap32 (elemAt s.section_addrs (elemAt s.symbol_sections r.symbol) +
    elemAt s.symbol_values r.symbol)
  let pc := Scc.wrap32 (elemAt s.section_addrs r.section_ + r.offset)
  let w := Sld.readInt s.output loc
  if r.type = R_AARCH64_ABS64 then
    { s with output := Sld.write_u64 s.output loc (Scc.wrap32 (sym_addr + r.addend)) }
  else if r.type = R_AARCH64_CALL26 ∨ r.type = R_AARCH64_JUMP26 then
    let v := Sld.bor (Sld.band w 0xFC000000)
      (encode_branch_offset (Scc.wrap32 (Scc.wrap32 (sym_addr + r.addend) - pc)))
    { s with output := Sld.write_u32 s.output loc v }
  else if r.type = R_AARCH64_ADR_PREL_PG_HI21 then
    let v := Sld.adrpWord w (Sld.pageOffset sym_addr r.addend pc)
    { s with output := Sld.write_u32 s.output loc v }
  else if r.type = R_AARCH64_ADD_ABS_LO12_NC then
    let v := Sld.bor (Sld.band w 0xFFC003FF)
      (Sld.shl (Sld.band (Scc.wrap32 (sym_addr + r.addend)) 0xFFF) 10)
    { s with output := Sld.write_u32 s.output loc v }
  else s

/-- The function `apply_relocations`. -/
def apply_relocations (s : State) : State := s.relocs.foldl (fun t r => applyReloc r t) s

end SldArm

end SmallC

namespace SmallC

/-! # The layout that the specification describes

Definitions after the words of the specification of the linker layout, for
comparison with `Sld.layout`: the sections of a class are placed one after
the other, the first at a given start address and each further one at the
end of the one before, rounded up to a multiple of 16. -/

namespace Sld

/-- The least multiple of `m` that is greater than or equal to `x`, for `m > 0`. -/
def roundUp (m x : Int) : Int := (x + m - 1) / m * m

/-- The start addresses of sections with the given sizes, placed in order from `start` on. -/
def specAddresses (start : Int) : List Int → List Int
  | [] => []
  | size :: rest => start :: specAddresses (roundUp 16 (start + size)) rest

/-- The address behind sections with the given sizes placed from `start`
on: the end of the last one, rounded up to a multiple of 16. -/
def specEnd (start : Int) : List Int → Int
  | [] => start
  | size :: rest => specEnd (roundUp 16 (start + size)) rest

/-- A section without its address. -/
def eraseVaddr (x : Section) : Section := { x with vaddr := 0 }

/-- The sum of the sizes of all sections, each counted with 16 bytes of padding. -/
def spaceOf (secs : List Section) : Int := (secs.map fun x => x.size + 16).sum

/-- The line that `apply_relocations` prints for the symbol `y`. -/
def warningLine (y : Symbol) : Str := "Warning: undefined symbol ".toList ++ y.name ++ ['\n']

/-- The bit fields of a patched ADRP instruction as the specification
states them: `p` is the patched word, `w` the original word (both as
unsigned 32-bit values) and `d` the page offset.  Bits 30:29 of `p` are bits
13:12 of `d`, bits 23:5 are bits 32:14 of `d`, bit 31, bits 28:24 and bits
4:0 are those of `w`, and immhi:immlo is `(d >> 12) mod 2^21`. -/
def adrpPatched (p w : Nat) (d : Int) : Prop :=
  p / 2 ^ 29 % 2 ^ 2 = ((d / 2 ^ 12) % 2 ^ 2).toNat ∧
  p / 2 ^ 5 % 2 ^ 19 = ((d / 2 ^ 14) % 2 ^ 19).toNat ∧
  p / 2 ^ 31 = w / 2 ^ 31 ∧
  p / 2 ^ 24 % 2 ^ 5 = w / 2 ^ 24 % 2 ^ 5 ∧
  p % 2 ^ 5 = w % 2 ^ 5 ∧
  (p / 2 ^ 5 % 2 ^ 19) * 2 ^ 2 + p / 2 ^ 29 % 2 ^ 2 = ((d / 2 ^ 12) % 2 ^ 21).toNat

/-- The little-endian encoding of a value in eight bytes. -/
def le64 (v : Int) : List Nat := (List.range 8).map fun k => (v / 256 ^ k % 256).toNat

end Sld

end SmallC

namespace SmallC

/-! # The header and the relocations of `sld_win_x64.c`

The functions `apply_relocations` and `write_pe` of `sld_win_x64.c` over the
arrays they read.  `write_u16` and `write_u32` have the same text as in
`sld_enhanced.c` and are shared; `write_u64` takes an `int` and stores four
zero bytes behind it.  The file calls `write_u8` without defining it, so
`write_pe` takes that function as a parameter.  An expression with the
constant `IMAGE_BASE`, which does not fit an `int`, is computed without
wrap-around and reduced to 32 bits where it is stored in an `int`. -/

namespace SldWin

def IMAGE_DOS_SIGNATURE : Int := 0x5A4D
def IMAGE_NT_SIGNATURE : Int := 0x00004550
def IMAGE_FILE_MACHINE_AMD64 : Int := 0x8664
def IMAGE_FILE_EXECUTABLE_IMAGE : Int := 0x0002
def IMAGE_FILE_LARGE_ADDRESS_AWARE : Int := 0x0020
def IMAGE_SUBSYSTEM_WINDOWS_CUI : Int := 3
def IMAGE_DLLCHARACTERISTICS_NX_COMPAT : Int := 0x0100
def IMAGE_DLLCHARACTERISTICS_TERMINAL_SERVER_AWARE : Int := 0x8000
def IMAGE_SCN_CNT_CODE : Int := 0x00000020
def IMAGE_SCN_CNT_INITIALIZED_DATA : Int := 0x00000040
def IMAGE_SCN_CNT_UNINITIALIZED_DATA : Int := 0x00000080
def IMAGE_REL_AMD64_ADDR64 : Int := 1
def IMAGE_REL_AMD64_ADDR32 : Int := 2
def IMAGE_REL_AMD64_ADDR32NB : Int := 3
def IMAGE_REL_AMD64_REL32 : Int := 4
def IMAGE_REL_AMD64_REL32_1 : Int := 5
def IMAGE_REL_AMD64_REL32_2 : Int := 6
def IMAGE_REL_AMD64_REL32_3 : Int := 7
def IMAGE_REL_AMD64_REL32_4 : Int := 8
def IMAGE_REL_AMD64_REL32_5 : Int := 9
def IMAGE_BASE : Int := 0x140000000
def SECTION_ALIGN : Int := 0x1000
def FILE_ALIGN : Int := 0x200

/-- One row of the relocation arrays. -/
structure Reloc where
  offset : Int
  symbol : Int
  type : Int
  section_ : Int
deriving DecidableEq, Repr

/-- The global arrays; `section_data` holds the offsets into `output`, and
`symbol_count` is the length of `symbol_names`. -/
structure State where
  section_names : List Str
  section_sizes : List Int
  section_rvas : List Int
  section_file_offsets : List Int
  section_characteristics : List Int
  section_data : List Int
  symbol_names : List Str
  symbol_values : List Int
  symbol_sections : List Int
  symbol_defined : List Int
  relocs : List Reloc
  output : List Nat
  output_size : Int
  stdout : Str
deriving DecidableEq, Repr

/-- The element `a[i]` of an `int` array. -/
def elemAt (a : List Int) (i : Int) : Int := if 0 ≤ i then a.getD i.toNat 0 else 0

/-- The assignment `a[i] = v` on an `int` array. -/
def setAt (a : List Int) (i : Nat) (v : Int) : List Int :=
  (a ++ List.replicate (i + 1 - a.length) 0).set i v

/-- The function `write_u64`: the parameter is an `int`, the upper four bytes are zero. -/
def write_u64 (buf : List Nat) (off : Nat) (val : Int) : List Nat :=
  Sld.write_u32 (Sld.write_u32 buf off val) (off + 4) 0

/-- The function `align_up`. -/
def align_up (val align : Int) : Int :=
  Sld.band (Scc.wrap32 (Scc.wrap32 (val + align) - 1)) (Sld.bnot (Scc.wrap32 (align - 1)))

/-- The function `find_symbol`. -/
def find_symbol (name : Str) (s : State) : Int := Sld.findFrom name s.symbol_names 0

/-- The variable `target` of `apply_relocations` for one relocation. -/
def targetOf (r : Reloc) (s : State) : Int :=
  if r.symbol < s.symbol_names.length ∧ elemAt s.symbol_defined r.symbol ≠ 0 then
    Scc.wrap32 (IMAGE_BASE + elemAt s.section_rvas (elemAt s.symbol_sections r.symbol) +
      elemAt s.symbol_values r.symbol)
  else 0

/-- The pointer `loc` of `apply_relocations` for one relocation, as an index of `output`. -/
def locOf (r : Reloc) (s : State) : Nat := (elemAt s.section_data r.section_ + r.offset).toNat

/-- The body of the loop of `apply_relocations` for one relocation. -/
def applyReloc (r : Reloc) (s : State) : State :=
  let loc := locOf r s
  let target := targetOf r s
  if r.type = IMAGE_REL_AMD64_ADDR64 then { s with output := write_u64 s.output loc target }
  else if r.type = IMAGE_REL_AMD64_ADDR32 ∨ r.type = IMAGE_REL_AMD64_ADDR32NB then
    { s with output := Sld.write_u32 s.output loc (Scc.wrap32 (target - IMAGE_BASE)) }
  else if r.type = IMAGE_REL_AMD64_REL32 ∨ r.type = IMAGE_REL_AMD64_REL32_1 ∨
      r.type = IMAGE_REL_AMD64_REL32_2 ∨ r.type = IMAGE_REL_AMD64_REL32_3 ∨
      r.type = IMAGE_REL_AMD64_REL32_4 ∨ r.type = IMAGE_REL_AMD64_REL32_5 then
    let adjustment := r.type - IMAGE_REL_AMD64_REL32
    let pc := Scc.wrap32 (IMAGE_BASE + elemAt s.section_rvas r.section_ + r.offset + 4 +
      adjustment)
    { s with output := Sld.write_u32 s.output loc (Scc.wrap32 (target - pc)) }
  else s

/-- The function `apply_relocations`. -/
def apply_relocations (s : State) : State := s.relocs.foldl (fun t r => applyReloc r t) s

/-- The variable `entry_rva` of `write_pe`. -/
def entryRva (s : State) : Int :=
  let i1 := find_symbol "mainCRTStartup".toList s
  let i2 := if i1 < 0 then find_symbol "WinMainCRTStartup".toList s else i1
  let i3 := if i2 < 0 then find_symbol "_start".toList s else i2
  let i := if i3 < 0 then find_symbol "main".toList s else i3
  if 0 ≤ i ∧ elemAt s.symbol_defined i ≠ 0 then
    Scc.wrap32 (elemAt s.section_rvas (elemAt s.symbol_sections i) + elemAt s.symbol_values i)
  else 0x1000

/-- The loop `Calculate section sizes` of `write_pe` over the sections from
`i` on: the variables `code_size`, `data_size` and `bss_size`. -/
def sizeLoop (s : State) : List Nat → Int × Int × Int → Int × Int × Int
  | [], acc => acc
  | i :: is, (c, d, b) =>
    let ch := elemAt s.section_characteristics i
    let n := elemAt s.section_sizes i
    if Sld.band ch IMAGE_SCN_CNT_CODE ≠ 0 then sizeLoop s is (Scc.wrap32 (c + n), d, b)
    else if Sld.band ch IMAGE_SCN_CNT_INITIALIZED_DATA ≠ 0 then
      sizeLoop s is (c, Scc.wrap32 (d + n), b)
    else if Sld.band ch IMAGE_SCN_CNT_UNINITIALIZED_DATA ≠ 0 then
      sizeLoop s is (c, d, Scc.wrap32 (b + n))
    else sizeLoop s is (c, d, b)

/-- The text of the DOS stub with its terminator. -/
def dosStub : List Nat :=
  "This program cannot be run in DOS mode.\r\r\n$".toList.map Char.toNat ++ [0]

/-- The array `header` of `write_pe` before the loop over the sections. -/
def fixedHeader (write_u8 : List Nat → Nat → Int → List Nat) (s : State) : List Nat :=
  let sizes := sizeLoop s (List.range s.section_names.length) (0, 0, 0)
  let h := List.replicate 1024 0
  let h := Sld.write_u16 h 0 IMAGE_DOS_SIGNATURE
  let h := Sld.write_u16 h 0x3C 0x80
  let h := Sld.writeBytes h 0x40 dosStub
  let h := Sld.write_u32 h 0x80 IMAGE_NT_SIGNATURE
  let coff := 0x84
  let h := Sld.write_u16 h coff IMAGE_FILE_MACHINE_AMD64
  let h := Sld.write_u16 h (coff + 2) s.section_names.length
  let h := Sld.write_u32 h (coff + 4) 0
  let h := Sld.write_u32 h (coff + 8) 0
  let h := Sld.write_u32 h (coff + 12) 0
  let h := Sld.write_u16 h (coff + 16) 0xF0
  let h := Sld.write_u16 h (coff + 18)
    (Sld.bor IMAGE_FILE_EXECUTABLE_IMAGE IMAGE_FILE_LARGE_ADDRESS_AWARE)
  let opt := 0x98
  let h := Sld.write_u16 h opt 0x20B
  let h := write_u8 h (opt + 2) 14
  let h := write_u8 h (opt + 3) 0
  let h := Sld.write_u32 h (opt + 4) sizes.1
  let h := Sld.write_u32 h (opt + 8) sizes.2.1
  let h := Sld.write_u32 h (opt + 12) sizes.2.2
  let h := Sld.write_u32 h (opt + 16) (entryRva s)
  let h := Sld.write_u32 h (opt + 20) 0x1000
  let h := write_u64 h (opt + 24) (Scc.wrap32 IMAGE_BASE)
  let h := Sld.write_u32 h (opt + 32) SECTION_ALIGN
  let h := Sld.write_u32 h (opt + 36) FILE_ALIGN
  let h := Sld.write_u16 h (opt + 40) 6
  let h := Sld.write_u16 h (opt + 42) 0
  let h := Sld.write_u16 h (opt + 48) 6
  let h := Sld.write_u16 h (opt + 50) 0
  let h := Sld.write_u32 h (opt + 56) 0
  let h := Sld.write_u32 h (opt + 60) (align_up (Scc.wrap32 (0x1000 + s.output_size)) SECTION_ALIGN)
  let h := Sld.write_u32 h (opt + 64) 0x400
  let h := Sld.write_u32 h (opt + 68) 0
  let h := Sld.write_u16 h (opt + 72) IMAGE_SUBSYSTEM_WINDOWS_CUI
  let h := Sld.write_u16 h (opt + 74)
    (Sld.bor IMAGE_DLLCHARACTERISTICS_NX_COMPAT IMAGE_DLLCHARACTERISTICS_TERMINAL_SERVER_AWARE)
  let h := write_u64 h (opt + 76) 0x100000
  let h := write_u64 h (opt + 84) 0x1000
  let h := write_u64 h (opt + 92) 0x100000
  let h := write_u64 h (opt + 100) 0x1000
  let h := Sld.write_u32 h (opt + 108) 0
  Sld.write_u32 h (opt + 112) 16

/-- The eight bytes that `strncpy(sect, name, 8)` stores. -/
def name8 (name : Str) : List Nat :=
  (name.take 8).map Char.toNat ++ List.replicate (8 - name.length) 0

/-- The variables of the loop `Section headers` of `write_pe`. -/
structure HeaderLoop where
  header : List Nat
  sect : Nat
  file_offset : Int
  rva : Int
  state : State

/-- The loop `Section headers` of `write_pe` over the sections `is`. -/
def sectionHeaders : List Nat → HeaderLoop → HeaderLoop
  | [], v => v
  | i :: is, v =>
    let s := v.state
    let size := elemAt s.section_sizes i
    let h := Sld.writeBytes v.header v.sect (name8 (s.section_names.getD i []))
    let h := Sld.write_u32 h (v.sect + 8) size
    let h := Sld.write_u32 h (v.sect + 12) v.rva
    let s := { s with section_rvas := setAt s.section_rvas i v.rva }
    let rva := Scc.wrap32 (v.rva + align_up size SECTION_ALIGN)
    if Sld.band (elemAt s.section_characteristics i) IMAGE_SCN_CNT_UNINITIALIZED_DATA = 0 then
      let h := Sld.write_u32 h (v.sect + 16) (align_up size FILE_ALIGN)
      let h := Sld.write_u32 h (v.sect + 20) v.file_offset
      let s := { s with section_file_offsets := setAt s.section_file_offsets i v.file_offset }
      let h := Sld.write_u32 h (v.sect + 36) (elemAt s.section_characteristics i)
      sectionHeaders is
        ⟨h, v.sect + 40, Scc.wrap32 (v.file_offset + align_up size FILE_ALIGN), rva, s⟩
    else
      let h := Sld.write_u32 h (v.sect + 36) (elemAt s.section_characteristics i)
      sectionHeaders is ⟨h, v.sect + 40, v.file_offset, rva, s⟩

/-- The loop `Write sections` of `write_pe` over the sections `is`: the bytes written. -/
def bodyLoop (s : State) : List Nat → List Nat
  | [] => []
  | i :: is =>
    if Sld.band (elemAt s.section_characteristics i) IMAGE_SCN_CNT_UNINITIALIZED_DATA = 0 then
      let size := elemAt s.section_sizes i
      Sld.readBytes s.output (elemAt s.section_data i).toNat size.toNat ++
        List.replicate (align_up size FILE_ALIGN - size).toNat 0 ++ bodyLoop s is
    else bodyLoop s is

/-- The function `write_pe`, for an output file that can be created: the
bytes of the file and the state at the end. -/
def write_pe (write_u8 : List Nat → Nat → Int → List Nat) (filename : Str) (s : State) :
    List Nat × State :=
  let v := sectionHeaders (List.range s.section_names.length)
    ⟨fixedHeader write_u8 s, 0x188, 0x400, 0x1000, s⟩
  let t := apply_relocations v.state
  (v.header.take 0x400 ++ bodyLoop t (List.range t.section_names.length),
    { t with stdout := t.stdout ++ "Created ".toList ++ filename ++ " successfully\n".toList })

end SldWin

end SmallC

namespace SmallC

/-! # Memory operands of `sas_full_x64.c`

The functions `parse_memory_operand` and `assemble_mem_instruction` of
`sas_full_x64.c` with the helpers they call.  The operators on `int` are
those of `sld_enhanced.c`'s model (32-bit two's complement).  The operand is
a C string without the final NUL; the buffer `reg_name` of 16 bytes is taken
to be large enough for every run of letters and digits in it.  The loop of
`parse_memory_operand` takes fuel: the result is `none` when the fuel is used
up before the loop ends. -/

namespace SasF

/-- The table `reg64_names` after `init_registers`. -/
def reg64_names : List String :=
  ["rax", "rcx", "rdx", "rbx", "rsp", "rbp", "rsi", "rdi",
   "r8", "r9", "r10", "r11", "r12", "r13", "r14", "r15"]

/-- The table `reg32_names`. -/
def reg32_names : List String :=
  ["eax", "ecx", "edx", "ebx", "esp", "ebp", "esi", "edi",
   "r8d", "r9d", "r10d", "r11d", "r12d", "r13d", "r14d", "r15d"]

/-- The table `reg16_names`. -/
def reg16_names : List String :=
  ["ax", "cx", "dx", "bx", "sp", "bp", "si", "di",
   "r8w", "r9w", "r10w", "r11w", "r12w", "r13w", "r14w", "r15w"]

/-- The table `reg8_names`. -/
def reg8_names : List String :=
  ["al", "cl", "dl", "bl", "spl", "bpl", "sil", "dil",
   "r8b", "r9b", "r10b", "r11b", "r12b", "r13b", "r14b", "r15b"]

/-- The function `parse_register`: the number of the register, or -1. -/
def parse_register (reg : Str) : Int :=
  let i64 := Sld.findFrom reg (reg64_names.map String.toList) 0
  let i32 := Sld.findFrom reg (reg32_names.map String.toList) 0
  let i16 := Sld.findFrom reg (reg16_names.map String.toList) 0
  let i8 := Sld.findFrom reg (reg8_names.map String.toList) 0
  if 0 ≤ i64 then i64 else if 0 ≤ i32 then i32 else if 0 ≤ i16 then i16 else i8

/-- The function `skip_whitespace_str`: the text from the new position on. -/
def skip_whitespace_str (p : Str) : Str := p.dropWhile (fun c => c = ' ' || c = '\t')

/-- The loop of `parse_number_str`. -/
def numberLoop (base : Int) : Str → Int → Int
  | [], value => value
  | c :: p, value =>
    if 48 ≤ c.toNat ∧ c.toNat ≤ 57 then
      numberLoop base p (Scc.wrap32 (Scc.wrap32 (value * base) + ((c.toNat : Int) - 48)))
    else if base = 16 ∧ 97 ≤ c.toNat ∧ c.toNat ≤ 102 then
      numberLoop base p (Scc.wrap32 (Scc.wrap32 (value * base) + ((c.toNat : Int) - 97 + 10)))
    else if base = 16 ∧ 65 ≤ c.toNat ∧ c.toNat ≤ 70 then
      numberLoop base p (Scc.wrap32 (Scc.wrap32 (value * base) + ((c.toNat : Int) - 65 + 10)))
    else numberLoop base p value

/-- The function `parse_number_str`. -/
def parse_number_str (str : Str) : Int :=
  match str with
  | '0' :: 'x' :: p => numberLoop 16 p 0
  | '0' :: 'X' :: p => numberLoop 16 p 0
  | _ => numberLoop 10 str 0

/-- The test of the loop that copies a name: a letter or a digit. -/
def nameChar (c : Char) : Bool :=
  (97 ≤ c.toNat && c.toNat ≤ 122) || (65 ≤ c.toNat && c.toNat ≤ 90) ||
    (48 ≤ c.toNat && c.toNat ≤ 57)

/-- The values that `parse_memory_operand` stores through its pointers and its variable `state`. -/
structure MemOperand where
  base_reg : Int
  index_reg : Int
  scale : Int
  disp : Int
  state : Int
deriving DecidableEq, Repr

/-- The loop `while (mem[i] && mem[i] != ']')` of `parse_memory_operand`;
`p` is the text from index `i` on. -/
def memLoop : Nat → Str → Int → MemOperand → Option MemOperand
  | 0, _, _, _ => none
  | fuel + 1, p, sign, m =>
    match p with
    | [] => some m
    | c :: _ =>
      if c = ']' then some m
      else
        let p1 := skip_whitespace_str p
        let r : Int × Str :=
          match p1 with
          | '+' :: q => (1, skip_whitespace_str q)
          | '-' :: q => (-1, skip_whitespace_str q)
          | _ => (sign, p1)
        let reg_name := r.2.takeWhile nameChar
        let p3 := r.2.dropWhile nameChar
        let m1 : MemOperand :=
          if reg_name ≠ [] then
            let reg_idx := parse_register reg_name
            if 0 ≤ reg_idx then
              if m.state = 0 ∧ m.base_reg = -1 then { m with base_reg := reg_idx, state := 1 }
              else if m.state = 1 ∧ m.index_reg = -1 then
                { m with index_reg := reg_idx, state := 2 }
              else m
            else
              { m with disp := Scc.wrap32 (m.disp + Scc.wrap32 (r.1 * parse_number_str reg_name)),
                       state := 3 }
          else m
        match p3 with
        | '*' :: q =>
          match skip_whitespace_str q with
          | d :: q1 =>
            if 48 ≤ d.toNat ∧ d.toNat ≤ 57 then
              memLoop fuel q1 r.1 { m1 with scale := (d.toNat : Int) - 48 }
            else memLoop fuel (d :: q1) r.1 m1
          | [] => memLoop fuel [] r.1 m1
        | _ => memLoop fuel p3 r.1 m1

/-- The function `parse_memory_operand`: the returned value and the values
stored through the four pointers, if the loop ends within `fuel` rounds. -/
def parse_memory_operand (fuel : Nat) (mem : Str) : Option (Int × MemOperand) :=
  let p : Str :=
    match mem with
    | '[' :: q => q
    | _ => mem
  (memLoop fuel p 1 ⟨-1, -1, 1, 0, 0⟩).map fun m =>
    (if 0 ≤ m.base_reg ∨ m.disp ≠ 0 then 1 else 0, m)

/-- The variables `rex_w`, `rex_r`, `rex_x`, `rex_b` and the bytes
`inst_bytes[0 .. inst_len-1]`. -/
structure Inst where
  rex_w : Int
  rex_r : Int
  rex_x : Int
  rex_b : Int
  inst_bytes : List Nat
deriving DecidableEq, Repr

/-- The function `emit_byte`. -/
def emit_byte (byte : Int) (s : Inst) : Inst :=
  { s with inst_bytes := s.inst_bytes ++ [Sld.u32 (Sld.band byte 255)] }

/-- The function `emit_rex`. -/
def emit_rex (s : Inst) : Inst :=
  let rex0 : Int := 64
  let rex1 := if s.rex_w ≠ 0 then Sld.bor rex0 8 else rex0
  let rex2 := if s.rex_r ≠ 0 then Sld.bor rex1 4 else rex1
  let rex3 := if s.rex_x ≠ 0 then Sld.bor rex2 2 else rex2
  let rex4 := if s.rex_b ≠ 0 then Sld.bor rex3 1 else rex3
  if rex4 ≠ 64 then emit_byte rex4 s else s

/-- The function `emit_modrm`. -/
def emit_modrm (mod reg rm : Int) (s : Inst) : Inst :=
  emit_byte (Sld.bor (Sld.bor (Sld.shl mod 6) (Sld.shl (Sld.band reg 7) 3)) (Sld.band rm 7)) s

/-- The function `emit_sib`. -/
def emit_sib (scale index base : Int) (s : Inst) : Inst :=
  let scale_bits : Int := if scale = 2 then 1 else if scale = 4 then 2 else if scale = 8 then 3 else 0
  emit_byte (Sld.bor (Sld.bor (Sld.shl scale_bits 6) (Sld.shl (Sld.band index 7) 3))
    (Sld.band base 7)) s

/-- The function `emit_immediate`. -/
def emit_immediate (value size : Int) (s : Inst) : Inst :=
  if size = 1 then emit_byte value s
  else if size = 2 then emit_byte (Sld.band (Sld.shr value 8) 255) (emit_byte (Sld.band value 255) s)
  else if size = 4 then
    emit_byte (Sld.band (Sld.shr value 24) 255)
      (emit_byte (Sld.band (Sld.shr value 16) 255)
        (emit_byte (Sld.band (Sld.shr value 8) 255) (emit_byte (Sld.band value 255) s)))
  else s

/-- The function `assemble_mem_instruction`: the state after it. -/
def assemble_mem_instruction (opcode reg base index scale disp : Int) (s : Inst) : Inst :=
  let s1 : Inst :=
    { s with rex_w := 0, rex_r := if 8 ≤ reg then 1 else 0, rex_x := if 8 ≤ index then 1 else 0,
             rex_b := if 8 ≤ base then 1 else 0 }
  let s2 := emit_byte opcode (emit_rex s1)
  if base = -1 ∧ index = -1 then
    emit_immediate disp 4 (emit_modrm 0 (Sld.band reg 7) 5 s2)
  else if index = -1 ∧ 0 ≤ base then
    let need_sib : Bool := base = 4 ∨ base = 12
    let rm : Int := if need_sib then 4 else Sld.band base 7
    let mod : Int :=
      if disp = 0 ∧ Sld.band base 7 ≠ 5 then 0
      else if -128 ≤ disp ∧ disp ≤ 127 then 1
      else 2
    let s3 := emit_modrm mod (Sld.band reg 7) rm s2
    let s4 := if need_sib then emit_sib 0 4 (Sld.band base 7) s3 else s3
    if mod = 1 then emit_byte disp s4
    else if mod = 2 then emit_immediate disp 4 s4
    else s4
  else
    let mod : Int := if disp = 0 then 0 else if -128 ≤ disp ∧ disp ≤ 127 then 1 else 2
    let s3 := emit_modrm mod (Sld.band reg 7) 4 s2
    let s4 := emit_sib scale (Sld.band index 7) (if 0 ≤ base then Sld.band base 7 else 5) s3
    if base = -1 ∨ mod = 2 then emit_immediate disp 4 s4
    else if mod = 1 then emit_byte disp s4
    else s4

/-- The number of displacement bytes that an x86-64 decoder reads after
the ModR/M byte with the fields `mod` and `rm` and, when `rm` is 4, the SIB
byte with the base field `sibBase`. -/
def decoderDispBytes (mod rm sibBase : Nat) : Nat :=
  if mod = 1 then 1
  else if mod = 2 then 4
  else if mod = 0 then (if rm = 5 ∨ (rm = 4 ∧ sibBase = 5) then 4 else 0)
  else 0

end SasF

end SmallC

namespace SmallC

/-! # AArch64 lines of the expression code, and the values of binary operators

The effect of the AArch64 lines that `primary`, `push`, `pop` and the loops
of `shift`, `additive` and `multiplicative` emit, on a machine with the
registers `x0`, `x1`, ... of 64 bits, the stack pointer and byte-addressed
memory; other lines are not given a meaning (`none`). -/

namespace Scc

/-- The AArch64 machine state: `x k` is the register `xk`. -/
structure ArmMachine where
  x : Nat → Nat
  sp : Nat
  mem : Nat → Nat

/-- Writing the register `xk`. -/
def ArmMachine.setX (m : ArmMachine) (k v : Nat) : ArmMachine :=
  { m with x := fun j => if j = k then v else m.x j }

/-- The effect of one emitted AArch64 line. -/
def execArm1 (m : ArmMachine) : Asm → Option ArmMachine
  | .mov_x0_imm n => some (m.setX 0 (imm64 n))
  | .str_x0_push =>
    some { m with sp := (m.sp + (W - 16)) % W,
                  mem := store64 m.mem ((m.sp + (W - 16)) % W) (m.x 0) }
  | .ldr_pop (.x k) =>
    some (ArmMachine.setX { m with sp := (m.sp + 16) % W } k (load64 m.mem m.sp))
  | .add_x0_x1_x0 => some (m.setX 0 ((m.x 1 + m.x 0) % W))
  | .sub_x0_x1_x0 => some (m.setX 0 ((m.x 1 % W + (W - m.x 0 % W)) % W))
  | .mul_x0_x1_x0 => some (m.setX 0 ((m.x 1 * m.x 0) % W))
  | .sdiv_x2_x1_x0 => some (m.setX 2 (imm64 (Int.tdiv (signed64 (m.x 1)) (signed64 (m.x 0)))))
  | .mov_x0_x2 => some (m.setX 0 (m.x 2))
  | .mov_x2_x0 => some (m.setX 2 (m.x 0))
  | .msub_x0_x2_x0_x1 =>
    some (m.setX 0 ((m.x 1 % W + (W - (m.x 2 * m.x 0) % W)) % W))
  | .shift_x0_x0_x2 mn =>
    if mn = "lsl" then some (m.setX 0 (((m.x 0 % W) <<< (m.x 2 % 64)) % W))
    else if mn = "lsr" then some (m.setX 0 ((m.x 0 % W) >>> (m.x 2 % 64)))
    else none
  | _ => none

/-- Running straight-line AArch64 code, one line after the other. -/
def execArm : List Asm → ArmMachine → Option ArmMachine
  | [], m => some m
  | a :: code, m =>
    match execArm1 m a with
    | some m1 => execArm code m1
    | none => none

/-- The state in which the number branch of `primary` returns: the line
that loads `tokval` is written and the next token is `t`, read in lexer
state `l`. -/
def numState (s : CState) (l : Lexer) (t : Int) : CState :=
  { (match s.target with
      | .x64 => emit (.movq_imm_rax s.lex.tokval) s
      | .arm64 => emit (.mov_x0_imm s.lex.tokval) s) with lex := l, token := t }

/-- The state after `push(); token = gettoken();` when the next token is
`t`, read in lexer state `l`. -/
def pushState (s : CState) (l : Lexer) (t : Int) : CState := { push s with lex := l, token := t }

/-- The value of `a op b` as a 64-bit register holds it, for the operator
tokens `-`, `/`, `%`, `<<` and `>>`: the difference modulo `2^64`, the
quotient and the remainder of the division that truncates towards zero, and
the shifts of the 64-bit value. -/
def binopValue (op : Int) (a b : Int) : Nat :=
  if op = tk '-' then imm64 (a - b)
  else if op = tk '/' then imm64 (Int.tdiv a b)
  else if op = tk '%' then imm64 (Int.tmod a b)
  else if op = T_SHL then imm64 (a * 2 ^ b.toNat)
  else imm64 (a / 2 ^ b.toNat)

/-- The lexer in the one-line input `text` of the file `t.c`, with `rest`
of the line still to read and `v` in `tokval`. -/
def lexerAt (text rest : Str) (v : Int) : Lexer :=
  { Lexer.start "t.c".toList text with line := text, lptr := rest, input := [], tokval := v }

/-- The compiler at its start on the one-line input `text`, after its
first token `tok` is read. -/
def stateAt (target : Target) (text rest : Str) (v : Int) (tok : Int) : CState :=
  { CState.start target "t.c".toList text with lex := lexerAt text rest v, token := tok }

end Scc

end SmallC

namespace SmallC

/-! # Statements, functions and the program loop of `scc_enhanced.c`

The case `T_FOR` of `statement` moves `lptr` inside the array `line`, stores
a NUL there and later puts the old character back, possibly after `gettoken`
has read further lines into the array.  What it reads then depends on bytes
of `line` that lie behind the end of the current line.  The states of this
part therefore carry, next to the compiler state, all bytes of `line` (`buf`,
bytes never written read as NUL) and the index of `lptr` in it (`pos`); both
are brought up to date after every call that reads tokens. -/

namespace Scc

/-- The compiler state together with the bytes of the array `line` and the
index of `lptr` in it. -/
structure SState where
  c : CState
  buf : Str
  pos : Nat

/-- What a function of this part does: it returns, it ends the program
through `error`, it reaches a store behind the end of the arrays `breaklab`
and `contlab` (`overrun`, with the state in which the store is executed; C
gives the program no meaning from there on), or the fuel of the model is
used up. -/
inductive SRes where
  | ok (s : SState)
  | fail (c : CState)
  | overrun (c : CState)
  | hang

/-- Sequencing: the rest runs only after a return. -/
def SRes.bind (r : SRes) (k : SState → SRes) : SRes :=
  match r with
  | .ok s => k s
  | .fail c => .fail c
  | .overrun c => .overrun c
  | .hang => .hang

/-- The array `line` after `fgets` has stored the line `ln` and its
terminating NUL at the start of it. -/
def storeLine (buf ln : Str) : Str := ln ++ '\x00' :: buf.drop (ln.length + 1)

/-- The array `line` after the calls of `fgets` that took the input from
`inp` to `rest`. -/
def refills : Nat → Str → Str → Str → Str
  | 0, buf, _, _ => buf
  | k + 1, buf, inp, rest =>
    if inp = rest then buf
    else
      match fgets inp with
      | none => buf
      | some r => refills k (storeLine buf r.1) r.2 rest

/-- The array `line` and the index of `lptr` after a call that took the
compiler from the state of `s` to `c`: without a call of `fgets` the pointer
has moved forward by the characters read, else it stands in the line read last. -/
def sync (s : SState) (c : CState) : SState :=
  if c.lex.input = s.c.lex.input then
    { c := c, buf := s.buf, pos := s.pos + (s.c.lex.lptr.length - c.lex.lptr.length) }
  else
    { c := c, buf := refills (s.c.lex.input.length + 1) s.buf s.c.lex.input c.lex.input,
      pos := c.lex.line.length - c.lex.lptr.length }

/-- A call of a function that works on the compiler state only. -/
def track (s : SState) (r : Res) : SRes :=
  match r with
  | .ok c => .ok (sync s c)
  | .fail c => .fail c
  | .hang => .hang

/-- The statement `token = gettoken();`. -/
def nextS (s : SState) : SRes := track s (nexttoken s.c)

/-- A call of `expression`. -/
def exprS (f : Nat) (s : SState) : SRes := track s (expression f s.c)

/-- A call of `error`. -/
def errorS (msg : String) (s : SState) : SRes := track s (error msg s.c)

/-- Code that changes the compiler state and reads no token. -/
def mapC (g : CState → CState) (s : SState) : SState := { s with c := g s.c }

/-- The byte `line[i]`. -/
def peekAt (buf : Str) (i : Nat) : Char := buf.getD i '\x00'

/-- The assignment `line[i] = ch`. -/
def pokeAt (buf : Str) (i : Nat) (ch : Char) : Str :=
  (buf ++ List.replicate (i + 1 - buf.length) '\x00').set i ch

/-- The loop `while (paren > 0 && *lptr)` of the case `T_FOR` that skips
the increment: the text at `lptr` and `lineno` after it. -/
def forSkip : Str → Int → Int → Str × Int
  | [], _, n => ([], n)
  | ch :: p, paren, n =>
    if 0 < paren then
      let paren1 := if ch = '(' then paren + 1 else if ch = ')' then paren - 1 else paren
      let n1 := if ch = '\n' then n + 1 else n
      if 0 < paren1 then forSkip p paren1 n1 else (ch :: p, n1)
    else (ch :: p, n)

/-- The statements `saved = *lptr; *lptr = 0; lptr = inc_start; lineno = inc_line;`
of the case `T_FOR`. -/
def incEnter (s : SState) (inc_start : Nat) (inc_line : Int) : SState :=
  let buf1 := pokeAt s.buf s.pos '\x00'
  { c := { s.c with lex := { s.c.lex with line := cstr buf1, lptr := cstr (buf1.drop inc_start),
                                          lineno := inc_line } },
    buf := buf1, pos := inc_start }

/-- The statements `*save_lptr = saved; lptr = save_lptr; lineno = save_line;`
of the case `T_FOR`. -/
def incLeave (s : SState) (save : Nat) (saved : Char) (save_line : Int) : SState :=
  let buf1 := pokeAt s.buf save saved
  { c := { s.c with lex := { s.c.lex with line := cstr buf1, lptr := cstr (buf1.drop save),
                                          lineno := save_line } },
    buf := buf1, pos := save }

/-- The lines of the function epilogue, which `return` emits as well. -/
def epilogue (c : CState) : CState :=
  match c.target with
  | .x64 => emits [.movq_rbp_rsp, .popq_rbp, .ret] c
  | .arm64 => emits [.mov_sp_x29, .ldp_x29_x30, .ret] c

/-- A loop `while (token != '}') statement();`, with the call `statement()`
as the parameter `stmt`. -/
def blockLoop (stmt : SState → SRes) : Nat → SState → SRes
  | 0, _ => .hang
  | k + 1, s => if s.c.token ≠ tk '}' then (stmt s).bind (blockLoop stmt k) else .ok s

/-- The case `T_IF` of `statement`; the call `statement()` is the parameter `stmt`. -/
def ifCase (stmt : SState → SRes) (f : Nat) (s : SState) : SRes :=
  (nextS s).bind fun s1 =>
    if s1.c.token ≠ tk '(' then errorS "Expected (" s1
    else
      (nextS s1).bind fun s2 => (exprS f s2).bind fun s3 =>
        if s3.c.token ≠ tk ')' then errorS "Expected )" s3
        else
          (nextS s3).bind fun s4 =>
            let lab1 := s4.c.lab
            let s5 := mapC (fun c => emit_branch_false lab1 { c with lab := c.lab + 1 }) s4
            (stmt s5).bind fun s6 =>
              if s6.c.token = T_ELSE then
                (nextS s6).bind fun s7 =>
                  let lab2 := s7.c.lab
                  let s8 := mapC (fun c =>
                    emit_label lab1 (emit_jump lab2 { c with lab := c.lab + 1 })) s7
                  (stmt s8).bind fun s9 => .ok (mapC (emit_label lab2) s9)
              else .ok (mapC (emit_label lab1) s6)

/-- The case `T_WHILE` of `statement`; the store `breaklab[wsp] = lab2`, which
the source does not guard, ends the model with `overrun` when `wsp` is
`MAXWHILE` or more; the call `statement()` is the parameter `stmt`. -/
def whileCase (stmt : SState → SRes) (f : Nat) (s : SState) : SRes :=
  (nextS s).bind fun s1 =>
    if s1.c.token ≠ tk '(' then errorS "Expected (" s1
    else
      (nextS s1).bind fun s2 =>
        if (MAXWHILE : Int) ≤ s2.c.wsp then .overrun s2.c
        else
        let lab1 := s2.c.lab
        let lab2 := s2.c.lab + 1
        let s3 := mapC (fun c =>
          emit_label lab1
            { c with lab := c.lab + 2,
                     breaklab := writeAt c.breaklab c.wsp.toNat lab2,
                     contlab := writeAt c.contlab c.wsp.toNat lab1,
                     wsp := c.wsp + 1 }) s2
        (exprS f s3).bind fun s4 =>
          if s4.c.token ≠ tk ')' then errorS "Expected )" s4
          else
            (nextS s4).bind fun s5 =>
              (stmt (mapC (emit_branch_false lab2) s5)).bind fun s6 =>
                .ok (mapC (fun c =>
                  { emit_label lab2 (emit_jump lab1 c) with wsp := c.wsp - 1 }) s6)

/-- The case `T_FOR` of `statement`, with the same convention for the store
`breaklab[wsp] = lab2`; the call `statement()` is the parameter `stmt`. -/
def forCase (stmt : SState → SRes) (f : Nat) (s : SState) : SRes :=
  (nextS s).bind fun s1 =>
    if s1.c.token ≠ tk '(' then errorS "Expected (" s1
    else
      (nextS s1).bind fun s2 =>
        (if s2.c.token ≠ tk ';' then exprS f s2 else .ok s2).bind fun s3 =>
          if s3.c.token ≠ tk ';' then errorS "Expected ;" s3
          else
            (nextS s3).bind fun s4 =>
              if (MAXWHILE : Int) ≤ s4.c.wsp then .overrun s4.c
              else
              let lab1 := s4.c.lab
              let lab2 := s4.c.lab + 1
              let lab3 := s4.c.lab + 2
              let s5 := mapC (fun c =>
                emit_label lab1
                  { c with lab := c.lab + 3,
                           breaklab := writeAt c.breaklab c.wsp.toNat lab2,
                           contlab := writeAt c.contlab c.wsp.toNat lab3,
                           wsp := c.wsp + 1 }) s4
              (if s5.c.token ≠ tk ';' then
                  (exprS f s5).bind fun t => .ok (mapC (emit_branch_false lab2) t)
                else .ok s5).bind fun s6 =>
                if s6.c.token ≠ tk ';' then errorS "Expected ;" s6
                else
                  (nextS s6).bind fun s7 =>
                    let inc_start := s7.pos
                    let inc_line := s7.c.lex.lineno
                    let r := forSkip s7.c.lex.lptr 1 s7.c.lex.lineno
                    let s8 : SState :=
                      { c := { s7.c with lex := { s7.c.lex with lptr := r.1, lineno := r.2 } },
                        buf := s7.buf,
                        pos := s7.pos + (s7.c.lex.lptr.length - r.1.length) }
                    if s8.c.token ≠ tk ')' then errorS "Expected )" s8
                    else
                      (nextS s8).bind fun s9 =>
                        (stmt s9).bind fun s10 =>
                          let s11 := mapC (emit_label lab3) s10
                          (if (inc_start : Int) ≠ (s11.pos : Int) - 1 then
                              (exprS f (incEnter s11 inc_start inc_line)).bind fun t =>
                                .ok (incLeave t s11.pos (peekAt s11.buf s11.pos)
                                  s11.c.lex.lineno)
                            else .ok s11).bind fun s12 =>
                            .ok (mapC (fun c =>
                              { emit_label lab2 (emit_jump lab1 c) with wsp := c.wsp - 1 })
                              s12)

/-- The case `T_RETURN` of `statement`. -/
def returnCase (f : Nat) (s : SState) : SRes :=
  (nextS s).bind fun s1 =>
    (if s1.c.token ≠ tk ';' then exprS f s1
      else
        .ok (mapC (fun c =>
          match c.target with
          | .x64 => emit .xorq_rax_rax c
          | .arm64 => emit (.mov_x0_imm 0) c) s1)).bind fun s2 =>
      if s2.c.token ≠ tk ';' then errorS "Expected ;" s2
      else (nextS s2).bind fun s3 => .ok (mapC epilogue s3)

/-- The case `T_BREAK` of `statement`. -/
def breakCase (s : SState) : SRes :=
  (nextS s).bind fun s1 =>
    if s1.c.token ≠ tk ';' then errorS "Expected ;" s1
    else
      (nextS s1).bind fun s2 =>
        if s2.c.wsp = 0 then errorS "break outside loop" s2
        else .ok (mapC (fun c => emit_jump (c.breaklab.getD (c.wsp - 1).toNat 0) c) s2)

/-- The case `T_CONTINUE` of `statement`. -/
def continueCase (s : SState) : SRes :=
  (nextS s).bind fun s1 =>
    if s1.c.token ≠ tk ';' then errorS "Expected ;" s1
    else
      (nextS s1).bind fun s2 =>
        if s2.c.wsp = 0 then errorS "continue outside loop" s2
        else .ok (mapC (fun c => emit_jump (c.contlab.getD (c.wsp - 1).toNat 0) c) s2)

/-- The function `statement`; the cases of the `switch` are the functions
above. -/
def statement : Nat → SState → SRes
  | 0, _ => .hang
  | f + 1, s =>
    if s.c.token = tk '{' then
      (nextS s).bind fun s1 => (blockLoop (fun x => statement f x) f s1).bind nextS
    else if s.c.token = T_IF then ifCase (fun x => statement f x) f s
    else if s.c.token = T_WHILE then whileCase (fun x => statement f x) f s
    else if s.c.token = T_FOR then forCase (fun x => statement f x) f s
    else if s.c.token = T_RETURN then returnCase f s
    else if s.c.token = T_BREAK then breakCase s
    else if s.c.token = T_CONTINUE then continueCase s
    else if s.c.token = tk ';' then nextS s
    else
      (exprS f s).bind fun s1 =>
        if s1.c.token ≠ tk ';' then errorS "Expected ;" s1 else nextS s1

/-- The lexer in the one-line input `text` of the file `t.c`, with `rest`
of the line still to read, `v` in `tokval` and `str` in `tokstr`. -/
def lexAt (text rest str : Str) (v : Int) : Lexer :=
  { filename := "t.c".toList, line := text, lptr := rest, input := [], lineno := 1,
    tokval := v, tokstr := str, stderr := [] }

end Scc

end SmallC

namespace SmallC

/-! # Labels in the emitted code

The numbers that the lines of the output define as labels (`L<n>:` written
by `emit_label`, `S<n>:` written for a string literal), the numbers that
jumps name, and the relations between two compiler states that the functions
of the compiler keep: `Ext` holds also when the second state is the one in
which `error` ends the program, `Done` when the function has returned. -/

namespace Scc

/-- The number that a line defines as a label: `L<n>:` or `S<n>:`. -/
def Asm.drawn : Asm → Option Int
  | .label n => some n
  | .strlabel n => some n
  | _ => none

/-- The number of the label `L<n>:` that a line of `emit_label` defines. -/
def Asm.labelDef : Asm → Option Int
  | .label n => some n
  | _ => none

/-- The number of the label `S<n>:` that a line defines. -/
def Asm.stringDef : Asm → Option Int
  | .strlabel n => some n
  | _ => none

/-- The number of the label `L<n>` that a jump names. -/
def Asm.jumpTo : Asm → Option Int
  | .jmp n => some n
  | .b n => some n
  | .jz n => some n
  | .jnz n => some n
  | .cbz_x0 n => some n
  | .cbnz_x0 n => some n
  | _ => none

/-- The numbers defined as labels by the lines of `c`, in the order of the lines. -/
def drawnIn (c : List Asm) : List Int := c.filterMap Asm.drawn

/-- The numbers `n` of the lines `L<n>:` of `c`. -/
def labelsIn (c : List Asm) : List Int := c.filterMap Asm.labelDef

/-- The numbers `n` of the lines `S<n>:` of `c`. -/
def stringsIn (c : List Asm) : List Int := c.filterMap Asm.stringDef

/-- The numbers of the labels that the jumps of `c` name. -/
def jumpsIn (c : List Asm) : List Int := c.filterMap Asm.jumpTo

/-- The numbers of `l` are pairwise distinct and lie in `[lo, hi)`. -/
def FreshL (lo hi : Int) (l : List Int) : Prop := l.Nodup ∧ ∀ n ∈ l, lo ≤ n ∧ n < hi

/-- A label of a loop around the current statement: an entry of `breaklab`
or `contlab` below `wsp`. -/
def Pending (s : CState) (n : Int) : Prop :=
  ∃ i : Nat, (i : Int) < s.wsp ∧ (n = s.breaklab.getD i 0 ∨ n = s.contlab.getD i 0)

/-- From `s` to `s1` the label counter has not decreased, lines were only
appended to the output, and the labels defined by the new lines are pairwise
distinct numbers drawn from the counter between the two states. -/
structure Ext (s s1 : CState) : Prop where
  lab_le : s.lab ≤ s1.lab
  code : ∃ c, s1.out = s.out ++ c ∧ FreshL s.lab s1.lab (drawnIn c)

/-- The relation `Ext`, and moreover: the loop labels around the statement
are as before, and every jump of the new lines goes to a label `L<n>:`
defined by the new lines or to a label of a loop around the statement. -/
structure Done (s s1 : CState) : Prop where
  lab_le : s.lab ≤ s1.lab
  wsp_eq : s1.wsp = s.wsp
  loops : ∀ i : Nat, (i : Int) < s.wsp →
    s1.breaklab.getD i 0 = s.breaklab.getD i 0 ∧ s1.contlab.getD i 0 = s.contlab.getD i 0
  code : ∃ c, s1.out = s.out ++ c ∧ FreshL s.lab s1.lab (drawnIn c) ∧
    ∀ n ∈ jumpsIn c, n ∈ labelsIn c ∨ Pending s n

/-- What a function on compiler states keeps, started in `s`. -/
def Res.Good (s : CState) (r : Res) : Prop :=
  match r with
  | .ok s1 => Done s s1
  | .fail s1 => Ext s s1
  | .hang => True

/-- What a function of the statement level keeps, started in `s`. -/
def SRes.Good (s : CState) (r : SRes) : Prop :=
  match r with
  | .ok s1 => Done s s1.c
  | .fail c => Ext s c
  | .overrun _ => True
  | .hang => True

/-- What `add_symbol` keeps, started in `s`. -/
def SymRes.Good (s : CState) (r : SymRes) : Prop :=
  match r with
  | .ok _ s1 => Done s s1
  | .fail s1 => Ext s s1

/-- The fields of the compiler state that the label relations speak about. -/
def CState.sig (s : CState) : Int × List Asm × Int × List Int × List Int :=
  (s.lab, s.out, s.wsp, s.breaklab, s.contlab)

end Scc

end SmallC

namespace SmallC
namespace Sppe

theorem finddefineFrom_some (name : Str) (T : Table) (i j : Nat)
    (h : finddefineFrom name T i = some j) :
    ∃ pre d post, T = pre ++ d :: post ∧ j = i + pre.length ∧ d.name = name ∧
      ∀ x ∈ pre, x.name ≠ name := by
  induction T generalizing i with
  | nil => simp [finddefineFrom] at h
  | cons d ds ih =>
    by_cases hn : name = d.name
    · simp [finddefineFrom, hn] at h
      exact ⟨[], d, ds, rfl, by simp [h], hn.symm, by simp⟩
    · simp [finddefineFrom, hn] at h
      obtain ⟨pre, e, post, hT, hj, he, hpre⟩ := ih (i + 1) h
      refine ⟨d :: pre, e, post, by simp [hT], by simp [hj]; omega, he, ?_⟩
      intro x hx
      rcases List.mem_cons.mp hx with rfl | hx
      · exact fun e => hn e.symm
      · exact hpre x hx

theorem undefineShift_eq (post pre : Table) (d : MacroDef) :
    undefineShift post.length (pre ++ d :: post) pre.length =
      pre ++ post ++ [(d :: post).getLast (List.cons_ne_nil d post)] := by
  induction post generalizing pre d with
  | nil => simp [undefineShift]
  | cons e post ih =>
    have h1 : (pre ++ d :: e :: post).getD (pre.length + 1) ⟨[], [], -1, []⟩ = e := by
      rw [List.getD_eq_getElem?_getD, List.getElem?_append_right (by omega)]
      simp
    have h2 : (pre ++ d :: e :: post).set pre.length e = (pre ++ [e]) ++ e :: post := by
      simp [List.set_append_right]
    have h3 := ih (pre ++ [e]) e
    simp only [List.length_append, List.length_singleton] at h3
    simp only [undefineShift, List.length_cons, h1, h2, h3]
    simp

/-- C5 (as amended): `undefine` deletes the first row named `name`. -/
theorem undefine_removes_first_definition (name : Str) (T : Table) :
    (finddefine name T = none ∧ undefine name T = T) ∨
    (∃ pre d post, T = pre ++ d :: post ∧ finddefine name T = some pre.length ∧ d.name = name ∧
      (∀ x ∈ pre, x.name ≠ name) ∧ undefine name T = pre ++ post ∧
      (undefine name T).length + 1 = T.length) := by
  cases h : finddefine name T with
  | none => left; simp [undefine, h]
  | some idx =>
    right
    obtain ⟨pre, d, post, hT, hj, hd, hpre⟩ := finddefineFrom_some name T 0 idx h
    simp only [Nat.zero_add] at hj
    subst hj
    refine ⟨pre, d, post, hT, rfl, hd, hpre, ?_⟩
    have hu : undefine name T = pre ++ post := by
      have hlen : T.length - 1 - pre.length = post.length := by simp [hT]
      have hlen2 : T.length - 1 = (pre ++ post).length := by simp [hT]
      rw [undefine, h]
      simp only []
      rw [hlen, hlen2, hT, undefineShift_eq]
      exact List.take_left' rfl
    rw [hu, hT]
    simp
    omega

/-- C5 (counterexample): with `A` defined twice, `undefine` deletes the
earlier row and keeps the one added last. -/
theorem undefine_keeps_latest_definition :
    undefine "A".toList [⟨"A".toList, "1".toList, -1, []⟩, ⟨"A".toList, "2".toList, -1, []⟩] =
      [⟨"A".toList, "2".toList, -1, []⟩] ∧
    undefine "A".toList [⟨"A".toList, "1".toList, -1, []⟩, ⟨"A".toList, "2".toList, -1, []⟩] ≠
      [⟨"A".toList, "1".toList, -1, []⟩] := by
  decide

end Sppe
end SmallC

namespace SmallC
namespace Sppe

theorem skipwhite_length_le (p : Str) : (skipwhite p).length ≤ p.length := by
  induction p with
  | nil => simp [skipwhite]
  | cons c p ih =>
    unfold skipwhite
    split
    · exact Nat.le_succ_of_le ih
    · exact Nat.le_refl _

theorem skipPastParen_length_le (p : Str) : (skipPastParen p).length ≤ p.length := by
  induction p with
  | nil => simp [skipPastParen]
  | cons c p ih =>
    unfold skipPastParen
    split
    · exact Nat.le_succ _
    · exact Nat.le_succ_of_le ih

theorem copywordLoop_len (src : Str) (len : Nat) (dst : Str) :
    (copywordLoop src len dst).2 = len + (src.takeWhile isIdentChar).length := by
  induction src generalizing len dst with
  | nil => simp [copywordLoop]
  | cons c src ih =>
    unfold copywordLoop
    by_cases h : isIdentChar c = true
    · simp [h, ih]; omega
    · simp [h]

theorem copyword_len (src : Str) : (copyword src).2 = (src.takeWhile isIdentChar).length := by
  simp [copyword, copywordLoop_len]

theorem isIdentChar_of_isIdentStart (c : Char) (h : isIdentStart c = true) :
    isIdentChar c = true := by
  simp only [isIdentStart, isIdentChar, Bool.or_eq_true] at h ⊢
  rcases h with (h | h) | h
  · exact Or.inl (Or.inl (Or.inl h))
  · exact Or.inl (Or.inl (Or.inr h))
  · exact Or.inr h

theorem copyword_len_pos (c : Char) (src : Str) (h : isIdentStart c = true) :
    1 ≤ (copyword (c :: src)).2 := by
  rw [copyword_len, List.takeWhile_cons, isIdentChar_of_isIdentStart c h]
  simp

theorem copyword_len_le (src : Str) : (copyword src).2 ≤ src.length := by
  rw [copyword_len]
  exact (List.takeWhile_sublist _).length_le

theorem parsemacroargsLoop_total (fuel : Nat) (p : Str) (nargs : Nat) (cur : Str) (parens : Nat)
    (args : Args) (h : p.length < fuel) :
    ∃ r, parsemacroargsLoop fuel p nargs cur parens args = some r := by
  induction fuel generalizing p nargs cur parens args with
  | zero => omega
  | succ fuel ih =>
    cases p with
    | nil => simp [parsemacroargsLoop]
    | cons c rest =>
      have hr : rest.length < fuel := by simpa using h
      have hs : (skipwhite rest).length < fuel := lt_of_le_of_lt (skipwhite_length_le rest) hr
      simp only [parsemacroargsLoop]
      split
      · exact ⟨_, rfl⟩
      · split
        · exact ih _ _ _ _ _ hr
        · split
          · exact ih _ _ _ _ _ hr
          · split
            · exact ih _ _ _ _ _ hs
            · exact ih _ _ _ _ _ hr

theorem parsemacroargs_total (src : Str) (args : Args) :
    ∃ r, parsemacroargs src args = some r :=
  parsemacroargsLoop_total _ _ _ _ _ _ (Nat.lt_succ_of_le (skipwhite_length_le src))

theorem expandmacroLoop_total (d : MacroDef) (args : Args) (hd : 0 ≤ d.nparams) (fuel : Nat)
    (src : Str) (h : src.length < fuel) : ∃ r, expandmacroLoop d args fuel src = some r := by
  induction fuel generalizing src with
  | zero => omega
  | succ fuel ih =>
    cases src with
    | nil => exact ⟨[], rfl⟩
    | cons c src =>
      have hr : src.length < fuel := by simpa using h
      simp only [expandmacroLoop, hd, if_true]
      split
      · rename_i hc
        have h1 := copyword_len_pos c src hc
        have hd : ((c :: src).drop (copyword (c :: src)).2).length < fuel := by
          rw [List.length_drop]; simp only [List.length_cons]; omega
        obtain ⟨r, hr'⟩ := ih _ hd
        split <;> simp [hr']
      · obtain ⟨r, hr'⟩ := ih _ hr
        simp [hr']

/-- The function `expandmacro` returns for every function-like macro. -/
theorem expandmacro_total (d : MacroDef) (args : Args) (hd : 0 ≤ d.nparams) :
    ∃ r, expandmacro d args = some r :=
  expandmacroLoop_total d args hd _ _ (Nat.lt_succ_self _)

end Sppe
end SmallC

namespace SmallC
namespace Sppe

theorem processline_directiveFree (fs : Files) (junk : Args) (incl : Str → State → Step)
    (l : Str) (s : State) (h : directiveFree l) :
    processline fs junk incl l s =
      if s.skipping then .cont s
      else match substitute s.defs junk l with
        | none => .hang
        | some r => .cont (s.oputs r) := by
  unfold processline
  split
  · rename_i p0 hp
    simp [directiveFree, hp] at h
  · cases s.skipping <;> rfl

end Sppe
end SmallC

namespace SmallC
namespace Sppe

theorem copywordLoop_word (src : Str) (len : Nat) (dst : Str)
    (h : dst.length = min len (MAXNAMESIZE - 1)) :
    (copywordLoop src len dst).1 = (dst ++ src.takeWhile isIdentChar).take (MAXNAMESIZE - 1) := by
  induction src generalizing len dst with
  | nil =>
    simp only [copywordLoop, List.takeWhile_nil, List.append_nil]
    rw [List.take_of_length_le]; omega
  | cons c src ih =>
    unfold copywordLoop
    by_cases hc : isIdentChar c = true
    · simp only [hc, if_true, List.takeWhile_cons]
      by_cases hl : len < MAXNAMESIZE - 1
      · simp only [hl, if_true]
        rw [ih (len + 1) (dst ++ [c]) (by simp only [List.length_append, List.length_singleton]; omega)]
        simp
      · simp only [hl, if_false]
        rw [ih (len + 1) dst (by omega)]
        have hd : dst.length = MAXNAMESIZE - 1 := by omega
        rw [List.take_append_of_le_length (by omega), List.take_append_of_le_length (by omega)]
    · simp only [hc, List.takeWhile_cons]
      simp only [Bool.false_eq_true, if_false, List.append_nil]
      rw [List.take_of_length_le]; omega

theorem copyword_word (src : Str) :
    (copyword src).1 = (src.takeWhile isIdentChar).take (MAXNAMESIZE - 1) := by
  rw [copyword, copywordLoop_word src 0 [] (by simp)]
  simp

theorem take_copyword (src : Str) : src.take (copyword src).2 = src.takeWhile isIdentChar := by
  rw [copyword_len]
  induction src with
  | nil => simp
  | cons c src ih =>
    by_cases hc : isIdentChar c = true <;> simp [List.takeWhile_cons, hc, ih]

theorem drop_copyword (src : Str) : src.drop (copyword src).2 = src.dropWhile isIdentChar := by
  rw [copyword_len]
  induction src with
  | nil => simp
  | cons c src ih =>
    by_cases hc : isIdentChar c = true <;> simp [List.takeWhile_cons, List.dropWhile_cons, hc, ih]

theorem identifiersFrom_some (r w : Str) :
    identifiersFrom r (some w) =
      (w ++ r.takeWhile isIdentChar) :: identifiersFrom (r.dropWhile isIdentChar) none := by
  induction r generalizing w with
  | nil => simp [identifiersFrom]
  | cons c r ih =>
    by_cases hc : isIdentChar c = true
    · simp [identifiersFrom, hc, ih, List.takeWhile_cons, List.dropWhile_cons]
    · have hs : ¬ isIdentStart c = true := fun h => hc (isIdentChar_of_isIdentStart c h)
      simp [identifiersFrom, hc, hs, List.takeWhile_cons, List.dropWhile_cons]

theorem identifiers_cons_start (c : Char) (r : Str) (h : isIdentStart c = true) :
    identifiers (c :: r) =
      (c :: r).takeWhile isIdentChar :: identifiers ((c :: r).dropWhile isIdentChar) := by
  have hc := isIdentChar_of_isIdentStart c h
  simp [identifiers, identifiersFrom, h, identifiersFrom_some, List.takeWhile_cons,
    List.dropWhile_cons, hc]

theorem identifiers_cons_other (c : Char) (r : Str) (h : ¬ isIdentStart c = true) :
    identifiers (c :: r) = identifiers r := by
  simp [identifiers, identifiersFrom, h]

theorem substituteLoop_succ (T : Table) (fuel : Nat) (src : Str) (args : Args)
    (h : src.length < fuel) :
    substituteLoop T (fuel + 1) src args = substituteLoop T fuel src args := by
  induction fuel generalizing src args with
  | zero => omega
  | succ fuel ih =>
    cases src with
    | nil => rfl
    | cons c src =>
      have hr : src.length < fuel := by simpa using h
      rw [substituteLoop, substituteLoop]
      split
      · rename_i hc
        have h1 := copyword_len_pos c src hc
        have hd : ((c :: src).drop (copyword (c :: src)).2).length < fuel := by
          rw [List.length_drop]; simp only [List.length_cons]; omega
        have h2 : (skipwhite ((c :: src).drop (copyword (c :: src)).2)).length < fuel :=
          lt_of_le_of_lt (skipwhite_length_le _) hd
        simp only []
        split
        · split
          · split
            · rename_i src3 hsk
              have h3 : src3.length < fuel := by
                have := skipwhite_length_le ((c :: src).drop (copyword (c :: src)).2)
                rw [hsk] at this
                simp only [List.length_cons] at this
                omega
              have h4 : (skipPastParen src3).length < fuel :=
                lt_of_le_of_lt (skipPastParen_length_le src3) h3
              split
              · rfl
              · split
                · rfl
                · rw [ih _ _ h4]
            · rw [ih _ _ h2]
          · rw [ih _ _ hd]
        · rw [ih _ _ hd]
      · rw [ih _ _ hr]

theorem substituteLoop_fuel (T : Table) (fuel : Nat) (src : Str) (args : Args)
    (h : src.length < fuel) :
    substituteLoop T fuel src args = substitute T args src := by
  unfold substitute
  obtain ⟨k, rfl⟩ : ∃ k, fuel = src.length + 1 + k := ⟨fuel - (src.length + 1), by omega⟩
  induction k with
  | zero => rfl
  | succ k ih =>
    rw [show src.length + 1 + (k + 1) = (src.length + 1 + k) + 1 from rfl,
      substituteLoop_succ T _ src args (by omega)]
    exact ih (by omega)

/-- One step of `substitute` at a character that does not start an identifier. -/
theorem substitute_cons_other (T : Table) (args : Args) (c : Char) (src : Str)
    (h : ¬ isIdentStart c = true) :
    substitute T args (c :: src) = (substitute T args src).map (fun r => c :: r) := by
  rw [substitute, List.length_cons, substituteLoop]
  simp only [h, if_false, Bool.false_eq_true]
  rfl

/-- One step of `substitute` at an identifier that is not a macro name. -/
theorem substitute_cons_plain (T : Table) (args : Args) (c : Char) (src : Str)
    (h : isIdentStart c = true)
    (hw : finddefine (((c :: src).takeWhile isIdentChar).take (MAXNAMESIZE - 1)) T = none) :
    substitute T args (c :: src) =
      (substitute T args ((c :: src).dropWhile isIdentChar)).map
        (fun r => (c :: src).takeWhile isIdentChar ++ r) := by
  rw [substitute, List.length_cons, substituteLoop]
  simp only [h, if_true, copyword_word, hw, take_copyword, drop_copyword]
  rw [substituteLoop_fuel]
  have := (List.dropWhile_suffix isIdentChar (l := c :: src)).length_le
  have h2 : ((c :: src).dropWhile isIdentChar).length < (c :: src).length := by
    rw [List.dropWhile_cons, isIdentChar_of_isIdentStart c h]
    simp only [if_true, List.length_cons]
    exact Nat.lt_succ_of_le (List.dropWhile_suffix isIdentChar).length_le
  simpa using h2

/-- Text without macro names is copied unchanged. -/
theorem substitute_plain (T : Table) (args : Args) (src : Str) (h : usesNoMacro T src) :
    substitute T args src = some src := by
  generalize hn : src.length = n
  induction n using Nat.strong_induction_on generalizing src with
  | _ n ih =>
    cases src with
    | nil => rfl
    | cons c src =>
      by_cases hc : isIdentStart c = true
      · have hid := identifiers_cons_start c src hc
        have hw : finddefine (((c :: src).takeWhile isIdentChar).take (MAXNAMESIZE - 1)) T = none :=
          h _ (by rw [hid]; exact List.mem_cons_self _ _)
        have hrest : usesNoMacro T ((c :: src).dropWhile isIdentChar) :=
          fun w hwm => h w (by rw [hid]; exact List.mem_cons_of_mem _ hwm)
        have hlt : ((c :: src).dropWhile isIdentChar).length < n := by
          rw [← hn, List.dropWhile_cons, isIdentChar_of_isIdentStart c hc]
          simp only [if_true, List.length_cons]
          exact Nat.lt_succ_of_le (List.dropWhile_suffix isIdentChar).length_le
        rw [substitute_cons_plain T args c src hc hw, ih _ hlt _ hrest rfl]
        simp [List.takeWhile_append_dropWhile]
      · have hrest : usesNoMacro T src :=
          fun w hwm => h w (by rw [identifiers_cons_other c src hc]; exact hwm)
        rw [substitute_cons_other T args c src hc, ih src.length (by rw [← hn]; simp) _ hrest rfl]
        rfl

end Sppe
end SmallC

namespace SmallC
namespace Sppe

theorem takeWhile_append_stop (p : Char → Bool) (a b : Str)
    (hb : ∀ c, b.head? = some c → p c = false) :
    (a ++ b).takeWhile p = a.takeWhile p ∧ (a ++ b).dropWhile p = a.dropWhile p ++ b := by
  induction a with
  | nil =>
    cases b with
    | nil => simp
    | cons c b =>
      have := hb c rfl
      simp [List.takeWhile_cons, List.dropWhile_cons, this]
  | cons x a ih =>
    by_cases hx : p x = true
    · simp [List.takeWhile_cons, List.dropWhile_cons, hx, ih.1, ih.2]
    · simp [List.takeWhile_cons, List.dropWhile_cons, hx]

/-- Text without macro names in front of a character that cannot continue
an identifier is copied unchanged, and `substitute` goes on behind it. -/
theorem substitute_append_plain (T : Table) (args : Args) (a b : Str) (h : usesNoMacro T a)
    (hb : ∀ c, b.head? = some c → isIdentChar c = false) :
    substitute T args (a ++ b) = (substitute T args b).map (fun r => a ++ r) := by
  generalize hn : a.length = n
  induction n using Nat.strong_induction_on generalizing a with
  | _ n ih =>
    cases a with
    | nil => simp
    | cons c a =>
      by_cases hc : isIdentStart c = true
      · have hid := identifiers_cons_start c a hc
        have htd := takeWhile_append_stop isIdentChar (c :: a) b hb
        have hw : finddefine (((c :: a).takeWhile isIdentChar).take (MAXNAMESIZE - 1)) T = none :=
          h _ (by rw [hid]; exact List.mem_cons_self _ _)
        have hrest : usesNoMacro T ((c :: a).dropWhile isIdentChar) :=
          fun w hwm => h w (by rw [hid]; exact List.mem_cons_of_mem _ hwm)
        have hlt : ((c :: a).dropWhile isIdentChar).length < n := by
          rw [← hn, List.dropWhile_cons, isIdentChar_of_isIdentStart c hc]
          simp only [if_true, List.length_cons]
          exact Nat.lt_succ_of_le (List.dropWhile_suffix isIdentChar).length_le
        rw [List.cons_append, substitute_cons_plain T args c (a ++ b) hc
          (by rw [← List.cons_append, htd.1]; exact hw)]
        rw [← List.cons_append, htd.1, htd.2, ih _ hlt _ hrest rfl]
        cases substitute T args b with
        | none => rfl
        | some r =>
          simp only [Option.map_some', Option.some.injEq]
          rw [← List.append_assoc, List.takeWhile_append_dropWhile]
      · have hrest : usesNoMacro T a :=
          fun w hwm => h w (by rw [identifiers_cons_other c a hc]; exact hwm)
        rw [List.cons_append, substitute_cons_other T args c (a ++ b) hc,
          ih a.length (by rw [← hn]; simp) _ hrest rfl]
        cases substitute T args b <;> rfl

/-- C2 (as amended): when `substitute` stands at a double quote, the text up
to the next double quote is copied unchanged, and substitution goes on
behind it, provided no identifier inside the quotes names a macro. -/
theorem substitute_copies_plain_string (T : Table) (args : Args) (str post : Str)
    (h : usesNoMacro T str) :
    substitute T args ('"' :: (str ++ '"' :: post)) =
      (substitute T args post).map (fun r => '"' :: (str ++ '"' :: r)) := by
  rw [substitute_cons_other T args '"' _ (by decide),
    substitute_append_plain T args str ('"' :: post) h (by intro c hc; cases hc; decide),
    substitute_cons_other T args '"' post (by decide)]
  cases substitute T args post <;> rfl

theorem substitute_copies_plain_string_witness :
    substitute [⟨"FOO".toList, "1".toList, -1, []⟩] (fun _ => [])
        ('"' :: ("BAR baz".toList ++ '"' :: " FOO;\n".toList)) =
      (substitute [⟨"FOO".toList, "1".toList, -1, []⟩] (fun _ => []) " FOO;\n".toList).map
        (fun r => '"' :: ("BAR baz".toList ++ '"' :: r)) :=
  substitute_copies_plain_string [⟨"FOO".toList, "1".toList, -1, []⟩] (fun _ => [])
    "BAR baz".toList " FOO;\n".toList (by unfold usesNoMacro; decide)

/-- C2 (counterexample): the macro name `FOO` inside a string literal is expanded. -/
theorem substitute_expands_inside_string :
    substitute [⟨"FOO".toList, "1".toList, -1, []⟩] (fun _ => []) "puts(\"FOO\");\n".toList =
      some "puts(\"1\");\n".toList ∧
    substitute [⟨"FOO".toList, "1".toList, -1, []⟩] (fun _ => []) "puts(\"FOO\");\n".toList ≠
      some "puts(\"FOO\");\n".toList := by
  decide

end Sppe
end SmallC

namespace SmallC
namespace Sppe

theorem skipwhite_blanks (ws rest : Str) (h : ∀ c ∈ ws, c = ' ' ∨ c = '\t')
    (hr : skipwhite rest = rest) : skipwhite (ws ++ rest) = rest := by
  induction ws with
  | nil => simpa using hr
  | cons c ws ih =>
    have hc := h c (List.mem_cons_self _ _)
    have hc' : (decide (c = ' ') || decide (c = '\t')) = true := by
      rcases hc with rfl | rfl <;> decide
    rw [List.cons_append, skipwhite]
    simp only [hc', if_true]
    exact ih (fun x hx => h x (List.mem_cons_of_mem _ hx))

theorem skipwhite_append_paren (p rest : Str) :
    skipwhite (p ++ ')' :: rest) = skipwhite p ++ ')' :: rest := by
  induction p with
  | nil => rfl
  | cons c p ih =>
    rw [List.cons_append, skipwhite, skipwhite]
    split
    · exact ih
    · rfl

theorem skipwhite_sublist (p : Str) : ∀ c ∈ skipwhite p, c ∈ p := by
  induction p with
  | nil => simp [skipwhite]
  | cons x p ih =>
    intro c hc
    rw [skipwhite] at hc
    split at hc
    · exact List.mem_cons_of_mem _ (ih c hc)
    · exact hc

theorem skipPastParen_append (p rest : Str) (h : ')' ∉ p) :
    skipPastParen (p ++ ')' :: rest) = rest := by
  induction p with
  | nil => simp [skipPastParen]
  | cons c p ih =>
    have hc : c ≠ ')' := fun e => h (by simp [e])
    rw [List.cons_append, skipPastParen]
    simp only [hc, if_false]
    exact ih (fun hm => h (List.mem_cons_of_mem _ hm))

/-- On an argument text without parentheses the loop of `parsemacroargs`
stops at the closing parenthesis, whatever follows it. -/
theorem parsemacroargsLoop_rest (p rest : Str) (f1 f2 nargs : Nat) (cur : Str) (args : Args)
    (ho : '(' ∉ p) (hc : ')' ∉ p) (h1 : p.length < f1) (h2 : p.length < f2) :
    parsemacroargsLoop f1 (p ++ ')' :: rest) nargs cur 0 args =
      parsemacroargsLoop f2 (p ++ [')']) nargs cur 0 args := by
  generalize hn : p.length = n
  induction n using Nat.strong_induction_on generalizing p f1 f2 nargs cur args with
  | _ n ih =>
    obtain ⟨g1, rfl⟩ : ∃ g, f1 = g + 1 := ⟨f1 - 1, by omega⟩
    obtain ⟨g2, rfl⟩ : ∃ g, f2 = g + 1 := ⟨f2 - 1, by omega⟩
    cases p with
    | nil => simp [parsemacroargsLoop]
    | cons c p =>
      have hco : c ≠ '(' := fun e => ho (by simp [e])
      have hcc : c ≠ ')' := fun e => hc (by simp [e])
      have ho' : '(' ∉ p := fun hm => ho (List.mem_cons_of_mem _ hm)
      have hc' : ')' ∉ p := fun hm => hc (List.mem_cons_of_mem _ hm)
      simp only [List.length_cons] at h1 h2 hn
      simp only [List.cons_append, parsemacroargsLoop, hco, hcc, false_and, if_false, and_true]
      split
      · rw [skipwhite_append_paren, skipwhite_append_paren]
        have hle := skipwhite_length_le p
        exact ih (skipwhite p).length (by omega) _ _ _ _ _ _
          (fun hm => ho' (skipwhite_sublist p _ hm)) (fun hm => hc' (skipwhite_sublist p _ hm))
          (by omega) (by omega) rfl
      · exact ih p.length (by omega) _ _ _ _ _ _ ho' hc' (by omega) (by omega) rfl

theorem parsemacroargs_rest (p rest : Str) (args : Args) (ho : '(' ∉ p) (hc : ')' ∉ p) :
    parsemacroargs (p ++ ')' :: rest) args = parsemacroargs (p ++ [')']) args := by
  unfold parsemacroargs
  rw [skipwhite_append_paren, skipwhite_append_paren]
  have hle := skipwhite_length_le p
  exact parsemacroargsLoop_rest _ _ _ _ _ _ _
    (fun hm => ho (skipwhite_sublist p _ hm)) (fun hm => hc (skipwhite_sublist p _ hm))
    (by simp only [List.length_append, List.length_cons]; omega)
    (by simp only [List.length_append, List.length_cons]; omega)

/-- A call of a function-like macro whose argument text holds no
parenthesis is replaced, up to its closing parenthesis, by the text that
`expandmacro` makes of the macro body; that replacement text is output as
it is, and `substitute` goes on behind the call. -/
theorem substitute_macro_call (T : Table) (args : Args) (c : Char) (name ws argtext rest : Str)
    (idx : Nat) (d : MacroDef)
    (hc : isIdentStart c = true) (hname : ∀ x ∈ name, isIdentChar x = true)
    (hlen : (c :: name).length ≤ MAXNAMESIZE - 1)
    (hfind : finddefine (c :: name) T = some idx) (hd : T.getD idx ⟨[], [], -1, []⟩ = d)
    (hfun : 0 ≤ d.nparams) (hws : ∀ x ∈ ws, x = ' ' ∨ x = '\t')
    (ho : '(' ∉ argtext) (hcl : ')' ∉ argtext) :
    ∃ n args1 body, parsemacroargs (argtext ++ [')']) args = some (n, args1) ∧
      expandmacro d args1 = some body ∧
      substitute T args (c :: name ++ ws ++ '(' :: (argtext ++ ')' :: rest)) =
        (substitute T args1 rest).map (fun r => body ++ r) := by
  obtain ⟨⟨n, args1⟩, hp⟩ := parsemacroargs_total (argtext ++ [')']) args
  obtain ⟨body, hb⟩ := expandmacro_total d args1 hfun
  refine ⟨n, args1, body, hp, hb, ?_⟩
  have hstop : ∀ x, (ws ++ '(' :: (argtext ++ ')' :: rest)).head? = some x → isIdentChar x = false := by
    intro x hx
    cases ws with
    | nil => simp at hx; subst hx; decide
    | cons y ws =>
      simp at hx; subst hx
      rcases hws y (List.mem_cons_self _ _) with rfl | rfl <;> decide
  have hall : (c :: name).takeWhile isIdentChar = c :: name := by
    rw [List.takeWhile_eq_self_iff]
    intro x hx
    rcases List.mem_cons.mp hx with rfl | hx
    · exact isIdentChar_of_isIdentStart _ hc
    · exact hname x hx
  have hdrop : (c :: name).dropWhile isIdentChar = [] := by
    rw [List.dropWhile_eq_nil_iff]
    intro x hx
    rcases List.mem_cons.mp hx with rfl | hx
    · exact isIdentChar_of_isIdentStart _ hc
    · exact hname x hx
  have htd := takeWhile_append_stop isIdentChar (c :: name) _ hstop
  rw [hall, hdrop] at htd
  have e0 : c :: name ++ ws ++ '(' :: (argtext ++ ')' :: rest) =
      c :: (name ++ (ws ++ '(' :: (argtext ++ ')' :: rest))) := by simp
  have hsk : skipwhite (ws ++ '(' :: (argtext ++ ')' :: rest)) = '(' :: (argtext ++ ')' :: rest) :=
    skipwhite_blanks ws _ hws rfl
  rw [e0, substitute, substituteLoop]
  simp only [hc, if_true, copyword_word, take_copyword, drop_copyword]
  rw [← List.cons_append, htd.1, htd.2, List.take_of_length_le hlen, hfind]
  simp only [hd, hfun, if_true, List.nil_append, hsk, parsemacroargs_rest argtext rest args ho hcl,
    hp, hb, skipPastParen_append argtext rest hcl]
  rw [substituteLoop_fuel]
  simp only [List.length_cons, List.length_append]
  omega


theorem substitute_macro_call_witness :
    ∃ n args1 body, parsemacroargs ("3,4".toList ++ [')']) (fun _ => []) = some (n, args1) ∧
      expandmacro ⟨"ADD".toList, "((x)+(y))".toList, 2, ["x".toList, "y".toList]⟩ args1 = some body ∧
      substitute [⟨"ADD".toList, "((x)+(y))".toList, 2, ["x".toList, "y".toList]⟩] (fun _ => [])
          ('A' :: "DD".toList ++ [] ++ '(' :: ("3,4".toList ++ ')' :: ";\n".toList)) =
        (substitute [⟨"ADD".toList, "((x)+(y))".toList, 2, ["x".toList, "y".toList]⟩] args1
          ";\n".toList).map (fun r => body ++ r) :=
  substitute_macro_call [⟨"ADD".toList, "((x)+(y))".toList, 2, ["x".toList, "y".toList]⟩]
    (fun _ => []) 'A' "DD".toList [] "3,4".toList ";\n".toList 0
    ⟨"ADD".toList, "((x)+(y))".toList, 2, ["x".toList, "y".toList]⟩
    (by decide) (by decide) (by decide) (by decide) (by decide) (by decide) (by decide)
    (by decide) (by decide)

/-- C1: with `#define ADD(x,y) ((x)+(y))` the line
`int main(){ return ADD(3,ADD(4,5)); }` does not become
`int main(){ return ((3)+((4)+(5))); }`.  `parsemacroargs` counts the
parentheses and takes `ADD(4,5)` as the second argument, but the loop of
`substitute` that skips the arguments stops at the first `)`, so the `)`
that closes the outer call stays in the text; and the nested call inside the
replacement text is not expanded. -/
theorem substitute_nested_call_not_expanded :
    substitute [⟨"ADD".toList, "((x)+(y))".toList, 2, ["x".toList, "y".toList]⟩] (fun _ => [])
        "int main(){ return ADD(3,ADD(4,5)); }".toList =
      some "int main(){ return ((3)+(ADD(4,5)))); }".toList ∧
    substitute [⟨"ADD".toList, "((x)+(y))".toList, 2, ["x".toList, "y".toList]⟩] (fun _ => [])
        "int main(){ return ADD(3,ADD(4,5)); }".toList ≠
      some "int main(){ return ((3)+((4)+(5))); }".toList := by
  decide

end Sppe
end SmallC

namespace SmallC
namespace Sppe

theorem cstr_of_no_nul (x : Str) (h : '\x00' ∉ x) : cstr x = x := by
  induction x with
  | nil => rfl
  | cons c x ih =>
    have hc : c ≠ '\x00' := fun e => h (by simp [e])
    rw [cstr]
    simp only [hc, if_false]
    rw [ih (fun hm => h (List.mem_cons_of_mem _ hm))]

theorem readlineLoop_line (max : Nat) (l rest : Str) (i : Nat) (buf : Str) (hn : '\n' ∉ l)
    (hfit : i + l.length < max - 1) :
    readlineLoop max (l ++ '\n' :: rest) i buf = (buf ++ l ++ ['\n'], rest) := by
  induction l generalizing i buf with
  | nil =>
    simp only [List.nil_append, readlineLoop, List.append_nil]
    simp only [List.length_nil, Nat.add_zero] at hfit
    simp [hfit]
  | cons c l ih =>
    have hc : c ≠ '\n' := fun e => hn (by simp [e])
    simp only [List.length_cons] at hfit
    rw [List.cons_append, readlineLoop]
    simp only [show i < max - 1 by omega, if_true, hc, if_false]
    rw [ih (i + 1) (buf ++ [c]) (fun hm => hn (List.mem_cons_of_mem _ hm)) (by omega)]
    simp

theorem readlineLoop_last (max : Nat) (l : Str) (i : Nat) (buf : Str) (hn : '\n' ∉ l)
    (hfit : i + l.length ≤ max - 1) :
    readlineLoop max l i buf = (buf ++ l, []) := by
  induction l generalizing i buf with
  | nil => simp [readlineLoop]
  | cons c l ih =>
    have hc : c ≠ '\n' := fun e => hn (by simp [e])
    simp only [List.length_cons] at hfit
    rw [readlineLoop]
    simp only [show i < max - 1 by omega, if_true, hc, if_false]
    rw [ih (i + 1) (buf ++ [c]) (fun hm => hn (List.mem_cons_of_mem _ hm)) (by omega)]
    simp

theorem dropLineEnd_getLast (buf : Str) (h : (dropLineEnd buf).getLast? = some '\\') :
    endsWithBackslash buf := by
  unfold endsWithBackslash
  unfold dropLineEnd at h
  split at h
  · rename_i heq
    cases buf with
    | nil => simp at h
    | cons c buf =>
      simp only [List.take_succ_cons, List.take_zero, List.getLast?_singleton,
        Option.some.injEq] at h
      subst h
      have : '\\' ∈ ('\\' :: buf).reverse := by simp
      have h2 := List.dropWhile_eq_nil_iff.mp heq _ this
      simp at h2
  · rename_i t hne
    rw [List.getLast?_reverse] at h
    exact h

theorem endsWithBackslash_newline (l : Str) (h : endsWithBackslash (l ++ ['\n'])) :
    endsWithBackslash l := by
  unfold endsWithBackslash at h ⊢
  simpa [List.dropWhile_cons] using h

theorem directiveFree_newline (l : Str) (h : directiveFree l) : directiveFree (l ++ ['\n']) := by
  unfold directiveFree at h ⊢
  induction l with
  | nil => decide
  | cons c l ih =>
    rw [List.cons_append, skipwhite]
    rw [skipwhite] at h
    split
    · rename_i hc
      simp only [hc, if_true] at h
      exact ih h
    · rename_i hc
      simp only [hc] at h
      simpa using h

theorem usesNoMacro_smallc (l : Str) (h : "__SMALLC__".toList ∉ identifiers l) :
    usesNoMacro [⟨"__SMALLC__".toList, "1".toList, -1, []⟩] l := by
  intro w hw
  have hne : w.take (MAXNAMESIZE - 1) ≠ "__SMALLC__".toList := by
    intro e
    have hl : (w.take (MAXNAMESIZE - 1)).length = 10 := by rw [e]; rfl
    rw [List.length_take] at hl
    have hw10 : w.length ≤ MAXNAMESIZE - 1 := by
      have : MAXNAMESIZE - 1 = 63 := rfl
      omega
    rw [List.take_of_length_le hw10] at e
    exact h (e ▸ hw)
  simp only [finddefine, finddefineFrom, hne, if_false]

/-- A line that is not a directive is written out unchanged when only the
predefined macro is defined and the line does not name it. -/
theorem processline_plain (fs : Files) (junk : Args) (incl : Str → State → Step) (l : Str)
    (s : State) (hd : s.defs = [⟨"__SMALLC__".toList, "1".toList, -1, []⟩])
    (hs : s.skipping = false) (hdf : directiveFree l)
    (hid : "__SMALLC__".toList ∉ identifiers l) :
    processline fs junk incl l s = .cont (s.oputs l) ∧
      processline fs junk incl (l ++ ['\n']) s = .cont (s.oputs (l ++ ['\n'])) := by
  have hu := usesNoMacro_smallc l hid
  constructor
  · rw [processline_directiveFree fs junk incl l s hdf, hs, hd, substitute_plain _ _ _ hu]
    rfl
  · rw [processline_directiveFree fs junk incl _ s (directiveFree_newline l hdf), hs, hd,
      substitute_append_plain _ _ l ['\n'] hu (by intro c hc; cases hc; decide)]
    rfl

theorem processfile_one_line (fs : Files) (junk : Args) (fuel : Nat) (l x rest : Str) (s : State)
    (hd : s.defs = [⟨"__SMALLC__".toList, "1".toList, -1, []⟩])
    (hs : s.skipping = false) (hc : s.continuation = false) (hl : PlainLine l)
    (hx : x = [] ∨ x = ['\n']) (hne : l ++ x ≠ [])
    (hread : readline (l ++ x ++ rest) MAXLINE = (l ++ x, rest)) :
    ∃ s1, Same s s1 (l ++ x) ∧
      processfile fs junk (fuel + 1) (l ++ x ++ rest) s = processfile fs junk fuel rest s1 := by
  obtain ⟨hnl, hnul, hdf, hbs, hid⟩ := hl
  have hcs : cstr (l ++ x) = l ++ x := by
    apply cstr_of_no_nul
    rcases hx with rfl | rfl
    · simpa using hnul
    · simp only [List.mem_append, List.mem_singleton, not_or]
      exact ⟨hnul, by decide⟩
  have hlast : ¬ (dropLineEnd (l ++ x)).getLast? = some '\\' := by
    intro h
    have := dropLineEnd_getLast _ h
    rcases hx with rfl | rfl
    · exact hbs (by simpa using this)
    · exact hbs (endsWithBackslash_newline l this)
  have hpl := processline_plain fs junk (processfile fs junk fuel) l
    { s with
      linenumber := s.linenumber.set s.includelevel (s.linenumber.getD s.includelevel 0 + 1)
      linebuf := l ++ x
      continuation := false } hd hs hdf hid
  have hpos : 0 < (l ++ x).length := List.length_pos.mpr hne
  rw [processfile]
  simp only [hread, hpos, if_true, hc, hcs, hlast, if_false, Bool.false_eq_true]
  rcases hx with rfl | rfl
  · simp only [List.append_nil] at hpl ⊢
    rw [hpl.1]
    refine ⟨_, ?_, rfl⟩
    exact ⟨rfl, rfl, rfl, rfl, rfl, rfl, rfl⟩
  · rw [hpl.2]
    refine ⟨_, ?_, rfl⟩
    exact ⟨rfl, rfl, rfl, rfl, rfl, rfl, rfl⟩


theorem same_trans {s s1 s2 : State} {a b : Str} (h1 : Same s s1 a) (h2 : Same s1 s2 b) :
    Same s s2 (a ++ b) := by
  obtain ⟨a1, a2, a3, a4, _, a6, a7⟩ := h1
  obtain ⟨b1, b2, b3, b4, b5, b6, b7⟩ := h2
  exact ⟨b1.trans a1, b2.trans a2, b3.trans a3, b4.trans a4, b5,
    by rw [b6, a6, List.append_assoc], b7.trans a7⟩

theorem processfile_eof (fs : Files) (junk : Args) (fuel : Nat) (s : State) :
    processfile fs junk (fuel + 1) [] s = .cont s := by
  rw [processfile]
  rfl

/-- The function `processfile` copies plain input to the standard output. -/
theorem processfile_plain (fs : Files) (junk : Args) (ls : List Str) (last : Str) (s : State)
    (fuel : Nat) (hd : s.defs = [⟨"__SMALLC__".toList, "1".toList, -1, []⟩])
    (hs : s.skipping = false) (hc : s.continuation = false)
    (hls : ∀ l ∈ ls, PlainLine l ∧ l.length + 1 < MAXLINE)
    (hlast : PlainLine last ∧ last.length < MAXLINE) (hfuel : ls.length + 2 ≤ fuel) :
    ∃ s1, processfile fs junk fuel ((ls.map (fun l => l ++ ['\n'])).flatten ++ last) s = .cont s1 ∧
      Same s s1 ((ls.map (fun l => l ++ ['\n'])).flatten ++ last) := by
  induction ls generalizing s fuel with
  | nil =>
    obtain ⟨f, rfl⟩ : ∃ f, fuel = f + 2 := ⟨fuel - 2, by simp at hfuel; omega⟩
    simp only [List.map_nil, List.flatten_nil, List.nil_append]
    by_cases hl : last = []
    · subst hl
      exact ⟨s, processfile_eof fs junk _ s, rfl, rfl, rfl, rfl, hc, by simp, rfl⟩
    · have hread : readline (last ++ [] ++ []) MAXLINE = (last ++ [], []) := by
        simp only [List.append_nil, readline]
        rw [readlineLoop_last MAXLINE last 0 [] hlast.1.1
          (by have := hlast.2; simp only [Nat.zero_add]; omega)]
        simp
      obtain ⟨s1, hsame, hpf⟩ := processfile_one_line fs junk (f + 1) last [] [] s hd hs hc
        hlast.1 (Or.inl rfl) (by simpa using hl) hread
      simp only [List.append_nil] at hpf hsame
      exact ⟨s1, by rw [hpf, processfile_eof], hsame⟩
  | cons l ls ih =>
    obtain ⟨f, rfl⟩ : ∃ f, fuel = f + 1 := ⟨fuel - 1, by simp at hfuel; omega⟩
    have hl := hls l (List.mem_cons_self _ _)
    have hread : readline (l ++ ['\n'] ++ ((ls.map (fun l => l ++ ['\n'])).flatten ++ last)) MAXLINE =
        (l ++ ['\n'], (ls.map (fun l => l ++ ['\n'])).flatten ++ last) := by
      simp only [readline, List.append_assoc, List.singleton_append]
      rw [readlineLoop_line MAXLINE l _ 0 [] hl.1.1
        (by have := hl.2; simp only [Nat.zero_add]; change l.length < 511; change l.length + 1 < 512 at this; omega)]
      simp
    obtain ⟨s1, hsame, hpf⟩ := processfile_one_line fs junk f l ['\n']
      ((ls.map (fun l => l ++ ['\n'])).flatten ++ last) s hd hs hc hl.1 (Or.inr rfl) (by simp) hread
    obtain ⟨s2, hpf2, hsame2⟩ := ih s1 f (hsame.1.trans hd) (hsame.2.2.1.trans hs) hsame.2.2.2.2.1
      (fun x hx => hls x (List.mem_cons_of_mem _ hx)) (by simp at hfuel; omega)
    refine ⟨s2, ?_, ?_⟩
    · simp only [List.map_cons, List.flatten_cons, List.append_assoc] at hpf ⊢
      rw [hpf, hpf2]
    · simp only [List.map_cons, List.flatten_cons, List.append_assoc]
      have := same_trans hsame hsame2
      simpa only [List.append_assoc] using this

/-- C4 (as amended): on input made of plain lines that fit the line buffer,
the preprocessor writes the input unchanged and returns 0. -/
theorem main_copies_plain_input (fs : Files) (junk : Args) (prog name : Str) (ls : List Str)
    (last : Str) (fuel : Nat)
    (hfs : fs name = some ((ls.map (fun l => l ++ ['\n'])).flatten ++ last))
    (hls : ∀ l ∈ ls, PlainLine l ∧ l.length + 1 < MAXLINE)
    (hlast : PlainLine last ∧ last.length < MAXLINE) (hfuel : ls.length + 2 ≤ fuel) :
    main fs junk fuel [prog, name] =
      some ⟨0, (ls.map (fun l => l ++ ['\n'])).flatten ++ last, []⟩ := by
  obtain ⟨s1, hpf, hsame⟩ := processfile_plain fs junk ls last
    { initState with
      filename := initState.filename.set 0 name
      linenumber := initState.linenumber.set 0 0
      defs := [⟨"__SMALLC__".toList, "1".toList, -1, []⟩] }
    fuel rfl rfl rfl hls hlast hfuel
  obtain ⟨_, h2, _, _, _, h6, h7⟩ := hsame
  have hlev : ¬ 0 < s1.ifstacklevel := by
    simp only [State.ifstacklevel, h2]
    decide
  simp only [main, List.length_cons, List.length_nil, List.getD_cons_succ, List.getD_cons_zero,
    hfs, hpf, hlev, if_false]
  simp [h6, h7, initState]

theorem main_copies_plain_input_witness :
    main (fun n => if n = "a.c".toList then some "int x;\nint y".toList else none) (fun _ => []) 3
        ["sppe".toList, "a.c".toList] =
      some ⟨0, (["int x;".toList].map (fun l => l ++ ['\n'])).flatten ++ "int y".toList, []⟩ :=
  main_copies_plain_input (fun n => if n = "a.c".toList then some "int x;\nint y".toList else none)
    (fun _ => []) "sppe".toList "a.c".toList ["int x;".toList] "int y".toList 3 (by decide)
    (by
      intro l hl
      simp only [List.mem_singleton] at hl
      subst hl
      unfold PlainLine directiveFree endsWithBackslash
      decide)
    (by unfold PlainLine directiveFree endsWithBackslash; decide) (by decide)

/-- C4 (counterexample): the directive-free one-line input `__SMALLC__` is
written as `1`. -/
theorem main_expands_predefined_macro :
    main (fun n => if n = "a.c".toList then some "__SMALLC__\n".toList else none) (fun _ => []) 10
        ["sppe".toList, "a.c".toList] = some ⟨0, "1\n".toList, []⟩ ∧
    main (fun n => if n = "a.c".toList then some "__SMALLC__\n".toList else none) (fun _ => []) 10
        ["sppe".toList, "a.c".toList] ≠ some ⟨0, "__SMALLC__\n".toList, []⟩ := by
  decide

end Sppe
end SmallC

namespace SmallC
namespace Sppe

/-- C6: on the one-line file `#ifdef X`, which ends with the conditional
still open, `main` prints the diagnostic and returns 0. -/
theorem main_unterminated_ifdef_returns_zero :
    main (fun n => if n = "a.c".toList then some "#ifdef X\n".toList else none) (fun _ => []) 10
        ["sppe".toList, "a.c".toList] =
      some ⟨0, [], "Error at a.c:1: Unterminated #ifdef/#ifndef\n".toList⟩ := by
  decide

end Sppe
end SmallC

namespace SmallC
namespace Sppe

theorem Run.map_ne_hang {α β : Type} (f : α → β) (r : Run α) (h : r ≠ .hang) :
    r.map f ≠ .hang := by
  cases r with
  | ok a => simp [Run.map]
  | overrun => simp [Run.map]
  | hang => exact absurd rfl h

theorem Run.map_eq_ok {α β : Type} (f : α → β) (r : Run α) (b : β) (h : r.map f = .ok b) :
    ∃ a, r = .ok a ∧ f a = b := by
  cases r with
  | ok a => exact ⟨a, rfl, by simpa [Run.map] using h⟩
  | overrun => simp [Run.map] at h
  | hang => simp [Run.map] at h

theorem parsemacroargsLoopSized_ne_hang (fuel : Nat) (p : Str) (nargs : Nat) (cur : Str)
    (parens : Nat) (args : Args) (h : p.length < fuel) :
    parsemacroargsLoopSized fuel p nargs cur parens args ≠ .hang := by
  induction fuel generalizing p nargs cur parens args with
  | zero => omega
  | succ fuel ih =>
    cases p with
    | nil => simp only [parsemacroargsLoopSized]; split <;> simp
    | cons c rest =>
      have hr : rest.length < fuel := by simpa using h
      have hs : (skipwhite rest).length < fuel := lt_of_le_of_lt (skipwhite_length_le rest) hr
      simp only [parsemacroargsLoopSized]
      split
      · split <;> simp
      · split
        · split
          · simp
          · exact ih _ _ _ _ _ hr
        · split
          · split
            · simp
            · exact ih _ _ _ _ _ hr
          · split
            · split
              · exact ih _ _ _ _ _ hs
              · simp
            · split
              · simp
              · exact ih _ _ _ _ _ hr

theorem parsemacroargsSized_ne_hang (src : Str) (args : Args) :
    parsemacroargsSized src args ≠ .hang :=
  parsemacroargsLoopSized_ne_hang _ _ _ _ _ _ (Nat.lt_succ_of_le (skipwhite_length_le src))

theorem expandmacroLoopSized_ne_hang (d : MacroDef) (args : Args) (hd : 0 ≤ d.nparams)
    (fuel : Nat) (src : Str) (pos : Nat) (h : src.length < fuel) :
    expandmacroLoopSized d args fuel src pos ≠ .hang := by
  induction fuel generalizing src pos with
  | zero => omega
  | succ fuel ih =>
    cases src with
    | nil => simp only [expandmacroLoopSized]; split <;> simp
    | cons c src =>
      have hr : src.length < fuel := by simpa using h
      simp only [expandmacroLoopSized, hd, if_true]
      split
      · rename_i hc
        have h1 := copyword_len_pos c src hc
        have hd : ((c :: src).drop (copyword (c :: src)).2).length < fuel := by
          rw [List.length_drop]; simp only [List.length_cons]; omega
        split
        · split
          · exact Run.map_ne_hang _ _ (ih _ _ hd)
          · simp
        · split
          · exact Run.map_ne_hang _ _ (ih _ _ hd)
          · simp
      · split
        · exact Run.map_ne_hang _ _ (ih _ _ hr)
        · simp

theorem expandmacroSized_ne_hang (d : MacroDef) (args : Args) (hd : 0 ≤ d.nparams) :
    expandmacroSized d args ≠ .hang :=
  expandmacroLoopSized_ne_hang d args hd _ _ _ (Nat.lt_succ_self _)

theorem substituteLoopSized_ne_hang (T : Table) (fuel : Nat) (src : Str) (args : Args) (pos : Nat)
    (h : src.length < fuel) : substituteLoopSized T fuel src args pos ≠ .hang := by
  induction fuel generalizing src args pos with
  | zero => omega
  | succ fuel ih =>
    cases src with
    | nil => simp only [substituteLoopSized]; split <;> simp
    | cons c src =>
      have hr : src.length < fuel := by simpa using h
      simp only [substituteLoopSized]
      split
      · rename_i hc
        have h1 := copyword_len_pos c src hc
        have hd : ((c :: src).drop (copyword (c :: src)).2).length < fuel := by
          rw [List.length_drop]; simp only [List.length_cons]; omega
        split
        · split
          · rename_i hfun
            split
            · rename_i src3 hsk
              have h3 : src3.length < fuel := by
                have := skipwhite_length_le ((c :: src).drop (copyword (c :: src)).2)
                rw [hsk] at this
                simp only [List.length_cons] at this
                omega
              have h4 : (skipPastParen src3).length < fuel :=
                lt_of_le_of_lt (skipPastParen_length_le src3) h3
              split
              · rename_i hp
                exact absurd hp (parsemacroargsSized_ne_hang _ _)
              · simp
              · split
                · rename_i he
                  exact absurd he (expandmacroSized_ne_hang _ _ hfun)
                · simp
                · split
                  · exact Run.map_ne_hang _ _ (ih _ _ _ h4)
                  · simp
            · have h2 : (skipwhite ((c :: src).drop (copyword (c :: src)).2)).length < fuel :=
                lt_of_le_of_lt (skipwhite_length_le _) hd
              split
              · exact Run.map_ne_hang _ _ (ih _ _ _ h2)
              · simp
          · split
            · exact Run.map_ne_hang _ _ (ih _ _ _ hd)
            · simp
        · split
          · exact Run.map_ne_hang _ _ (ih _ _ _ hd)
          · simp
      · split
        · exact Run.map_ne_hang _ _ (ih _ _ _ hr)
        · simp

/-- With the sizes of its arrays `substitute` either returns or stores behind
the end of an array; its loop never goes on for ever. -/
theorem substituteSized_ne_hang (T : Table) (junk : Args) (line : Str) :
    substituteSized T junk line ≠ .hang :=
  substituteLoopSized_ne_hang T _ line junk 0 (Nat.lt_succ_self _)

theorem parsemacroargsLoopSized_ok (fuel : Nat) (p : Str) (nargs : Nat) (cur : Str)
    (parens : Nat) (args : Args) (r : Nat × Args)
    (h : parsemacroargsLoopSized fuel p nargs cur parens args = .ok r) :
    parsemacroargsLoop fuel p nargs cur parens args = some r := by
  induction fuel generalizing p nargs cur parens args with
  | zero => simp [parsemacroargsLoopSized] at h
  | succ fuel ih =>
    cases p with
    | nil =>
      simp only [parsemacroargsLoopSized] at h
      split at h
      · simp only [parsemacroargsLoop]
        exact congrArg some (Run.ok.inj h)
      · cases h
    | cons c rest =>
      simp only [parsemacroargsLoopSized] at h
      simp only [parsemacroargsLoop]
      split at h
      · rename_i h1
        rw [if_pos h1]
        split at h
        · exact congrArg some (Run.ok.inj h)
        · cases h
      · rename_i h1
        rw [if_neg h1]
        split at h
        · rename_i h2
          rw [if_pos h2]
          split at h
          · cases h
          · exact ih _ _ _ _ _ h
        · rename_i h2
          rw [if_neg h2]
          split at h
          · rename_i h3
            rw [if_pos h3]
            split at h
            · cases h
            · exact ih _ _ _ _ _ h
          · rename_i h3
            rw [if_neg h3]
            split at h
            · rename_i h4
              rw [if_pos h4]
              split at h
              · exact ih _ _ _ _ _ h
              · cases h
            · rename_i h4
              rw [if_neg h4]
              split at h
              · cases h
              · exact ih _ _ _ _ _ h

theorem parsemacroargsSized_ok (src : Str) (args : Args) (r : Nat × Args)
    (h : parsemacroargsSized src args = .ok r) : parsemacroargs src args = some r :=
  parsemacroargsLoopSized_ok _ _ _ _ _ _ r h

theorem expandmacroLoopSized_ok (d : MacroDef) (args : Args) (fuel : Nat) (src : Str) (pos : Nat)
    (r : Str) (h : expandmacroLoopSized d args fuel src pos = .ok r) :
    expandmacroLoop d args fuel src = some r := by
  induction fuel generalizing src pos r with
  | zero => simp [expandmacroLoopSized] at h
  | succ fuel ih =>
    cases src with
    | nil =>
      simp only [expandmacroLoopSized] at h
      split at h
      · simp only [expandmacroLoop]
        exact congrArg some (Run.ok.inj h)
      · cases h
    | cons c src =>
      simp only [expandmacroLoopSized] at h
      simp only [expandmacroLoop]
      split at h
      · rename_i hc
        rw [if_pos hc]
        split at h
        · rename_i i hf
          split at h
          · obtain ⟨a, ha, rfl⟩ := Run.map_eq_ok _ _ _ h
            rw [ih _ _ _ ha]; rfl
          · cases h
        · rename_i hf
          split at h
          · rename_i hn
            rw [if_pos hn]
            split at h
            · obtain ⟨a, ha, rfl⟩ := Run.map_eq_ok _ _ _ h
              rw [ih _ _ _ ha]; rfl
            · cases h
          · rename_i hn
            rw [if_neg hn]
            exact ih _ _ _ h
      · rename_i hc
        rw [if_neg hc]
        split at h
        · obtain ⟨a, ha, rfl⟩ := Run.map_eq_ok _ _ _ h
          rw [ih _ _ _ ha]; rfl
        · cases h

theorem expandmacroSized_ok (d : MacroDef) (args : Args) (r : Str)
    (h : expandmacroSized d args = .ok r) : expandmacro d args = some r :=
  expandmacroLoopSized_ok d args _ _ _ r h

theorem substituteLoopSized_ok (T : Table) (fuel : Nat) (src : Str) (args : Args) (pos : Nat)
    (r : Str) (h : substituteLoopSized T fuel src args pos = .ok r) :
    substituteLoop T fuel src args = some r := by
  induction fuel generalizing src args pos r with
  | zero => simp [substituteLoopSized] at h
  | succ fuel ih =>
    cases src with
    | nil =>
      simp only [substituteLoopSized] at h
      split at h
      · simp only [substituteLoop]
        exact congrArg some (Run.ok.inj h)
      · cases h
    | cons c src =>
      simp only [substituteLoopSized] at h
      simp only [substituteLoop]
      split at h
      · rename_i hc
        rw [if_pos hc]
        split at h
        · rename_i idx hf
          split at h
          · rename_i hfun
            rw [if_pos hfun]
            split at h
            · rename_i src3 hsk
              split at h
              · cases h
              · cases h
              · rename_i n args1 hp
                rw [parsemacroargsSized_ok _ _ _ hp]
                simp only []
                split at h
                · cases h
                · cases h
                · rename_i expanded he
                  rw [expandmacroSized_ok _ _ _ he]
                  simp only []
                  split at h
                  · obtain ⟨a, ha, rfl⟩ := Run.map_eq_ok _ _ _ h
                    rw [ih _ _ _ _ ha]; rfl
                  · cases h
            · rename_i hsk
              split at h
              · obtain ⟨a, ha, rfl⟩ := Run.map_eq_ok _ _ _ h
                rw [ih _ _ _ _ ha]; rfl
              · cases h
          · rename_i hfun
            rw [if_neg hfun]
            split at h
            · obtain ⟨a, ha, rfl⟩ := Run.map_eq_ok _ _ _ h
              rw [ih _ _ _ _ ha]; rfl
            · cases h
        · rename_i hf
          split at h
          · obtain ⟨a, ha, rfl⟩ := Run.map_eq_ok _ _ _ h
            rw [ih _ _ _ _ ha]; rfl
          · cases h
      · rename_i hc
        rw [if_neg hc]
        split at h
        · obtain ⟨a, ha, rfl⟩ := Run.map_eq_ok _ _ _ h
          rw [ih _ _ _ _ ha]; rfl
        · cases h

/-- A run of `substitute` that stays inside its arrays writes the text given
by the function `substitute` above. -/
theorem substituteSized_ok (T : Table) (junk : Args) (line r : Str)
    (h : substituteSized T junk line = .ok r) : substitute T junk line = some r :=
  substituteLoopSized_ok T _ line junk 0 r h

end Sppe
end SmallC

namespace SmallC
namespace Scc

theorem tkv : tk '=' = 61 ∧ tk '+' = 43 ∧ tk '-' = 45 ∧ tk '*' = 42 ∧ tk '/' = 47 ∧
    tk '%' = 37 ∧ tk '|' = 124 ∧ tk '^' = 94 ∧ tk '&' = 38 ∧ tk '<' = 60 ∧ tk '>' = 62 ∧
    tk '[' = 91 ∧ tk ']' = 93 ∧ tk '(' = 40 ∧ tk ')' = 41 ∧ tk '!' = 33 ∧ tk '~' = 126 ∧
    tk ',' = 44 ∧ tk ';' = 59 := by
  decide

theorem Tv : T_EOF = -1 ∧ T_INT = 256 ∧ T_CHAR = 257 ∧ T_IF = 258 ∧ T_ELSE = 259 ∧
    T_WHILE = 260 ∧ T_FOR = 261 ∧ T_RETURN = 262 ∧ T_BREAK = 263 ∧ T_CONTINUE = 264 ∧
    T_IDENT = 265 ∧ T_NUMBER = 266 ∧ T_STRING = 267 ∧ T_EQ = 268 ∧ T_NE = 269 ∧ T_LE = 270 ∧
    T_GE = 271 ∧ T_SHL = 272 ∧ T_SHR = 273 ∧ T_AND = 274 ∧ T_OR = 275 ∧ T_INC = 276 ∧
    T_DEC = 277 ∧ T_PLUSEQ = 278 ∧ T_MINUSEQ = 279 ∧ T_STAREQ = 280 ∧ T_SLASHEQ = 281 ∧
    T_CHARLIT = 282 := by
  decide

theorem Tok.agrees_code (t : Tok) (c v : Int) (h : t.agrees c v = true) : c = t.code := by
  cases t <;> simp [Tok.agrees, Tok.code] at h ⊢ <;> first | exact h | exact h.1

theorem Ready.token {tok : Int} {lx : Lexer} {ts : List Tok} {tend : Int} {lend : Lexer}
    (h : Ready tok lx ts tend lend) : tok = peek ts tend := by
  cases ts with
  | nil => exact h.1
  | cons t ts => exact Tok.agrees_code t _ _ h.1

/-- The statement `token = gettoken()` moves the parser to the next token. -/
theorem Ready.next {tok : Int} {lx : Lexer} {t : Tok} {ts : List Tok} {tend : Int} {lend : Lexer}
    (h : Ready tok lx (t :: ts) tend lend) (s : CState) (hs : s.lex = lx) :
    ∃ tok1 lx1, nexttoken s = .ok { s with lex := lx1, token := tok1 } ∧
      Ready tok1 lx1 ts tend lend := by
  obtain ⟨_, hr⟩ := h
  subst hs
  cases ts with
  | nil =>
    simp only [readToks] at hr
    cases hg : gettoken s.lex with
    | ok c l1 =>
      simp only [hg, Option.some.injEq, Prod.mk.injEq] at hr
      exact ⟨c, l1, by simp [nexttoken, hg], hr.1, hr.2⟩
    | fail l1 => simp [hg] at hr
    | hang => simp [hg] at hr
  | cons t2 ts =>
    simp only [readToks] at hr
    cases hg : gettoken s.lex with
    | ok c l1 =>
      simp only [hg] at hr
      by_cases ha : t2.agrees c l1.tokval = true
      · simp only [ha, if_true] at hr
        exact ⟨c, l1, by simp [nexttoken, hg], ha, hr⟩
      · simp [ha] at hr
    | fail l1 => simp [hg] at hr
    | hang => simp [hg] at hr

theorem postfixExprLoop_exit (f : Nat) (s : CState) (h : stopsPostfix s.token) :
    postfixExprLoop (f + 1) s = .ok s := by
  obtain ⟨h1, h2, h3, h4⟩ := h
  simp [postfixExprLoop, h1, h2, h3, h4]

theorem multiplicativeLoop_exit (f : Nat) (s : CState) (h : stopsMul s.token) :
    multiplicativeLoop (f + 1) s = .ok s := by
  obtain ⟨h1, h2, h3⟩ := h
  simp [multiplicativeLoop, h1, h2, h3]

theorem additiveLoop_exit (f : Nat) (s : CState) (h : stopsAdd s.token) :
    additiveLoop (f + 1) s = .ok s := by
  obtain ⟨h1, h2⟩ := h
  simp [additiveLoop, h1, h2]

/-- From `additive` up to `expression`: nothing is added when the next token
is none of the operators of the levels in between. -/
theorem expression_of_additive (f : Nat) (s s1 : CState) (h : additive (f + 1) s = .ok s1)
    (hu : stopsUpper s1.token) : expression (f + 11) s = .ok s1 := by
  obtain ⟨h1, h2, h3, h4, h5, h6, h7, h8, h9, h10, h11, h12, h13, h14, h15, h16, h17, h18⟩ := hu
  have e1 : shift (f + 2) s = .ok s1 := by
    simp [shift, h, Res.bind, shiftLoop, h17, h18]
  have e2 : relational (f + 3) s = .ok s1 := by
    simp [relational, e1, Res.bind, relationalLoop, h13, h14, h15, h16]
  have e3 : equality (f + 4) s = .ok s1 := by
    simp [equality, e2, Res.bind, equalityLoop, h11, h12]
  have e4 : bitwise_and (f + 5) s = .ok s1 := by
    simp [bitwise_and, e3, Res.bind, bitwise_andLoop, h10]
  have e5 : bitwise_xor (f + 6) s = .ok s1 := by
    simp [bitwise_xor, e4, Res.bind, bitwise_xorLoop, h9]
  have e6 : bitwise_or (f + 7) s = .ok s1 := by
    simp [bitwise_or, e5, Res.bind, bitwise_orLoop, h8]
  have e7 : logical_and (f + 8) s = .ok s1 := by
    simp [logical_and, e6, Res.bind, logical_andLoop, h7]
  have e8 : logical_or (f + 9) s = .ok s1 := by
    simp [logical_or, e7, Res.bind, logical_orLoop, h6]
  have e9 : assignment (f + 10) s = .ok s1 := by
    simp [assignment, e8, Res.bind, assignmentLoop, h1, h2, h3, h4, h5]
  simp [expression, e9]

end Scc
end SmallC

namespace SmallC
namespace Scc

mutual
theorem expr_iters_lt : ∀ e : Expr, e.iters < e.toks.length
  | .term t => by
    rw [Expr.iters, Expr.toks]
    exact Nat.lt_of_le_of_lt (Nat.zero_le _) (term_iters_lt t)
  | .add e t => by
    have := expr_iters_lt e
    rw [Expr.iters, Expr.toks]
    simp only [List.length_append, List.length_cons]
    omega
theorem term_iters_lt : ∀ t : Term, t.iters < t.toks.length
  | .prim p => by
    rw [Term.iters, Term.toks]
    exact prim_toks_pos p
  | .mul t p => by
    have := term_iters_lt t
    rw [Term.iters, Term.toks]
    simp only [List.length_append, List.length_cons]
    omega
theorem prim_toks_pos : ∀ p : Prim, 0 < p.toks.length
  | .num n => by simp [Prim.toks]
  | .paren e => by
    have := expr_iters_lt e
    simp [Prim.toks]
end

theorem unary_of_primary (f : Nat) (s s1 : CState) (h : primary (f + 1) s = .ok s1)
    (htok : s.token = T_NUMBER ∨ s.token = tk '(') (hstop : stopsPostfix s1.token) :
    unary (f + 3) s = .ok s1 := by
  have hp : postfixExpr (f + 2) s = .ok s1 := by
    simp only [postfixExpr, h, Res.bind]
    exact postfixExprLoop_exit f s1 hstop
  rcases htok with ht | ht <;> simp [unary, ht, tkv, Tv, hp]

theorem parsed_trans {s s1 s2 : CState} {c1 c2 : List Asm} {r1 r2 : List Tok} {tend : Int}
    {lend : Lexer} (h1 : Parsed s s1 c1 r1 tend lend) (h2 : Parsed s1 s2 c2 r2 tend lend) :
    Parsed s s2 (c1 ++ c2) r2 tend lend :=
  ⟨h2.1.trans h1.1, by rw [h2.2.1, h1.2.1, List.append_assoc], h2.2.2⟩

theorem peek_star (ts : List Tok) (tend : Int) :
    stopsPostfix (peek (Tok.star :: ts) tend) := by
  simp [peek, Tok.code, stopsPostfix, tkv, Tv]

theorem peek_plus (ts : List Tok) (tend : Int) :
    stopsPostfix (peek (Tok.plus :: ts) tend) ∧ stopsMul (peek (Tok.plus :: ts) tend) := by
  simp [peek, Tok.code, stopsPostfix, stopsMul, tkv, Tv]

theorem peek_rparen (ts : List Tok) (tend : Int) :
    stopsPostfix (peek (Tok.rparen :: ts) tend) ∧ stopsMul (peek (Tok.rparen :: ts) tend) ∧
      stopsAdd (peek (Tok.rparen :: ts) tend) ∧ stopsUpper (peek (Tok.rparen :: ts) tend) := by
  simp [peek, Tok.code, stopsPostfix, stopsMul, stopsAdd, stopsUpper, tkv, Tv]

mutual

/-- The function `additive` on the tokens of a sum, up to the loop test after its last term. -/
theorem parse_expr : ∀ (e : Expr) (f : Nat) (s : CState) (rest : List Tok) (tend : Int)
    (lend : Lexer), s.target = .x64 → Ready s.token s.lex (e.toks ++ rest) tend lend →
    stopsPostfix (peek rest tend) → stopsMul (peek rest tend) → 16 * e.toks.length ≤ f + 3 →
    ∃ s1, Parsed s s1 e.code rest tend lend ∧
      (multiplicative f s).bind (additiveLoop f) = additiveLoop (f - e.iters) s1
  | .term t, f, s, rest, tend, lend, hx, hr, hpf, hm, hf => by
    rw [Expr.toks] at hr hf
    obtain ⟨g, rfl⟩ : ∃ g, f = g + 1 := ⟨f - 1, by have := term_iters_lt t; omega⟩
    obtain ⟨s1, hp, he⟩ := parse_term t g s rest tend lend hx hr hpf (by omega)
    have hlt := term_iters_lt t
    obtain ⟨k, hk⟩ : ∃ k, g - t.iters = k + 1 := ⟨g - t.iters - 1, by omega⟩
    refine ⟨s1, by rw [Expr.code]; exact hp, ?_⟩
    rw [multiplicative, he, hk, multiplicativeLoop_exit k s1 (by rw [hp.2.2.token]; exact hm)]
    simp [Res.bind, Expr.iters]
  | .add e t, f, s, rest, tend, lend, hx, hr, hpf, hm, hf => by
    rw [Expr.toks] at hr hf
    simp only [List.length_append, List.length_cons] at hf
    rw [List.append_assoc, List.cons_append] at hr
    have hpp := peek_plus (t.toks ++ rest) tend
    obtain ⟨s1, hp1, he1⟩ := parse_expr e f s (Tok.plus :: (t.toks ++ rest)) tend lend hx hr
      hpp.1 hpp.2 (by omega)
    have hlt := expr_iters_lt e
    have hlt2 := term_iters_lt t
    obtain ⟨g, hg⟩ : ∃ g, f - e.iters = g + 1 := ⟨f - e.iters - 1, by omega⟩
    obtain ⟨k, hk⟩ : ∃ k, g = k + 1 := ⟨g - 1, by omega⟩
    have htok : s1.token = tk '+' := by rw [hp1.2.2.token]; rfl
    have hx1 : s1.target = .x64 := hp1.1.trans hx
    obtain ⟨tok2, lx2, hn, hr2⟩ := hp1.2.2.next (push s1) (by simp [push, hx1, emit])
    obtain ⟨s3, hp3, he3⟩ := parse_term t k { push s1 with lex := lx2, token := tok2 } rest tend
      lend (by simp [push, hx1, emit]) hr2 hpf (by omega)
    obtain ⟨j, hj⟩ : ∃ j, k - t.iters = j + 1 := ⟨k - t.iters - 1, by omega⟩
    have hx3 : s3.target = .x64 := by rw [hp3.1]; simp [push, hx1, emit]
    have hmul : multiplicative g { push s1 with lex := lx2, token := tok2 } = .ok s3 := by
      rw [hk, multiplicative, he3, hj, multiplicativeLoop_exit j s3
        (by rw [hp3.2.2.token]; exact hm)]
    refine ⟨emit .addq_rdx_rax (pop .rdx s3), ?_, ?_⟩
    · refine ⟨by simp [emit, pop, hx3, hx], ?_, by simpa [emit, pop, hx3] using hp3.2.2⟩
      rw [Expr.code]
      simp [emit, pop, hx3, hp3.2.1, push, hx1, hp1.2.1]
    · rw [he1, hg, additiveLoop]
      simp only [htok, true_or, if_true, hn, Res.bind, hmul, hx3]
      have : f - (Expr.add e t).iters = g := by rw [Expr.iters]; omega
      rw [this]

/-- The function `multiplicative` on the tokens of a product, up to the loop
test after its last factor. -/
theorem parse_term : ∀ (t : Term) (f : Nat) (s : CState) (rest : List Tok) (tend : Int)
    (lend : Lexer), s.target = .x64 → Ready s.token s.lex (t.toks ++ rest) tend lend →
    stopsPostfix (peek rest tend) → 16 * t.toks.length ≤ f + 7 →
    ∃ s1, Parsed s s1 t.code rest tend lend ∧
      (unary f s).bind (multiplicativeLoop f) = multiplicativeLoop (f - t.iters) s1
  | .prim p, f, s, rest, tend, lend, hx, hr, hpf, hf => by
    rw [Term.toks] at hr hf
    have hpos := prim_toks_pos p
    obtain ⟨g, rfl⟩ : ∃ g, f = g + 3 := ⟨f - 3, by omega⟩
    obtain ⟨s1, hp, he⟩ := parse_prim p (g + 1) s rest tend lend hx hr (by omega)
    have htok : s.token = T_NUMBER ∨ s.token = tk '(' := by
      have := hr.token
      cases p with
      | num n => left; simpa [Prim.toks, peek, Tok.code] using this
      | paren e => right; simpa [Prim.toks, peek, Tok.code] using this
    refine ⟨s1, by rw [Term.code]; exact hp, ?_⟩
    rw [unary_of_primary g s s1 he htok (by rw [hp.2.2.token]; exact hpf)]
    simp [Res.bind, Term.iters]
  | .mul t p, f, s, rest, tend, lend, hx, hr, hpf, hf => by
    rw [Term.toks] at hr hf
    simp only [List.length_append, List.length_cons] at hf
    rw [List.append_assoc, List.cons_append] at hr
    obtain ⟨s1, hp1, he1⟩ := parse_term t f s (Tok.star :: (p.toks ++ rest)) tend lend hx hr
      (peek_star _ _) (by omega)
    have hlt := term_iters_lt t
    have hpos := prim_toks_pos p
    obtain ⟨g, hg⟩ : ∃ g, f - t.iters = g + 1 := ⟨f - t.iters - 1, by omega⟩
    obtain ⟨k, hk⟩ : ∃ k, g = k + 3 := ⟨g - 3, by omega⟩
    have htok : s1.token = tk '*' := by rw [hp1.2.2.token]; rfl
    have hx1 : s1.target = .x64 := hp1.1.trans hx
    obtain ⟨tok2, lx2, hn, hr2⟩ := hp1.2.2.next (push s1) (by simp [push, hx1, emit])
    obtain ⟨s3, hp3, he3⟩ := parse_prim p (k + 1) { push s1 with lex := lx2, token := tok2 } rest
      tend lend (by simp [push, hx1, emit]) hr2 (by omega)
    have htok2 : tok2 = T_NUMBER ∨ tok2 = tk '(' := by
      have := hr2.token
      cases p with
      | num n => left; simpa [Prim.toks, peek, Tok.code] using this
      | paren e => right; simpa [Prim.toks, peek, Tok.code] using this
    have hx3 : s3.target = .x64 := by rw [hp3.1]; simp [push, hx1, emit]
    have hun : unary g { push s1 with lex := lx2, token := tok2 } = .ok s3 := by
      rw [hk]
      exact unary_of_primary k _ s3 he3 htok2 (by rw [hp3.2.2.token]; exact hpf)
    refine ⟨emit .imulq_rdx_rax (pop .rdx s3), ?_, ?_⟩
    · refine ⟨by simp [emit, pop, hx3, hx], ?_, by simpa [emit, pop, hx3] using hp3.2.2⟩
      rw [Term.code]
      simp [emit, pop, hx3, hp3.2.1, push, hx1, hp1.2.1]
    · rw [he1, hg, multiplicativeLoop]
      simp only [htok, true_or, if_true, hn, Res.bind, hun, hx3]
      have : f - (Term.mul t p).iters = g := by rw [Term.iters]; omega
      rw [this]

/-- The function `primary` on the tokens of a literal or a parenthesised expression. -/
theorem parse_prim : ∀ (p : Prim) (f : Nat) (s : CState) (rest : List Tok) (tend : Int)
    (lend : Lexer), s.target = .x64 → Ready s.token s.lex (p.toks ++ rest) tend lend →
    16 * p.toks.length ≤ f + 12 →
    ∃ s1, Parsed s s1 p.code rest tend lend ∧ primary f s = .ok s1
  | .num n, f, s, rest, tend, lend, hx, hr, hf => by
    rw [Prim.toks] at hr hf
    rw [List.singleton_append] at hr
    obtain ⟨g, rfl⟩ : ∃ g, f = g + 1 := ⟨f - 1, by simp at hf; omega⟩
    have hag := hr.1
    simp only [Tok.agrees, Bool.and_eq_true, decide_eq_true_eq] at hag
    obtain ⟨tok1, lx1, hn, hr1⟩ := hr.next (emit (.movq_imm_rax s.lex.tokval) s) (by simp [emit])
    refine ⟨{ emit (.movq_imm_rax s.lex.tokval) s with lex := lx1, token := tok1 },
      ⟨?_, ?_, hr1⟩, ?_⟩
    · simp [emit, hx]
    · simp [emit, Prim.code, hag.2]
    · simp only [primary, hag.1, true_or, if_true, hx]
      exact hn
  | .paren e, f, s, rest, tend, lend, hx, hr, hf => by
    rw [Prim.toks] at hr hf
    simp only [List.length_cons, List.length_append, List.length_nil] at hf
    have hlt := expr_iters_lt e
    obtain ⟨g, rfl⟩ : ∃ g, f = g + 12 := ⟨f - 12, by omega⟩
    have htok : s.token = tk '(' := by rw [hr.token]; rfl
    rw [List.cons_append, List.append_assoc, List.singleton_append] at hr
    obtain ⟨tok1, lx1, hn, hr1⟩ := hr.next s rfl
    have hpr := peek_rparen rest tend
    obtain ⟨s2, hp2, he2⟩ := parse_expr e g { s with lex := lx1, token := tok1 }
      (Tok.rparen :: rest) tend lend hx hr1 hpr.1 hpr.2.1 (by omega)
    obtain ⟨k, hk⟩ : ∃ k, g - e.iters = k + 1 := ⟨g - e.iters - 1, by omega⟩
    have htok2 : s2.token = tk ')' := by rw [hp2.2.2.token]; rfl
    have hadd : additive (g + 1) { s with lex := lx1, token := tok1 } = .ok s2 := by
      rw [additive, he2, hk, additiveLoop_exit k s2 (by rw [hp2.2.2.token]; exact hpr.2.2.1)]
    have hex := expression_of_additive g _ s2 hadd (by rw [hp2.2.2.token]; exact hpr.2.2.2)
    obtain ⟨tok3, lx3, hn3, hr3⟩ := hp2.2.2.next s2 rfl
    refine ⟨{ s2 with lex := lx3, token := tok3 }, ⟨hp2.1, ?_, hr3⟩, ?_⟩
    · simpa [Prim.code] using hp2.2.1
    · have h1 : ¬ (tk '(' = T_NUMBER ∨ tk '(' = T_CHARLIT) := by decide
      have h2 : ¬ tk '(' = T_STRING := by decide
      have h3 : ¬ tk '(' = T_IDENT := by decide
      rw [show g + 12 = (g + 11) + 1 from rfl, primary]
      simp only [htok, h1, h2, h3, if_false, if_true, hn, Res.bind]
      simp only [hex, htok2, ne_eq, not_true_eq_false, if_false, hn3]

end

end Scc
end SmallC

namespace SmallC
namespace Scc

theorem exec_append (a b : List Asm) (m : Machine) :
    exec (a ++ b) m = (exec a m).bind (exec b) := by
  induction a generalizing m with
  | nil => rfl
  | cons x a ih =>
    simp only [List.cons_append, exec]
    cases exec1 m x with
    | none => rfl
    | some m1 => exact ih m1

theorem load64_store64 (mem : Nat → Nat) (a b v : Nat) (h : a % W = b % W) (hv : v < W) :
    load64 (store64 mem a v) b = v := by
  have e : ∀ i, (b + i) % W = (a + i) % W := by
    intro i; simp only [W] at h ⊢; omega
  simp only [load64, e, ← h]
  simp only [store64, W] at hv ⊢
  have n1 : ¬ (a + 1) % 18446744073709551616 = a % 18446744073709551616 := by omega
  have n2 : ¬ (a + 2) % 18446744073709551616 = a % 18446744073709551616 := by omega
  have n3 : ¬ (a + 3) % 18446744073709551616 = a % 18446744073709551616 := by omega
  have n4 : ¬ (a + 4) % 18446744073709551616 = a % 18446744073709551616 := by omega
  have n5 : ¬ (a + 5) % 18446744073709551616 = a % 18446744073709551616 := by omega
  have n6 : ¬ (a + 6) % 18446744073709551616 = a % 18446744073709551616 := by omega
  have n7 : ¬ (a + 7) % 18446744073709551616 = a % 18446744073709551616 := by omega
  have m2 : ¬ (a + 2) % 18446744073709551616 = (a + 1) % 18446744073709551616 := by omega
  have m3 : ¬ (a + 3) % 18446744073709551616 = (a + 1) % 18446744073709551616 := by omega
  have m4 : ¬ (a + 4) % 18446744073709551616 = (a + 1) % 18446744073709551616 := by omega
  have m5 : ¬ (a + 5) % 18446744073709551616 = (a + 1) % 18446744073709551616 := by omega
  have m6 : ¬ (a + 6) % 18446744073709551616 = (a + 1) % 18446744073709551616 := by omega
  have m7 : ¬ (a + 7) % 18446744073709551616 = (a + 1) % 18446744073709551616 := by omega
  have k3 : ¬ (a + 3) % 18446744073709551616 = (a + 2) % 18446744073709551616 := by omega
  have k4 : ¬ (a + 4) % 18446744073709551616 = (a + 2) % 18446744073709551616 := by omega
  have k5 : ¬ (a + 5) % 18446744073709551616 = (a + 2) % 18446744073709551616 := by omega
  have k6 : ¬ (a + 6) % 18446744073709551616 = (a + 2) % 18446744073709551616 := by omega
  have k7 : ¬ (a + 7) % 18446744073709551616 = (a + 2) % 18446744073709551616 := by omega
  have j4 : ¬ (a + 4) % 18446744073709551616 = (a + 3) % 18446744073709551616 := by omega
  have j5 : ¬ (a + 5) % 18446744073709551616 = (a + 3) % 18446744073709551616 := by omega
  have j6 : ¬ (a + 6) % 18446744073709551616 = (a + 3) % 18446744073709551616 := by omega
  have j7 : ¬ (a + 7) % 18446744073709551616 = (a + 3) % 18446744073709551616 := by omega
  have i5 : ¬ (a + 5) % 18446744073709551616 = (a + 4) % 18446744073709551616 := by omega
  have i6 : ¬ (a + 6) % 18446744073709551616 = (a + 4) % 18446744073709551616 := by omega
  have i7 : ¬ (a + 7) % 18446744073709551616 = (a + 4) % 18446744073709551616 := by omega
  have g6 : ¬ (a + 6) % 18446744073709551616 = (a + 5) % 18446744073709551616 := by omega
  have g7 : ¬ (a + 7) % 18446744073709551616 = (a + 5) % 18446744073709551616 := by omega
  have f7 : ¬ (a + 7) % 18446744073709551616 = (a + 6) % 18446744073709551616 := by omega
  simp only [n1, n2, n3, n4, n5, n6, n7, m2, m3, m4, m5, m6, m7, k3, k4, k5, k6, k7, j4, j5, j6,
    j7, i5, i6, i7, g6, g7, f7, if_true, if_false]
  omega

theorem store64_other (mem : Nat → Nat) (a v x : Nat)
    (h : ∀ i, i < 8 → x ≠ (a + i) % W) : store64 mem a v x = mem x := by
  have h0 := h 0 (by omega)
  have h1 := h 1 (by omega)
  have h2 := h 2 (by omega)
  have h3 := h 3 (by omega)
  have h4 := h 4 (by omega)
  have h5 := h 5 (by omega)
  have h6 := h 6 (by omega)
  have h7 := h 7 (by omega)
  simp only [Nat.add_zero] at h0
  simp only [store64, h0, h1, h2, h3, h4, h5, h6, h7, if_false]

theorem load64_congr (m1 m2 : Nat → Nat) (a : Nat)
    (h : ∀ i, i < 8 → m1 ((a + i) % W) = m2 ((a + i) % W)) : load64 m1 a = load64 m2 a := by
  have h0 := h 0 (by omega)
  simp only [Nat.add_zero] at h0
  simp only [load64, h0, h 1 (by omega), h 2 (by omega), h 3 (by omega), h 4 (by omega),
    h 5 (by omega), h 6 (by omega), h 7 (by omega)]

theorem imm64_natCast (n : Nat) : imm64 (n : Int) = n % W := by
  unfold imm64
  have h : ((n : Int) % (W : Int)) = ((n % W : Nat) : Int) := by norm_cast
  rw [h]
  exact Int.toNat_ofNat _

theorem computes_num (n : Nat) : Computes [Asm.movq_imm_rax (n : Int)] (n % W) 0 := by
  intro m
  exact ⟨{ m with rax := imm64 n }, rfl, imm64_natCast n, rfl, fun _ _ => rfl⟩


/-- The code of a binary operator: left operand, push, right operand, pop, operation. -/
theorem computes_binop (c1 c2 : List Asm) (v1 v2 d1 d2 : Nat) (op : Asm) (g : Nat → Nat → Nat)
    (hop : ∀ m : Machine, exec1 m op = some { m with rax := g m.rax m.rdx })
    (h1 : Computes c1 v1 d1) (h2 : Computes c2 v2 d2) (hv : v1 < W) (hd : 8 * (d2 + 1) < W) :
    Computes (c1 ++ Asm.pushq_rax :: (c2 ++ [Asm.popq .rdx, op])) (g v2 v1) (max d1 (d2 + 1)) := by
  intro m
  obtain ⟨m1, e1, r1, p1, f1⟩ := h1 m
  obtain ⟨m3, e3, r3, p3, f3⟩ := h2
    { m1 with rsp := (m1.rsp + (W - 8)) % W,
              mem := store64 m1.mem ((m1.rsp + (W - 8)) % W) m1.rax }
  simp only [] at p3 f3
  have hload : load64 m3.mem m3.rsp = v1 := by
    rw [load64_congr m3.mem (store64 m1.mem ((m1.rsp + (W - 8)) % W) m1.rax) m3.rsp]
    · rw [r1]
      exact load64_store64 _ _ _ _ (by rw [p3]) hv
    · intro i hi
      apply f3
      intro j hj1 hj2
      simp only [W] at p3 hd ⊢
      omega
  refine ⟨{ m3 with rsp := (m3.rsp + 8) % W, rdx := load64 m3.mem m3.rsp,
                    rax := g m3.rax (load64 m3.mem m3.rsp) }, ?_, ?_, ?_, ?_⟩
  · have hpush : exec1 m1 Asm.pushq_rax = some
        { m1 with rsp := (m1.rsp + (W - 8)) % W,
                  mem := store64 m1.mem ((m1.rsp + (W - 8)) % W) m1.rax } := rfl
    have hpop : exec1 m3 (Asm.popq .rdx) = some
        { m3 with rsp := (m3.rsp + 8) % W, rdx := load64 m3.mem m3.rsp } := rfl
    rw [exec_append, e1]
    simp only [Option.bind, exec, hpush]
    rw [exec_append, e3]
    simp only [Option.bind, exec, hpop, hop]
  · simp only [r3, hload]
  · simp only [W] at p3 p1 ⊢
    omega
  · intro a ha
    simp only []
    rw [f3 a, store64_other _ _ _ a, f1 a]
    · intro j hj1 hj2
      exact ha j hj1 (by have := Nat.le_max_left d1 (d2 + 1); omega)
    · intro i hi
      have := ha (8 - i) (by omega) (by have := Nat.le_max_right d1 (d2 + 1); omega)
      simp only [W] at p1 this ⊢
      omega
    · intro j hj1 hj2
      have := ha (j + 8) (by omega) (by have := Nat.le_max_right d1 (d2 + 1); omega)
      simp only [W] at p1 hd this ⊢
      omega

mutual

theorem expr_computes : ∀ e : Expr, 8 * e.slots < W → Computes e.code (e.val % W) e.slots
  | .term t, h => by
    rw [Expr.slots] at h
    rw [Expr.code, Expr.val, Expr.slots]
    exact term_computes t h
  | .add e t, h => by
    rw [Expr.slots] at h
    have he := expr_computes e (by have := Nat.le_max_left e.slots (t.slots + 1); omega)
    have ht := term_computes t (by have := Nat.le_max_right e.slots (t.slots + 1); omega)
    have := computes_binop e.code t.code (e.val % W) (t.val % W) e.slots t.slots Asm.addq_rdx_rax
      (fun a b => (a + b) % W) (fun m => rfl) he ht (Nat.mod_lt _ (by decide))
      (by have := Nat.le_max_right e.slots (t.slots + 1); omega)
    rw [Expr.code, Expr.val, Expr.slots]
    have hv : (e.val + t.val) % W = (t.val % W + e.val % W) % W := by
      rw [Nat.add_comm, Nat.add_mod]
    rw [hv]
    exact this

theorem term_computes : ∀ t : Term, 8 * t.slots < W → Computes t.code (t.val % W) t.slots
  | .prim p, h => by
    rw [Term.slots] at h
    rw [Term.code, Term.val, Term.slots]
    exact prim_computes p h
  | .mul t p, h => by
    rw [Term.slots] at h
    have ht := term_computes t (by have := Nat.le_max_left t.slots (p.slots + 1); omega)
    have hp := prim_computes p (by have := Nat.le_max_right t.slots (p.slots + 1); omega)
    have := computes_binop t.code p.code (t.val % W) (p.val % W) t.slots p.slots
      Asm.imulq_rdx_rax (fun a b => (a * b) % W) (fun m => rfl) ht hp (Nat.mod_lt _ (by decide))
      (by have := Nat.le_max_right t.slots (p.slots + 1); omega)
    rw [Term.code, Term.val, Term.slots]
    have hv : (t.val * p.val) % W = (p.val % W * (t.val % W)) % W := by
      rw [Nat.mul_comm, Nat.mul_mod]
    rw [hv]
    exact this

theorem prim_computes : ∀ p : Prim, 8 * p.slots < W → Computes p.code (p.val % W) p.slots
  | .num n, _ => by
    rw [Prim.code, Prim.val, Prim.slots]
    exact computes_num n
  | .paren e, h => by
    rw [Prim.slots] at h
    rw [Prim.code, Prim.val, Prim.slots]
    exact expr_computes e h

end

end Scc
end SmallC

namespace SmallC
namespace Scc

theorem Ready.of_readToks {l : Lexer} {t : Tok} {ts : List Tok} {tend : Int} {lend : Lexer}
    (h : readToks (t :: ts) l = some (tend, lend)) (s : CState) (hs : s.lex = l) :
    ∃ tok1 lx1, nexttoken s = .ok { s with lex := lx1, token := tok1 } ∧
      Ready tok1 lx1 (t :: ts) tend lend := by
  subst hs
  simp only [readToks] at h
  cases hg : gettoken s.lex with
  | ok c l1 =>
    simp only [hg] at h
    by_cases ha : t.agrees c l1.tokval = true
    · simp only [ha, if_true] at h
      exact ⟨c, l1, by simp [nexttoken, hg], ha, h⟩
    · simp [ha] at h
  | fail l1 => simp [hg] at h
  | hang => simp [hg] at h

theorem endsExpression_stops (t : Int) (h : endsExpression t) :
    stopsPostfix t ∧ stopsMul t ∧ stopsAdd t ∧ stopsUpper t := by
  obtain ⟨h1, h2, h3, h4, h5, h6, h7, h8, h9, h10, h11, h12, h13, h14, h15, h16, h17, h18, h19,
    h20, h21, h22, h23, h24, h25, h26, h27⟩ := h
  exact ⟨⟨h24, h25, h26, h27⟩, ⟨h21, h22, h23⟩, ⟨h19, h20⟩,
    ⟨h1, h2, h3, h4, h5, h6, h7, h8, h9, h10, h11, h12, h13, h14, h15, h16, h17, h18⟩⟩

/-- C9 (as amended): when the lexer delivers the tokens of an expression over
decimal literals, `+`, `*` and parentheses (each literal token with `tokval`
equal to the literal) and then a token that ends the expression, then
`token = gettoken(); expression();` returns with enough fuel, has consumed
exactly those tokens, and has emitted x86-64 code that, run from any machine
state, leaves in `%rax` the value of the expression modulo `2^64`, where `*`
binds tighter than `+` and both associate to the left; the expression may
need at most `2^61 - 1` stack slots. -/
theorem expression_code_computes_value (e : Expr) (s : CState) (tend : Int) (lend : Lexer)
    (fuel : Nat) (hx : s.target = .x64) (hr : readToks e.toks s.lex = some (tend, lend))
    (hend : endsExpression tend) (hslots : e.slots < 2305843009213693952)
    (hfuel : 16 * e.toks.length + 8 ≤ fuel) :
    ∃ s1, compileExpression fuel s = .ok s1 ∧ s1.token = tend ∧ s1.lex = lend ∧
      s1.out = s.out ++ e.code ∧
      ∀ m : Machine, ∃ m1, exec e.code m = some m1 ∧ m1.rax = e.val % 18446744073709551616 := by
  obtain ⟨hpf, hm, ha, hu⟩ := endsExpression_stops tend hend
  have hlt := expr_iters_lt e
  obtain ⟨t0, ts, hts⟩ : ∃ t0 ts, e.toks = t0 :: ts := by
    cases h : e.toks with
    | nil => rw [h] at hlt; simp at hlt
    | cons t0 ts => exact ⟨t0, ts, rfl⟩
  rw [hts] at hr
  obtain ⟨tok1, lx1, hn, hr1⟩ := Ready.of_readToks hr s rfl
  rw [← hts, ← List.append_nil e.toks] at hr1
  obtain ⟨g, rfl⟩ : ∃ g, fuel = g + 11 := ⟨fuel - 11, by omega⟩
  obtain ⟨s1, hp, he⟩ := parse_expr e g { s with lex := lx1, token := tok1 } [] tend lend hx hr1
    hpf hm (by omega)
  obtain ⟨k, hk⟩ : ∃ k, g - e.iters = k + 1 := ⟨g - e.iters - 1, by omega⟩
  have htok : s1.token = tend := hp.2.2.1
  have hadd : additive (g + 1) { s with lex := lx1, token := tok1 } = .ok s1 := by
    rw [additive, he, hk, additiveLoop_exit k s1 (by rw [htok]; exact ha)]
  have hex := expression_of_additive g _ s1 hadd (by rw [htok]; exact hu)
  refine ⟨s1, ?_, htok, hp.2.2.2, hp.2.1, ?_⟩
  · simp only [compileExpression, hn, Res.bind, hex]
  · intro m
    obtain ⟨m1, h1, h2, _, _⟩ := expr_computes e (by simp only [W]; omega) m
    exact ⟨m1, h1, h2⟩

theorem expression_code_computes_value_witness :
    ∃ s1, compileExpression 100 (CState.start .x64 "t.c".toList "2 + 3 * 4;".toList) = .ok s1 ∧
      s1.token = tk ';' ∧
      s1.out = [Asm.movq_imm_rax 2, Asm.pushq_rax, Asm.movq_imm_rax 3, Asm.pushq_rax,
        Asm.movq_imm_rax 4, Asm.popq .rdx, Asm.imulq_rdx_rax, Asm.popq .rdx, Asm.addq_rdx_rax] ∧
      ∀ m : Machine, ∃ m1,
        exec [Asm.movq_imm_rax 2, Asm.pushq_rax, Asm.movq_imm_rax 3, Asm.pushq_rax,
          Asm.movq_imm_rax 4, Asm.popq .rdx, Asm.imulq_rdx_rax, Asm.popq .rdx, Asm.addq_rdx_rax]
          m = some m1 ∧ m1.rax = 14 := by
  obtain ⟨s1, h1, h2, _, h4, h5⟩ := expression_code_computes_value
    (.add (.term (.prim (.num 2))) (.mul (.prim (.num 3)) (.num 4)))
    (CState.start .x64 "t.c".toList "2 + 3 * 4;".toList) (tk ';')
    { Lexer.start "t.c".toList "2 + 3 * 4;".toList with
      line := "2 + 3 * 4;".toList, tokval := 4, input := [] }
    100 rfl (by decide) (by unfold endsExpression; decide) (by decide) (by decide)
  exact ⟨s1, h1, h2, h4, h5⟩

end Scc
end SmallC

namespace SmallC
namespace Scc

/-- From `additive` up to `logical_or`: nothing is added when the next token
is none of the operators of the levels in between. -/
theorem logical_or_of_additive (f : Nat) (s s1 : CState) (h : additive (f + 1) s = .ok s1)
    (hu : s1.token ≠ T_OR ∧ s1.token ≠ T_AND ∧ s1.token ≠ tk '|' ∧ s1.token ≠ tk '^' ∧
      s1.token ≠ tk '&' ∧ s1.token ≠ T_EQ ∧ s1.token ≠ T_NE ∧ s1.token ≠ tk '<' ∧
      s1.token ≠ tk '>' ∧ s1.token ≠ T_LE ∧ s1.token ≠ T_GE ∧ s1.token ≠ T_SHL ∧
      s1.token ≠ T_SHR) : logical_or (f + 9) s = .ok s1 := by
  obtain ⟨h6, h7, h8, h9, h10, h11, h12, h13, h14, h15, h16, h17, h18⟩ := hu
  have e1 : shift (f + 2) s = .ok s1 := by
    simp [shift, h, Res.bind, shiftLoop, h17, h18]
  have e2 : relational (f + 3) s = .ok s1 := by
    simp [relational, e1, Res.bind, relationalLoop, h13, h14, h15, h16]
  have e3 : equality (f + 4) s = .ok s1 := by
    simp [equality, e2, Res.bind, equalityLoop, h11, h12]
  have e4 : bitwise_and (f + 5) s = .ok s1 := by
    simp [bitwise_and, e3, Res.bind, bitwise_andLoop, h10]
  have e5 : bitwise_xor (f + 6) s = .ok s1 := by
    simp [bitwise_xor, e4, Res.bind, bitwise_xorLoop, h9]
  have e6 : bitwise_or (f + 7) s = .ok s1 := by
    simp [bitwise_or, e5, Res.bind, bitwise_orLoop, h8]
  have e7 : logical_and (f + 8) s = .ok s1 := by
    simp [logical_and, e6, Res.bind, logical_andLoop, h7]
  simp [logical_or, e7, Res.bind, logical_orLoop, h6]

/-- On x86-64 a variable reference adds lines that depend on the symbol only. -/
theorem loadSymbol_emits (y : Symbol) :
    ∃ c : List Asm, ∀ s : CState, s.target = .x64 → loadSymbol y s = emits c s := by
  by_cases ha : y.isarray = true <;> by_cases hl : y.isparam = true ∨ y.offset < 0
  · exact ⟨[.leaq_rbp_rax y.offset], fun s hs => by simp [loadSymbol, ha, hl, hs, emit, emits]⟩
  · exact ⟨[.movq_sym_rax y.name], fun s hs => by simp [loadSymbol, ha, hl, hs, emit, emits]⟩
  · exact ⟨[.movq_rbp_rax y.offset], fun s hs => by
      simp [loadSymbol, ha, hl, hs, emit, emits, emit_load_local]⟩
  · exact ⟨[.movq_rip_rax y.name], fun s hs => by simp [loadSymbol, ha, hl, hs, emit, emits]⟩

/-- The function `logical_or` on a variable that is followed by `=`: the
lines of the variable reference. -/
theorem logical_or_symbol (g : Nat) (s : CState) (y : Symbol) (l1 : Lexer)
    (hx : s.target = .x64) (htok : s.token = T_IDENT) (hlook : lookup s.lex.tokstr s = some y)
    (hg1 : gettoken s.lex = .ok (tk '=') l1) :
    logical_or (g + 13) s = .ok (loadSymbol y { s with lex := l1, token := tk '=' }) := by
  have n1 : ¬ (T_IDENT = T_NUMBER ∨ T_IDENT = T_CHARLIT) := by decide
  have n2 : ¬ T_IDENT = T_STRING := by decide
  have n3 : ¬ tk '=' = tk '(' := by decide
  obtain ⟨c, hc⟩ := loadSymbol_emits y
  have hL := hc { s with lex := l1, token := tk '=' } hx
  have hp : primary (g + 1) s = .ok (loadSymbol y { s with lex := l1, token := tk '=' }) := by
    simp only [primary, htok, n1, n2, if_false, if_true, nexttoken, hg1, Res.bind, n3, hlook]
  rw [hL] at hp ⊢
  have hpf : postfixExpr (g + 2) s = .ok (emits c { s with lex := l1, token := tk '=' }) := by
    simp only [postfixExpr, hp, Res.bind]
    exact postfixExprLoop_exit g _ (by simp only [emits]; unfold stopsPostfix; decide)
  have hu : unary (g + 3) s = .ok (emits c { s with lex := l1, token := tk '=' }) := by
    simp [unary, htok, tkv, Tv, hpf]
  have hm : multiplicative (g + 4) s = .ok (emits c { s with lex := l1, token := tk '=' }) := by
    simp only [multiplicative, hu, Res.bind]
    exact multiplicativeLoop_exit _ _ (by simp only [emits]; unfold stopsMul; decide)
  have ha : additive (g + 5) s = .ok (emits c { s with lex := l1, token := tk '=' }) := by
    simp only [additive, hm, Res.bind]
    exact additiveLoop_exit _ _ (by simp only [emits]; unfold stopsAdd; decide)
  exact logical_or_of_additive (g + 4) s _ ha (by simp only [emits]; decide)

/-- The function `assignment` on a number that is followed by a token that
ends the expression. -/
theorem assignment_number (g : Nat) (s : CState) (l3 : Lexer) (tend : Int)
    (hx : s.target = .x64) (htok : s.token = T_NUMBER)
    (hg : gettoken s.lex = .ok tend l3) (hend : endsExpression tend) :
    assignment (g + 14) s =
      .ok { emit (.movq_imm_rax s.lex.tokval) s with lex := l3, token := tend } := by
  obtain ⟨hpf, hm, ha, hu⟩ := endsExpression_stops tend hend
  have n1 : T_NUMBER = T_NUMBER ∨ T_NUMBER = T_CHARLIT := Or.inl rfl
  have hp : primary (g + 1) s =
      .ok { emit (.movq_imm_rax s.lex.tokval) s with lex := l3, token := tend } := by
    simp [primary, htok, hx, nexttoken, emit, hg]
  have h1 := unary_of_primary g s _ hp (Or.inl htok) hpf
  have h2 : multiplicative (g + 4) s =
      .ok { emit (.movq_imm_rax s.lex.tokval) s with lex := l3, token := tend } := by
    simp only [multiplicative, h1, Res.bind]
    exact multiplicativeLoop_exit _ _ hm
  have h3 : additive (g + 5) s =
      .ok { emit (.movq_imm_rax s.lex.tokval) s with lex := l3, token := tend } := by
    simp only [additive, h2, Res.bind]
    exact additiveLoop_exit _ _ ha
  have h4 := expression_of_additive (g + 4) s _ h3 hu
  simpa only [expression] using h4

/-- The function `expression` on `x = n` for a variable `x` and a number
`n`: the lines of the reference to `x` (which for a scalar load its value),
a push, the number, and a store through the popped value. -/
theorem expression_assign_number (g : Nat) (s : CState) (y : Symbol) (l1 l2 l3 : Lexer)
    (tend : Int) (hx : s.target = .x64) (htok : s.token = T_IDENT)
    (hlook : lookup s.lex.tokstr s = some y) (hg1 : gettoken s.lex = .ok (tk '=') l1)
    (hg2 : gettoken l1 = .ok T_NUMBER l2) (hg3 : gettoken l2 = .ok tend l3)
    (hend : endsExpression tend) :
    ∃ s1, expression (g + 17) s = .ok s1 ∧ s1.token = tend ∧ s1.lex = l3 ∧
      s1.out = (loadSymbol y s).out ++
        [.pushq_rax, .movq_imm_rax l2.tokval, .popq .rdx, .movq_rax_atrdx] := by
  have h1 := logical_or_symbol (g + 2) s y l1 hx htok hlook hg1
  obtain ⟨c, hc⟩ := loadSymbol_emits y
  rw [hc { s with lex := l1, token := tk '=' } hx] at h1
  rw [hc s hx]
  have h2 := assignment_number g
    { push (emits c { s with lex := l1, token := tk '=' }) with
      lex := l2, token := T_NUMBER } l3 tend (by simp [push, emits, emit, hx]) rfl hg3 hend
  have hne := hend.1
  have hne2 := hend.2.1
  have hne3 := hend.2.2.1
  have hne4 := hend.2.2.2.1
  have hne5 := hend.2.2.2.2.1
  refine ⟨{ s with lex := l3, token := tend, out := (emits c s).out ++
    [.pushq_rax, .movq_imm_rax l2.tokval, .popq .rdx, .movq_rax_atrdx] }, ?_, rfl, rfl, rfl⟩
  have hexit : ∀ s5 : CState, s5.token = tend → assignmentLoop (g + 14) s5 = .ok s5 := by
    intro s5 h5
    simp [assignmentLoop, h5, hne, hne2, hne3, hne4, hne5]
  rw [expression, assignment, h1]
  simp only [Res.bind]
  rw [assignmentLoop]
  simp only [emit, emits, true_or, if_true, nexttoken, push, hx, hg2, Res.bind,
    ne_eq, not_true_eq_false, if_false]
  simp only [push, emit, emits, hx] at h2
  simp only [h2, pop, emit, hx]
  rw [hexit _ rfl]
  simp [hx]

end Scc
end SmallC

namespace SmallC
namespace Scc

/-- C10: the code emitted for `x = 10;`, with `x` a scalar variable as
`add_symbol` enters it, loads the value of `x`, pushes it and stores `10`
through the popped value.  Run with `x` placed at address 2000 and holding
7, it leaves 7 in `x` and writes 10 at address 7. -/
theorem assignment_stores_through_value :
    ∃ s1, compileExpression 17
        { CState.start .x64 "t.c".toList "x = 10;".toList with
          globals := [⟨['x'], 0, 1, false, 0, false⟩], lab := 2 } = .ok s1 ∧
      s1.token = tk ';' ∧
      s1.out = [.movq_rip_rax ['x'], .pushq_rax, .movq_imm_rax 10, .popq .rdx,
        .movq_rax_atrdx] ∧
      ∃ m1, exec s1.out
          { rax := 0, rbx := 0, rcx := 0, rdx := 0, rsi := 0, rdi := 0, r8 := 0, r9 := 0,
            rsp := 900, rbp := 1000, mem := fun a => if a = 2000 then 7 else 0,
            sym := fun _ => 2000 } = some m1 ∧
        load64 m1.mem 2000 = 7 ∧ load64 m1.mem 7 = 10 := by
  have hg0 : gettoken (Lexer.start "t.c".toList "x = 10;".toList) =
      .ok T_IDENT { Lexer.start "t.c".toList "x = 10;".toList with
        line := "x = 10;".toList, lptr := " = 10;".toList, input := [], tokstr := ['x'] } := by
    decide
  obtain ⟨s1, h1, h2, _, h4⟩ := expression_assign_number 0
    { CState.start .x64 "t.c".toList "x = 10;".toList with
      globals := [⟨['x'], 0, 1, false, 0, false⟩], lab := 2, token := T_IDENT,
      lex := { Lexer.start "t.c".toList "x = 10;".toList with
        line := "x = 10;".toList, lptr := " = 10;".toList, input := [], tokstr := ['x'] } }
    ⟨['x'], 0, 1, false, 0, false⟩
    { Lexer.start "t.c".toList "x = 10;".toList with
      line := "x = 10;".toList, lptr := " 10;".toList, input := [], tokstr := ['x'] }
    { Lexer.start "t.c".toList "x = 10;".toList with
      line := "x = 10;".toList, lptr := ";".toList, input := [], tokstr := ['x'], tokval := 10 }
    { Lexer.start "t.c".toList "x = 10;".toList with
      line := "x = 10;".toList, lptr := [], input := [], tokstr := ['x'], tokval := 10 }
    (tk ';') rfl rfl (by decide) (by decide) (by decide) (by decide)
    (by unfold endsExpression; decide)
  have h5 : s1.out = [.movq_rip_rax ['x'], .pushq_rax, .movq_imm_rax 10, .popq .rdx,
      .movq_rax_atrdx] := by
    rw [h4]
    simp [loadSymbol, emits, emit, CState.start]
  refine ⟨s1, ?_, h2, h5, ?_⟩
  · simp only [compileExpression, nexttoken, CState.start, hg0, Res.bind]
    exact h1
  · rw [h5]
    refine ⟨_, rfl, ?_, ?_⟩ <;> decide

end Scc
end SmallC

namespace SmallC
namespace Scc

set_option maxRecDepth 8000 in
/-- The lexer on the literal `3000000000`: `tokval` wraps to `-1294967296`. -/
theorem gettoken_large_literal :
    gettoken (Lexer.start "t.c".toList "3000000000;".toList) =
      .ok T_NUMBER { Lexer.start "t.c".toList "3000000000;".toList with
        line := "3000000000;".toList, lptr := [';'], input := [], tokval := -1294967296 } := by
  decide

/-- C9 (as stated) fails: for the expression `3000000000` the lexer leaves
`-1294967296` in the `int` variable `tokval`, `expression` emits
`movq $-1294967296, %rax`, and that line leaves `2^64 - 1294967296` in
`%rax`, not 3000000000. -/
theorem expression_large_literal_wraps :
    ∃ s1, compileExpression 15 (CState.start .x64 "t.c".toList "3000000000;".toList) = .ok s1 ∧
      s1.token = tk ';' ∧ s1.out = [.movq_imm_rax (-1294967296)] ∧
      ∀ m : Machine, ∃ m1, exec s1.out m = some m1 ∧ m1.rax = 18446744072414584320 ∧
        m1.rax ≠ 3000000000 := by
  have hg0 := gettoken_large_literal
  have h := assignment_number 0
    { CState.start .x64 "t.c".toList "3000000000;".toList with
      token := T_NUMBER
      lex := { Lexer.start "t.c".toList "3000000000;".toList with
        line := "3000000000;".toList, lptr := [';'], input := [], tokval := -1294967296 } }
    { Lexer.start "t.c".toList "3000000000;".toList with
      line := "3000000000;".toList, lptr := [], input := [], tokval := -1294967296 }
    (tk ';') rfl rfl (by decide) (by unfold endsExpression; decide)
  have h0 : ∃ s1, assignment 14
      { CState.start .x64 "t.c".toList "3000000000;".toList with
        token := T_NUMBER
        lex := { Lexer.start "t.c".toList "3000000000;".toList with
          line := "3000000000;".toList, lptr := [';'], input := [], tokval := -1294967296 } } =
        .ok s1 ∧ s1.token = tk ';' ∧ s1.out = [.movq_imm_rax (-1294967296)] :=
    ⟨_, h, rfl, rfl⟩
  obtain ⟨s1, h1, h2, h3⟩ := h0
  refine ⟨s1, ?_, h2, h3, ?_⟩
  · simp only [compileExpression, nexttoken, hg0, Res.bind, expression]
    exact h1
  · intro m
    rw [h3]
    refine ⟨_, rfl, ?_⟩
    have e : imm64 (-1294967296) = 18446744072414584320 := by decide
    simp only [e]
    decide

end Scc
end SmallC

namespace SmallC
namespace Scc

theorem not_quote_of_punctuator (c : Char) (hc : c ∈ punctuators) : c ≠ '\'' := by
  intro h
  rw [h] at hc
  exact absurd hc (by decide)

/-- The function `gettoken` when a punctuator and one more character stand
at `lptr` after the white space and the comment were skipped. -/
theorem gettoken_punctuator (l : Lexer) (c d : Char) (q : Str)
    (hpos : (skip_white (skip_comment (skip_white l))).lptr = c :: d :: q)
    (hc : c ∈ punctuators) :
    gettoken l =
      match twoCharToken c d with
      | some t => .ok t { skip_white (skip_comment (skip_white l)) with lptr := q }
      | none => .ok (charVal c) { skip_white (skip_comment (skip_white l)) with lptr := d :: q } := by
  have hq := not_quote_of_punctuator c hc
  rw [gettoken, gettokenFuel]
  simp only [hpos, hq, hc, if_true, if_false]

/-- The function `gettoken` when a punctuator is the last character of the buffer. -/
theorem gettoken_punctuator_last (l : Lexer) (c : Char)
    (hpos : (skip_white (skip_comment (skip_white l))).lptr = [c]) (hc : c ∈ punctuators) :
    gettoken l = .ok (charVal c) { skip_white (skip_comment (skip_white l)) with lptr := [] } := by
  have hq := not_quote_of_punctuator c hc
  rw [gettoken, gettokenFuel]
  simp only [hpos, hq, hc, if_true, if_false]

/-- The pairs that `gettoken` takes for a two-character token are those of the table. -/
theorem twoCharToken_some (c d : Char) (t : Int) (h : twoCharToken c d = some t) :
    (c, d, t) ∈ twoCharOperators := by
  unfold twoCharToken at h
  by_cases h1 : c = '=' ∧ d = '='
  · rw [if_pos h1] at h; obtain ⟨rfl, rfl⟩ := h1; cases h; decide
  rw [if_neg h1] at h
  by_cases h2 : c = '!' ∧ d = '='
  · rw [if_pos h2] at h; obtain ⟨rfl, rfl⟩ := h2; cases h; decide
  rw [if_neg h2] at h
  by_cases h3 : c = '<' ∧ d = '='
  · rw [if_pos h3] at h; obtain ⟨rfl, rfl⟩ := h3; cases h; decide
  rw [if_neg h3] at h
  by_cases h4 : c = '>' ∧ d = '='
  · rw [if_pos h4] at h; obtain ⟨rfl, rfl⟩ := h4; cases h; decide
  rw [if_neg h4] at h
  by_cases h5 : c = '<' ∧ d = '<'
  · rw [if_pos h5] at h; obtain ⟨rfl, rfl⟩ := h5; cases h; decide
  rw [if_neg h5] at h
  by_cases h6 : c = '>' ∧ d = '>'
  · rw [if_pos h6] at h; obtain ⟨rfl, rfl⟩ := h6; cases h; decide
  rw [if_neg h6] at h
  by_cases h7 : c = '&' ∧ d = '&'
  · rw [if_pos h7] at h; obtain ⟨rfl, rfl⟩ := h7; cases h; decide
  rw [if_neg h7] at h
  by_cases h8 : c = '|' ∧ d = '|'
  · rw [if_pos h8] at h; obtain ⟨rfl, rfl⟩ := h8; cases h; decide
  rw [if_neg h8] at h
  by_cases h9 : c = '+' ∧ d = '+'
  · rw [if_pos h9] at h; obtain ⟨rfl, rfl⟩ := h9; cases h; decide
  rw [if_neg h9] at h
  by_cases h10 : c = '-' ∧ d = '-'
  · rw [if_pos h10] at h; obtain ⟨rfl, rfl⟩ := h10; cases h; decide
  rw [if_neg h10] at h
  by_cases h11 : c = '+' ∧ d = '='
  · rw [if_pos h11] at h; obtain ⟨rfl, rfl⟩ := h11; cases h; decide
  rw [if_neg h11] at h
  by_cases h12 : c = '-' ∧ d = '='
  · rw [if_pos h12] at h; obtain ⟨rfl, rfl⟩ := h12; cases h; decide
  rw [if_neg h12] at h
  by_cases h13 : c = '*' ∧ d = '='
  · rw [if_pos h13] at h; obtain ⟨rfl, rfl⟩ := h13; cases h; decide
  rw [if_neg h13] at h
  by_cases h14 : c = '/' ∧ d = '='
  · rw [if_pos h14] at h; obtain ⟨rfl, rfl⟩ := h14; cases h; decide
  rw [if_neg h14] at h
  cases h

/-- C7: with `lptr` standing at a character `c` after the white space and
the comment were skipped, `gettoken` returns the token of each of the
fourteen two-character operators and moves `lptr` over exactly its two
characters; and for every character `c` of the accepted punctuator set that
does not begin one of them, it returns `c` and moves `lptr` over that one
character.  Nothing else of the lexer state changes. -/
theorem gettoken_operators (l : Lexer) (c : Char) (p : Str)
    (hpos : (skip_white (skip_comment (skip_white l))).lptr = c :: p) :
    (∀ d q t, p = d :: q → (c, d, t) ∈ twoCharOperators →
      gettoken l = .ok t { skip_white (skip_comment (skip_white l)) with lptr := q }) ∧
    (c ∈ punctuators → (∀ d t, (c, d, t) ∈ twoCharOperators → p.head? ≠ some d) →
      gettoken l = .ok (charVal c) { skip_white (skip_comment (skip_white l)) with lptr := p }) := by
  constructor
  · intro d q t hp hm
    have hc : c ∈ punctuators := by
      simp only [twoCharOperators, List.mem_cons, Prod.mk.injEq, List.mem_singleton,
        List.not_mem_nil, or_false] at hm
      rcases hm with h | h | h | h | h | h | h | h | h | h | h | h | h | h <;>
        (rw [h.1]; decide)
    have ht : twoCharToken c d = some t := by
      simp only [twoCharOperators, List.mem_cons, Prod.mk.injEq, List.mem_singleton,
        List.not_mem_nil, or_false] at hm
      rcases hm with h | h | h | h | h | h | h | h | h | h | h | h | h | h <;>
        (rw [h.1, h.2.1, h.2.2]; decide)
    subst hp
    rw [gettoken_punctuator l c d q hpos hc]
    simp only [ht]
  · intro hc hno
    cases p with
    | nil => exact gettoken_punctuator_last l c hpos hc
    | cons d q =>
      rw [gettoken_punctuator l c d q hpos hc]
      have ht : twoCharToken c d = none := by
        cases h : twoCharToken c d with
        | none => rfl
        | some t => exact absurd rfl (hno d t (twoCharToken_some c d t h))
      simp only [ht]

theorem gettoken_operators_witness :
    gettoken { Lexer.start "t.c".toList [] with lptr := "  += 1".toList } =
        .ok T_PLUSEQ { Lexer.start "t.c".toList [] with lptr := " 1".toList } ∧
      gettoken { Lexer.start "t.c".toList [] with lptr := "  + 1".toList } =
        .ok (charVal '+') { Lexer.start "t.c".toList [] with lptr := " 1".toList } :=
  ⟨(gettoken_operators { Lexer.start "t.c".toList [] with lptr := "  += 1".toList } '+'
      "= 1".toList rfl).1 '=' " 1".toList T_PLUSEQ rfl (by decide),
    (gettoken_operators { Lexer.start "t.c".toList [] with lptr := "  + 1".toList } '+'
      " 1".toList rfl).2 (by decide) (by
        intro d t hm hd
        simp at hd
        subst hd
        simp [twoCharOperators] at hm)⟩

end Scc
end SmallC

namespace SmallC
namespace Scc

/-- C8: a block comment that spans two lines and a second comment on the
same line both produce tokens.  The text `/* a`, newline, `b */ 1` gives the
tokens identifier, `*`, `/`, number 1, end of file, and the text
`/* a */ /* b */ 1` gives `/`, `*`, identifier, `*`, `/`, number 1, end of
file, while the text ` 1` that remains when the comments are removed gives
number 1, end of file. -/
theorem comments_produce_tokens :
    (tokenize 10 (Lexer.start "t.c".toList "/* a\nb */ 1".toList)).map (fun r => r.1) =
        some [(T_IDENT, 0), (tk '*', 0), (tk '/', 0), (T_NUMBER, 1), (T_EOF, 1)] ∧
      (tokenize 10 (Lexer.start "t.c".toList "/* a */ /* b */ 1".toList)).map (fun r => r.1) =
        some [(tk '/', 0), (tk '*', 0), (T_IDENT, 0), (tk '*', 0), (tk '/', 0), (T_NUMBER, 1),
          (T_EOF, 1)] ∧
      (tokenize 10 (Lexer.start "t.c".toList " 1".toList)).map (fun r => r.1) =
        some [(T_NUMBER, 1), (T_EOF, 1)] := by
  refine ⟨?_, ?_, ?_⟩ <;> decide

end Scc
end SmallC

namespace SmallC
namespace Scc

theorem allocSize_eq (sp : Int) (h0 : sp < 0) (hlo : -2147483632 ≤ sp) :
    allocSize sp = (-sp + 15) / 16 * 16 := by
  unfold allocSize wrap32
  have e1 : (-sp + 2147483648) % 4294967296 - 2147483648 = -sp := by omega
  have e2 : (-sp + 15 + 2147483648) % 4294967296 - 2147483648 = -sp + 15 := by omega
  rw [e1, e2, Int.tdiv_eq_ediv (by omega) (by norm_num)]
  omega

/-- C12 (as amended): for a stack cursor `sp` with `-2147483632 ≤ sp < 0`
the size in the emitted `subq $alloc, %rsp` (x86-64) or `sub sp, sp, #alloc`
(AArch64) is the least multiple of 16 that is at least `-sp`; for `sp ≥ 0`
nothing is emitted. -/
theorem allocateLocals_rounds_up (s : CState) :
    (s.sp < 0 → -2147483632 ≤ s.sp →
      (allocateLocals s).out = s.out ++
        [match s.target with
         | .x64 => .subq_imm_rsp (allocSize s.sp)
         | .arm64 => .sub_sp_sp_imm (allocSize s.sp)] ∧
      allocSize s.sp % 16 = 0 ∧ -s.sp ≤ allocSize s.sp ∧ allocSize s.sp < -s.sp + 16) ∧
    (0 ≤ s.sp → allocateLocals s = s) := by
  constructor
  · intro h0 hlo
    refine ⟨?_, ?_⟩
    · unfold allocateLocals
      rw [if_pos h0]
      cases s.target <;> simp [emit]
    · rw [allocSize_eq s.sp h0 hlo]
      omega
  · intro h
    unfold allocateLocals
    rw [if_neg (by omega)]

theorem allocateLocals_rounds_up_witness :
    (allocateLocals { CState.start .x64 [] [] with sp := -24 }).out =
        [.subq_imm_rsp (allocSize (-24))] ∧
      allocSize (-24) % 16 = 0 ∧ (24 : Int) ≤ allocSize (-24) ∧ allocSize (-24) < 40 := by
  have h := (allocateLocals_rounds_up { CState.start .x64 [] [] with sp := -24 }).1
    (by decide) (by decide)
  exact ⟨h.1, h.2.1, h.2.2.1, h.2.2.2⟩

/-- C12 (counterexample): for `sp = -2147483640` the least multiple of 16
that is at least `-sp` is `2147483648`, which no `int` holds; the emitted
line is `subq $-2147483632, %rsp`. -/
theorem allocateLocals_overflows :
    (allocateLocals { CState.start .x64 [] [] with sp := -2147483640 }).out.map Asm.text =
        ["  subq $-2147483632, %rsp"] ∧
      ¬ (2147483640 : Int) ≤ allocSize (-2147483640) := by
  decide

end Scc
end SmallC

namespace SmallC
namespace Scc

/-- C11: for the parameter list `int a, int b)` of a function `f`, read in
the state in which `program` calls `function` (no locals, `param_offset`
16), `parameter_list` enters both parameters in the globals table, with the
label counter as offset and `isparam` 0; the locals table stays empty and
`param_offset` stays 16.  The call `add_symbol("x", 0, 0)` for a local
declaration `int x` that follows enters `x` in the globals table too. -/
theorem parameter_list_enters_globals :
    (parameter_list 5
        { CState.start .x64 "t.c".toList [] with
          token := T_INT
          lex := { Lexer.start "t.c".toList [] with
            line := "int f(int a, int b) \x7b".toList, lptr := " a, int b) \x7b".toList,
            tokstr := ['f'] }
          functions := [⟨['f'], true, 0, []⟩]
          curfunc := ['f'] }).tables =
      some ([⟨['a'], 0, 1, false, 0, false⟩, ⟨['b'], 0, 2, false, 0, false⟩], [], 16) ∧
    (add_symbol ['x'] 0 0
        { CState.start .x64 "t.c".toList [] with
          globals := [⟨['a'], 0, 1, false, 0, false⟩, ⟨['b'], 0, 2, false, 0, false⟩]
          lab := 3 }).entry =
      some (⟨['x'], 0, 3, false, 0, false⟩,
        [⟨['a'], 0, 1, false, 0, false⟩, ⟨['b'], 0, 2, false, 0, false⟩,
          ⟨['x'], 0, 3, false, 0, false⟩], []) := by
  decide

end Scc
end SmallC

namespace SmallC
namespace Scc

/-- With no locals and `param_offset` at least 16, `add_symbol` takes its
second branch: the entry goes to the globals table. -/
theorem add_symbol_global (name : Str) (type size : Int) (s : CState) (hl : s.locals = [])
    (hp : 16 ≤ s.param_offset) (hr : s.globals.length < MAXGLOBALS) :
    add_symbol name type size s =
      .ok ⟨name, type, s.lab, decide (0 < size), size, false⟩
        { s with globals := s.globals ++ [⟨name, type, s.lab, decide (0 < size), size, false⟩],
                 lab := s.lab + 1 } := by
  unfold add_symbol
  rw [if_neg (by rw [hl]; simp; omega), if_neg (by omega)]

theorem writeAt_length (a : List Int) (v : Int) : writeAt a a.length v = a ++ [v] := by
  unfold writeAt
  have h : a.length + 1 - a.length = 1 := by omega
  rw [h]
  simp [List.set_append]

theorem readParams_nil {tok : Int} {lx lend : Lexer} (h : readParams [] tok lx = some lend) :
    tok = tk ')' ∧ lx = lend := by
  unfold readParams at h
  by_cases ht : tok = tk ')'
  · rw [if_pos ht] at h
    exact ⟨ht, Option.some.inj h⟩
  · rw [if_neg ht] at h
    cases h

/-- What `readParams` says about the first parameter of a list. -/
theorem readParams_cons {ty : Int} {name : Str} {ps : List (Int × Str)} {tok : Int}
    {lx lend : Lexer} (h : readParams ((ty, name) :: ps) tok lx = some lend) :
    tok = ty ∧ (ty = T_INT ∨ ty = T_CHAR) ∧ ∃ l1 t2 l2, gettoken lx = .ok T_IDENT l1 ∧
      l1.tokstr = name ∧ gettoken l1 = .ok t2 l2 ∧
      ((t2 = tk ',' ∧ ps ≠ [] ∧ ∃ t3 l3, gettoken l2 = .ok t3 l3 ∧
          readParams ps t3 l3 = some lend) ∨
        (t2 = tk ')' ∧ ps = [] ∧ l2 = lend)) := by
  unfold readParams at h
  by_cases h0 : tok = ty ∧ (ty = T_INT ∨ ty = T_CHAR)
  · rw [if_pos h0] at h
    refine ⟨h0.1, h0.2, ?_⟩
    cases hg1 : gettoken lx with
    | ok t1 l1 =>
      simp only [hg1] at h
      by_cases h1 : t1 = T_IDENT ∧ l1.tokstr = name
      · rw [if_pos h1] at h
        obtain ⟨rfl, hn⟩ := h1
        cases hg2 : gettoken l1 with
        | ok t2 l2 =>
          simp only [hg2] at h
          refine ⟨l1, t2, l2, rfl, hn, hg2, ?_⟩
          by_cases h2 : t2 = tk ','
          · rw [if_pos h2] at h
            left
            cases hg3 : gettoken l2 with
            | ok t3 l3 =>
              simp only [hg3] at h
              by_cases h3 : ps = []
              · rw [if_pos h3] at h; cases h
              · rw [if_neg h3] at h
                exact ⟨h2, h3, t3, l3, rfl, h⟩
            | fail l3 => simp [hg3] at h
            | hang => simp [hg3] at h
          · rw [if_neg h2] at h
            right
            by_cases h3 : ps = [] ∧ t2 = tk ')'
            · rw [if_pos h3] at h
              exact ⟨h3.2, h3.1, Option.some.inj h⟩
            · rw [if_neg h3] at h; cases h
        | fail l2 => simp [hg2] at h
        | hang => simp [hg2] at h
      · rw [if_neg h1] at h; cases h
    | fail l1 => simp [hg1] at h
    | hang => simp [hg1] at h
  · rw [if_neg h0] at h; cases h

/-- The loop of `parameter_list` on a well-formed parameter list, for a
function entry that holds `g.nparams` parameter types already. -/
theorem parameter_listLoop_params (i : Nat) :
    ∀ (ps : List (Int × Str)) (fuel : Nat) (s : CState) (g : Function) (lend : Lexer),
      ps.length < fuel → s.locals = [] → 16 ≤ s.param_offset →
      s.globals.length + ps.length ≤ MAXGLOBALS → s.functions.get? i = some g →
      g.param_types.length = g.nparams.toNat → 0 ≤ g.nparams → g.nparams ≤ MAXARGS →
      readParams ps s.token s.lex = some lend →
      (g.nparams + ps.length ≤ MAXARGS →
        ∃ s1, parameter_listLoop (some i) fuel s = .ok s1 ∧ s1.token = tk ')' ∧ s1.lex = lend ∧
          s1.functions.get? i = some { g with nparams := g.nparams + ps.length,
                                              param_types := g.param_types ++ ps.map Prod.fst }) ∧
      ((MAXARGS : Int) < g.nparams + ps.length →
        ∃ s2, parameter_listLoop (some i) fuel s = error "Too many parameters" s2)
  | [], fuel, s, g, lend, hf, hl, hp, hr, hg, hlen, h0, hle, hread => by
    obtain ⟨ht, hlx⟩ := readParams_nil hread
    obtain ⟨f, rfl⟩ : ∃ f, fuel = f + 1 := ⟨fuel - 1, by simp at hf; omega⟩
    constructor
    · intro _
      refine ⟨s, by simp [parameter_listLoop, ht], ht, hlx, ?_⟩
      rw [hg]
      cases g
      simp
    · intro h
      simp at h
      omega
  | (ty, name) :: ps, fuel, s, g, lend, hf, hl, hp, hr, hg, hlen, h0, hle, hread => by
    obtain ⟨htok, hty, l1, t2, l2, hg1, hname, hg2, hrest⟩ := readParams_cons hread
    obtain ⟨f, rfl⟩ : ∃ f, fuel = f + 1 := ⟨fuel - 1, by simp at hf; omega⟩
    simp only [List.length_cons] at hf hr
    subst htok
    have hne : s.token ≠ tk ')' := by
      rcases hty with h | h <;> rw [h] <;> decide
    have hsym := add_symbol_global l1.tokstr (if s.token = T_CHAR then 1 else 0) 0
      { s with lex := l1, token := T_IDENT } hl hp (by simp only []; omega)
    dsimp only at hsym
    rw [parameter_listLoop]
    simp only [hne, ne_eq, not_false_eq_true, if_true, hty, nexttoken, hg1, Res.bind,
      not_true_eq_false, if_false, hsym, hg]
    by_cases hfull : (MAXARGS : Int) ≤ g.nparams
    · rw [if_pos hfull]
      constructor
      · intro h
        simp only [List.length_cons] at h
        push_cast at h
        omega
      · intro _
        exact ⟨_, rfl⟩
    · rw [if_neg hfull]
      have hw : writeAt g.param_types g.nparams.toNat s.token = g.param_types ++ [s.token] := by
        rw [← hlen, writeAt_length]
      simp only [hw, hg2]
      rcases hrest with ⟨hc, hps, t3, l3, hg3, hrd⟩ | ⟨hc, hps, hl2⟩
      · simp only [hc, if_true, hg3]
        have ih := parameter_listLoop_params i ps f
          { s with
            lex := l3, token := t3
            globals := s.globals ++ [⟨l1.tokstr, if s.token = T_CHAR then 1 else 0, s.lab,
              decide ((0 : Int) < 0), 0, false⟩]
            lab := s.lab + 1
            functions := s.functions.set i
              { g with param_types := g.param_types ++ [s.token], nparams := g.nparams + 1 } }
          { g with param_types := g.param_types ++ [s.token], nparams := g.nparams + 1 } lend
          (by omega) hl hp (by simp only [List.length_append, List.length_singleton]; omega)
          (by
            simp only [List.get?_eq_getElem?] at hg ⊢
            rw [List.getElem?_set_self]
            exact (List.getElem?_eq_some.mp hg).1)
          (by simp only [List.length_append, List.length_singleton]; omega)
          (by simp only []; omega) (by simp only []; omega) hrd
        constructor
        · intro h
          simp only [List.length_cons] at h
          push_cast at h
          obtain ⟨s1, h1, h2, h3, h4⟩ := ih.1 (by simp only []; omega)
          refine ⟨s1, h1, h2, h3, ?_⟩
          rw [h4]
          simp only [List.length_cons, List.map_cons, List.append_assoc, List.singleton_append,
            Option.some.injEq, Function.mk.injEq, and_true, true_and]
          push_cast
          omega
        · intro h
          simp only [List.length_cons] at h
          push_cast at h
          exact ih.2 (by simp only []; omega)
      · subst hps
        have hcomma : ¬ t2 = tk ',' := by rw [hc]; decide
        obtain ⟨f1, rfl⟩ : ∃ f1, f = f1 + 1 := ⟨f - 1, by simp at hf; omega⟩
        simp only [hcomma, if_false, hc, ne_eq, not_true_eq_false, parameter_listLoop, if_true]
        constructor
        · intro _
          refine ⟨_, rfl, rfl, hl2, ?_⟩
          simp only [List.get?_eq_getElem?] at hg ⊢
          rw [List.getElem?_set_self]
          · simp
          · exact (List.getElem?_eq_some.mp hg).1
        · intro h
          simp only [List.length_singleton] at h
          push_cast at h
          omega

/-- C16: for a function entry without parameters yet and a well-formed
parameter list `ps` (each parameter a type keyword and a name), read in the
state in which `program` calls `function` and with room in the symbol
table, `parameter_list` returns with the types recorded in order and
`nparams` equal to the number of parameters when there are at most
`MAXARGS` of them, and ends in the error `Too many parameters` when there
are more. -/
theorem parameter_list_limit (ps : List (Int × Str)) (fuel : Nat) (s : CState) (i : Nat)
    (g : Function) (lend : Lexer) (hfuel : ps.length < fuel) (hl : s.locals = [])
    (hp : 16 ≤ s.param_offset) (hroom : s.globals.length + ps.length ≤ MAXGLOBALS)
    (hfun : lookupFuncIdx s.curfunc s.functions = some i) (hg : s.functions.get? i = some g)
    (hnew : g.nparams = 0 ∧ g.param_types = [])
    (hread : readParams ps s.token s.lex = some lend) :
    (ps.length ≤ MAXARGS →
      ∃ s1, parameter_list fuel s = .ok s1 ∧ s1.token = tk ')' ∧ s1.lex = lend ∧
        s1.functions.get? i =
          some { g with nparams := ps.length, param_types := ps.map Prod.fst }) ∧
    (MAXARGS < ps.length →
      ∃ s2, parameter_list fuel s = error "Too many parameters" s2) := by
  obtain ⟨hn, hpt⟩ := hnew
  have h := parameter_listLoop_params i ps fuel s g lend hfuel hl hp hroom hg
    (by rw [hn, hpt]; rfl) (by rw [hn]) (by rw [hn]; exact Int.natCast_nonneg _) hread
  rw [hn, hpt] at h
  unfold parameter_list
  rw [hfun]
  constructor
  · intro hle
    obtain ⟨s1, h1, h2, h3, h4⟩ := h.1 (by omega)
    refine ⟨s1, h1, h2, h3, ?_⟩
    rw [h4]
    simp
  · intro hlt
    exact h.2 (by omega)

theorem parameter_list_limit_witness :
    ∃ s1, parameter_list 5
        { CState.start .x64 "t.c".toList [] with
          token := T_INT
          lex := { Lexer.start "t.c".toList [] with
            line := "int f(int a, char b) \x7b".toList, lptr := " a, char b) \x7b".toList,
            tokstr := ['f'] }
          functions := [⟨['f'], true, 0, []⟩]
          curfunc := ['f'] } = .ok s1 ∧
      s1.token = tk ')' ∧ s1.functions.get? 0 = some ⟨['f'], true, 2, [T_INT, T_CHAR]⟩ := by
  obtain ⟨s1, h1, h2, _, h4⟩ := (parameter_list_limit [(T_INT, ['a']), (T_CHAR, ['b'])] 5
    { CState.start .x64 "t.c".toList [] with
      token := T_INT
      lex := { Lexer.start "t.c".toList [] with
        line := "int f(int a, char b) \x7b".toList, lptr := " a, char b) \x7b".toList,
        tokstr := ['f'] }
      functions := [⟨['f'], true, 0, []⟩]
      curfunc := ['f'] }
    0 ⟨['f'], true, 0, []⟩
    { Lexer.start "t.c".toList [] with
      line := "int f(int a, char b) \x7b".toList, lptr := " \x7b".toList, tokstr := ['b'] }
    (by decide) rfl (by decide) (by decide) (by decide) rfl ⟨rfl, rfl⟩ (by decide)).1 (by decide)
  exact ⟨s1, h1, h2, h4⟩

end Scc
end SmallC

namespace SmallC
namespace Scc

/-- What `readArgs` says about the first argument of a list. -/
theorem readArgs_cons {v : Int} {vs : List Int} {l lend : Lexer}
    (h : readArgs (v :: vs) l = some lend) :
    l.tokval = v ∧ ∃ t l1, gettoken l = .ok t l1 ∧
      ((t = tk ',' ∧ vs ≠ [] ∧ ∃ l2, gettoken l1 = .ok T_NUMBER l2 ∧
          readArgs vs l2 = some lend) ∨
        (t = tk ')' ∧ vs = [] ∧ l1 = lend)) := by
  unfold readArgs at h
  by_cases h0 : l.tokval = v
  · rw [if_pos h0] at h
    refine ⟨h0, ?_⟩
    cases hg1 : gettoken l with
    | ok t l1 =>
      simp only [hg1] at h
      refine ⟨t, l1, rfl, ?_⟩
      by_cases h1 : t = tk ','
      · rw [if_pos h1] at h
        left
        cases hg2 : gettoken l1 with
        | ok t2 l2 =>
          simp only [hg2] at h
          by_cases h2 : t2 = T_NUMBER ∧ vs ≠ []
          · rw [if_pos h2] at h
            obtain ⟨rfl, h3⟩ := h2
            exact ⟨h1, h3, l2, rfl, h⟩
          · rw [if_neg h2] at h; cases h
        | fail l2 => simp [hg2] at h
        | hang => simp [hg2] at h
      · rw [if_neg h1] at h
        right
        by_cases h2 : t = tk ')' ∧ vs = []
        · rw [if_pos h2] at h
          exact ⟨h2.1, h2.2, Option.some.inj h⟩
        · rw [if_neg h2] at h; cases h
    | fail l1 => simp [hg1] at h
    | hang => simp [hg1] at h
  · rw [if_neg h0] at h; cases h

theorem endsExpression_comma : endsExpression (tk ',') := by
  unfold endsExpression; decide

theorem endsExpression_rparen : endsExpression (tk ')') := by
  unfold endsExpression; decide

/-- The function `expression` on a number that is followed by a token that
ends the expression. -/
theorem expression_number (g : Nat) (s : CState) (l3 : Lexer) (tend : Int)
    (hx : s.target = .x64) (htok : s.token = T_NUMBER)
    (hg : gettoken s.lex = .ok tend l3) (hend : endsExpression tend) :
    expression (g + 15) s =
      .ok { emit (.movq_imm_rax s.lex.tokval) s with lex := l3, token := tend } := by
  rw [expression]
  exact assignment_number g s l3 tend hx htok hg hend

/-- The argument loop of a call on a list of numbers: every argument is
loaded and pushed; the pops are left to `popArgs`. -/
theorem callArgs_numbers : ∀ (vs : List Int) (f : Nat) (s : CState) (n : Nat) (lend : Lexer),
    s.target = .x64 → s.token = T_NUMBER → readArgs vs s.lex = some lend →
    ∃ s1, callArgs (f + vs.length + 16) s n = .ok (popArgs (n + vs.length) s1) ∧
      s1.target = .x64 ∧ s1.token = tk ')' ∧ s1.lex = lend ∧ s1.sp = s.sp - 8 * vs.length ∧
      s1.out = s.out ++ vs.flatMap (fun v => [Asm.movq_imm_rax v, Asm.pushq_rax])
  | [], _, _, _, _, _, _, h => by simp [readArgs] at h
  | v :: vs, f, s, n, lend, hx, htok, h => by
    obtain ⟨hv, t, l1, hg1, hrest⟩ := readArgs_cons h
    have hne : s.token ≠ tk ')' := by rw [htok]; decide
    have hfuel : f + (v :: vs).length + 16 = (f + vs.length + 1 + 15) + 1 := by
      simp only [List.length_cons]; omega
    rw [hfuel, callArgs, if_pos hne]
    rcases hrest with ⟨ht, hvs, l2, hg2, hrd⟩ | ⟨ht, hvs, hl1⟩
    · subst ht
      rw [expression_number (f + vs.length + 1) s l1 (tk ',') hx htok hg1 endsExpression_comma]
      simp only [Res.bind, push, emit, hx, if_true, nexttoken, hg2]
      obtain ⟨s1, h1, h2, h3, h4, h5, h6⟩ := callArgs_numbers vs f
        { s with
          lex := l2, token := T_NUMBER, sp := s.sp - 8
          out := s.out ++ [Asm.movq_imm_rax s.lex.tokval] ++ [Asm.pushq_rax] }
        (n + 1) lend hx rfl hrd
      have hf2 : f + vs.length + 1 + 15 = f + vs.length + 16 := by omega
      rw [hf2]
      refine ⟨s1, ?_, h2, h3, h4, ?_, ?_⟩
      · rw [hx] at h1
        rw [h1]
        simp only [List.length_cons]
        congr 2
        omega
      · rw [h5]
        simp only [List.length_cons]
        push_cast
        ring
      · rw [h6, hv]
        simp
    · subst ht
      rw [expression_number (f + vs.length + 1) s l1 (tk ')') hx htok hg1 endsExpression_rparen]
      subst hvs
      have hc : ¬ tk ')' = tk ',' := by decide
      simp only [Res.bind, push, emit, hx, hc, if_false, ne_eq, not_true_eq_false, List.length_nil,
        Nat.add_zero]
      rw [callArgs]
      simp only [ne_eq, not_true_eq_false, if_false]
      refine ⟨_, rfl, rfl, rfl, hl1, ?_, ?_⟩
      · simp
      · simp [hv]

/-- On x86-64 the pop loop of a call with more than six arguments pops nothing. -/
theorem popArgs_many (k : Nat) (s : CState) (hx : s.target = .x64) (hk : 6 < k) :
    popArgs k s = s := by
  unfold popArgs
  rw [hx]
  simp only []
  rw [if_neg (by omega)]

/-- The call branch of the loop of `postfix` on a list of more than six
numbers: the arguments are pushed, nothing is popped, the call is emitted. -/
theorem postfixExprLoop_call_numbers (f : Nat) (s : CState) (vs : List Int)
    (l1 lend l3 : Lexer) (tend : Int) (hx : s.target = .x64) (htok : s.token = tk '(')
    (hg1 : gettoken s.lex = .ok T_NUMBER l1) (hread : readArgs vs l1 = some lend)
    (hg3 : gettoken lend = .ok tend l3) (hstop : stopsPostfix tend) (hmany : 6 < vs.length) :
    ∃ s1, postfixExprLoop (f + vs.length + 17) s = .ok s1 ∧ s1.target = .x64 ∧
      s1.token = tend ∧ s1.lex = l3 ∧ s1.sp = s.sp - 8 * vs.length ∧
      s1.out = s.out ++ vs.flatMap (fun v => [Asm.movq_imm_rax v, Asm.pushq_rax]) ++
        [Asm.call s.lex.tokstr] := by
  obtain ⟨s1, h1, h2, h3, h4, h5, h6⟩ := callArgs_numbers vs f
    { s with lex := l1, token := T_NUMBER } 0 lend hx rfl hread
  rw [popArgs_many _ s1 h2 (by omega)] at h1
  have n1 : ¬ tk '(' = tk '[' := by decide
  have n2 : ¬ (tk '(' = T_INC ∨ tk '(' = T_DEC) := by decide
  have n3 : ¬ T_NUMBER = tk ')' := by decide
  have hexit : ∀ s5 : CState, s5.token = tend →
      postfixExprLoop (f + vs.length + 16) s5 = .ok s5 := by
    intro s5 h5
    exact postfixExprLoop_exit (f + vs.length + 15) s5 (by rw [h5]; exact hstop)
  have hf : f + vs.length + 17 = (f + vs.length + 16) + 1 := by omega
  rw [hf, postfixExprLoop]
  simp only [htok, n1, n2, if_false, if_true, nexttoken, hg1, Res.bind, ne_eq, n3,
    not_false_eq_true, h1, h3, not_true_eq_false, h4, hg3, h2]
  rw [hexit _ rfl]
  refine ⟨_, rfl, ?_, rfl, rfl, ?_, ?_⟩
  · simp [emit, h2]
  · simp [emit, h5]
  · simp [emit, h6]

/-- From `postfix` up to `expression`, when the first token starts no unary
operator and the token after the operand ends the expression. -/
theorem expression_of_postfixExpr (g : Nat) (s s1 : CState)
    (h : postfixExpr (g + 2) s = .ok s1)
    (htok : s.token = T_IDENT ∨ s.token = T_NUMBER ∨ s.token = tk '(')
    (hend : endsExpression s1.token) : expression (g + 15) s = .ok s1 := by
  obtain ⟨_, hm, ha, hu⟩ := endsExpression_stops _ hend
  have h1 : unary (g + 3) s = .ok s1 := by
    rcases htok with ht | ht | ht <;> simp [unary, ht, tkv, Tv, h]
  have h2 : multiplicative (g + 4) s = .ok s1 := by
    simp only [multiplicative, h1, Res.bind]
    exact multiplicativeLoop_exit _ _ hm
  have h3 : additive (g + 5) s = .ok s1 := by
    simp only [additive, h2, Res.bind]
    exact additiveLoop_exit _ _ ha
  exact expression_of_additive (g + 4) s s1 h3 hu

/-- The function `expression` on the name of a function that is followed by
a token that ends the expression: the address of the function is loaded. -/
theorem expression_function_name (g : Nat) (s : CState) (g0 : Function) (l1 : Lexer) (t : Int)
    (hx : s.target = .x64) (htok : s.token = T_IDENT) (hlook : lookup s.lex.tokstr s = none)
    (hfun : lookup_func s.lex.tokstr s.functions = some g0)
    (hg1 : gettoken s.lex = .ok t l1) (hend : endsExpression t) :
    expression (g + 15) s =
      .ok (emit (.movq_sym_rax s.lex.tokstr) { s with lex := l1, token := t }) := by
  have n1 : ¬ (T_IDENT = T_NUMBER ∨ T_IDENT = T_CHARLIT) := by decide
  have n2 : ¬ T_IDENT = T_STRING := by decide
  have n3 : ¬ t = tk '(' := hend.2.2.2.2.2.2.2.2.2.2.2.2.2.2.2.2.2.2.2.2.2.2.2.2.2.2
  have hp : primary (g + 1) s =
      .ok (emit (.movq_sym_rax s.lex.tokstr) { s with lex := l1, token := t }) := by
    simp only [primary, htok, n1, n2, if_false, if_true, nexttoken, hg1, Res.bind, n3, hlook,
      hfun, hx]
  have hpf : postfixExpr (g + 2) s =
      .ok (emit (.movq_sym_rax s.lex.tokstr) { s with lex := l1, token := t }) := by
    simp only [postfixExpr, hp, Res.bind]
    exact postfixExprLoop_exit g _ (endsExpression_stops _ hend).1
  exact expression_of_postfixExpr g s _ hpf (Or.inl htok) hend

/-- The function `expression` on `(f)(v1, ..., vk)` for a function name `f`
and more than six numbers: the `k` arguments are pushed and nothing is
popped, so the stack-offset counter ends `8 * k` lower. -/
theorem expression_paren_call (f : Nat) (s : CState) (vs : List Int) (g0 : Function)
    (l1 l2 l3 l4 l5 l6 : Lexer) (tend : Int) (hx : s.target = .x64)
    (htok : s.token = tk '(') (hg1 : gettoken s.lex = .ok T_IDENT l1)
    (hlook : lookup l1.tokstr s = none) (hfun : lookup_func l1.tokstr s.functions = some g0)
    (hg2 : gettoken l1 = .ok (tk ')') l2) (hg3 : gettoken l2 = .ok (tk '(') l3)
    (hg4 : gettoken l3 = .ok T_NUMBER l4) (hread : readArgs vs l4 = some l5)
    (hg5 : gettoken l5 = .ok tend l6) (hend : endsExpression tend) (hmany : 6 < vs.length) :
    ∃ s1, expression (f + vs.length + 31) s = .ok s1 ∧ s1.token = tend ∧ s1.lex = l6 ∧
      s1.sp = s.sp - 8 * vs.length ∧
      s1.out = s.out ++ [Asm.movq_sym_rax l1.tokstr] ++
        vs.flatMap (fun v => [Asm.movq_imm_rax v, Asm.pushq_rax]) ++ [Asm.call l3.tokstr] := by
  have he := expression_function_name (f + vs.length + 1) { s with lex := l1, token := T_IDENT }
    g0 l2 (tk ')') hx rfl hlook hfun hg2 endsExpression_rparen
  have n1 : ¬ (tk '(' = T_NUMBER ∨ tk '(' = T_CHARLIT) := by decide
  have n2 : ¬ tk '(' = T_STRING := by decide
  have n3 : ¬ tk '(' = T_IDENT := by decide
  have hp : primary (f + vs.length + 16 + 1) s =
      .ok { emit (.movq_sym_rax l1.tokstr) { s with lex := l1, token := T_IDENT } with
        lex := l3, token := tk '(' } := by
    rw [primary]
    simp only [htok, n1, n2, n3, if_false, if_true, nexttoken, hg1, Res.bind]
    rw [he]
    simp only [emit, ne_eq, not_true_eq_false, if_false, hg2, hg3]
  obtain ⟨s1, h1, h2, h3, h4, h5, h6⟩ := postfixExprLoop_call_numbers f
    { emit (.movq_sym_rax l1.tokstr) { s with lex := l1, token := T_IDENT } with
      lex := l3, token := tk '(' }
    vs l4 l5 l6 tend hx rfl hg4 hread hg5 (endsExpression_stops _ hend).1 hmany
  have hpf : postfixExpr (f + vs.length + 16 + 2) s = .ok s1 := by
    rw [postfixExpr, hp]
    simp only [Res.bind]
    exact h1
  refine ⟨s1, ?_, h3, h4, ?_, ?_⟩
  · have := expression_of_postfixExpr (f + vs.length + 16) s s1 hpf (Or.inr (Or.inr htok))
      (by rw [h3]; exact hend)
    exact this
  · rw [h5]
    simp [emit]
  · rw [h6]
    simp [emit]

end Scc
end SmallC

namespace SmallC
namespace Scc

/-- C13: for the expression `(f)(1,2,3,4,5,6,7)`, a call of the function `f`
with seven arguments, `expression` returns without error, has emitted seven
pushes and no pop, and leaves the stack-offset counter `sp` at `-56` instead
of `0`. -/
theorem call_with_seven_arguments_unbalanced :
    (compileExpression 38
        { CState.start .x64 "t.c".toList "(f)(1,2,3,4,5,6,7);".toList with
          functions := [⟨['f'], true, 0, []⟩] }).summary =
      some (tk ';', -56,
        [.movq_sym_rax ['f'], .movq_imm_rax 1, .pushq_rax, .movq_imm_rax 2, .pushq_rax,
          .movq_imm_rax 3, .pushq_rax, .movq_imm_rax 4, .pushq_rax, .movq_imm_rax 5, .pushq_rax,
          .movq_imm_rax 6, .pushq_rax, .movq_imm_rax 7, .pushq_rax, .call ['f']]) := by
  have hg0 : gettoken (Lexer.start "t.c".toList "(f)(1,2,3,4,5,6,7);".toList) =
      .ok (tk '(') { Lexer.start "t.c".toList "(f)(1,2,3,4,5,6,7);".toList with
        line := "(f)(1,2,3,4,5,6,7);".toList, lptr := "f)(1,2,3,4,5,6,7);".toList,
        input := [] } := by
    decide
  obtain ⟨s1, h1, h2, _, h4, h5⟩ := expression_paren_call 0
    { CState.start .x64 "t.c".toList "(f)(1,2,3,4,5,6,7);".toList with
      functions := [⟨['f'], true, 0, []⟩], token := tk '('
      lex := { Lexer.start "t.c".toList "(f)(1,2,3,4,5,6,7);".toList with
        line := "(f)(1,2,3,4,5,6,7);".toList, lptr := "f)(1,2,3,4,5,6,7);".toList,
        input := [] } }
    [1, 2, 3, 4, 5, 6, 7] ⟨['f'], true, 0, []⟩
    { Lexer.start "t.c".toList "(f)(1,2,3,4,5,6,7);".toList with
      line := "(f)(1,2,3,4,5,6,7);".toList, lptr := ")(1,2,3,4,5,6,7);".toList,
      input := [], tokstr := ['f'] }
    { Lexer.start "t.c".toList "(f)(1,2,3,4,5,6,7);".toList with
      line := "(f)(1,2,3,4,5,6,7);".toList, lptr := "(1,2,3,4,5,6,7);".toList,
      input := [], tokstr := ['f'] }
    { Lexer.start "t.c".toList "(f)(1,2,3,4,5,6,7);".toList with
      line := "(f)(1,2,3,4,5,6,7);".toList, lptr := "1,2,3,4,5,6,7);".toList,
      input := [], tokstr := ['f'] }
    { Lexer.start "t.c".toList "(f)(1,2,3,4,5,6,7);".toList with
      line := "(f)(1,2,3,4,5,6,7);".toList, lptr := ",2,3,4,5,6,7);".toList,
      input := [], tokstr := ['f'], tokval := 1 }
    { Lexer.start "t.c".toList "(f)(1,2,3,4,5,6,7);".toList with
      line := "(f)(1,2,3,4,5,6,7);".toList, lptr := ";".toList,
      input := [], tokstr := ['f'], tokval := 7 }
    { Lexer.start "t.c".toList "(f)(1,2,3,4,5,6,7);".toList with
      line := "(f)(1,2,3,4,5,6,7);".toList, lptr := [],
      input := [], tokstr := ['f'], tokval := 7 }
    (tk ';') rfl rfl (by decide) (by decide) (by decide) (by decide) (by decide) (by decide)
    (by decide) (by decide) (by unfold endsExpression; decide) (by decide)
  have hc : compileExpression 38
      { CState.start .x64 "t.c".toList "(f)(1,2,3,4,5,6,7);".toList with
        functions := [⟨['f'], true, 0, []⟩] } = .ok s1 := by
    simp only [compileExpression, nexttoken, hg0, Res.bind]
    exact h1
  rw [hc]
  simp only [Res.summary, h2, h4, h5]
  simp [CState.start]

end Scc
end SmallC

namespace SmallC
namespace Scc

/-- An error in `unary` ends `expression`. -/
theorem expression_of_unary_fail (f : Nat) (s x : CState) (h : unary (f + 1) s = .fail x) :
    expression (f + 13) s = .fail x := by
  have e1 : multiplicative (f + 2) s = .fail x := by simp [multiplicative, h, Res.bind]
  have e2 : additive (f + 3) s = .fail x := by simp [additive, e1, Res.bind]
  have e3 : shift (f + 4) s = .fail x := by simp [shift, e2, Res.bind]
  have e4 : relational (f + 5) s = .fail x := by simp [relational, e3, Res.bind]
  have e5 : equality (f + 6) s = .fail x := by simp [equality, e4, Res.bind]
  have e6 : bitwise_and (f + 7) s = .fail x := by simp [bitwise_and, e5, Res.bind]
  have e7 : bitwise_xor (f + 8) s = .fail x := by simp [bitwise_xor, e6, Res.bind]
  have e8 : bitwise_or (f + 9) s = .fail x := by simp [bitwise_or, e7, Res.bind]
  have e9 : logical_and (f + 10) s = .fail x := by simp [logical_and, e8, Res.bind]
  have e10 : logical_or (f + 11) s = .fail x := by simp [logical_or, e9, Res.bind]
  have e11 : assignment (f + 12) s = .fail x := by simp [assignment, e10, Res.bind]
  simp [expression, e11]

/-- The function `expression` on `f(v, ...`, a name directly followed by an
argument list whose first argument is a number followed by a token other
than `)`: `primary` hands the parenthesis to `postfix`, which starts with
`primary` again and reads `(v` as a parenthesised expression, so that the
comma is met where `)` is required. -/
theorem expression_direct_call_fails (g : Nat) (s : CState) (l1 l2 l3 : Lexer) (t : Int)
    (hx : s.target = .x64) (htok : s.token = T_IDENT)
    (hg1 : gettoken s.lex = .ok (tk '(') l1) (hstr : l1.tokstr = s.lex.tokstr)
    (hg2 : gettoken l1 = .ok T_NUMBER l2)
    (hg3 : gettoken l2 = .ok t l3) (hend : endsExpression t) (ht : t ≠ tk ')') :
    expression (g + 33) s =
      error "Expected )" { s with lex := l3, token := t,
                                  out := s.out ++ [.movq_imm_rax l2.tokval] } := by
  have n1 : ¬ (T_IDENT = T_NUMBER ∨ T_IDENT = T_CHARLIT) := by decide
  have n2 : ¬ T_IDENT = T_STRING := by decide
  have m1 : ¬ (tk '(' = T_NUMBER ∨ tk '(' = T_CHARLIT) := by decide
  have m2 : ¬ tk '(' = T_STRING := by decide
  have m3 : ¬ tk '(' = T_IDENT := by decide
  have hl1 : ({ l1 with tokstr := s.lex.tokstr } : Lexer) = l1 := by
    rw [← hstr]
  have he := expression_number (g + 1) { s with lex := l2, token := T_NUMBER } l3 t hx rfl hg3
    hend
  have hp2 : primary (g + 16 + 1) { s with lex := l1, token := tk '(' } =
      error "Expected )" { s with lex := l3, token := t,
                                  out := s.out ++ [.movq_imm_rax l2.tokval] } := by
    rw [primary]
    simp only [m1, m2, m3, if_false, if_true, nexttoken, hg2, Res.bind]
    rw [he]
    simp only [emit, ne_eq, ht, not_false_eq_true, if_true, hx]
  have hpf2 : postfixExpr (g + 18) { s with lex := l1, token := tk '(' } =
      error "Expected )" { s with lex := l3, token := t,
                                  out := s.out ++ [.movq_imm_rax l2.tokval] } := by
    rw [postfixExpr, hp2]
    simp only [error, Res.bind]
  have hp : primary (g + 19) s =
      error "Expected )" { s with lex := l3, token := t,
                                  out := s.out ++ [.movq_imm_rax l2.tokval] } := by
    rw [primary]
    simp only [htok, n1, n2, if_false, if_true, nexttoken, hg1, Res.bind, hl1]
    exact hpf2
  have hpf : postfixExpr (g + 20) s =
      error "Expected )" { s with lex := l3, token := t,
                                  out := s.out ++ [.movq_imm_rax l2.tokval] } := by
    rw [postfixExpr, hp]
    simp only [error, Res.bind]
  have hu : unary (g + 20 + 1) s =
      error "Expected )" { s with lex := l3, token := t,
                                  out := s.out ++ [.movq_imm_rax l2.tokval] } := by
    simp [unary, htok, tkv, Tv, hpf]
  exact expression_of_unary_fail (g + 20) s _ hu

/-- C14: the call `simple(1, 2)` with two arguments ends in the error
`Expected )`, and the call `(simple)(1,2,3,4,5,6,7,8,9,10)` with ten
arguments is compiled without any error: ten pushes, no pop, and the call
instruction are emitted. -/
theorem call_argument_limit_not_enforced :
    (compileExpression 33
        { CState.start .x64 "t.c".toList "simple(1, 2);".toList with
          functions := [⟨"simple".toList, true, 1, [T_INT]⟩] }).diagnostic =
      some "t.c:1: Error: Expected )\n  Near:  2);...\n".toList ∧
    (compileExpression 41
        { CState.start .x64 "t.c".toList "(simple)(1,2,3,4,5,6,7,8,9,10);".toList with
          functions := [⟨"simple".toList, true, 1, [T_INT]⟩] }).summary =
      some (tk ';', -80,
        [.movq_sym_rax "simple".toList, .movq_imm_rax 1, .pushq_rax, .movq_imm_rax 2, .pushq_rax, .movq_imm_rax 3, .pushq_rax, .movq_imm_rax 4, .pushq_rax, .movq_imm_rax 5, .pushq_rax, .movq_imm_rax 6, .pushq_rax, .movq_imm_rax 7, .pushq_rax, .movq_imm_rax 8, .pushq_rax, .movq_imm_rax 9, .pushq_rax, .movq_imm_rax 10, .pushq_rax,
          .call "simple".toList]) := by
  constructor
  · have hg0 : gettoken (Lexer.start "t.c".toList "simple(1, 2);".toList) =
        .ok T_IDENT { Lexer.start "t.c".toList "simple(1, 2);".toList with
      line := "simple(1, 2);".toList, lptr := "(1, 2);".toList, input := [], tokstr := "simple".toList } := by
      decide
    have h := expression_direct_call_fails 0
      { CState.start .x64 "t.c".toList "simple(1, 2);".toList with
        functions := [⟨"simple".toList, true, 1, [T_INT]⟩], token := T_IDENT
        lex := { Lexer.start "t.c".toList "simple(1, 2);".toList with
      line := "simple(1, 2);".toList, lptr := "(1, 2);".toList, input := [], tokstr := "simple".toList } }
      { Lexer.start "t.c".toList "simple(1, 2);".toList with
      line := "simple(1, 2);".toList, lptr := "1, 2);".toList, input := [], tokstr := "simple".toList }
      { Lexer.start "t.c".toList "simple(1, 2);".toList with
      line := "simple(1, 2);".toList, lptr := ", 2);".toList, input := [], tokstr := "simple".toList, tokval := 1 }
      { Lexer.start "t.c".toList "simple(1, 2);".toList with
      line := "simple(1, 2);".toList, lptr := " 2);".toList, input := [], tokstr := "simple".toList, tokval := 1 }
      (tk ',') rfl rfl (by decide) rfl (by decide) (by decide) (by unfold endsExpression; decide)
      (by decide)
    simp only [compileExpression, nexttoken, hg0, Res.bind]
    refine Eq.trans (congrArg Res.diagnostic h) ?_
    decide
  · have hg0 : gettoken (Lexer.start "t.c".toList "(simple)(1,2,3,4,5,6,7,8,9,10);".toList) =
        .ok (tk '(') { Lexer.start "t.c".toList "(simple)(1,2,3,4,5,6,7,8,9,10);".toList with
      line := "(simple)(1,2,3,4,5,6,7,8,9,10);".toList, lptr := "simple)(1,2,3,4,5,6,7,8,9,10);".toList, input := [] } := by
      decide
    obtain ⟨s1, h1, h2, _, h4, h5⟩ := expression_paren_call 0
      { CState.start .x64 "t.c".toList "(simple)(1,2,3,4,5,6,7,8,9,10);".toList with
        functions := [⟨"simple".toList, true, 1, [T_INT]⟩], token := tk '('
        lex := { Lexer.start "t.c".toList "(simple)(1,2,3,4,5,6,7,8,9,10);".toList with
      line := "(simple)(1,2,3,4,5,6,7,8,9,10);".toList, lptr := "simple)(1,2,3,4,5,6,7,8,9,10);".toList, input := [] } }
      [1, 2, 3, 4, 5, 6, 7, 8, 9, 10] ⟨"simple".toList, true, 1, [T_INT]⟩
      { Lexer.start "t.c".toList "(simple)(1,2,3,4,5,6,7,8,9,10);".toList with
      line := "(simple)(1,2,3,4,5,6,7,8,9,10);".toList, lptr := ")(1,2,3,4,5,6,7,8,9,10);".toList, input := [], tokstr := "simple".toList }
      { Lexer.start "t.c".toList "(simple)(1,2,3,4,5,6,7,8,9,10);".toList with
      line := "(simple)(1,2,3,4,5,6,7,8,9,10);".toList, lptr := "(1,2,3,4,5,6,7,8,9,10);".toList, input := [], tokstr := "simple".toList }
      { Lexer.start "t.c".toList "(simple)(1,2,3,4,5,6,7,8,9,10);".toList with
      line := "(simple)(1,2,3,4,5,6,7,8,9,10);".toList, lptr := "1,2,3,4,5,6,7,8,9,10);".toList, input := [], tokstr := "simple".toList }
      { Lexer.start "t.c".toList "(simple)(1,2,3,4,5,6,7,8,9,10);".toList with
      line := "(simple)(1,2,3,4,5,6,7,8,9,10);".toList, lptr := ",2,3,4,5,6,7,8,9,10);".toList, input := [], tokstr := "simple".toList, tokval := 1 }
      { Lexer.start "t.c".toList "(simple)(1,2,3,4,5,6,7,8,9,10);".toList with
      line := "(simple)(1,2,3,4,5,6,7,8,9,10);".toList, lptr := ";".toList, input := [], tokstr := "simple".toList, tokval := 10 }
      { Lexer.start "t.c".toList "(simple)(1,2,3,4,5,6,7,8,9,10);".toList with
      line := "(simple)(1,2,3,4,5,6,7,8,9,10);".toList, lptr := "".toList, input := [], tokstr := "simple".toList, tokval := 10 }
      (tk ';') rfl rfl (by decide) (by decide) (by decide) (by decide) (by decide) (by decide)
      (by decide) (by decide) (by unfold endsExpression; decide) (by decide)
    have hc : compileExpression 41
        { CState.start .x64 "t.c".toList "(simple)(1,2,3,4,5,6,7,8,9,10);".toList with
          functions := [⟨"simple".toList, true, 1, [T_INT]⟩] } = .ok s1 := by
      simp only [compileExpression, nexttoken, hg0, Res.bind]
      exact h1
    rw [hc]
    simp only [Res.summary, h2, h4, h5]
    simp [CState.start]

end Scc
end SmallC

namespace SmallC
namespace Scc

theorem sync_c (st : SState) (c : CState) : (sync st c).c = c := by
  unfold sync
  split <;> rfl

theorem nextS_ok (st : SState) (t : Int) (l1 : Lexer) (hg : gettoken st.c.lex = .ok t l1) :
    ∃ st1, nextS st = .ok st1 ∧ st1.c = { st.c with lex := l1, token := t } := by
  refine ⟨sync st { st.c with lex := l1, token := t }, ?_, sync_c _ _⟩
  simp [nextS, track, nexttoken, hg]

/-- C15: with `MAXWHILE` loops open (`wsp = MAXWHILE`), a further loop is
entered without any error.  After `while (` the case `T_WHILE` of
`statement`, and after `for ( ;` the case `T_FOR`, reach the stores
`breaklab[wsp] = lab2; contlab[wsp] = ...` with `wsp = MAXWHILE`, the index
one past the last element of the two arrays: the result is `overrun`, in
the state that the two or three calls of `gettoken` left, and not the
result `fail` of a call of `error`. -/
theorem while_nests_beyond_MAXWHILE (stmt : SState → SRes) (f : Nat) (st : SState)
    (l1 l2 l3 : Lexer) (t2 t3 : Int) (hwsp : st.c.wsp = MAXWHILE)
    (hg1 : gettoken st.c.lex = .ok (tk '(') l1) (hg2 : gettoken l1 = .ok t2 l2)
    (hg3 : gettoken l2 = .ok t3 l3) :
    whileCase stmt f st = .overrun { st.c with lex := l2, token := t2 } ∧
    (st.c.token = T_WHILE →
      statement (f + 1) st = .overrun { st.c with lex := l2, token := t2 }) ∧
    (t2 = tk ';' → forCase stmt f st = .overrun { st.c with lex := l3, token := t3 }) ∧
    (st.c.token = T_FOR → t2 = tk ';' →
      statement (f + 1) st = .overrun { st.c with lex := l3, token := t3 }) := by
  obtain ⟨s1, e1, c1⟩ := nextS_ok st _ _ hg1
  obtain ⟨s2, e2, c2⟩ := nextS_ok s1 t2 l2 (by rw [c1]; exact hg2)
  obtain ⟨s4, e4, c4⟩ := nextS_ok s2 t3 l3 (by rw [c2]; exact hg3)
  have hw : ∀ stmt1 : SState → SRes,
      whileCase stmt1 f st = .overrun { st.c with lex := l2, token := t2 } := by
    intro stmt1
    unfold whileCase
    simp only [e1, SRes.bind]
    rw [if_neg (by rw [c1]; exact fun h => h rfl)]
    simp only [e2, SRes.bind]
    rw [if_pos (by rw [c2, c1]; exact Int.le_of_eq hwsp.symm), c2, c1]
  have hf : ∀ stmt1 : SState → SRes, t2 = tk ';' →
      forCase stmt1 f st = .overrun { st.c with lex := l3, token := t3 } := by
    intro stmt1 ht
    have k2 : s2.c.token = tk ';' := by rw [c2, ← ht]
    unfold forCase
    simp only [e1, SRes.bind]
    rw [if_neg (by rw [c1]; exact fun h => h rfl)]
    simp only [e2, SRes.bind]
    rw [if_neg (fun h => h k2)]
    simp only [SRes.bind]
    rw [if_neg (fun h => h k2)]
    simp only [e4, SRes.bind]
    rw [if_pos (by rw [c4, c2, c1]; exact Int.le_of_eq hwsp.symm), c4, c2, c1]
  refine ⟨hw stmt, fun ht => ?_, hf stmt, fun ht h2 => ?_⟩
  · rw [statement, if_neg (by rw [ht]; decide), if_neg (by rw [ht]; decide), if_pos ht]
    exact hw _
  · rw [statement, if_neg (by rw [ht]; decide), if_neg (by rw [ht]; decide),
      if_neg (by rw [ht]; decide), if_pos ht]
    exact hf _ h2

/-- C15, an instance: the statement `while (1) ;` read with 20 loops open. -/
theorem while_nests_beyond_MAXWHILE_witness :
    statement 1
        { c := { CState.start .x64 "t.c".toList [] with
                  token := T_WHILE, wsp := 20, lab := 41,
                  lex := lexAt "while (1) ;".toList " (1) ;".toList "while".toList 0 },
          buf := [], pos := 0 } =
      .overrun { CState.start .x64 "t.c".toList [] with
        token := T_NUMBER, wsp := 20, lab := 41,
        lex := lexAt "while (1) ;".toList ") ;".toList "while".toList 1 } :=
  (while_nests_beyond_MAXWHILE (fun x => .ok x) 0
    { c := { CState.start .x64 "t.c".toList [] with
              token := T_WHILE, wsp := 20, lab := 41,
              lex := lexAt "while (1) ;".toList " (1) ;".toList "while".toList 0 },
      buf := [], pos := 0 }
    (lexAt "while (1) ;".toList "1) ;".toList "while".toList 0)
    (lexAt "while (1) ;".toList ") ;".toList "while".toList 1)
    (lexAt "while (1) ;".toList " ;".toList "while".toList 1)
    T_NUMBER (tk ')') rfl (by decide) (by decide) (by decide)).2.1 rfl

end Scc
end SmallC

namespace SmallC

namespace Sas

theorem get_token_ret (s : State) :
    get_token { s with lptr := "ret".toList } =
      ({ s with lptr := [], token := "ret".toList }, 73) := by
  simp [get_token, skip_white, identStart, identChar]

theorem get_token_end (s : State) (h : s.lptr = []) :
    get_token s = ({ s with token := [] }, 0) := by
  simp [get_token, skip_white, h]

theorem process_line_ret (s : State) :
    process_line "ret".toList s =
      parse_instruction { s with lptr := [], token := "ret".toList } := by
  simp only [process_line, get_token_ret]
  simp

theorem parse_instruction_ret_x64 (s : State) (hl : s.lptr = []) (ht : s.token = "ret".toList)
    (hx : s.target = TARGET_X64) :
    parse_instruction s = ((emit_byte 195 { s with token := [] }).1, 0) := by
  simp [parse_instruction, get_token_end s hl, ht, hx, encode_x64_ret]

theorem parse_instruction_ret_arm64 (s : State) (hl : s.lptr = []) (ht : s.token = "ret".toList)
    (hx : s.target ≠ TARGET_X64) :
    parse_instruction s = (emit_dword 3596551104 { s with token := [] }, 0) := by
  simp [parse_instruction, get_token_end s hl, ht, hx, encode_arm64_ret]

theorem emit_byte_room (b : Int) (s : State) (h : s.code.length < MAXCODE) :
    emit_byte b s = ({ s with code := s.code ++ [(b % 256).toNat], pc := s.pc + 1 }, 0) := by
  simp [emit_byte, Nat.not_le.mpr h]

theorem process_line_ret_x64 (s : State) (hx : s.target = TARGET_X64)
    (h : s.code.length < MAXCODE) :
    process_line "ret".toList s =
      ({ s with lptr := [], token := [], code := s.code ++ [195], pc := s.pc + 1 }, 0) := by
  rw [process_line_ret,
    parse_instruction_ret_x64 { s with lptr := [], token := "ret".toList } rfl rfl hx]
  simp [emit_byte, Nat.not_le.mpr h]

theorem process_line_ret_arm64 (s : State) (hx : s.target ≠ TARGET_X64)
    (h : s.code.length + 4 ≤ MAXCODE) :
    process_line "ret".toList s =
      ({ s with lptr := [], token := [], code := s.code ++ [192, 3, 95, 214],
                pc := s.pc + 4 }, 0) := by
  have h0 : ¬ MAXCODE ≤ s.code.length := by omega
  have h1 : ¬ MAXCODE ≤ s.code.length + 1 := by omega
  have h2 : ¬ MAXCODE ≤ s.code.length + 1 + 1 := by omega
  have h3 : ¬ MAXCODE ≤ s.code.length + 1 + 1 + 1 := by omega
  rw [process_line_ret,
    parse_instruction_ret_arm64 { s with lptr := [], token := "ret".toList } rfl rfl hx]
  simp [emit_dword, emit_byte, h0, h1, h2, h3]
  omega

end Sas

namespace SasE

theorem get_token_of_ret : get_token "ret".toList = ("ret".toList, []) := by decide

theorem process_line_of_ret (directive : Str → Str → State → State) (s : State) :
    process_line directive "ret".toList s =
      process_instruction "ret".toList [] { s with line_number := s.line_number + 1 } := by
  have h1 : skip_space "ret".toList = "ret".toList := by decide
  have h2 : ¬ (':' ∈ "ret".toList) := by decide
  have h3 : ("ret".toList : Str) = 'r' :: "et".toList := rfl
  have h4 : get_token ['r', 'e', 't'] = (['r', 'e', 't'], []) := by decide
  simp only [process_line, h1, if_neg h2, get_token_of_ret]
  rw [h3]
  simp [h4]

theorem process_instruction_ret (ops : Str) (s : State) :
    process_instruction "ret".toList ops s =
      if s.is_arm64 ≠ 0 then encode_arm64_ret s else encode_x64_ret s := by
  simp [process_instruction]

end SasE

end SmallC

namespace SmallC

/-- C17: in `sas.c`, in a state with room for four more bytes in the code
buffer, the line `ret` appends the byte 0xC3 and advances `pc` by 1 for the
x86-64 target, and appends C0 03 5F D6 and advances `pc` by 4 for the
AArch64 target; in `sas_enhanced.c`, from the state in which `main` starts
to read the input (the text section is empty and current), the line `ret`
leaves a text section of size 1 holding 0xC3 for x86-64 and of size 4
holding C0 03 5F D6 for AArch64. -/
theorem ret_assembles_to_canonical_bytes (s : Sas.State)
    (directive : Str → Str → SasE.State → SasE.State) (file : Str)
    (hroom : s.code.length + 4 ≤ Sas.MAXCODE) :
    (s.target = Sas.TARGET_X64 →
      (Sas.process_line "ret".toList s).1.code = s.code ++ [0xC3] ∧
      (Sas.process_line "ret".toList s).1.pc = s.pc + 1 ∧
      (Sas.process_line "ret".toList s).2 = 0) ∧
    (s.target = Sas.TARGET_ARM64 →
      (Sas.process_line "ret".toList s).1.code = s.code ++ [0xC0, 0x03, 0x5F, 0xD6] ∧
      (Sas.process_line "ret".toList s).1.pc = s.pc + 4 ∧
      (Sas.process_line "ret".toList s).2 = 0) ∧
    (SasE.curSize (SasE.startState 0 file) = 0 ∧
      (SasE.process_line directive "ret".toList (SasE.startState 0 file)).output = [0xC3] ∧
      SasE.curSize (SasE.process_line directive "ret".toList (SasE.startState 0 file)) = 1 ∧
      (SasE.process_line directive "ret".toList (SasE.startState 0 file)).output_size = 1) ∧
    (SasE.curSize (SasE.startState 1 file) = 0 ∧
      (SasE.process_line directive "ret".toList (SasE.startState 1 file)).output =
        [0xC0, 0x03, 0x5F, 0xD6] ∧
      SasE.curSize (SasE.process_line directive "ret".toList (SasE.startState 1 file)) = 4 ∧
      (SasE.process_line directive "ret".toList (SasE.startState 1 file)).output_size = 4) := by
  refine ⟨fun hx => ?_, fun ha => ?_, ?_, ?_⟩
  · rw [Sas.process_line_ret_x64 s hx (by omega)]
    exact ⟨rfl, rfl, rfl⟩
  · have hx : s.target ≠ Sas.TARGET_X64 := by rw [ha]; decide
    rw [Sas.process_line_ret_arm64 s hx hroom]
    exact ⟨rfl, rfl, rfl⟩
  · rw [SasE.process_line_of_ret, SasE.process_instruction_ret]
    simp [SasE.startState, SasE.initState, SasE.add_section, SasE.find_section, SasE.findFrom,
      SasE.encode_x64_ret, SasE.encode_arm64_ret, SasE.emit_dword, SasE.emit_byte,
      SasE.writeByte, SasE.curSize, SasE.word, Scc.wrap32]
  · rw [SasE.process_line_of_ret, SasE.process_instruction_ret]
    simp [SasE.startState, SasE.initState, SasE.add_section, SasE.find_section, SasE.findFrom,
      SasE.encode_x64_ret, SasE.encode_arm64_ret, SasE.emit_dword, SasE.emit_byte,
      SasE.writeByte, SasE.curSize, SasE.word, Scc.wrap32]

/-- The lines `ret` of both assemblers from their initial states. -/
theorem ret_assembles_to_canonical_bytes_witness :
    ((Sas.process_line "ret".toList Sas.initState).1.code = [] ++ [0xC3] ∧
      (Sas.process_line "ret".toList Sas.initState).1.pc = 0 + 1 ∧
      (Sas.process_line "ret".toList Sas.initState).2 = 0) ∧
    (SasE.process_line (fun _ _ t => t) "ret".toList (SasE.startState 1 [])).output =
        [0xC0, 0x03, 0x5F, 0xD6] :=
  ⟨(ret_assembles_to_canonical_bytes Sas.initState (fun _ _ t => t) [] (by decide)).1 rfl,
    (ret_assembles_to_canonical_bytes Sas.initState (fun _ _ t => t) []
      (by decide)).2.2.2.2.1⟩

end SmallC

namespace SmallC

namespace SasE

theorem process_instruction_foo (ops : Str) (s : State) :
    process_instruction "foo".toList ops s = s := by
  simp [process_instruction]

theorem process_line_foo (directive : Str → Str → State → State) (s : State) :
    process_line directive "foo".toList s = { s with line_number := s.line_number + 1 } := by
  have h1 : skip_space "foo".toList = "foo".toList := by decide
  have h2 : ¬ (':' ∈ "foo".toList) := by decide
  have h3 : ("foo".toList : Str) = 'f' :: "oo".toList := rfl
  have h4 : get_token ['f', 'o', 'o'] = (['f', 'o', 'o'], []) := by decide
  have h5 := process_instruction_foo [] { s with line_number := s.line_number + 1 }
  simp only [process_line, h1, if_neg h2]
  rw [h3]
  simp [h4]
  exact h5

theorem readLoop_foo_ret (directive : Str → Str → State → State) (s : State) :
    readLoop directive "foo\nret\n".toList [] s =
      process_line directive "ret".toList (process_line directive "foo".toList s) := by
  have h1 : lineOf "foo".toList = "foo".toList := by decide
  have h2 : lineOf "ret".toList = "ret".toList := by decide
  have h3 : lineOf ['f', 'o', 'o'] = ['f', 'o', 'o'] := h1
  have h4 : lineOf ['r', 'e', 't'] = ['r', 'e', 't'] := h2
  simp [readLoop, h3, h4]

/-- The state of `sas_enhanced` after the lines `foo` and `ret` of the file `a.s`. -/
theorem readLoop_foo_ret_start (directive : Str → Str → State → State) :
    readLoop directive "foo\nret\n".toList [] (startState 0 "a.s".toList) =
      { is_arm64 := 0, current_section := 0, line_number := 2, current_file := "a.s".toList,
        sections := [⟨".text".toList, 0, 1, SEC_CODE, 16, 0⟩], symbols := [], relocs := [],
        output := [195], output_size := 1, stdout := [] } := by
  rw [readLoop_foo_ret, process_line_foo, process_line_of_ret, process_instruction_ret]
  simp [startState, initState, add_section, find_section, findFrom, encode_x64_ret, emit_byte,
    writeByte]

theorem main_foo_ret (directive : Str → Str → State → State) :
    main directive (fun n => if n = "a.s".toList then some "foo\nret\n".toList else none)
        ["sas_enhanced".toList, "a.s".toList, "-o".toList, "a.o".toList] =
      ⟨0, "Assembled a.s to a.o (x64, 1 bytes)\n".toList,
        some ("a.o".toList, objectBytes
          { is_arm64 := 0, current_section := 0, line_number := 2, current_file := "a.s".toList,
            sections := [⟨".text".toList, 0, 1, SEC_CODE, 16, 0⟩], symbols := [], relocs := [],
            output := [195], output_size := 1, stdout := [] })⟩ := by
  have hargs : parseArgs (["sas_enhanced".toList, "a.s".toList, "-o".toList,
      "a.o".toList].drop 1) (0, none, "a.out".toList) =
        (0, some "a.s".toList, "a.o".toList) := by decide
  have hd : decimal 1 = ['1'] := by decide
  simp only [main, hargs, if_pos, readLoop_foo_ret_start, hd]
  rfl

end SasE

/-- C18: an unknown mnemonic is not fatal in either assembler.  `sas`, run
on a file with the lines `foo` and `ret`, prints "Unknown instruction" in
each of its two passes, goes on to assemble `ret`, writes the object file
and exits with status 0; in `sas_enhanced`, `process_instruction` returns
with the state unchanged for the mnemonic `foo`, and a run on the same file
assembles `ret`, writes the object file and exits with status 0. -/
theorem unknown_mnemonic_is_not_fatal (directive : Str → Str → SasE.State → SasE.State)
    (ops : Str) (s : SasE.State) :
    Sas.main (fun n => if n = "a.s".toList then some "foo\nret\n".toList else none)
        ["sas".toList, "a.s".toList, "-o".toList, "a.o".toList] =
      ⟨0, "Error: Unknown instruction\nError: Unknown instruction\nAssembled 1 bytes\n".toList,
        some ("a.o".toList, Sas.elfHeader Sas.TARGET_X64 ++ [0xC3])⟩ ∧
    SasE.process_instruction "foo".toList ops s = s ∧
    (SasE.main directive (fun n => if n = "a.s".toList then some "foo\nret\n".toList else none)
        ["sas_enhanced".toList, "a.s".toList, "-o".toList, "a.o".toList]).status = 0 ∧
    (SasE.main directive (fun n => if n = "a.s".toList then some "foo\nret\n".toList else none)
        ["sas_enhanced".toList, "a.s".toList, "-o".toList, "a.o".toList]).stdout =
      "Assembled a.s to a.o (x64, 1 bytes)\n".toList ∧
    ((SasE.main directive (fun n => if n = "a.s".toList then some "foo\nret\n".toList else none)
        ["sas_enhanced".toList, "a.s".toList, "-o".toList, "a.o".toList]).written.map
          fun w => (w.1, w.2.getLast?)) = some ("a.o".toList, some 0xC3) := by
  refine ⟨by decide, SasE.process_instruction_foo ops s, ?_, ?_, ?_⟩
  · rw [SasE.main_foo_ret]
  · rw [SasE.main_foo_ret]
  · rw [SasE.main_foo_ret]
    decide

end SmallC

namespace SmallC

namespace SasE

/-- A line without a label whose first token is not a directive goes to `process_instruction`. -/
theorem process_line_instruction (directive : Str → Str → State → State) (line : Str)
    (s : State) (c : Char) (p : Str) (h1 : skip_space line = c :: p)
    (hc : c ≠ ';' ∧ c ≠ '#') (h2 : ¬ (':' ∈ line))
    (h3 : (get_token (c :: p)).1.head? ≠ some '.') :
    process_line directive line s =
      process_instruction (get_token (c :: p)).1 (get_token (c :: p)).2
        { s with line_number := s.line_number + 1 } := by
  simp only [process_line, h1, if_neg h2]
  rw [if_neg (by simp [hc.1, hc.2])]
  rw [if_neg h3]

end SasE

/-- C19: in arm64 mode, from the state in which `main` starts to read the
input, the lines `mov x8, #93`, `ldr x0, [x29, #16]` and `mov x0, 70000`
leave the size of the current section at 0 and the output buffer empty,
while `mov x8, 93` grows the section by 4 bytes. -/
theorem arm64_lines_that_emit_nothing (directive : Str → Str → SasE.State → SasE.State) :
    SasE.curSize (SasE.startState 1 "a.s".toList) = 0 ∧
    (SasE.curSize (SasE.process_line directive "    mov x8, #93".toList
        (SasE.startState 1 "a.s".toList)) = 0 ∧
      (SasE.process_line directive "    mov x8, #93".toList
        (SasE.startState 1 "a.s".toList)).output = []) ∧
    (SasE.curSize (SasE.process_line directive "    ldr x0, [x29, #16]".toList
        (SasE.startState 1 "a.s".toList)) = 0 ∧
      (SasE.process_line directive "    ldr x0, [x29, #16]".toList
        (SasE.startState 1 "a.s".toList)).output = []) ∧
    (SasE.curSize (SasE.process_line directive "    mov x0, 70000".toList
        (SasE.startState 1 "a.s".toList)) = 0 ∧
      (SasE.process_line directive "    mov x0, 70000".toList
        (SasE.startState 1 "a.s".toList)).output = []) ∧
    (SasE.curSize (SasE.process_line directive "    mov x8, 93".toList
        (SasE.startState 1 "a.s".toList)) = 4 ∧
      (SasE.process_line directive "    mov x8, 93".toList
        (SasE.startState 1 "a.s".toList)).output = [0xA8, 0x0B, 0x80, 0xD2]) := by
  refine ⟨by decide, ?_, ?_, ?_, ?_⟩
  · rw [SasE.process_line_instruction directive _ _ 'm' "ov x8, #93".toList (by decide)
      (by decide) (by decide) (by decide)]
    decide
  · rw [SasE.process_line_instruction directive _ _ 'l' "dr x0, [x29, #16]".toList (by decide)
      (by decide) (by decide) (by decide)]
    decide
  · rw [SasE.process_line_instruction directive _ _ 'm' "ov x0, 70000".toList (by decide)
      (by decide) (by decide) (by decide)]
    decide
  · rw [SasE.process_line_instruction directive _ _ 'm' "ov x8, 93".toList (by decide)
      (by decide) (by decide) (by decide)]
    decide

end SmallC

namespace SmallC

/-- C20: `eval_expr` on `7%3`, `1<<4`, `16>>2`, `6&3`, `6|3` and `6^3`
written without spaces returns the left operand (7, 1, 16, 6, 6, 6) and
consumes the whole text, because `get_token` takes the operator and the right
operand into the number token; written with spaces the same texts give 1,
16, 4, 2, 7 and 5.  `7-2`, `7*2` and `7/2` give 5, 14 and 3, `~5` gives -6,
`2+3*4` gives 14 and `(2+3)*4` gives 20. -/
theorem eval_expr_operators_need_spaces :
    (SasE.eval_expr 12 (SasE.startState 0 []) "7%3".toList = some (7, []) ∧
      SasE.eval_expr 12 (SasE.startState 0 []) "1<<4".toList = some (1, []) ∧
      SasE.eval_expr 12 (SasE.startState 0 []) "16>>2".toList = some (16, []) ∧
      SasE.eval_expr 12 (SasE.startState 0 []) "6&3".toList = some (6, []) ∧
      SasE.eval_expr 12 (SasE.startState 0 []) "6|3".toList = some (6, []) ∧
      SasE.eval_expr 12 (SasE.startState 0 []) "6^3".toList = some (6, [])) ∧
    (SasE.eval_expr 12 (SasE.startState 0 []) "7 % 3".toList = some (1, []) ∧
      SasE.eval_expr 12 (SasE.startState 0 []) "1 << 4".toList = some (16, []) ∧
      SasE.eval_expr 12 (SasE.startState 0 []) "16 >> 2".toList = some (4, []) ∧
      SasE.eval_expr 12 (SasE.startState 0 []) "6 & 3".toList = some (2, []) ∧
      SasE.eval_expr 12 (SasE.startState 0 []) "6 | 3".toList = some (7, []) ∧
      SasE.eval_expr 12 (SasE.startState 0 []) "6 ^ 3".toList = some (5, [])) ∧
    (SasE.eval_expr 12 (SasE.startState 0 []) "7+2".toList = some (9, []) ∧
      SasE.eval_expr 12 (SasE.startState 0 []) "7-2".toList = some (5, []) ∧
      SasE.eval_expr 12 (SasE.startState 0 []) "7*2".toList = some (14, []) ∧
      SasE.eval_expr 12 (SasE.startState 0 []) "7/2".toList = some (3, []) ∧
      SasE.eval_expr 12 (SasE.startState 0 []) "~5".toList = some (-6, []) ∧
      SasE.eval_expr 12 (SasE.startState 0 []) "2+3*4".toList = some (14, []) ∧
      SasE.eval_expr 12 (SasE.startState 0 []) "(2+3)*4".toList = some (20, [])) := by
  refine ⟨⟨?_, ?_, ?_, ?_, ?_, ?_⟩, ⟨?_, ?_, ?_, ?_, ?_, ?_⟩, ⟨?_, ?_, ?_, ?_, ?_, ?_, ?_⟩⟩ <;>
    decide

end SmallC

namespace SmallC

/-- C21: in `sas_enhanced.c` the lines `  .asciz "hi"` and `  .ascii "hi"`
emit nothing: `process_line` hands `process_directive` the text behind the
directive name, which starts with the blank, and the two branches test
`*p == '"'` without skipping blanks; whatever follows the blank, the state is
unchanged.  In `sas.c` the same lines append `h`, `i`, 0 and `h`, `i`. -/
theorem asciz_after_blank_emits_nothing (t : Str) (s : SasE.State) :
    SasE.process_directive ".asciz".toList (' ' :: t) s = s ∧
    SasE.process_directive ".ascii".toList (' ' :: t) s = s ∧
    (SasE.process_line SasE.process_directive "  .asciz \"hi\"".toList
        (SasE.startState 0 "a.s".toList)).output = [] ∧
    SasE.curSize (SasE.process_line SasE.process_directive "  .asciz \"hi\"".toList
        (SasE.startState 0 "a.s".toList)) = 0 ∧
    (SasE.process_line SasE.process_directive "  .ascii \"hi\"".toList
        (SasE.startState 0 "a.s".toList)).output = [] ∧
    (Sas.process_line "  .asciz \"hi\"".toList Sas.initState).1.code = [104, 105, 0] ∧
    (Sas.process_line "  .ascii \"hi\"".toList Sas.initState).1.code = [104, 105] := by
  refine ⟨?_, ?_, ?_, ?_, ?_, ?_, ?_⟩
  · simp [SasE.process_directive]
  · simp [SasE.process_directive]
  · decide
  · decide
  · decide
  · decide
  · decide

end SmallC

namespace SmallC

/-- C22: the compiler prints the literal 60 as the operand `$60`, and
`get_number` of `sas.c` reads the text `$60` as the hexadecimal number 0x60,
so the token value is 96; the text `$9` gives 9 and the text `60` gives 60. -/
theorem get_number_reads_dollar_as_hex :
    (Scc.Asm.movq_imm_rax 60).text = "  movq $60, %rax" ∧
    (Sas.get_number { Sas.initState with lptr := "$60, %rax".toList }).1.tokval = 96 ∧
    (Sas.get_number { Sas.initState with lptr := "$60, %rax".toList }).1.lptr =
      ", %rax".toList ∧
    (Sas.get_number { Sas.initState with lptr := "$9".toList }).1.tokval = 9 ∧
    (Sas.get_number { Sas.initState with lptr := "60".toList }).1.tokval = 60 := by
  refine ⟨?_, ?_, ?_, ?_, ?_⟩ <;> decide

end SmallC

namespace SmallC

namespace Sld

theorem and_div_two_pow (a b k : Nat) : (a &&& b) / 2 ^ k = a / 2 ^ k &&& b / 2 ^ k := by
  apply Nat.eq_of_testBit_eq
  intro i
  simp [← Nat.shiftRight_eq_div_pow]

theorem or_div_two_pow (a b k : Nat) : (a ||| b) / 2 ^ k = a / 2 ^ k ||| b / 2 ^ k := by
  apply Nat.eq_of_testBit_eq
  intro i
  simp [← Nat.shiftRight_eq_div_pow]

theorem and_mod_two_pow (a b k : Nat) : (a &&& b) % 2 ^ k = a % 2 ^ k &&& b % 2 ^ k := by
  apply Nat.eq_of_testBit_eq
  intro i
  simp only [Nat.testBit_mod_two_pow, Nat.testBit_and]
  cases decide (i < k) <;> simp

theorem or_mod_two_pow (a b k : Nat) : (a ||| b) % 2 ^ k = a % 2 ^ k ||| b % 2 ^ k := by
  apply Nat.eq_of_testBit_eq
  intro i
  simp only [Nat.testBit_mod_two_pow, Nat.testBit_or]
  cases decide (i < k) <;> simp

theorem u32_lt (x : Int) : u32 x < 4294967296 := by
  unfold u32
  omega

theorem u32_wrap32 (x : Int) : u32 (Scc.wrap32 x) = u32 x := by
  unfold u32 Scc.wrap32
  omega

theorem u32_natCast (n : Nat) (h : n < 4294967296) : u32 (n : Int) = n := by
  unfold u32
  omega

theorem u32_band (a b : Int) : u32 (band a b) = u32 a &&& u32 b := by
  unfold band
  rw [u32_wrap32, u32_natCast]
  exact lt_of_le_of_lt Nat.and_le_left (u32_lt a)

theorem u32_bor (a b : Int) : u32 (bor a b) = u32 a ||| u32 b := by
  unfold bor
  rw [u32_wrap32, u32_natCast]
  exact Nat.or_lt_two_pow (n := 32) (u32_lt a) (u32_lt b)

theorem u32_shl (a : Int) (k : Nat) (h : u32 a * 2 ^ k < 4294967296) :
    u32 (shl a k) = u32 a * 2 ^ k := by
  unfold shl
  rw [u32_wrap32, Nat.shiftLeft_eq, u32_natCast _ h]

end Sld

end SmallC

namespace SmallC

namespace Sld

theorem and_high_mask (n k : Nat) (hk : k ≤ 32) (hn : n < 2 ^ 32) :
    n &&& (2 ^ 32 - 2 ^ k) = n - n % 2 ^ k := by
  have e1 : 2 ^ 32 - 2 ^ k = (2 ^ (32 - k) - 1) <<< k := by
    rw [Nat.shiftLeft_eq, Nat.sub_mul, ← Nat.pow_add, Nat.sub_add_cancel hk, Nat.one_mul]
  have e2 : n - n % 2 ^ k = (n >>> k) <<< k := by
    rw [Nat.shiftLeft_eq, Nat.shiftRight_eq_div_pow]
    have := Nat.div_add_mod n (2 ^ k)
    have := Nat.mul_comm (2 ^ k) (n / 2 ^ k)
    omega
  rw [e1, e2]
  apply Nat.eq_of_testBit_eq
  intro i
  simp only [Nat.testBit_and, Nat.testBit_shiftLeft, Nat.testBit_shiftRight,
    Nat.testBit_two_pow_sub_one]
  by_cases h1 : k ≤ i
  · by_cases h2 : i < 32
    · have h3 : i - k < 32 - k := by omega
      have h4 : k + (i - k) = i := by omega
      simp [h1, h3, h4]
    · have h3 : ¬ (i - k < 32 - k) := by omega
      have h5 : n.testBit i = false :=
        Nat.testBit_lt_two_pow (lt_of_lt_of_le hn (Nat.pow_le_pow_right (by norm_num) (by omega)))
      simp [h1, h3, h5]
  · have h1' : ¬ (i ≥ k) := h1
    simp [h1']

theorem band_neg16 (x : Int) (h1 : -2147483648 ≤ x) (h2 : x < 2147483648) :
    band x (bnot (16 - 1)) = x - x % 16 := by
  have hm : u32 (bnot (16 - 1)) = 2 ^ 32 - 2 ^ 4 := by decide
  have ha := and_high_mask (u32 x) 4 (by norm_num) (u32_lt x)
  unfold band
  rw [hm, ha]
  unfold u32 Scc.wrap32
  omega

theorem band_neg4096 (x : Int) (h1 : -2147483648 ≤ x) (h2 : x < 2147483648) :
    band x (bnot (4096 - 1)) = x - x % 4096 := by
  have hm : u32 (bnot (4096 - 1)) = 2 ^ 32 - 2 ^ 12 := by decide
  have ha := and_high_mask (u32 x) 12 (by norm_num) (u32_lt x)
  unfold band
  rw [hm, ha]
  unfold u32 Scc.wrap32
  omega

end Sld

end SmallC

namespace SmallC

namespace Sld

theorem wrap32_range (x : Int) : -2147483648 ≤ Scc.wrap32 x ∧ Scc.wrap32 x < 2147483648 := by
  unfold Scc.wrap32
  omega

theorem u32_band_low (x : Int) (m : Int) (k : Nat) (hm : u32 m = 2 ^ k - 1) :
    u32 (band x m) = u32 x % 2 ^ k := by
  rw [u32_band, hm, Nat.and_pow_two_sub_one_eq_mod]

theorem immlo_eq (d : Int) : u32 (band (shr d 12) 3) = ((d / 4096) % 4).toNat := by
  rw [u32_band_low _ 3 2 (by decide)]
  have : shr d 12 = d / 4096 := by simp [shr]
  rw [this]
  unfold u32
  omega

theorem immhi_eq (d : Int) : u32 (band (shr d 14) 0x7FFFF) = ((d / 16384) % 524288).toNat := by
  rw [u32_band_low _ 0x7FFFF 19 (by decide)]
  have : shr d 14 = d / 16384 := by simp [shr]
  rw [this]
  unfold u32
  omega

theorem u32_adrpWord (w d : Int) :
    u32 (adrpWord w d) =
      (u32 w &&& 2667577375) ||| ((d / 4096) % 4).toNat * 2 ^ 29 |||
        ((d / 16384) % 524288).toNat * 2 ^ 5 := by
  unfold adrpWord
  have h1 := immlo_eq d
  have h2 := immhi_eq d
  rw [u32_bor, u32_bor, u32_band, u32_shl, u32_shl, h1, h2]
  · rfl
  · rw [h2]
    omega
  · rw [h1]
    omega

theorem adrp_fields (W lo hi : Nat) (hW : W < 4294967296) (hlo : lo < 4) (hhi : hi < 524288) :
    ((W &&& 2667577375) ||| lo * 2 ^ 29 ||| hi * 2 ^ 5) / 2 ^ 29 % 2 ^ 2 = lo ∧
    ((W &&& 2667577375) ||| lo * 2 ^ 29 ||| hi * 2 ^ 5) / 2 ^ 5 % 2 ^ 19 = hi ∧
    ((W &&& 2667577375) ||| lo * 2 ^ 29 ||| hi * 2 ^ 5) / 2 ^ 31 = W / 2 ^ 31 ∧
    ((W &&& 2667577375) ||| lo * 2 ^ 29 ||| hi * 2 ^ 5) / 2 ^ 24 % 2 ^ 5 = W / 2 ^ 24 % 2 ^ 5 ∧
    ((W &&& 2667577375) ||| lo * 2 ^ 29 ||| hi * 2 ^ 5) % 2 ^ 5 = W % 2 ^ 5 := by
  have m1 : 2667577375 / 2 ^ 29 % 2 ^ 2 = 0 := by norm_num
  have m2 : 2667577375 / 2 ^ 5 % 2 ^ 19 = 0 := by norm_num
  have m3 : 2667577375 / 2 ^ 31 = 2 ^ 1 - 1 := by norm_num
  have m4 : 2667577375 / 2 ^ 24 % 2 ^ 5 = 2 ^ 5 - 1 := by norm_num
  have m5 : 2667577375 % 2 ^ 5 = 2 ^ 5 - 1 := by norm_num
  refine ⟨?_, ?_, ?_, ?_, ?_⟩
  · rw [or_div_two_pow, or_div_two_pow, or_mod_two_pow, or_mod_two_pow, and_div_two_pow,
      and_mod_two_pow, m1, Nat.and_zero, Nat.zero_or]
    have e1 : lo * 2 ^ 29 / 2 ^ 29 % 2 ^ 2 = lo := by omega
    have e2 : hi * 2 ^ 5 / 2 ^ 29 % 2 ^ 2 = 0 := by omega
    rw [e1, e2, Nat.or_zero]
  · rw [or_div_two_pow, or_div_two_pow, or_mod_two_pow, or_mod_two_pow, and_div_two_pow,
      and_mod_two_pow, m2, Nat.and_zero, Nat.zero_or]
    have e1 : lo * 2 ^ 29 / 2 ^ 5 % 2 ^ 19 = 0 := by omega
    have e2 : hi * 2 ^ 5 / 2 ^ 5 % 2 ^ 19 = hi := by omega
    rw [e1, e2, Nat.zero_or]
  · rw [or_div_two_pow, or_div_two_pow, and_div_two_pow, m3, Nat.and_pow_two_sub_one_eq_mod]
    have e1 : lo * 2 ^ 29 / 2 ^ 31 = 0 := by omega
    have e2 : hi * 2 ^ 5 / 2 ^ 31 = 0 := by omega
    rw [e1, e2, Nat.or_zero, Nat.or_zero]
    omega
  · rw [or_div_two_pow, or_div_two_pow, or_mod_two_pow, or_mod_two_pow, and_div_two_pow,
      and_mod_two_pow, m4, Nat.and_pow_two_sub_one_eq_mod]
    have e1 : lo * 2 ^ 29 / 2 ^ 24 % 2 ^ 5 = 0 := by omega
    have e2 : hi * 2 ^ 5 / 2 ^ 24 % 2 ^ 5 = 0 := by omega
    rw [e1, e2, Nat.or_zero, Nat.or_zero]
    omega
  · rw [or_mod_two_pow, or_mod_two_pow, and_mod_two_pow, m5, Nat.and_pow_two_sub_one_eq_mod]
    have e1 : lo * 2 ^ 29 % 2 ^ 5 = 0 := by omega
    have e2 : hi * 2 ^ 5 % 2 ^ 5 = 0 := by omega
    rw [e1, e2, Nat.or_zero, Nat.or_zero]
    omega

theorem u32_pageOffset (t a pc : Int) :
    u32 (pageOffset t a (Scc.wrap32 pc)) =
      u32 ((t + a - (t + a) % 4096) - (pc - pc % 4096)) := by
  unfold pageOffset
  have h1 := wrap32_range (t + a)
  have h2 := wrap32_range pc
  have e : (0xFFF : Int) = 4096 - 1 := by norm_num
  rw [e, band_neg4096 _ h1.1 h1.2, band_neg4096 _ h2.1 h2.2, u32_wrap32]
  unfold u32 Scc.wrap32
  omega

end Sld

end SmallC

namespace SmallC

namespace Sld

theorem readByte_writeByte (a : List Nat) (i v j : Nat) :
    readByte (writeByte a i v) j = if j = i then v else readByte a j := by
  unfold readByte writeByte
  rw [List.getD_eq_getElem?_getD, List.getD_eq_getElem?_getD, List.getElem?_set]
  by_cases h : i = j
  · subst h
    have : i < a.length + (i + 1 - a.length) := by omega
    simp [this]
  · have h' : ¬ j = i := fun e => h e.symm
    simp only [h, h', if_false]
    by_cases hj : j < a.length
    · rw [List.getElem?_append_left hj]
    · rw [List.getElem?_append_right (by omega), List.getElem?_replicate]
      have : a[j]? = none := List.getElem?_eq_none (by omega)
      rw [this]
      split <;> rfl

theorem readByte_writeBytes (bs : List Nat) (a : List Nat) (i j : Nat) :
    readByte (writeBytes a i bs) j =
      if i ≤ j ∧ j < i + bs.length then bs.getD (j - i) 0 else readByte a j := by
  induction bs generalizing a i with
  | nil =>
    have : ¬ (i ≤ j ∧ j < i + ([] : List Nat).length) := by
      simp only [List.length_nil]
      omega
    rw [writeBytes, if_neg this]
  | cons b bs ih =>
    rw [writeBytes, ih, readByte_writeByte]
    by_cases h1 : j = i
    · subst h1
      simp
    · by_cases h2 : i + 1 ≤ j ∧ j < i + 1 + bs.length
      · have h3 : i ≤ j ∧ j < i + (b :: bs).length := by
          simp only [List.length_cons]
          omega
        rw [if_pos h2, if_pos h3]
        have : j - i = (j - (i + 1)) + 1 := by omega
        rw [this, List.getD_cons_succ]
      · have h3 : ¬ (i ≤ j ∧ j < i + (b :: bs).length) := by
          simp only [List.length_cons]
          omega
        rw [if_neg h2, if_neg h3, if_neg h1]

theorem le32_congr (a b : Int) (h : a % 4294967296 = b % 4294967296) : le32 a = le32 b := by
  unfold le32
  have h0 : a % 256 = b % 256 := by omega
  have h1 : a / 256 % 256 = b / 256 % 256 := by omega
  have h2 : a / 65536 % 256 = b / 65536 % 256 := by omega
  have h3 : a / 16777216 % 256 = b / 16777216 % 256 := by omega
  rw [h0, h1, h2, h3]

theorem sectionAt_eq (secs : List Section) (i : Int) (x : Section) (h0 : 0 ≤ i)
    (h : secs[i.toNat]? = some x) : sectionAt secs i = x := by
  simp [sectionAt, h0, List.getD_eq_getElem?_getD, h]

theorem symbolAt_eq (syms : List Symbol) (i : Int) (y : Symbol) (h0 : 0 ≤ i)
    (h : syms[i.toNat]? = some y) : symbolAt syms i = y := by
  simp [symbolAt, h0, List.getD_eq_getElem?_getD, h]

end Sld

end SmallC

namespace SmallC

end SmallC

namespace SmallC

namespace Sld

theorem readByte_write_u16_ne (a : List Nat) (off : Nat) (v : Int) (j : Nat)
    (h : j < off ∨ off + 2 ≤ j) : readByte (write_u16 a off v) j = readByte a j := by
  unfold write_u16
  rw [readByte_writeBytes, if_neg]
  simp only [le16, List.length_cons, List.length_nil]
  omega

theorem readByte_write_u32_ne (a : List Nat) (off : Nat) (v : Int) (j : Nat)
    (h : j < off ∨ off + 4 ≤ j) : readByte (write_u32 a off v) j = readByte a j := by
  unfold write_u32
  rw [readByte_writeBytes, if_neg]
  simp only [le32, List.length_cons, List.length_nil]
  omega

theorem readByte_write_u64_ne (a : List Nat) (off : Nat) (v : Int) (j : Nat)
    (h : j < off ∨ off + 8 ≤ j) : readByte (write_u64 a off v) j = readByte a j := by
  unfold write_u64
  rw [readByte_write_u32_ne _ _ _ _ (by omega), readByte_write_u32_ne _ _ _ _ (by omega)]

theorem readBytes_write_u64 (a : List Nat) (off : Nat) (v : Int) :
    readBytes (write_u64 a off v) off 8 = le32 v ++ [0, 0, 0, 0] := by
  simp [readBytes, write_u64, write_u32, readByte_writeBytes, le32, List.range_succ]

theorem readBytes_congr (a b : List Nat) (i n : Nat)
    (h : ∀ j, i ≤ j → j < i + n → readByte a j = readByte b j) :
    readBytes a i n = readBytes b i n := by
  unfold readBytes
  apply List.map_congr_left
  intro k hk
  rw [List.mem_range] at hk
  exact h (i + k) (by omega) (by omega)

/-- The bytes 24 to 31 of the header hold the entry address. -/
theorem elfHeader_entry (s : State) :
    readBytes (elfHeader s) 24 8 = le32 (entryAddress s) ++ [0, 0, 0, 0] := by
  rw [← readBytes_write_u64 (write_u32 (write_u16 (write_u16
    (writeBytes (List.replicate 4096 0) 0 [127, 69, 76, 70, 2, 1, 1]) 16 ET_EXEC) 18
    (if s.is_arm64 ≠ 0 then EM_AARCH64 else EM_X86_64)) 20 EV_CURRENT) 24 (entryAddress s)]
  apply readBytes_congr
  intro j h1 h2
  unfold elfHeader
  simp only []
  rw [readByte_write_u32_ne _ _ _ _ (by omega), readByte_write_u32_ne _ _ _ _ (by omega)]
  by_cases hd : (dataRange s.sections).1 < (dataRange s.sections).2
  · rw [if_pos hd]
    rw [readByte_write_u64_ne _ _ _ _ (by omega), readByte_write_u64_ne _ _ _ _ (by omega),
      readByte_write_u64_ne _ _ _ _ (by omega), readByte_write_u64_ne _ _ _ _ (by omega),
      readByte_write_u64_ne _ _ _ _ (by omega), readByte_write_u64_ne _ _ _ _ (by omega)]
    rw [readByte_write_u32_ne _ _ _ _ (by omega), readByte_write_u32_ne _ _ _ _ (by omega),
      readByte_write_u64_ne _ _ _ _ (by omega), readByte_write_u64_ne _ _ _ _ (by omega),
      readByte_write_u64_ne _ _ _ _ (by omega), readByte_write_u64_ne _ _ _ _ (by omega),
      readByte_write_u64_ne _ _ _ _ (by omega), readByte_write_u64_ne _ _ _ _ (by omega),
      readByte_write_u32_ne _ _ _ _ (by omega), readByte_write_u32_ne _ _ _ _ (by omega),
      readByte_write_u16_ne _ _ _ _ (by omega), readByte_write_u16_ne _ _ _ _ (by omega),
      readByte_write_u16_ne _ _ _ _ (by omega), readByte_write_u32_ne _ _ _ _ (by omega),
      readByte_write_u64_ne _ _ _ _ (by omega), readByte_write_u64_ne _ _ _ _ (by omega)]
  · rw [if_neg hd]
    rw [readByte_write_u32_ne _ _ _ _ (by omega), readByte_write_u32_ne _ _ _ _ (by omega),
      readByte_write_u64_ne _ _ _ _ (by omega), readByte_write_u64_ne _ _ _ _ (by omega),
      readByte_write_u64_ne _ _ _ _ (by omega), readByte_write_u64_ne _ _ _ _ (by omega),
      readByte_write_u64_ne _ _ _ _ (by omega), readByte_write_u64_ne _ _ _ _ (by omega),
      readByte_write_u32_ne _ _ _ _ (by omega), readByte_write_u32_ne _ _ _ _ (by omega),
      readByte_write_u16_ne _ _ _ _ (by omega), readByte_write_u16_ne _ _ _ _ (by omega),
      readByte_write_u16_ne _ _ _ _ (by omega), readByte_write_u32_ne _ _ _ _ (by omega),
      readByte_write_u64_ne _ _ _ _ (by omega), readByte_write_u64_ne _ _ _ _ (by omega)]

end Sld

end SmallC

namespace SmallC

namespace Sld

theorem length_writeByte (a : List Nat) (i v : Nat) :
    (writeByte a i v).length = max a.length (i + 1) := by
  unfold writeByte
  simp
  omega

theorem length_writeBytes (bs : List Nat) (a : List Nat) (i : Nat) (h : bs ≠ []) :
    (writeBytes a i bs).length = max a.length (i + bs.length) := by
  induction bs generalizing a i with
  | nil => exact absurd rfl h
  | cons b bs ih =>
    rw [writeBytes]
    by_cases hb : bs = []
    · subst hb
      rw [writeBytes, length_writeByte]
      rfl
    · rw [ih _ _ hb, length_writeByte, List.length_cons]
      omega

theorem length_write_u16 (a : List Nat) (off : Nat) (v : Int) :
    (write_u16 a off v).length = max a.length (off + 2) :=
  length_writeBytes _ _ _ (by simp [le16])

theorem length_write_u32 (a : List Nat) (off : Nat) (v : Int) :
    (write_u32 a off v).length = max a.length (off + 4) :=
  length_writeBytes _ _ _ (by simp [le32])

theorem length_write_u64 (a : List Nat) (off : Nat) (v : Int) :
    (write_u64 a off v).length = max a.length (off + 8) := by
  unfold write_u64
  rw [length_write_u32, length_write_u32]
  omega

theorem le_length_elfHeader (s : State) : 4096 ≤ (elfHeader s).length := by
  unfold elfHeader
  simp only []
  rw [length_write_u32, length_write_u32]
  split
  · simp only [length_write_u64, length_write_u32, length_write_u16]
    rw [length_writeBytes _ _ _ (by simp), List.length_replicate]
    omega
  · simp only [length_write_u64, length_write_u32, length_write_u16]
    rw [length_writeBytes _ _ _ (by simp), List.length_replicate]
    omega

/-- The first 4096 bytes of the file are the header. -/
theorem readByte_write_executable (s : State) (j : Nat) (h : j < 4096) :
    readByte (write_executable s) j = readByte (elfHeader s) j := by
  have hl := le_length_elfHeader s
  unfold write_executable readByte
  rw [List.getD_eq_getElem?_getD, List.getD_eq_getElem?_getD,
    List.getElem?_append_left (by rw [List.length_take]; omega), List.getElem?_take_of_lt h]

end Sld

end SmallC

namespace SmallC

/-- The entry address for a symbol whose table entry has a section: the
eight bytes at offset 24 of the header that `write_executable` builds, which
are the bytes 24 to 31 of the file, are the four little-endian bytes of the
entry address followed by four zero bytes.  The entry address is
`vaddr + value` of `_start` when `_start` is in the symbol table and
defined, whatever the entry of `main`; and `vaddr + value` of `main` when
`_start` is not in the table or not defined and `main` is defined. -/
theorem entry_point_selection (s : Sld.State) (y : Sld.Symbol) (z : Sld.Section)
    (hsec : 0 ≤ y.section_) (hz : s.sections[y.section_.toNat]? = some z)
    (hdef : y.defined ≠ 0) :
    Sld.readBytes (Sld.write_executable s) 24 8 = Sld.le32 (Sld.entryAddress s) ++ [0, 0, 0, 0] ∧
    (0 ≤ Sld.find_symbol "_start".toList s →
      s.symbols[(Sld.find_symbol "_start".toList s).toNat]? = some y →
      Sld.le32 (Sld.entryAddress s) = Sld.le32 (z.vaddr + y.value)) ∧
    ((Sld.find_symbol "_start".toList s < 0 ∨
        (Sld.symbolAt s.symbols (Sld.find_symbol "_start".toList s)).defined = 0) →
      0 ≤ Sld.find_symbol "main".toList s →
      s.symbols[(Sld.find_symbol "main".toList s).toNat]? = some y →
      Sld.le32 (Sld.entryAddress s) = Sld.le32 (z.vaddr + y.value)) := by
  have e3 := Sld.sectionAt_eq _ _ _ hsec hz
  refine ⟨?_, fun h0 hy => ?_, fun hn h0 hy => ?_⟩
  · rw [← Sld.elfHeader_entry s]
    apply Sld.readBytes_congr
    intro j _ h2
    exact Sld.readByte_write_executable s j (by omega)
  · have e2 := Sld.symbolAt_eq _ _ _ h0 hy
    unfold Sld.entryAddress
    rw [e2, if_pos ⟨h0, hdef⟩, e3]
    apply Sld.le32_congr
    unfold Scc.wrap32
    omega
  · have e2 := Sld.symbolAt_eq _ _ _ h0 hy
    have hn' : ¬ (0 ≤ Sld.find_symbol "_start".toList s ∧
        (Sld.symbolAt s.symbols (Sld.find_symbol "_start".toList s)).defined ≠ 0) := by
      rintro ⟨a, b⟩
      rcases hn with h | h
      · omega
      · exact b h
    unfold Sld.entryAddress
    rw [if_neg hn', e2, if_pos ⟨h0, hdef⟩, e3]
    apply Sld.le32_congr
    unfold Scc.wrap32
    omega

/-- A table with both `main` (at offset 0) and `_start` (at offset 8) defined in `.text`. -/
theorem entry_point_selection_witness :
    Sld.le32 (Sld.entryAddress
      { Sld.initState with
        sections := [⟨".text".toList, 1, 6, 0, 16, 4198400, 16, 0⟩]
        symbols := [⟨"main".toList, 0, 0, 0, 2, 1, 1⟩, ⟨"_start".toList, 8, 0, 0, 2, 1, 1⟩] }) =
      Sld.le32 (4198400 + 8) :=
  (entry_point_selection
    { Sld.initState with
      sections := [⟨".text".toList, 1, 6, 0, 16, 4198400, 16, 0⟩]
      symbols := [⟨"main".toList, 0, 0, 0, 2, 1, 1⟩, ⟨"_start".toList, 8, 0, 0, 2, 1, 1⟩] }
    ⟨"_start".toList, 8, 0, 0, 2, 1, 1⟩ ⟨".text".toList, 1, 6, 0, 16, 4198400, 16, 0⟩
    (by decide) rfl (by decide)).2.1 (by decide) rfl

end SmallC

namespace SmallC

namespace Sld

theorem le32_value (v : Int) :
    u32 (Scc.wrap32 ((((v % 256).toNat % 256 : Nat) : Int) +
      (((v / 256 % 256).toNat % 256 : Nat) : Int) * 256 +
      (((v / 65536 % 256).toNat % 256 : Nat) : Int) * 65536 +
      (((v / 16777216 % 256).toNat % 256 : Nat) : Int) * 16777216)) = u32 v := by
  have h0 : (((v % 256).toNat % 256 : Nat) : Int) = v % 256 := by omega
  have h1 : (((v / 256 % 256).toNat % 256 : Nat) : Int) = v / 256 % 256 := by omega
  have h2 : (((v / 65536 % 256).toNat % 256 : Nat) : Int) = v / 65536 % 256 := by omega
  have h3 : (((v / 16777216 % 256).toNat % 256 : Nat) : Int) = v / 16777216 % 256 := by omega
  rw [h0, h1, h2, h3, u32_wrap32]
  unfold u32
  congr 1
  omega

/-- The word read back through `int *instr` after `write_u32` has stored
`v` at the same index. -/
theorem u32_readInt_write_u32 (out : List Nat) (loc : Nat) (v : Int) :
    u32 (readInt (write_u32 out loc v) loc) = u32 v := by
  have e1 : ((loc : Int) + 1).toNat = loc + 1 := by omega
  have e2 : ((loc : Int) + 2).toNat = loc + 2 := by omega
  have e3 : ((loc : Int) + 3).toNat = loc + 3 := by omega
  have e0 : ((loc : Int)).toNat = loc := by omega
  have hlen : (le32 v).length = 4 := rfl
  have b0 : readByte (writeBytes out loc (le32 v)) loc = (v % 256).toNat := by
    rw [readByte_writeBytes, if_pos (by rw [hlen]; omega), Nat.sub_self]
    rfl
  have b1 : readByte (writeBytes out loc (le32 v)) (loc + 1) = (v / 256 % 256).toNat := by
    rw [readByte_writeBytes, if_pos (by rw [hlen]; omega), Nat.add_sub_cancel_left]
    rfl
  have b2 : readByte (writeBytes out loc (le32 v)) (loc + 2) = (v / 65536 % 256).toNat := by
    rw [readByte_writeBytes, if_pos (by rw [hlen]; omega), Nat.add_sub_cancel_left]
    rfl
  have b3 : readByte (writeBytes out loc (le32 v)) (loc + 3) = (v / 16777216 % 256).toNat := by
    rw [readByte_writeBytes, if_pos (by rw [hlen]; omega), Nat.add_sub_cancel_left]
    rfl
  unfold readInt read_u32 read_u8 write_u32
  rw [e0, e1, e2, e3, b0, b1, b2, b3]
  exact le32_value v

theorem readByte_write_u32_outside (out : List Nat) (loc : Nat) (v : Int) (j : Nat)
    (hj : j < loc ∨ loc + 4 ≤ j) : readByte (write_u32 out loc v) j = readByte out j := by
  unfold write_u32
  rw [readByte_writeBytes, if_neg]
  have hlen : (le32 v).length = 4 := rfl
  rw [hlen]
  omega

/-- The bit fields of the word `adrpWord w d`. -/
theorem adrpPatched_adrpWord (w d : Int) : adrpPatched (u32 (adrpWord w d)) (u32 w) d := by
  have hlo : ((d / 4096) % 4).toNat < 4 := by omega
  have hhi : ((d / 16384) % 524288).toNat < 524288 := by omega
  obtain ⟨f1, f2, f3, f4, f5⟩ := adrp_fields (u32 w) _ _ (u32_lt w) hlo hhi
  rw [← u32_adrpWord w d] at f1 f2 f3 f4 f5
  refine ⟨?_, ?_, f3, f4, f5, ?_⟩
  · rw [f1]
    norm_num
  · rw [f2]
    norm_num
  · have hd : d / 16384 = d / 4096 / 4 := by
      clear f1 f2 f3 f4 f5 hlo hhi
      omega
    have harith : ((d / 16384) % 524288).toNat * 4 + ((d / 4096) % 4).toNat =
        ((d / 4096) % 2097152).toNat := by
      rw [hd]
      generalize d / 4096 = k
      clear f1 f2 f3 f4 f5 hlo hhi hd
      omega
    rw [f1, f2]
    norm_num
    exact harith

end Sld

/-- C25: the case `R_AARCH64_ADR_PREL_PG_HI21` of `apply_relocations`, in
`sld_enhanced.c` (function `relocate` of the model, in arm64 mode) and in
`sld_linux_arm64.c`.  Let `w` be the word that stands at the relocation
site before and `D` the page offset `((S+A) & ~0xFFF) - (P & ~0xFFF)`, which
is the difference of the two page addresses modulo 2^32.  The word read back
from the relocation site in the buffer `output` after the case has run has
bits 30:29 equal to bits 13:12 of `D`, bits 23:5 equal to bits 32:14 of `D`,
bit 31, bits 28:24 and bits 4:0 equal to those of `w`, and immhi:immlo read
from it is `(D >> 12) mod 2^21`; no byte outside the four bytes of the site
changes. -/
theorem adrp_relocation_fields (target addend pc : Int) (loc : Nat) (out : List Nat)
    (r : SldArm.Reloc) (s : SldArm.State) :
    Sld.adrpPatched
      (Sld.u32 (Sld.readInt
        (Sld.relocate 1 Sld.R_AARCH64_ADR_PREL_PG_HI21 target addend pc loc out) loc))
      (Sld.u32 (Sld.readInt out loc)) (Sld.pageOffset target addend pc) ∧
    (∀ j, j < loc ∨ loc + 4 ≤ j →
      Sld.readByte (Sld.relocate 1 Sld.R_AARCH64_ADR_PREL_PG_HI21 target addend pc loc out) j =
        Sld.readByte out j) ∧
    Sld.adrpPatched
      (Sld.u32 (Sld.readInt
        (SldArm.applyReloc { r with type := SldArm.R_AARCH64_ADR_PREL_PG_HI21 } s).output
        (Scc.wrap32 (SldArm.elemAt s.section_offsets r.section_ + r.offset)).toNat))
      (Sld.u32 (Sld.readInt s.output
        (Scc.wrap32 (SldArm.elemAt s.section_offsets r.section_ + r.offset)).toNat))
      (Sld.pageOffset
        (Scc.wrap32 (SldArm.elemAt s.section_addrs (SldArm.elemAt s.symbol_sections r.symbol) +
          SldArm.elemAt s.symbol_values r.symbol))
        r.addend (Scc.wrap32 (SldArm.elemAt s.section_addrs r.section_ + r.offset))) ∧
    (∀ j, j < (Scc.wrap32 (SldArm.elemAt s.section_offsets r.section_ + r.offset)).toNat ∨
        (Scc.wrap32 (SldArm.elemAt s.section_offsets r.section_ + r.offset)).toNat + 4 ≤ j →
      Sld.readByte
          (SldArm.applyReloc { r with type := SldArm.R_AARCH64_ADR_PREL_PG_HI21 } s).output j =
        Sld.readByte s.output j) ∧
    Sld.u32 (Sld.pageOffset target addend (Scc.wrap32 pc)) =
      Sld.u32 ((target + addend - (target + addend) % 4096) - (pc - pc % 4096)) := by
  have h1 : Sld.relocate 1 Sld.R_AARCH64_ADR_PREL_PG_HI21 target addend pc loc out =
      Sld.write_u32 out loc
        (Sld.adrpWord (Sld.readInt out loc) (Sld.pageOffset target addend pc)) := by
    simp [Sld.relocate, Sld.R_AARCH64_ADR_PREL_PG_HI21, Sld.R_AARCH64_ABS64,
      Sld.R_AARCH64_ABS32, Sld.R_AARCH64_CALL26, Sld.R_AARCH64_JUMP26]
  have h2 : (SldArm.applyReloc { r with type := SldArm.R_AARCH64_ADR_PREL_PG_HI21 } s).output =
      Sld.write_u32 s.output
        (Scc.wrap32 (SldArm.elemAt s.section_offsets r.section_ + r.offset)).toNat
        (Sld.adrpWord
          (Sld.readInt s.output
            (Scc.wrap32 (SldArm.elemAt s.section_offsets r.section_ + r.offset)).toNat)
          (Sld.pageOffset
            (Scc.wrap32 (SldArm.elemAt s.section_addrs
                (SldArm.elemAt s.symbol_sections r.symbol) +
              SldArm.elemAt s.symbol_values r.symbol))
            r.addend (Scc.wrap32 (SldArm.elemAt s.section_addrs r.section_ + r.offset)))) := by
    simp [SldArm.applyReloc, SldArm.R_AARCH64_ADR_PREL_PG_HI21, SldArm.R_AARCH64_ABS64,
      SldArm.R_AARCH64_CALL26, SldArm.R_AARCH64_JUMP26]
  refine ⟨?_, fun j hj => ?_, ?_, fun j hj => ?_, Sld.u32_pageOffset target addend pc⟩
  · rw [h1, Sld.u32_readInt_write_u32]
    exact Sld.adrpPatched_adrpWord _ _
  · rw [h1]
    exact Sld.readByte_write_u32_outside _ _ _ _ hj
  · rw [h2, Sld.u32_readInt_write_u32]
    exact Sld.adrpPatched_adrpWord _ _
  · rw [h2]
    exact Sld.readByte_write_u32_outside _ _ _ _ hj

/-- C25, an instance: the instruction `adrp x0, 0` (90000000) at the address
0x401000, relocated against the address 0x412345, becomes B0000080, that is
`adrp x0, 0x11000`: immlo = 1, immhi = 4. -/
theorem adrp_relocation_fields_witness :
    Sld.relocate 1 Sld.R_AARCH64_ADR_PREL_PG_HI21 4268869 0 4198400 0 [0, 0, 0, 144] =
      [128, 0, 0, 176] ∧
    Sld.pageOffset 4268869 0 4198400 = 69632 ∧
    Sld.adrpPatched
      (Sld.u32 (Sld.readInt
        (Sld.relocate 1 Sld.R_AARCH64_ADR_PREL_PG_HI21 4268869 0 4198400 0 [0, 0, 0, 144]) 0))
      (Sld.u32 (Sld.readInt [0, 0, 0, 144] 0)) (Sld.pageOffset 4268869 0 4198400) :=
  ⟨by decide, by decide,
    (adrp_relocation_fields 4268869 0 4198400 0 [0, 0, 0, 144] ⟨0, 0, 0, 0, 0⟩
      ⟨[], [], [], [], [], []⟩).1⟩

end SmallC

namespace SmallC

namespace Sld

theorem alignUp_16 (v : Int) (h0 : 0 ≤ v) (h1 : v + 16 < 2147483648) :
    alignUp v SECTION_ALIGN = roundUp 16 v := by
  unfold alignUp SECTION_ALIGN roundUp
  have e1 : Scc.wrap32 (v + 16) = v + 16 := by unfold Scc.wrap32; omega
  have e2 : Scc.wrap32 (v + 16 - 1) = v + 15 := by unfold Scc.wrap32; omega
  rw [e1, e2, band_neg16 _ (by omega) (by omega)]
  omega

theorem alignUp_4096 (v : Int) (h0 : 0 ≤ v) (h1 : v + 4096 < 2147483648) :
    alignUp v PAGE_SIZE = roundUp 4096 v := by
  unfold alignUp PAGE_SIZE roundUp
  have e1 : Scc.wrap32 (v + 4096) = v + 4096 := by unfold Scc.wrap32; omega
  have e2 : Scc.wrap32 (v + 4096 - 1) = v + 4095 := by unfold Scc.wrap32; omega
  rw [e1, e2, band_neg4096 _ (by omega) (by omega)]
  omega

theorem roundUp_16 (v : Int) : v ≤ roundUp 16 v ∧ roundUp 16 v < v + 16 ∧ roundUp 16 v % 16 = 0 := by
  unfold roundUp
  omega

theorem roundUp_4096 (v : Int) :
    v ≤ roundUp 4096 v ∧ roundUp 4096 v < v + 4096 ∧ roundUp 4096 v % 16 = 0 ∧
      roundUp 4096 v % 4096 = 0 := by
  unfold roundUp
  omega

/-- One loop of `layout_sections` places the sections of its class as the
specification says and leaves the other sections as they are. -/
theorem layoutLoop_spec (p : Section → Bool)
    (hp : ∀ (x : Section) (a : Int), p { x with vaddr := a } = p x) (xs : List Section) :
    ∀ (v : Int), (∀ x ∈ xs, 0 ≤ x.size) → 0 ≤ v → v % 16 = 0 →
      v + spaceOf (xs.filter p) < 2147483648 →
      ((layoutLoop p xs v).1.map eraseVaddr = xs.map eraseVaddr) ∧
      (((layoutLoop p xs v).1.filter p).map (fun y => y.vaddr) =
        specAddresses v ((xs.filter p).map fun x => x.size)) ∧
      ((layoutLoop p xs v).2 = specEnd v ((xs.filter p).map fun x => x.size)) ∧
      (v ≤ (layoutLoop p xs v).2 ∧ (layoutLoop p xs v).2 % 16 = 0 ∧
        (layoutLoop p xs v).2 ≤ v + spaceOf (xs.filter p)) ∧
      (∀ y ∈ (layoutLoop p xs v).1, p y = true →
        v ≤ y.vaddr ∧ y.vaddr + y.size ≤ (layoutLoop p xs v).2 ∧ y.vaddr % 16 = 0) ∧
      (∀ q : Section → Bool, (∀ (x : Section) (a : Int), q { x with vaddr := a } = q x) →
        (∀ x ∈ xs, q x = true → p x = false) →
        (layoutLoop p xs v).1.filter q = xs.filter q) := by
  induction xs with
  | nil =>
    intro v _ h0 h16 _
    simp [layoutLoop, specAddresses, specEnd, spaceOf, h16]
  | cons x xs ih =>
    intro v hs h0 h16 hb
    have hsx : 0 ≤ x.size := hs x (List.mem_cons_self _ _)
    have hs' : ∀ y ∈ xs, 0 ≤ y.size := fun y hy => hs y (List.mem_cons_of_mem _ hy)
    by_cases hpx : p x = true
    · have hb1 : v + (x.size + 16) + spaceOf (xs.filter p) < 2147483648 := by
        simp only [List.filter_cons, hpx, if_true, spaceOf, List.map_cons, List.sum_cons] at hb
        simp only [spaceOf]
        omega
      have hsp : 0 ≤ spaceOf (xs.filter p) := by
        unfold spaceOf
        apply List.sum_nonneg
        intro a ha
        rw [List.mem_map] at ha
        obtain ⟨y, hy, rfl⟩ := ha
        have := hs' y (List.mem_filter.mp hy).1
        omega
      have ew : Scc.wrap32 (v + x.size) = v + x.size := by unfold Scc.wrap32; omega
      have ea := alignUp_16 (v + x.size) (by omega) (by omega)
      have hr := roundUp_16 (v + x.size)
      obtain ⟨i1, i2, i3, i4, i5, i6⟩ := ih (roundUp 16 (v + x.size)) hs' (by omega) hr.2.2
        (by omega)
      have hpx' : p { x with vaddr := v } = true := by rw [hp]; exact hpx
      simp only [layoutLoop, hpx, if_true, ew, ea]
      refine ⟨?_, ?_, ?_, ?_, ?_, ?_⟩
      · simp only [List.map_cons, i1]
        rfl
      · simp only [List.filter_cons, hpx', hpx, if_true, List.map_cons, specAddresses, i2]
      · simp only [List.filter_cons, hpx, if_true, List.map_cons, specEnd, i3]
      · simp only [List.filter_cons, hpx, if_true, spaceOf, List.map_cons, List.sum_cons]
        simp only [spaceOf] at i4
        omega
      · intro y hy hpy
        rcases List.mem_cons.mp hy with h | h
        · subst h
          simp only []
          omega
        · have := i5 y h hpy
          omega
      · intro q hq hqx
        have hqx1 : q x = false := by
          by_contra hc
          have := hqx x (List.mem_cons_self _ _) (by simpa using hc)
          rw [hpx] at this
          exact absurd this (by decide)
        have hqx2 : q { x with vaddr := v } = false := by rw [hq]; exact hqx1
        simp only [List.filter_cons, hqx1, hqx2]
        exact i6 q hq (fun y hy => hqx y (List.mem_cons_of_mem _ hy))
    · have hpf : p x = false := by simpa using hpx
      have hb1 : v + spaceOf (xs.filter p) < 2147483648 := by
        simpa only [List.filter_cons, hpf] using hb
      obtain ⟨i1, i2, i3, i4, i5, i6⟩ := ih v hs' h0 h16 hb1
      have el : layoutLoop p (x :: xs) v = (x :: (layoutLoop p xs v).1, (layoutLoop p xs v).2) := by
        simp [layoutLoop, hpf]
      rw [el]
      refine ⟨?_, ?_, ?_, ?_, ?_, ?_⟩
      · simp only [List.map_cons, i1]
      · simp only [List.filter_cons, hpf, Bool.false_eq_true, if_false]
        exact i2
      · simp only [List.filter_cons, hpf, Bool.false_eq_true, if_false]
        exact i3
      · simp only [List.filter_cons, hpf, Bool.false_eq_true, if_false]
        exact i4
      · intro y hy hpy
        rcases List.mem_cons.mp hy with h | h
        · subst h
          rw [hpf] at hpy
          exact absurd hpy (by decide)
        · exact i5 y h hpy
      · intro q hq hqx
        simp only [List.filter_cons]
        rw [i6 q hq (fun y hy => hqx y (List.mem_cons_of_mem _ hy))]

end Sld

end SmallC
namespace SmallC

namespace Sld

theorem isCode_vaddr (x : Section) (a : Int) : isCode { x with vaddr := a } = isCode x := rfl

theorem isData_vaddr (x : Section) (a : Int) : isData { x with vaddr := a } = isData x := rfl

theorem isBss_vaddr (x : Section) (a : Int) : isBss { x with vaddr := a } = isBss x := rfl

theorem isData_iff (x : Section) : isData x = true ↔ isCode x = false ∧ isBss x = false := by
  simp [isData, isCode, isBss]

theorem spaceOf_nonneg (xs : List Section) (h : ∀ x ∈ xs, 0 ≤ x.size) : 0 ≤ spaceOf xs := by
  unfold spaceOf
  apply List.sum_nonneg
  intro a ha
  rw [List.mem_map] at ha
  obtain ⟨y, hy, rfl⟩ := ha
  have := h y hy
  omega

theorem spaceOf_cons (x : Section) (xs : List Section) :
    spaceOf (x :: xs) = x.size + 16 + spaceOf xs := by
  simp only [spaceOf, List.map_cons, List.sum_cons]

theorem spaceOf_filter_cons (p : Section → Bool) (x : Section) (xs : List Section) :
    spaceOf ((x :: xs).filter p) =
      (if p x = true then x.size + 16 else 0) + spaceOf (xs.filter p) := by
  by_cases h : p x = true
  · simp only [List.filter_cons, h, if_true, spaceOf_cons]
  · have h' : p x = false := by simpa using h
    simp only [List.filter_cons, h', Bool.false_eq_true, if_false, Int.zero_add]

theorem spaceOf_classes (xs : List Section) (h1 : ∀ x ∈ xs, 0 ≤ x.size)
    (h2 : ∀ x ∈ xs, ¬ (isCode x = true ∧ isBss x = true)) :
    spaceOf (xs.filter isCode) + spaceOf (xs.filter isData) + spaceOf (xs.filter isBss) ≤
      spaceOf xs := by
  induction xs with
  | nil => simp [spaceOf]
  | cons x xs ih =>
    have hx := h1 x (List.mem_cons_self _ _)
    have hc := h2 x (List.mem_cons_self _ _)
    have ih' := ih (fun y hy => h1 y (List.mem_cons_of_mem _ hy))
      (fun y hy => h2 y (List.mem_cons_of_mem _ hy))
    have hd := isData_iff x
    rw [spaceOf_filter_cons, spaceOf_filter_cons, spaceOf_filter_cons, spaceOf_cons]
    cases h3 : isCode x <;> cases h4 : isBss x <;> cases h5 : isData x <;>
      simp only [h3, h4, h5, Bool.false_eq_true, Bool.true_eq_false, if_true, if_false,
        and_self, and_true,
        and_false, true_iff, false_iff, iff_true, iff_false, not_true_eq_false,
        not_false_eq_true] at hd hc ⊢ <;> omega

theorem mem_of_map_erase (xs ys : List Section) (h : ys.map eraseVaddr = xs.map eraseVaddr)
    (y : Section) (hy : y ∈ ys) : ∃ x ∈ xs, eraseVaddr x = eraseVaddr y := by
  have : eraseVaddr y ∈ ys.map eraseVaddr := List.mem_map_of_mem _ hy
  rw [h, List.mem_map] at this
  exact this

theorem size_erase (x y : Section) (h : eraseVaddr x = eraseVaddr y) : x.size = y.size :=
  congrArg (fun s => s.size) h

theorem isCode_erase (x y : Section) (h : eraseVaddr x = eraseVaddr y) : isCode x = isCode y := by
  have := congrArg isCode h
  simpa [eraseVaddr, isCode] using this

theorem isBss_erase (x y : Section) (h : eraseVaddr x = eraseVaddr y) : isBss x = isBss y := by
  have := congrArg isBss h
  simpa [eraseVaddr, isBss] using this

end Sld

end SmallC

namespace SmallC

/-- C23 (as amended): for a section table with sizes not below 0, without a
section that is both executable and `NOBITS`, and with `0x402000` plus the
sizes (each plus 16) below `2^31`, `layout_sections` changes only the field
`vaddr`; the executable sections get, in table order, the addresses that
start at `0x401000`, the data sections those that start at the end of the
code rounded up to a multiple of `0x1000`, and the `NOBITS` sections those
that start behind the data, each further section of a class at the end of the
one before rounded up to 16.  Every address is a multiple of 16, every
executable section ends at or below the start of every data section, and
every data section ends at or below the start of every `NOBITS` section. -/
theorem layout_order_and_addresses (secs : List Sld.Section)
    (hsize : ∀ x ∈ secs, 0 ≤ x.size)
    (hclass : ∀ x ∈ secs, ¬ (Sld.isCode x = true ∧ Sld.isBss x = true))
    (hfit : 4198400 + 4096 + Sld.spaceOf secs < 2147483648) :
    (Sld.layout secs).map Sld.eraseVaddr = secs.map Sld.eraseVaddr ∧
    ((Sld.layout secs).filter Sld.isCode).map (fun y => y.vaddr) =
      Sld.specAddresses 4198400 ((secs.filter Sld.isCode).map fun x => x.size) ∧
    ((Sld.layout secs).filter Sld.isData).map (fun y => y.vaddr) =
      Sld.specAddresses
        (Sld.roundUp 4096 (Sld.specEnd 4198400 ((secs.filter Sld.isCode).map fun x => x.size)))
        ((secs.filter Sld.isData).map fun x => x.size) ∧
    ((Sld.layout secs).filter Sld.isBss).map (fun y => y.vaddr) =
      Sld.specAddresses
        (Sld.specEnd
          (Sld.roundUp 4096 (Sld.specEnd 4198400 ((secs.filter Sld.isCode).map fun x => x.size)))
          ((secs.filter Sld.isData).map fun x => x.size))
        ((secs.filter Sld.isBss).map fun x => x.size) ∧
    (∀ y ∈ Sld.layout secs, y.vaddr % 16 = 0) ∧
    (∀ c ∈ Sld.layout secs, ∀ d ∈ Sld.layout secs, Sld.isCode c = true → Sld.isData d = true →
      c.vaddr + c.size ≤ d.vaddr) ∧
    (∀ d ∈ Sld.layout secs, ∀ b ∈ Sld.layout secs, Sld.isData d = true → Sld.isBss b = true →
      d.vaddr + d.size ≤ b.vaddr) := by
  have hsum := Sld.spaceOf_classes secs hsize hclass
  have n1 := Sld.spaceOf_nonneg (secs.filter Sld.isCode)
    (fun x hx => hsize x (List.mem_filter.mp hx).1)
  have n2 := Sld.spaceOf_nonneg (secs.filter Sld.isData)
    (fun x hx => hsize x (List.mem_filter.mp hx).1)
  have n3 := Sld.spaceOf_nonneg (secs.filter Sld.isBss)
    (fun x hx => hsize x (List.mem_filter.mp hx).1)
  -- the first loop
  obtain ⟨a1, a2, a3, a4, a5, a6⟩ := Sld.layoutLoop_spec Sld.isCode Sld.isCode_vaddr secs
    4198400 hsize (by norm_num) (by norm_num) (by omega)
  have a7 : ∀ y ∈ (Sld.layoutLoop Sld.isCode secs 4198400).1, 0 ≤ y.size := by
    intro y hy
    obtain ⟨x, hx, he⟩ := Sld.mem_of_map_erase _ _ a1 y hy
    rw [← Sld.size_erase x y he]
    exact hsize x hx
  have a8 : ∀ y ∈ (Sld.layoutLoop Sld.isCode secs 4198400).1,
      ¬ (Sld.isCode y = true ∧ Sld.isBss y = true) := by
    intro y hy
    obtain ⟨x, hx, he⟩ := Sld.mem_of_map_erase _ _ a1 y hy
    rw [← Sld.isCode_erase x y he, ← Sld.isBss_erase x y he]
    exact hclass x hx
  have fd1 := a6 Sld.isData Sld.isData_vaddr
    (fun x _ h => ((Sld.isData_iff x).mp h).1)
  have fb1 := a6 Sld.isBss Sld.isBss_vaddr (fun x hx h => by
    have := hclass x hx
    cases hc : Sld.isCode x
    · rfl
    · exact absurd ⟨hc, h⟩ this)
  -- the second loop
  have r1 := Sld.roundUp_4096 (Sld.layoutLoop Sld.isCode secs 4198400).2
  have ea := Sld.alignUp_4096 (Sld.layoutLoop Sld.isCode secs 4198400).2 (by omega) (by omega)
  obtain ⟨b1, b2, b3, b4, b5, b6⟩ := Sld.layoutLoop_spec Sld.isData Sld.isData_vaddr
    (Sld.layoutLoop Sld.isCode secs 4198400).1
    (Sld.roundUp 4096 (Sld.layoutLoop Sld.isCode secs 4198400).2) a7 (by omega) r1.2.2.1
    (by rw [fd1]; omega)
  have b7 : ∀ y ∈ (Sld.layoutLoop Sld.isData (Sld.layoutLoop Sld.isCode secs 4198400).1
      (Sld.roundUp 4096 (Sld.layoutLoop Sld.isCode secs 4198400).2)).1, 0 ≤ y.size := by
    intro y hy
    obtain ⟨x, hx, he⟩ := Sld.mem_of_map_erase _ _ b1 y hy
    rw [← Sld.size_erase x y he]
    exact a7 x hx
  have b8 : ∀ y ∈ (Sld.layoutLoop Sld.isData (Sld.layoutLoop Sld.isCode secs 4198400).1
      (Sld.roundUp 4096 (Sld.layoutLoop Sld.isCode secs 4198400).2)).1,
      ¬ (Sld.isCode y = true ∧ Sld.isBss y = true) := by
    intro y hy
    obtain ⟨x, hx, he⟩ := Sld.mem_of_map_erase _ _ b1 y hy
    rw [← Sld.isCode_erase x y he, ← Sld.isBss_erase x y he]
    exact a8 x hx
  have fc2 := b6 Sld.isCode Sld.isCode_vaddr (fun x _ h => by
    cases hd : Sld.isData x
    · rfl
    · have := ((Sld.isData_iff x).mp hd).1
      rw [h] at this
      exact absurd this (by decide))
  have fb2 := b6 Sld.isBss Sld.isBss_vaddr (fun x _ h => by
    cases hd : Sld.isData x
    · rfl
    · have := ((Sld.isData_iff x).mp hd).2
      rw [h] at this
      exact absurd this (by decide))
  -- the third loop
  obtain ⟨c1, c2, c3, c4, c5, c6⟩ := Sld.layoutLoop_spec Sld.isBss Sld.isBss_vaddr
    (Sld.layoutLoop Sld.isData (Sld.layoutLoop Sld.isCode secs 4198400).1
      (Sld.roundUp 4096 (Sld.layoutLoop Sld.isCode secs 4198400).2)).1
    (Sld.layoutLoop Sld.isData (Sld.layoutLoop Sld.isCode secs 4198400).1
      (Sld.roundUp 4096 (Sld.layoutLoop Sld.isCode secs 4198400).2)).2
    b7 (by omega) b4.2.1 (by rw [fb2, fb1]; rw [fd1] at b4; omega)
  have fc3 := c6 Sld.isCode Sld.isCode_vaddr (fun x hx h => by
    have := b8 x hx
    cases hb : Sld.isBss x
    · rfl
    · exact absurd ⟨h, hb⟩ this)
  have fd3 := c6 Sld.isData Sld.isData_vaddr (fun x _ h => ((Sld.isData_iff x).mp h).2)
  have hl : Sld.layout secs =
      (Sld.layoutLoop Sld.isBss
        (Sld.layoutLoop Sld.isData (Sld.layoutLoop Sld.isCode secs 4198400).1
          (Sld.roundUp 4096 (Sld.layoutLoop Sld.isCode secs 4198400).2)).1
        (Sld.layoutLoop Sld.isData (Sld.layoutLoop Sld.isCode secs 4198400).1
          (Sld.roundUp 4096 (Sld.layoutLoop Sld.isCode secs 4198400).2)).2).1 := by
    have hb0 : Sld.BASE_ADDR + Sld.PAGE_SIZE = 4198400 := by decide
    unfold Sld.layout
    simp only []
    rw [hb0, ea]
  -- where the sections of each class are in the final table
  have hcode : ∀ y ∈ Sld.layout secs, Sld.isCode y = true →
      y.vaddr % 16 = 0 ∧ y.vaddr + y.size ≤ (Sld.layoutLoop Sld.isCode secs 4198400).2 := by
    intro y hy hc
    have h1 : y ∈ (Sld.layout secs).filter Sld.isCode := List.mem_filter.mpr ⟨hy, hc⟩
    rw [hl, fc3, fc2] at h1
    have := a5 y (List.mem_filter.mp h1).1 hc
    exact ⟨this.2.2, this.2.1⟩
  have hdata : ∀ y ∈ Sld.layout secs, Sld.isData y = true →
      y.vaddr % 16 = 0 ∧ Sld.roundUp 4096 (Sld.layoutLoop Sld.isCode secs 4198400).2 ≤ y.vaddr ∧
        y.vaddr + y.size ≤ (Sld.layoutLoop Sld.isData (Sld.layoutLoop Sld.isCode secs 4198400).1
          (Sld.roundUp 4096 (Sld.layoutLoop Sld.isCode secs 4198400).2)).2 := by
    intro y hy hd
    have h1 : y ∈ (Sld.layout secs).filter Sld.isData := List.mem_filter.mpr ⟨hy, hd⟩
    rw [hl, fd3] at h1
    have := b5 y (List.mem_filter.mp h1).1 hd
    exact ⟨this.2.2, this.1, this.2.1⟩
  have hbss : ∀ y ∈ Sld.layout secs, Sld.isBss y = true →
      y.vaddr % 16 = 0 ∧ (Sld.layoutLoop Sld.isData (Sld.layoutLoop Sld.isCode secs 4198400).1
          (Sld.roundUp 4096 (Sld.layoutLoop Sld.isCode secs 4198400).2)).2 ≤ y.vaddr := by
    intro y hy hb
    rw [hl] at hy
    have := c5 y hy hb
    exact ⟨this.2.2, this.1⟩
  refine ⟨?_, ?_, ?_, ?_, ?_, ?_, ?_⟩
  · rw [hl, c1, b1, a1]
  · rw [hl, fc3, fc2, a2]
  · rw [hl, fd3, b2, fd1, a3]
  · rw [hl, c2, fb2, fb1, b3, fd1, a3]
  · intro y hy
    cases hb : Sld.isBss y
    · cases hc : Sld.isCode y
      · exact (hdata y hy ((Sld.isData_iff y).mpr ⟨hc, hb⟩)).1
      · exact (hcode y hy hc).1
    · exact (hbss y hy hb).1
  · intro c hc d hd h1 h2
    have := (hcode c hc h1).2
    have := (hdata d hd h2).2.1
    omega
  · intro d hd b hb h1 h2
    have := (hdata d hd h1).2.2
    have := (hbss b hb h2).2
    omega

/-- A table with one executable, one data and one `NOBITS` section. -/
theorem layout_order_and_addresses_witness :
    ((Sld.layout [⟨".text".toList, 1, 6, 0, 10, 0, 16, 0⟩,
        ⟨".data".toList, 1, 3, 0, 8, 0, 8, 16⟩,
        ⟨".bss".toList, 8, 3, 0, 100, 0, 8, 32⟩]).filter Sld.isData).map (fun y => y.vaddr) =
      Sld.specAddresses
        (Sld.roundUp 4096 (Sld.specEnd 4198400
          (([⟨".text".toList, 1, 6, 0, 10, 0, 16, 0⟩, ⟨".data".toList, 1, 3, 0, 8, 0, 8, 16⟩,
            ⟨".bss".toList, 8, 3, 0, 100, 0, 8, 32⟩].filter Sld.isCode).map fun x => x.size)))
        (([⟨".text".toList, 1, 6, 0, 10, 0, 16, 0⟩, ⟨".data".toList, 1, 3, 0, 8, 0, 8, 16⟩,
          ⟨".bss".toList, 8, 3, 0, 100, 0, 8, 32⟩].filter Sld.isData).map fun x => x.size) :=
  (layout_order_and_addresses
    [⟨".text".toList, 1, 6, 0, 10, 0, 16, 0⟩, ⟨".data".toList, 1, 3, 0, 8, 0, 8, 16⟩,
      ⟨".bss".toList, 8, 3, 0, 100, 0, 8, 32⟩] (by decide) (by decide) (by decide)).2.2.1

/-- C23 (counterexample): a table with a data section of 8 bytes, a `NOBITS`
section of 2147483632 bytes and a further `NOBITS` section.  The address
counter passes `2^31`; the last section is placed at `-2143285248`, below the
end `4198408` of the data section. -/
theorem layout_wraps_around :
    (Sld.layout [⟨".data".toList, 1, 3, 0, 8, 0, 8, 0⟩,
        ⟨".bss".toList, 8, 3, 0, 2147483632, 0, 8, 16⟩,
        ⟨".sbss".toList, 8, 3, 0, 16, 0, 8, 16⟩]).map (fun y => y.vaddr) =
      [4198400, 4198416, -2143285248] ∧
    ¬ ((4198400 : Int) + 8 ≤ -2143285248) := by
  decide

end SmallC

namespace SmallC

namespace Sld

set_option maxRecDepth 100000 in
/-- The bytes of an object file whose code calls the undefined symbol `main`. -/
theorem object_calling_main :
    testObject [232, 0, 0, 0, 0, 195] "main" 0 0 [(1, 2, 0, -4)] =
      [127, 69, 76, 70, 0, 0, 0, 0, 0, 0, 0, 0, 0, 0, 0, 0, 0, 0, 62, 0, 0, 0, 0, 0, 0, 0, 0, 0,
       0, 0, 0, 0, 52, 0, 0, 0, 0, 0, 0, 0, 0, 0, 0, 0, 0, 0, 40, 0, 5, 0, 3, 0, 0, 0, 0, 0, 0,
       0, 0, 0, 0, 0, 0, 0, 0, 0, 0, 0, 0, 0, 0, 0, 0, 0, 0, 0, 0, 0, 0, 0, 0, 0, 0, 0, 0, 0, 0,
       0, 0, 0, 0, 0, 1, 0, 0, 0, 1, 0, 0, 0, 6, 0, 0, 0, 0, 0, 0, 0, 8, 1, 0, 0, 6, 0, 0, 0, 0,
       0, 0, 0, 0, 0, 0, 0, 16, 0, 0, 0, 0, 0, 0, 0, 0, 0, 0, 0, 2, 0, 0, 0, 0, 0, 0, 0, 0, 0, 0,
       0, 14, 1, 0, 0, 16, 0, 0, 0, 3, 0, 0, 0, 0, 0, 0, 0, 4, 0, 0, 0, 16, 0, 0, 0, 0, 0, 0, 0,
       3, 0, 0, 0, 0, 0, 0, 0, 0, 0, 0, 0, 252, 0, 0, 0, 12, 0, 0, 0, 0, 0, 0, 0, 0, 0, 0, 0, 1,
       0, 0, 0, 0, 0, 0, 0, 0, 0, 0, 0, 4, 0, 0, 0, 0, 0, 0, 0, 0, 0, 0, 0, 30, 1, 0, 0, 24, 0,
       0, 0, 2, 0, 0, 0, 1, 0, 0, 0, 4, 0, 0, 0, 24, 0, 0, 0, 0, 46, 116, 101, 120, 116, 0, 109,
       97, 105, 110, 0, 232, 0, 0, 0, 0, 195, 7, 0, 0, 0, 0, 0, 0, 0, 0, 0, 0, 0, 18, 0, 0, 0, 1,
       0, 0, 0, 0, 0, 0, 0, 2, 0, 0, 0, 0, 0, 0, 0, 252, 255, 255, 255, 0, 0, 0, 0] := by
  decide

set_option maxRecDepth 100000 in
/-- The bytes of an object file that defines `main` at offset 2 of three bytes of code. -/
theorem object_defining_main :
    testObject [6, 7, 8] "main" 1 2 [] =
      [127, 69, 76, 70, 0, 0, 0, 0, 0, 0, 0, 0, 0, 0, 0, 0, 0, 0, 62, 0, 0, 0, 0, 0, 0, 0, 0, 0,
       0, 0, 0, 0, 52, 0, 0, 0, 0, 0, 0, 0, 0, 0, 0, 0, 0, 0, 40, 0, 5, 0, 3, 0, 0, 0, 0, 0, 0,
       0, 0, 0, 0, 0, 0, 0, 0, 0, 0, 0, 0, 0, 0, 0, 0, 0, 0, 0, 0, 0, 0, 0, 0, 0, 0, 0, 0, 0, 0,
       0, 0, 0, 0, 0, 1, 0, 0, 0, 1, 0, 0, 0, 6, 0, 0, 0, 0, 0, 0, 0, 8, 1, 0, 0, 3, 0, 0, 0, 0,
       0, 0, 0, 0, 0, 0, 0, 16, 0, 0, 0, 0, 0, 0, 0, 0, 0, 0, 0, 2, 0, 0, 0, 0, 0, 0, 0, 0, 0, 0,
       0, 11, 1, 0, 0, 16, 0, 0, 0, 3, 0, 0, 0, 0, 0, 0, 0, 4, 0, 0, 0, 16, 0, 0, 0, 0, 0, 0, 0,
       3, 0, 0, 0, 0, 0, 0, 0, 0, 0, 0, 0, 252, 0, 0, 0, 12, 0, 0, 0, 0, 0, 0, 0, 0, 0, 0, 0, 1,
       0, 0, 0, 0, 0, 0, 0, 0, 0, 0, 0, 4, 0, 0, 0, 0, 0, 0, 0, 0, 0, 0, 0, 27, 1, 0, 0, 0, 0, 0,
       0, 2, 0, 0, 0, 1, 0, 0, 0, 4, 0, 0, 0, 24, 0, 0, 0, 0, 46, 116, 101, 120, 116, 0, 109, 97,
       105, 110, 0, 6, 7, 8, 7, 0, 0, 0, 2, 0, 0, 0, 0, 0, 0, 0, 18, 0, 1, 0] := by
  decide

set_option maxRecDepth 100000 in
set_option maxHeartbeats 4000000 in
/-- The symbol table after an object file that calls `main` and a second
one that defines it. -/
theorem objectLoop_late_main :
    (objectLoop (twoFiles
      [127, 69, 76, 70, 0, 0, 0, 0, 0, 0, 0, 0, 0, 0, 0, 0, 0, 0, 62, 0, 0, 0, 0, 0, 0, 0, 0, 0,
       0, 0, 0, 0, 52, 0, 0, 0, 0, 0, 0, 0, 0, 0, 0, 0, 0, 0, 40, 0, 5, 0, 3, 0, 0, 0, 0, 0, 0,
       0, 0, 0, 0, 0, 0, 0, 0, 0, 0, 0, 0, 0, 0, 0, 0, 0, 0, 0, 0, 0, 0, 0, 0, 0, 0, 0, 0, 0, 0,
       0, 0, 0, 0, 0, 1, 0, 0, 0, 1, 0, 0, 0, 6, 0, 0, 0, 0, 0, 0, 0, 8, 1, 0, 0, 6, 0, 0, 0, 0,
       0, 0, 0, 0, 0, 0, 0, 16, 0, 0, 0, 0, 0, 0, 0, 0, 0, 0, 0, 2, 0, 0, 0, 0, 0, 0, 0, 0, 0, 0,
       0, 14, 1, 0, 0, 16, 0, 0, 0, 3, 0, 0, 0, 0, 0, 0, 0, 4, 0, 0, 0, 16, 0, 0, 0, 0, 0, 0, 0,
       3, 0, 0, 0, 0, 0, 0, 0, 0, 0, 0, 0, 252, 0, 0, 0, 12, 0, 0, 0, 0, 0, 0, 0, 0, 0, 0, 0, 1,
       0, 0, 0, 0, 0, 0, 0, 0, 0, 0, 0, 4, 0, 0, 0, 0, 0, 0, 0, 0, 0, 0, 0, 30, 1, 0, 0, 24, 0,
       0, 0, 2, 0, 0, 0, 1, 0, 0, 0, 4, 0, 0, 0, 24, 0, 0, 0, 0, 46, 116, 101, 120, 116, 0, 109,
       97, 105, 110, 0, 232, 0, 0, 0, 0, 195, 7, 0, 0, 0, 0, 0, 0, 0, 0, 0, 0, 0, 18, 0, 0, 0, 1,
       0, 0, 0, 0, 0, 0, 0, 2, 0, 0, 0, 0, 0, 0, 0, 252, 255, 255, 255, 0, 0, 0, 0]
      [127, 69, 76, 70, 0, 0, 0, 0, 0, 0, 0, 0, 0, 0, 0, 0, 0, 0, 62, 0, 0, 0, 0, 0, 0, 0, 0, 0,
       0, 0, 0, 0, 52, 0, 0, 0, 0, 0, 0, 0, 0, 0, 0, 0, 0, 0, 40, 0, 5, 0, 3, 0, 0, 0, 0, 0, 0,
       0, 0, 0, 0, 0, 0, 0, 0, 0, 0, 0, 0, 0, 0, 0, 0, 0, 0, 0, 0, 0, 0, 0, 0, 0, 0, 0, 0, 0, 0,
       0, 0, 0, 0, 0, 1, 0, 0, 0, 1, 0, 0, 0, 6, 0, 0, 0, 0, 0, 0, 0, 8, 1, 0, 0, 3, 0, 0, 0, 0,
       0, 0, 0, 0, 0, 0, 0, 16, 0, 0, 0, 0, 0, 0, 0, 0, 0, 0, 0, 2, 0, 0, 0, 0, 0, 0, 0, 0, 0, 0,
       0, 11, 1, 0, 0, 16, 0, 0, 0, 3, 0, 0, 0, 0, 0, 0, 0, 4, 0, 0, 0, 16, 0, 0, 0, 0, 0, 0, 0,
       3, 0, 0, 0, 0, 0, 0, 0, 0, 0, 0, 0, 252, 0, 0, 0, 12, 0, 0, 0, 0, 0, 0, 0, 0, 0, 0, 0, 1,
       0, 0, 0, 0, 0, 0, 0, 0, 0, 0, 0, 4, 0, 0, 0, 0, 0, 0, 0, 0, 0, 0, 0, 27, 1, 0, 0, 0, 0, 0,
       0, 2, 0, 0, 0, 1, 0, 0, 0, 4, 0, 0, 0, 24, 0, 0, 0, 0, 46, 116, 101, 120, 116, 0, 109, 97,
       105, 110, 0, 6, 7, 8, 7, 0, 0, 0, 2, 0, 0, 0, 0, 0, 0, 0, 18, 0, 1, 0])
      ["a.o".toList, "b.o".toList] initState).map
        (fun r => (find_symbol "_start".toList r.1, find_symbol "main".toList r.1,
          r.1.symbols, r.1.sections.length, r.2)) =
      some (-1, 0, [⟨"main".toList, 0, 0, -1, 2, 1, 1⟩], 1, 0) := by
  decide

set_option maxRecDepth 100000 in
set_option maxHeartbeats 4000000 in
/-- The run of the linker on these two object files. -/
theorem main_late_main :
    (main (twoFiles
      [127, 69, 76, 70, 0, 0, 0, 0, 0, 0, 0, 0, 0, 0, 0, 0, 0, 0, 62, 0, 0, 0, 0, 0, 0, 0, 0, 0,
       0, 0, 0, 0, 52, 0, 0, 0, 0, 0, 0, 0, 0, 0, 0, 0, 0, 0, 40, 0, 5, 0, 3, 0, 0, 0, 0, 0, 0,
       0, 0, 0, 0, 0, 0, 0, 0, 0, 0, 0, 0, 0, 0, 0, 0, 0, 0, 0, 0, 0, 0, 0, 0, 0, 0, 0, 0, 0, 0,
       0, 0, 0, 0, 0, 1, 0, 0, 0, 1, 0, 0, 0, 6, 0, 0, 0, 0, 0, 0, 0, 8, 1, 0, 0, 6, 0, 0, 0, 0,
       0, 0, 0, 0, 0, 0, 0, 16, 0, 0, 0, 0, 0, 0, 0, 0, 0, 0, 0, 2, 0, 0, 0, 0, 0, 0, 0, 0, 0, 0,
       0, 14, 1, 0, 0, 16, 0, 0, 0, 3, 0, 0, 0, 0, 0, 0, 0, 4, 0, 0, 0, 16, 0, 0, 0, 0, 0, 0, 0,
       3, 0, 0, 0, 0, 0, 0, 0, 0, 0, 0, 0, 252, 0, 0, 0, 12, 0, 0, 0, 0, 0, 0, 0, 0, 0, 0, 0, 1,
       0, 0, 0, 0, 0, 0, 0, 0, 0, 0, 0, 4, 0, 0, 0, 0, 0, 0, 0, 0, 0, 0, 0, 30, 1, 0, 0, 24, 0,
       0, 0, 2, 0, 0, 0, 1, 0, 0, 0, 4, 0, 0, 0, 24, 0, 0, 0, 0, 46, 116, 101, 120, 116, 0, 109,
       97, 105, 110, 0, 232, 0, 0, 0, 0, 195, 7, 0, 0, 0, 0, 0, 0, 0, 0, 0, 0, 0, 18, 0, 0, 0, 1,
       0, 0, 0, 0, 0, 0, 0, 2, 0, 0, 0, 0, 0, 0, 0, 252, 255, 255, 255, 0, 0, 0, 0]
      [127, 69, 76, 70, 0, 0, 0, 0, 0, 0, 0, 0, 0, 0, 0, 0, 0, 0, 62, 0, 0, 0, 0, 0, 0, 0, 0, 0,
       0, 0, 0, 0, 52, 0, 0, 0, 0, 0, 0, 0, 0, 0, 0, 0, 0, 0, 40, 0, 5, 0, 3, 0, 0, 0, 0, 0, 0,
       0, 0, 0, 0, 0, 0, 0, 0, 0, 0, 0, 0, 0, 0, 0, 0, 0, 0, 0, 0, 0, 0, 0, 0, 0, 0, 0, 0, 0, 0,
       0, 0, 0, 0, 0, 1, 0, 0, 0, 1, 0, 0, 0, 6, 0, 0, 0, 0, 0, 0, 0, 8, 1, 0, 0, 3, 0, 0, 0, 0,
       0, 0, 0, 0, 0, 0, 0, 16, 0, 0, 0, 0, 0, 0, 0, 0, 0, 0, 0, 2, 0, 0, 0, 0, 0, 0, 0, 0, 0, 0,
       0, 11, 1, 0, 0, 16, 0, 0, 0, 3, 0, 0, 0, 0, 0, 0, 0, 4, 0, 0, 0, 16, 0, 0, 0, 0, 0, 0, 0,
       3, 0, 0, 0, 0, 0, 0, 0, 0, 0, 0, 0, 252, 0, 0, 0, 12, 0, 0, 0, 0, 0, 0, 0, 0, 0, 0, 0, 1,
       0, 0, 0, 0, 0, 0, 0, 0, 0, 0, 0, 4, 0, 0, 0, 0, 0, 0, 0, 0, 0, 0, 0, 27, 1, 0, 0, 0, 0, 0,
       0, 2, 0, 0, 0, 1, 0, 0, 0, 4, 0, 0, 0, 24, 0, 0, 0, 0, 46, 116, 101, 120, 116, 0, 109, 97,
       105, 110, 0, 6, 7, 8, 7, 0, 0, 0, 2, 0, 0, 0, 0, 0, 0, 0, 18, 0, 1, 0])
      ["sld_enhanced".toList, "a.o".toList, "b.o".toList]).map
        (fun r => (r.status, r.stdout, r.written.map fun w => w.1)) =
      some (0, "Linked a.out successfully (1 sections, 1 symbols)\n".toList,
        some "a.out".toList) := by
  decide

end Sld

end SmallC

namespace SmallC

namespace Sld

set_option maxRecDepth 100000 in
/-- The bytes of an object file whose code calls the undefined symbol `foo`. -/
theorem object_calling_foo :
    testObject [232, 0, 0, 0, 0, 195] "foo" 0 0 [(1, 2, 0, -4)] =
      [127, 69, 76, 70, 0, 0, 0, 0, 0, 0, 0, 0, 0, 0, 0, 0, 0, 0, 62, 0, 0, 0, 0, 0, 0, 0, 0, 0,
       0, 0, 0, 0, 52, 0, 0, 0, 0, 0, 0, 0, 0, 0, 0, 0, 0, 0, 40, 0, 5, 0, 3, 0, 0, 0, 0, 0, 0,
       0, 0, 0, 0, 0, 0, 0, 0, 0, 0, 0, 0, 0, 0, 0, 0, 0, 0, 0, 0, 0, 0, 0, 0, 0, 0, 0, 0, 0, 0,
       0, 0, 0, 0, 0, 1, 0, 0, 0, 1, 0, 0, 0, 6, 0, 0, 0, 0, 0, 0, 0, 7, 1, 0, 0, 6, 0, 0, 0, 0,
       0, 0, 0, 0, 0, 0, 0, 16, 0, 0, 0, 0, 0, 0, 0, 0, 0, 0, 0, 2, 0, 0, 0, 0, 0, 0, 0, 0, 0, 0,
       0, 13, 1, 0, 0, 16, 0, 0, 0, 3, 0, 0, 0, 0, 0, 0, 0, 4, 0, 0, 0, 16, 0, 0, 0, 0, 0, 0, 0,
       3, 0, 0, 0, 0, 0, 0, 0, 0, 0, 0, 0, 252, 0, 0, 0, 11, 0, 0, 0, 0, 0, 0, 0, 0, 0, 0, 0, 1,
       0, 0, 0, 0, 0, 0, 0, 0, 0, 0, 0, 4, 0, 0, 0, 0, 0, 0, 0, 0, 0, 0, 0, 29, 1, 0, 0, 24, 0,
       0, 0, 2, 0, 0, 0, 1, 0, 0, 0, 4, 0, 0, 0, 24, 0, 0, 0, 0, 46, 116, 101, 120, 116, 0, 102,
       111, 111, 0, 232, 0, 0, 0, 0, 195, 7, 0, 0, 0, 0, 0, 0, 0, 0, 0, 0, 0, 18, 0, 0, 0, 1, 0,
       0, 0, 0, 0, 0, 0, 2, 0, 0, 0, 0, 0, 0, 0, 252, 255, 255, 255, 0, 0, 0, 0] := by
  decide

set_option maxRecDepth 100000 in
/-- The bytes of an object file that defines `foo` at offset 0 of five bytes of code. -/
theorem object_defining_foo :
    testObject [1, 2, 3, 4, 5] "foo" 1 0 [] =
      [127, 69, 76, 70, 0, 0, 0, 0, 0, 0, 0, 0, 0, 0, 0, 0, 0, 0, 62, 0, 0, 0, 0, 0, 0, 0, 0, 0,
       0, 0, 0, 0, 52, 0, 0, 0, 0, 0, 0, 0, 0, 0, 0, 0, 0, 0, 40, 0, 5, 0, 3, 0, 0, 0, 0, 0, 0,
       0, 0, 0, 0, 0, 0, 0, 0, 0, 0, 0, 0, 0, 0, 0, 0, 0, 0, 0, 0, 0, 0, 0, 0, 0, 0, 0, 0, 0, 0,
       0, 0, 0, 0, 0, 1, 0, 0, 0, 1, 0, 0, 0, 6, 0, 0, 0, 0, 0, 0, 0, 7, 1, 0, 0, 5, 0, 0, 0, 0,
       0, 0, 0, 0, 0, 0, 0, 16, 0, 0, 0, 0, 0, 0, 0, 0, 0, 0, 0, 2, 0, 0, 0, 0, 0, 0, 0, 0, 0, 0,
       0, 12, 1, 0, 0, 16, 0, 0, 0, 3, 0, 0, 0, 0, 0, 0, 0, 4, 0, 0, 0, 16, 0, 0, 0, 0, 0, 0, 0,
       3, 0, 0, 0, 0, 0, 0, 0, 0, 0, 0, 0, 252, 0, 0, 0, 11, 0, 0, 0, 0, 0, 0, 0, 0, 0, 0, 0, 1,
       0, 0, 0, 0, 0, 0, 0, 0, 0, 0, 0, 4, 0, 0, 0, 0, 0, 0, 0, 0, 0, 0, 0, 28, 1, 0, 0, 0, 0, 0,
       0, 2, 0, 0, 0, 1, 0, 0, 0, 4, 0, 0, 0, 24, 0, 0, 0, 0, 46, 116, 101, 120, 116, 0, 102,
       111, 111, 0, 1, 2, 3, 4, 5, 7, 0, 0, 0, 0, 0, 0, 0, 0, 0, 0, 0, 18, 0, 1, 0] := by
  decide

set_option maxRecDepth 100000 in
/-- The bytes of an object file that defines `bar` at offset 2 of three bytes
of code and has a relocation at offset 1. -/
theorem object_defining_bar :
    testObject [6, 7, 8] "bar" 1 2 [(1, 2, 0, -4)] =
      [127, 69, 76, 70, 0, 0, 0, 0, 0, 0, 0, 0, 0, 0, 0, 0, 0, 0, 62, 0, 0, 0, 0, 0, 0, 0, 0, 0,
       0, 0, 0, 0, 52, 0, 0, 0, 0, 0, 0, 0, 0, 0, 0, 0, 0, 0, 40, 0, 5, 0, 3, 0, 0, 0, 0, 0, 0,
       0, 0, 0, 0, 0, 0, 0, 0, 0, 0, 0, 0, 0, 0, 0, 0, 0, 0, 0, 0, 0, 0, 0, 0, 0, 0, 0, 0, 0, 0,
       0, 0, 0, 0, 0, 1, 0, 0, 0, 1, 0, 0, 0, 6, 0, 0, 0, 0, 0, 0, 0, 7, 1, 0, 0, 3, 0, 0, 0, 0,
       0, 0, 0, 0, 0, 0, 0, 16, 0, 0, 0, 0, 0, 0, 0, 0, 0, 0, 0, 2, 0, 0, 0, 0, 0, 0, 0, 0, 0, 0,
       0, 10, 1, 0, 0, 16, 0, 0, 0, 3, 0, 0, 0, 0, 0, 0, 0, 4, 0, 0, 0, 16, 0, 0, 0, 0, 0, 0, 0,
       3, 0, 0, 0, 0, 0, 0, 0, 0, 0, 0, 0, 252, 0, 0, 0, 11, 0, 0, 0, 0, 0, 0, 0, 0, 0, 0, 0, 1,
       0, 0, 0, 0, 0, 0, 0, 0, 0, 0, 0, 4, 0, 0, 0, 0, 0, 0, 0, 0, 0, 0, 0, 26, 1, 0, 0, 24, 0,
       0, 0, 2, 0, 0, 0, 1, 0, 0, 0, 4, 0, 0, 0, 24, 0, 0, 0, 0, 46, 116, 101, 120, 116, 0, 98,
       97, 114, 0, 6, 7, 8, 7, 0, 0, 0, 2, 0, 0, 0, 0, 0, 0, 0, 18, 0, 1, 0, 1, 0, 0, 0, 0, 0, 0,
       0, 2, 0, 0, 0, 0, 0, 0, 0, 252, 255, 255, 255, 0, 0, 0, 0] := by
  decide

set_option maxRecDepth 100000 in
set_option maxHeartbeats 4000000 in
/-- The run of the linker on the object file that calls `foo`. -/
theorem main_undefined_symbol :
    (main (twoFiles
      [127, 69, 76, 70, 0, 0, 0, 0, 0, 0, 0, 0, 0, 0, 0, 0, 0, 0, 62, 0, 0, 0, 0, 0, 0, 0, 0, 0,
       0, 0, 0, 0, 52, 0, 0, 0, 0, 0, 0, 0, 0, 0, 0, 0, 0, 0, 40, 0, 5, 0, 3, 0, 0, 0, 0, 0, 0,
       0, 0, 0, 0, 0, 0, 0, 0, 0, 0, 0, 0, 0, 0, 0, 0, 0, 0, 0, 0, 0, 0, 0, 0, 0, 0, 0, 0, 0, 0,
       0, 0, 0, 0, 0, 1, 0, 0, 0, 1, 0, 0, 0, 6, 0, 0, 0, 0, 0, 0, 0, 7, 1, 0, 0, 6, 0, 0, 0, 0,
       0, 0, 0, 0, 0, 0, 0, 16, 0, 0, 0, 0, 0, 0, 0, 0, 0, 0, 0, 2, 0, 0, 0, 0, 0, 0, 0, 0, 0, 0,
       0, 13, 1, 0, 0, 16, 0, 0, 0, 3, 0, 0, 0, 0, 0, 0, 0, 4, 0, 0, 0, 16, 0, 0, 0, 0, 0, 0, 0,
       3, 0, 0, 0, 0, 0, 0, 0, 0, 0, 0, 0, 252, 0, 0, 0, 11, 0, 0, 0, 0, 0, 0, 0, 0, 0, 0, 0, 1,
       0, 0, 0, 0, 0, 0, 0, 0, 0, 0, 0, 4, 0, 0, 0, 0, 0, 0, 0, 0, 0, 0, 0, 29, 1, 0, 0, 24, 0,
       0, 0, 2, 0, 0, 0, 1, 0, 0, 0, 4, 0, 0, 0, 24, 0, 0, 0, 0, 46, 116, 101, 120, 116, 0, 102,
       111, 111, 0, 232, 0, 0, 0, 0, 195, 7, 0, 0, 0, 0, 0, 0, 0, 0, 0, 0, 0, 18, 0, 0, 0, 1, 0,
       0, 0, 0, 0, 0, 0, 2, 0, 0, 0, 0, 0, 0, 0, 252, 255, 255, 255, 0, 0, 0, 0]
      [])
      ["sld_enhanced".toList, "-o".toList, "prog".toList, "a.o".toList]).map
        (fun r => (r.status, r.stdout, r.written.map fun w => w.1)) =
      some (0,
        "Warning: undefined symbol foo\nLinked prog successfully (1 sections, 1 symbols)\n".toList,
        some "prog".toList) := by
  decide

set_option maxRecDepth 100000 in
set_option maxHeartbeats 4000000 in
/-- The tables after the object files that define `foo` and `bar`. -/
theorem objectLoop_two_objects :
    (objectLoop (twoFiles
      [127, 69, 76, 70, 0, 0, 0, 0, 0, 0, 0, 0, 0, 0, 0, 0, 0, 0, 62, 0, 0, 0, 0, 0, 0, 0, 0, 0,
       0, 0, 0, 0, 52, 0, 0, 0, 0, 0, 0, 0, 0, 0, 0, 0, 0, 0, 40, 0, 5, 0, 3, 0, 0, 0, 0, 0, 0,
       0, 0, 0, 0, 0, 0, 0, 0, 0, 0, 0, 0, 0, 0, 0, 0, 0, 0, 0, 0, 0, 0, 0, 0, 0, 0, 0, 0, 0, 0,
       0, 0, 0, 0, 0, 1, 0, 0, 0, 1, 0, 0, 0, 6, 0, 0, 0, 0, 0, 0, 0, 7, 1, 0, 0, 5, 0, 0, 0, 0,
       0, 0, 0, 0, 0, 0, 0, 16, 0, 0, 0, 0, 0, 0, 0, 0, 0, 0, 0, 2, 0, 0, 0, 0, 0, 0, 0, 0, 0, 0,
       0, 12, 1, 0, 0, 16, 0, 0, 0, 3, 0, 0, 0, 0, 0, 0, 0, 4, 0, 0, 0, 16, 0, 0, 0, 0, 0, 0, 0,
       3, 0, 0, 0, 0, 0, 0, 0, 0, 0, 0, 0, 252, 0, 0, 0, 11, 0, 0, 0, 0, 0, 0, 0, 0, 0, 0, 0, 1,
       0, 0, 0, 0, 0, 0, 0, 0, 0, 0, 0, 4, 0, 0, 0, 0, 0, 0, 0, 0, 0, 0, 0, 28, 1, 0, 0, 0, 0, 0,
       0, 2, 0, 0, 0, 1, 0, 0, 0, 4, 0, 0, 0, 24, 0, 0, 0, 0, 46, 116, 101, 120, 116, 0, 102,
       111, 111, 0, 1, 2, 3, 4, 5, 7, 0, 0, 0, 0, 0, 0, 0, 0, 0, 0, 0, 18, 0, 1, 0]
      [127, 69, 76, 70, 0, 0, 0, 0, 0, 0, 0, 0, 0, 0, 0, 0, 0, 0, 62, 0, 0, 0, 0, 0, 0, 0, 0, 0,
       0, 0, 0, 0, 52, 0, 0, 0, 0, 0, 0, 0, 0, 0, 0, 0, 0, 0, 40, 0, 5, 0, 3, 0, 0, 0, 0, 0, 0,
       0, 0, 0, 0, 0, 0, 0, 0, 0, 0, 0, 0, 0, 0, 0, 0, 0, 0, 0, 0, 0, 0, 0, 0, 0, 0, 0, 0, 0, 0,
       0, 0, 0, 0, 0, 1, 0, 0, 0, 1, 0, 0, 0, 6, 0, 0, 0, 0, 0, 0, 0, 7, 1, 0, 0, 3, 0, 0, 0, 0,
       0, 0, 0, 0, 0, 0, 0, 16, 0, 0, 0, 0, 0, 0, 0, 0, 0, 0, 0, 2, 0, 0, 0, 0, 0, 0, 0, 0, 0, 0,
       0, 10, 1, 0, 0, 16, 0, 0, 0, 3, 0, 0, 0, 0, 0, 0, 0, 4, 0, 0, 0, 16, 0, 0, 0, 0, 0, 0, 0,
       3, 0, 0, 0, 0, 0, 0, 0, 0, 0, 0, 0, 252, 0, 0, 0, 11, 0, 0, 0, 0, 0, 0, 0, 0, 0, 0, 0, 1,
       0, 0, 0, 0, 0, 0, 0, 0, 0, 0, 0, 4, 0, 0, 0, 0, 0, 0, 0, 0, 0, 0, 0, 26, 1, 0, 0, 24, 0,
       0, 0, 2, 0, 0, 0, 1, 0, 0, 0, 4, 0, 0, 0, 24, 0, 0, 0, 0, 46, 116, 101, 120, 116, 0, 98,
       97, 114, 0, 6, 7, 8, 7, 0, 0, 0, 2, 0, 0, 0, 0, 0, 0, 0, 18, 0, 1, 0, 1, 0, 0, 0, 0, 0, 0,
       0, 2, 0, 0, 0, 0, 0, 0, 0, 252, 255, 255, 255, 0, 0, 0, 0])
      ["a.o".toList, "b.o".toList] initState).map
        (fun r => (r.1.sections, r.1.symbols, r.1.relocs, r.2)) =
      some ([⟨".text".toList, 1, 6, 0, 8, 0, 16, 0⟩],
        [⟨"foo".toList, 0, 0, 0, 2, 1, 1⟩, ⟨"bar".toList, 2, 0, 0, 2, 1, 1⟩],
        [⟨1, 0, 2, -4, 0⟩], 0) := by
  decide

set_option maxRecDepth 100000 in
set_option maxHeartbeats 4000000 in
/-- The section buffer after the object files that define `foo` and `bar`. -/
theorem objectLoop_two_objects_output :
    (objectLoop (twoFiles
      [127, 69, 76, 70, 0, 0, 0, 0, 0, 0, 0, 0, 0, 0, 0, 0, 0, 0, 62, 0, 0, 0, 0, 0, 0, 0, 0, 0,
       0, 0, 0, 0, 52, 0, 0, 0, 0, 0, 0, 0, 0, 0, 0, 0, 0, 0, 40, 0, 5, 0, 3, 0, 0, 0, 0, 0, 0,
       0, 0, 0, 0, 0, 0, 0, 0, 0, 0, 0, 0, 0, 0, 0, 0, 0, 0, 0, 0, 0, 0, 0, 0, 0, 0, 0, 0, 0, 0,
       0, 0, 0, 0, 0, 1, 0, 0, 0, 1, 0, 0, 0, 6, 0, 0, 0, 0, 0, 0, 0, 7, 1, 0, 0, 5, 0, 0, 0, 0,
       0, 0, 0, 0, 0, 0, 0, 16, 0, 0, 0, 0, 0, 0, 0, 0, 0, 0, 0, 2, 0, 0, 0, 0, 0, 0, 0, 0, 0, 0,
       0, 12, 1, 0, 0, 16, 0, 0, 0, 3, 0, 0, 0, 0, 0, 0, 0, 4, 0, 0, 0, 16, 0, 0, 0, 0, 0, 0, 0,
       3, 0, 0, 0, 0, 0, 0, 0, 0, 0, 0, 0, 252, 0, 0, 0, 11, 0, 0, 0, 0, 0, 0, 0, 0, 0, 0, 0, 1,
       0, 0, 0, 0, 0, 0, 0, 0, 0, 0, 0, 4, 0, 0, 0, 0, 0, 0, 0, 0, 0, 0, 0, 28, 1, 0, 0, 0, 0, 0,
       0, 2, 0, 0, 0, 1, 0, 0, 0, 4, 0, 0, 0, 24, 0, 0, 0, 0, 46, 116, 101, 120, 116, 0, 102,
       111, 111, 0, 1, 2, 3, 4, 5, 7, 0, 0, 0, 0, 0, 0, 0, 0, 0, 0, 0, 18, 0, 1, 0]
      [127, 69, 76, 70, 0, 0, 0, 0, 0, 0, 0, 0, 0, 0, 0, 0, 0, 0, 62, 0, 0, 0, 0, 0, 0, 0, 0, 0,
       0, 0, 0, 0, 52, 0, 0, 0, 0, 0, 0, 0, 0, 0, 0, 0, 0, 0, 40, 0, 5, 0, 3, 0, 0, 0, 0, 0, 0,
       0, 0, 0, 0, 0, 0, 0, 0, 0, 0, 0, 0, 0, 0, 0, 0, 0, 0, 0, 0, 0, 0, 0, 0, 0, 0, 0, 0, 0, 0,
       0, 0, 0, 0, 0, 1, 0, 0, 0, 1, 0, 0, 0, 6, 0, 0, 0, 0, 0, 0, 0, 7, 1, 0, 0, 3, 0, 0, 0, 0,
       0, 0, 0, 0, 0, 0, 0, 16, 0, 0, 0, 0, 0, 0, 0, 0, 0, 0, 0, 2, 0, 0, 0, 0, 0, 0, 0, 0, 0, 0,
       0, 10, 1, 0, 0, 16, 0, 0, 0, 3, 0, 0, 0, 0, 0, 0, 0, 4, 0, 0, 0, 16, 0, 0, 0, 0, 0, 0, 0,
       3, 0, 0, 0, 0, 0, 0, 0, 0, 0, 0, 0, 252, 0, 0, 0, 11, 0, 0, 0, 0, 0, 0, 0, 0, 0, 0, 0, 1,
       0, 0, 0, 0, 0, 0, 0, 0, 0, 0, 0, 4, 0, 0, 0, 0, 0, 0, 0, 0, 0, 0, 0, 26, 1, 0, 0, 24, 0,
       0, 0, 2, 0, 0, 0, 1, 0, 0, 0, 4, 0, 0, 0, 24, 0, 0, 0, 0, 46, 116, 101, 120, 116, 0, 98,
       97, 114, 0, 6, 7, 8, 7, 0, 0, 0, 2, 0, 0, 0, 0, 0, 0, 0, 18, 0, 1, 0, 1, 0, 0, 0, 0, 0, 0,
       0, 2, 0, 0, 0, 0, 0, 0, 0, 252, 255, 255, 255, 0, 0, 0, 0])
      ["a.o".toList, "b.o".toList] initState).map
        (fun r => (r.1.output, r.1.output_size)) =
      some ([1, 2, 3, 4, 5, 6, 7, 8, 0, 0, 0, 0, 0, 0, 0, 0, 0, 0, 0, 0, 0, 0, 0, 0, 0, 0, 0, 0,
        0, 0, 0, 0], 32) := by
  decide

set_option maxRecDepth 100000 in
set_option maxHeartbeats 4000000 in
/-- The state of the linker after the object file that calls `foo`. -/
theorem objectLoop_callingFoo :
    objectLoop (twoFiles callingFoo []) ["a.o".toList] initState = some (stateCallingFoo, 0) := by
  have h : objectLoop (twoFiles
      [127, 69, 76, 70, 0, 0, 0, 0, 0, 0, 0, 0, 0, 0, 0, 0, 0, 0, 62, 0, 0, 0, 0, 0, 0, 0, 0, 0,
       0, 0, 0, 0, 52, 0, 0, 0, 0, 0, 0, 0, 0, 0, 0, 0, 0, 0, 40, 0, 5, 0, 3, 0, 0, 0, 0, 0, 0,
       0, 0, 0, 0, 0, 0, 0, 0, 0, 0, 0, 0, 0, 0, 0, 0, 0, 0, 0, 0, 0, 0, 0, 0, 0, 0, 0, 0, 0, 0,
       0, 0, 0, 0, 0, 1, 0, 0, 0, 1, 0, 0, 0, 6, 0, 0, 0, 0, 0, 0, 0, 7, 1, 0, 0, 6, 0, 0, 0, 0,
       0, 0, 0, 0, 0, 0, 0, 16, 0, 0, 0, 0, 0, 0, 0, 0, 0, 0, 0, 2, 0, 0, 0, 0, 0, 0, 0, 0, 0, 0,
       0, 13, 1, 0, 0, 16, 0, 0, 0, 3, 0, 0, 0, 0, 0, 0, 0, 4, 0, 0, 0, 16, 0, 0, 0, 0, 0, 0, 0,
       3, 0, 0, 0, 0, 0, 0, 0, 0, 0, 0, 0, 252, 0, 0, 0, 11, 0, 0, 0, 0, 0, 0, 0, 0, 0, 0, 0, 1,
       0, 0, 0, 0, 0, 0, 0, 0, 0, 0, 0, 4, 0, 0, 0, 0, 0, 0, 0, 0, 0, 0, 0, 29, 1, 0, 0, 24, 0,
       0, 0, 2, 0, 0, 0, 1, 0, 0, 0, 4, 0, 0, 0, 24, 0, 0, 0, 0, 46, 116, 101, 120, 116, 0, 102,
       111, 111, 0, 232, 0, 0, 0, 0, 195, 7, 0, 0, 0, 0, 0, 0, 0, 0, 0, 0, 0, 18, 0, 0, 0, 1, 0,
       0, 0, 0, 0, 0, 0, 2, 0, 0, 0, 0, 0, 0, 0, 252, 255, 255, 255, 0, 0, 0, 0]
      []) ["a.o".toList] initState =
      some (⟨[232, 0, 0, 0, 0, 195, 0, 0, 0, 0, 0, 0, 0, 0, 0, 0], 16,
        [⟨".text".toList, 1, 6, 0, 6, 0, 16, 0⟩], [⟨"foo".toList, 0, 0, -1, 2, 1, 0⟩],
        [⟨1, 0, 2, -4, 0⟩], 0,
      [127, 69, 76, 70, 0, 0, 0, 0, 0, 0, 0, 0, 0, 0, 0, 0, 0, 0, 62, 0, 0, 0, 0, 0, 0, 0, 0, 0,
       0, 0, 0, 0, 52, 0, 0, 0, 0, 0, 0, 0, 0, 0, 0, 0, 0, 0, 40, 0, 5, 0, 3, 0, 0, 0, 0, 0, 0,
       0, 0, 0, 0, 0, 0, 0, 0, 0, 0, 0, 0, 0, 0, 0, 0, 0, 0, 0, 0, 0, 0, 0, 0, 0, 0, 0, 0, 0, 0,
       0, 0, 0, 0, 0, 1, 0, 0, 0, 1, 0, 0, 0, 6, 0, 0, 0, 0, 0, 0, 0, 7, 1, 0, 0, 6, 0, 0, 0, 0,
       0, 0, 0, 0, 0, 0, 0, 16, 0, 0, 0, 0, 0, 0, 0, 0, 0, 0, 0, 2, 0, 0, 0, 0, 0, 0, 0, 0, 0, 0,
       0, 13, 1, 0, 0, 16, 0, 0, 0, 3, 0, 0, 0, 0, 0, 0, 0, 4, 0, 0, 0, 16, 0, 0, 0, 0, 0, 0, 0,
       3, 0, 0, 0, 0, 0, 0, 0, 0, 0, 0, 0, 252, 0, 0, 0, 11, 0, 0, 0, 0, 0, 0, 0, 0, 0, 0, 0, 1,
       0, 0, 0, 0, 0, 0, 0, 0, 0, 0, 0, 4, 0, 0, 0, 0, 0, 0, 0, 0, 0, 0, 0, 29, 1, 0, 0, 24, 0,
       0, 0, 2, 0, 0, 0, 1, 0, 0, 0, 4, 0, 0, 0, 24, 0, 0, 0, 0, 46, 116, 101, 120, 116, 0, 102,
       111, 111, 0, 232, 0, 0, 0, 0, 195, 7, 0, 0, 0, 0, 0, 0, 0, 0, 0, 0, 0, 18, 0, 0, 0, 1, 0,
       0, 0, 0, 0, 0, 0, 2, 0, 0, 0, 0, 0, 0, 0, 252, 255, 255, 255, 0, 0, 0, 0],
        []⟩, 0) := by
    decide
  unfold stateCallingFoo callingFoo
  rw [object_calling_foo]
  exact h

end Sld

end SmallC

namespace SmallC

namespace Sld

/-- A relocation changes neither the symbol table nor the relocation table. -/
theorem applyReloc_symbols (r : Reloc) (s : State) :
    (applyReloc r s).symbols = s.symbols ∧ (applyReloc r s).relocs = s.relocs := by
  unfold applyReloc
  by_cases h1 : r.symbol < s.symbols.length ∧ (symbolAt s.symbols r.symbol).defined ≠ 0
  · rw [if_pos h1]
    exact ⟨rfl, rfl⟩
  · by_cases h2 : r.symbol < (s.symbols.length : Int)
    · rw [if_neg h1, if_pos h2]
      exact ⟨rfl, rfl⟩
    · rw [if_neg h1, if_neg h2]
      exact ⟨rfl, rfl⟩

/-- A relocation only adds to the text printed so far. -/
theorem applyReloc_stdout (r : Reloc) (s : State) :
    ∃ t, (applyReloc r s).stdout = s.stdout ++ t := by
  unfold applyReloc
  by_cases h1 : r.symbol < s.symbols.length ∧ (symbolAt s.symbols r.symbol).defined ≠ 0
  · simp only [if_pos h1]
    exact ⟨[], (List.append_nil _).symm⟩
  · by_cases h2 : r.symbol < (s.symbols.length : Int)
    · simp only [if_neg h1, if_pos h2]
      exact ⟨"Warning: undefined symbol ".toList ++ ((symbolAt s.symbols r.symbol).name ++ ['\n']),
        by simp only [List.append_assoc]⟩
    · simp only [if_neg h1, if_neg h2]
      exact ⟨[], (List.append_nil _).symm⟩

/-- A relocation against a symbol of the table that is not defined prints the warning
and changes nothing else. -/
theorem applyReloc_undefined (r : Reloc) (s : State) (h1 : r.symbol < s.symbols.length)
    (h2 : (symbolAt s.symbols r.symbol).defined = 0) :
    applyReloc r s = { s with stdout := s.stdout ++ warningLine (symbolAt s.symbols r.symbol) } := by
  simp [applyReloc, h1, h2, warningLine]

/-- The relocation loop keeps the symbol table and only adds to the text printed. -/
theorem foldl_applyReloc (rs : List Reloc) (s : State) :
    (rs.foldl (fun t r => applyReloc r t) s).symbols = s.symbols ∧
    ∃ t, (rs.foldl (fun t r => applyReloc r t) s).stdout = s.stdout ++ t := by
  induction rs generalizing s with
  | nil => exact ⟨rfl, [], by simp⟩
  | cons r rs ih =>
    obtain ⟨h1, t, h2⟩ := ih (applyReloc r s)
    obtain ⟨u, h3⟩ := applyReloc_stdout r s
    refine ⟨by rw [List.foldl_cons, h1, (applyReloc_symbols r s).1], u ++ t, ?_⟩
    rw [List.foldl_cons, h2, h3, List.append_assoc]

/-- The relocation loop prints the warning for every relocation against a symbol that is not defined. -/
theorem foldl_applyReloc_warns (rs : List Reloc) (s : State) (r : Reloc) (hr : r ∈ rs)
    (h1 : r.symbol < s.symbols.length) (h2 : (symbolAt s.symbols r.symbol).defined = 0) :
    ∃ a b, (rs.foldl (fun t r => applyReloc r t) s).stdout =
      s.stdout ++ a ++ warningLine (symbolAt s.symbols r.symbol) ++ b := by
  induction rs generalizing s with
  | nil => cases hr
  | cons q rs ih =>
    rw [List.foldl_cons]
    rcases List.mem_cons.mp hr with e | hm
    · subst e
      obtain ⟨-, t, h⟩ := foldl_applyReloc rs (applyReloc r s)
      refine ⟨[], t, ?_⟩
      rw [h, applyReloc_undefined r s h1 h2]
      simp
    · have hs := (applyReloc_symbols q s).1
      obtain ⟨a, b, h⟩ := ih (applyReloc q s) hm (by rw [hs]; exact h1) (by rw [hs]; exact h2)
      obtain ⟨u, h3⟩ := applyReloc_stdout q s
      refine ⟨u ++ a, b, ?_⟩
      rw [h, h3, hs]
      simp

end Sld

end SmallC

namespace SmallC

/-- C26 (counterexample): a run of the linker on one object file whose code has a relocation
against the symbol `foo`, which no input defines and which is not weak,
prints `Warning: undefined symbol foo`, goes on, writes the executable
`prog`, prints that it linked successfully and returns 0. -/
theorem undefined_symbol_does_not_fail_the_link :
    (Sld.main (Sld.twoFiles (Sld.testObject [232, 0, 0, 0, 0, 195] "foo" 0 0 [(1, 2, 0, -4)]) [])
      ["sld_enhanced".toList, "-o".toList, "prog".toList, "a.o".toList]).map
        (fun r => (r.status, r.stdout, r.written.map fun w => w.1)) =
      some (0,
        "Warning: undefined symbol foo\nLinked prog successfully (1 sections, 1 symbols)\n".toList,
        some "prog".toList) := by
  rw [Sld.object_calling_foo]
  exact Sld.main_undefined_symbol

/-- C26 (amended): a relocation against a symbol of the table that is not
defined makes `apply_relocations` print `Warning: undefined symbol` with the
name of the symbol and change nothing else; when all input objects have been
read, `main` returns 0 with that line in its output and writes the
executable. -/
theorem undefined_symbol_is_warned (fs : Str → Option (List Nat)) (argv : List Str)
    (out f : Str) (fl : List Str) (st : Sld.State) (c : Int) (r : Sld.Reloc)
    (hargs : Sld.parseArgs (argv.drop 1) ("a.out".toList, []) = .ok (out, f :: fl))
    (hobj : Sld.objectLoop fs (f :: fl) Sld.initState = some (st, c)) (hc : 0 ≤ c)
    (hr : r ∈ st.relocs) (h0 : 0 ≤ r.symbol) (h1 : r.symbol < st.symbols.length)
    (h2 : (Sld.symbolAt st.symbols r.symbol).defined = 0) :
    (∀ s : Sld.State, s.symbols = st.symbols →
      Sld.applyReloc r s =
        { s with stdout := s.stdout ++ Sld.warningLine (Sld.symbolAt st.symbols r.symbol) }) ∧
    ∃ o a b, Sld.main fs argv = some o ∧ o.status = 0 ∧
      o.stdout = a ++ Sld.warningLine (Sld.symbolAt st.symbols r.symbol) ++ b ∧
      o.written =
        some (out, Sld.write_executable (Sld.apply_relocations (Sld.layout_sections st))) := by
  have _ := h0
  refine ⟨fun s hs => ?_, ?_⟩
  · rw [← hs]
    exact Sld.applyReloc_undefined r s (by rw [hs]; exact h1) (by rw [hs]; exact h2)
  · obtain ⟨a, b, h⟩ := Sld.foldl_applyReloc_warns (Sld.layout_sections st).relocs
      (Sld.layout_sections st) r hr h1 h2
    have hm : Sld.main fs argv = some
        ⟨0, (Sld.apply_relocations (Sld.layout_sections st)).stdout ++ "Linked ".toList ++ out ++
            " successfully (".toList ++
            Sld.decimal (Sld.apply_relocations (Sld.layout_sections st)).sections.length ++
            " sections, ".toList ++
            Sld.decimal (Sld.apply_relocations (Sld.layout_sections st)).symbols.length ++
            " symbols)\n".toList,
          some (out, Sld.write_executable (Sld.apply_relocations (Sld.layout_sections st)))⟩ := by
      simp only [Sld.main, hargs, hobj, Option.map_some', Int.not_lt.mpr hc, if_false]
    refine ⟨_, st.stdout ++ a, b ++ ("Linked ".toList ++ out ++
            " successfully (".toList ++
            Sld.decimal (Sld.apply_relocations (Sld.layout_sections st)).sections.length ++
            " sections, ".toList ++
            Sld.decimal (Sld.apply_relocations (Sld.layout_sections st)).symbols.length ++
            " symbols)\n".toList), hm, rfl, ?_, rfl⟩
    simp only [Sld.apply_relocations]
    rw [h]
    simp only [Sld.layout_sections, List.append_assoc]


/-- C26 (witness): the run of the linker on the object file `callingFoo`. -/
theorem undefined_symbol_is_warned_witness :
    ∃ o a b, Sld.main (Sld.twoFiles Sld.callingFoo [])
        ["sld_enhanced".toList, "-o".toList, "prog".toList, "a.o".toList] = some o ∧
      o.status = 0 ∧
      o.stdout = a ++ Sld.warningLine (Sld.symbolAt Sld.stateCallingFoo.symbols 0) ++ b ∧
      o.written = some ("prog".toList,
        Sld.write_executable (Sld.apply_relocations (Sld.layout_sections Sld.stateCallingFoo))) :=
  (undefined_symbol_is_warned (Sld.twoFiles Sld.callingFoo [])
    ["sld_enhanced".toList, "-o".toList, "prog".toList, "a.o".toList] "prog".toList "a.o".toList []
    Sld.stateCallingFoo 0 ⟨1, 0, 2, -4, 0⟩ rfl Sld.objectLoop_callingFoo (by decide)
    (by decide) (by decide) (by decide) (by decide)).2

end SmallC

namespace SmallC

end SmallC

namespace SmallC

/-- C28: after `a.o` (five bytes of code, `foo` at offset 0) and `b.o`
(three bytes of code, `bar` at offset 2, a relocation at offset 1) the
section `.text` has size 8 and the buffer holds the bytes 1 to 5 of `a.o`
directly followed by the bytes 6, 7, 8 of `b.o`, without padding; `bar` is
recorded with the value 2 and the relocation with the offset 1, as `b.o`
gives them. -/
theorem ingest_does_not_account_for_concatenation :
    (Sld.objectLoop (Sld.twoFiles (Sld.testObject [1, 2, 3, 4, 5] "foo" 1 0 [])
        (Sld.testObject [6, 7, 8] "bar" 1 2 [(1, 2, 0, -4)]))
      ["a.o".toList, "b.o".toList] Sld.initState).map
        (fun r => (r.1.sections, r.1.symbols, r.1.relocs, r.2)) =
      some ([⟨".text".toList, 1, 6, 0, 8, 0, 16, 0⟩],
        [⟨"foo".toList, 0, 0, 0, 2, 1, 1⟩, ⟨"bar".toList, 2, 0, 0, 2, 1, 1⟩],
        [⟨1, 0, 2, -4, 0⟩], 0) ∧
    (Sld.objectLoop (Sld.twoFiles (Sld.testObject [1, 2, 3, 4, 5] "foo" 1 0 [])
        (Sld.testObject [6, 7, 8] "bar" 1 2 [(1, 2, 0, -4)]))
      ["a.o".toList, "b.o".toList] Sld.initState).map
        (fun r => (r.1.output, r.1.output_size)) =
      some ([1, 2, 3, 4, 5, 6, 7, 8, 0, 0, 0, 0, 0, 0, 0, 0, 0, 0, 0, 0, 0, 0, 0, 0, 0, 0, 0, 0,
        0, 0, 0, 0], 32) := by
  rw [Sld.object_defining_foo, Sld.object_defining_bar]
  exact ⟨Sld.objectLoop_two_objects, Sld.objectLoop_two_objects_output⟩

end SmallC

namespace SmallC

namespace SldWin

theorem pe_readByte_write_u64_ne (a : List Nat) (off : Nat) (v : Int) (j : Nat)
    (h : j < off ∨ off + 8 ≤ j) : Sld.readByte (write_u64 a off v) j = Sld.readByte a j := by
  unfold write_u64
  rw [Sld.readByte_write_u32_ne _ _ _ _ (by omega), Sld.readByte_write_u32_ne _ _ _ _ (by omega)]

/-- The eight bytes that `write_u64` stores are the four bytes of the `int` and four zero bytes. -/
theorem pe_readBytes_write_u64 (a : List Nat) (off : Nat) (v : Int) :
    Sld.readBytes (write_u64 a off v) off 8 = Sld.le32 v ++ [0, 0, 0, 0] := by
  simp [Sld.readBytes, write_u64, Sld.write_u32, Sld.readByte_writeBytes, Sld.le32,
    List.range_succ]

theorem pe_length_write_u64 (a : List Nat) (off : Nat) (v : Int) :
    (write_u64 a off v).length = max a.length (off + 8) := by
  unfold write_u64
  rw [Sld.length_write_u32, Sld.length_write_u32]
  omega

theorem length_name8 (name : Str) : (name8 name).length = 8 := by
  unfold name8
  rw [List.length_append, List.length_map, List.length_take, List.length_replicate]
  omega

/-- The bytes 176 to 183 of the header before the section loop are those
that `write_u64` stored for `IMAGE_BASE`. -/
theorem fixedHeader_image_base (w : List Nat → Nat → Int → List Nat) (s : State) :
    Sld.readBytes (fixedHeader w s) 176 8 = Sld.le32 (Scc.wrap32 IMAGE_BASE) ++ [0, 0, 0, 0] := by
  unfold fixedHeader
  simp only []
  generalize Sld.write_u32 _ (0x98 + 20) 0x1000 = x
  rw [← pe_readBytes_write_u64 x 176 (Scc.wrap32 IMAGE_BASE)]
  apply Sld.readBytes_congr
  intro j h1 h2
  rw [Sld.readByte_write_u32_ne _ _ _ _ (by omega), Sld.readByte_write_u32_ne _ _ _ _ (by omega),
    pe_readByte_write_u64_ne _ _ _ _ (by omega), pe_readByte_write_u64_ne _ _ _ _ (by omega),
    pe_readByte_write_u64_ne _ _ _ _ (by omega), pe_readByte_write_u64_ne _ _ _ _ (by omega),
    Sld.readByte_write_u16_ne _ _ _ _ (by omega), Sld.readByte_write_u16_ne _ _ _ _ (by omega),
    Sld.readByte_write_u32_ne _ _ _ _ (by omega), Sld.readByte_write_u32_ne _ _ _ _ (by omega),
    Sld.readByte_write_u32_ne _ _ _ _ (by omega), Sld.readByte_write_u32_ne _ _ _ _ (by omega),
    Sld.readByte_write_u16_ne _ _ _ _ (by omega), Sld.readByte_write_u16_ne _ _ _ _ (by omega),
    Sld.readByte_write_u16_ne _ _ _ _ (by omega), Sld.readByte_write_u16_ne _ _ _ _ (by omega),
    Sld.readByte_write_u32_ne _ _ _ _ (by omega), Sld.readByte_write_u32_ne _ _ _ _ (by omega)]

theorem le_length_fixedHeader (w : List Nat → Nat → Int → List Nat) (s : State) :
    268 ≤ (fixedHeader w s).length := by
  unfold fixedHeader
  simp only []
  rw [Sld.length_write_u32]
  omega

/-- The section loop writes at the offset `sect` and behind it, and it does not shorten the header. -/
theorem sectionHeaders_low (is : List Nat) (v : HeaderLoop) :
    v.header.length ≤ (sectionHeaders is v).header.length ∧
    ∀ j, j < v.sect → Sld.readByte (sectionHeaders is v).header j = Sld.readByte v.header j := by
  induction is generalizing v with
  | nil => exact ⟨Nat.le_refl _, fun _ _ => rfl⟩
  | cons i is ih =>
    have hn : name8 (v.state.section_names.getD i []) ≠ [] := by
      intro h
      have := length_name8 (v.state.section_names.getD i [])
      rw [h] at this
      simp at this
    have hb : ∀ j, j < v.sect →
        Sld.readByte (Sld.writeBytes v.header v.sect (name8 (v.state.section_names.getD i []))) j =
          Sld.readByte v.header j := by
      intro j hj
      rw [Sld.readByte_writeBytes, if_neg (by omega)]
    rw [sectionHeaders]
    simp only []
    split
    · refine ⟨Nat.le_trans ?_ (ih _).1, fun j hj => ?_⟩
      · simp only [Sld.length_write_u32, Sld.length_writeBytes _ _ _ hn]
        omega
      · rw [(ih _).2 j (by simp only []; omega)]
        simp only []
        rw [Sld.readByte_write_u32_ne _ _ _ _ (by omega),
          Sld.readByte_write_u32_ne _ _ _ _ (by omega),
          Sld.readByte_write_u32_ne _ _ _ _ (by omega),
          Sld.readByte_write_u32_ne _ _ _ _ (by omega),
          Sld.readByte_write_u32_ne _ _ _ _ (by omega), hb j hj]
    · refine ⟨Nat.le_trans ?_ (ih _).1, fun j hj => ?_⟩
      · simp only [Sld.length_write_u32, Sld.length_writeBytes _ _ _ hn]
        omega
      · rw [(ih _).2 j (by simp only []; omega)]
        simp only []
        rw [Sld.readByte_write_u32_ne _ _ _ _ (by omega),
          Sld.readByte_write_u32_ne _ _ _ _ (by omega),
          Sld.readByte_write_u32_ne _ _ _ _ (by omega), hb j hj]

/-- The bytes of the file below offset 268 are those of the header before the section loop. -/
theorem readByte_write_pe (w : List Nat → Nat → Int → List Nat) (f : Str) (s : State) (j : Nat)
    (h : j < 268) : Sld.readByte (write_pe w f s).1 j = Sld.readByte (fixedHeader w s) j := by
  have h1 := sectionHeaders_low (List.range s.section_names.length)
    ⟨fixedHeader w s, 0x188, 0x400, 0x1000, s⟩
  have h2 := le_length_fixedHeader w s
  simp only [] at h1
  unfold write_pe
  simp only []
  rw [← h1.2 j (by omega)]
  unfold Sld.readByte
  rw [List.getD_eq_getElem?_getD, List.getD_eq_getElem?_getD,
    List.getElem?_append_left (by rw [List.length_take]; omega),
    List.getElem?_take_of_lt (by omega)]

end SldWin

/-- C30: in the file that `write_pe` of `sld_win_x64.c` writes, the eight
bytes of the field ImageBase (offset 24 of the optional header, which starts
at 0x98) are 00 00 00 40 00 00 00 00, the encoding of 0x40000000, where
0x140000000 is encoded as 00 00 00 40 01 00 00 00; and an ADDR64 relocation
stores the four low bytes of its target followed by four zero bytes: for a
defined symbol with value 0 in a section at RVA 0x1000 it stores
00 10 00 40 00 00 00 00, where 0x140001000 is encoded as
00 10 00 40 01 00 00 00. -/
theorem image_base_upper_half_is_lost (w : List Nat → Nat → Int → List Nat) (f : Str)
    (s : SldWin.State) (r : SldWin.Reloc) :
    Sld.readBytes (SldWin.write_pe w f s).1 (0x98 + 24) 8 = [0, 0, 0, 64, 0, 0, 0, 0] ∧
    Sld.le64 SldWin.IMAGE_BASE = [0, 0, 0, 64, 1, 0, 0, 0] ∧
    Sld.readBytes
        (SldWin.applyReloc { r with type := SldWin.IMAGE_REL_AMD64_ADDR64 } s).output
        (SldWin.locOf r s) 8 =
      Sld.le32 (SldWin.targetOf r s) ++ [0, 0, 0, 0] ∧
    (SldWin.applyReloc ⟨0, 0, SldWin.IMAGE_REL_AMD64_ADDR64, 0⟩
      { section_names := [".text".toList], section_sizes := [8], section_rvas := [0x1000],
        section_file_offsets := [0], section_characteristics := [0x60000020],
        section_data := [0], symbol_names := ["main".toList], symbol_values := [0],
        symbol_sections := [0], symbol_defined := [1], relocs := [],
        output := [0, 0, 0, 0, 0, 0, 0, 0], output_size := 16, stdout := [] }).output =
      [0, 16, 0, 64, 0, 0, 0, 0] ∧
    Sld.le64 (SldWin.IMAGE_BASE + 0x1000 + 0) = [0, 16, 0, 64, 1, 0, 0, 0] := by
  refine ⟨?_, by decide, ?_, by decide, by decide⟩
  · have h := SldWin.fixedHeader_image_base w s
    have e : Sld.le32 (Scc.wrap32 SldWin.IMAGE_BASE) ++ [0, 0, 0, 0] =
        [0, 0, 0, 64, 0, 0, 0, 0] := by decide
    rw [e] at h
    rw [← h]
    apply Sld.readBytes_congr
    intro j h1 h2
    exact SldWin.readByte_write_pe w f s j (by omega)
  · exact SldWin.pe_readBytes_write_u64 s.output (SldWin.locOf r s) (SldWin.targetOf r s)

end SmallC

namespace SmallC

/-- C29: the linker is run on `a.o`, which calls `main` without defining
it, and `b.o`, which defines `main`.  The symbol table then holds `main` at
index 0 with the flag `defined` set and the section index -1 of the
reference, and no `_start`; the section table has one element.  So
`write_executable` takes the branch for `main` and computes the entry address
from `sections[-1]`, an element in front of the array, and not from the
section and value of the definition of `main`; the run prints the success
line and returns 0. -/
theorem entry_symbol_keeps_section_of_reference :
    (Sld.objectLoop (Sld.twoFiles (Sld.testObject [232, 0, 0, 0, 0, 195] "main" 0 0 [(1, 2, 0, -4)])
        (Sld.testObject [6, 7, 8] "main" 1 2 []))
      ["a.o".toList, "b.o".toList] Sld.initState).map
        (fun r => (Sld.find_symbol "_start".toList r.1, Sld.find_symbol "main".toList r.1,
          r.1.symbols, r.1.sections.length, r.2)) =
      some (-1, 0, [⟨"main".toList, 0, 0, -1, 2, 1, 1⟩], 1, 0) ∧
    (Sld.main (Sld.twoFiles (Sld.testObject [232, 0, 0, 0, 0, 195] "main" 0 0 [(1, 2, 0, -4)])
        (Sld.testObject [6, 7, 8] "main" 1 2 []))
      ["sld_enhanced".toList, "a.o".toList, "b.o".toList]).map
        (fun r => (r.status, r.stdout, r.written.map fun w => w.1)) =
      some (0, "Linked a.out successfully (1 sections, 1 symbols)\n".toList,
        some "a.out".toList) := by
  rw [Sld.object_calling_main, Sld.object_defining_main]
  exact ⟨Sld.objectLoop_late_main, Sld.main_late_main⟩

end SmallC

namespace SmallC

set_option maxRecDepth 100000 in
/-- C33: the loops of `substitute` and `expandmacro` end for every macro
table, every content of the argument array, every line and every
function-like definition, also with `#define X X` and with macros that name
each other, since every round goes on with a strictly shorter rest of the
text and the replacement text is never read again; but the run need not
return: the stores into `newline[MAXLINE * 2]` and `expanded[MAXVALUESIZE * 2]`
are not guarded, and five uses of a macro of 255 characters on one line, or
nine uses of a parameter bound to 63 characters, store behind the end of
those arrays.  A run that stays inside the arrays returns the text given by
`substitute`. -/
theorem substitution_ends_or_overruns (T : Sppe.Table) (junk : Sppe.Args) (line : Str)
    (d : Sppe.MacroDef) (args : Sppe.Args) (hd : 0 ≤ d.nparams) :
    Sppe.substituteSized T junk line ≠ .hang ∧
    Sppe.expandmacroSized d args ≠ .hang ∧
    (∀ r, Sppe.substituteSized T junk line = .ok r → Sppe.substitute T junk line = some r) ∧
    Sppe.substituteSized [⟨"X".toList, "X".toList, -1, []⟩] junk "X".toList = .ok "X".toList ∧
    Sppe.substituteSized [⟨"A".toList, "B".toList, -1, []⟩, ⟨"B".toList, "A".toList, -1, []⟩] junk
      "A B".toList = .ok "B A".toList ∧
    Sppe.substituteSized [⟨"X".toList, List.replicate 255 'a', -1, []⟩] junk "X X X X X".toList =
      .overrun ∧
    Sppe.substituteSized [⟨"F".toList, "x x x x x x x x x".toList, 1, ["x".toList]⟩] junk
      ("F(".toList ++ List.replicate 63 'b' ++ ")".toList) = .overrun :=
  ⟨Sppe.substituteSized_ne_hang T junk line, Sppe.expandmacroSized_ne_hang d args hd,
    fun r h => Sppe.substituteSized_ok T junk line r h, rfl, rfl, rfl, rfl⟩

theorem substitution_ends_or_overruns_witness :
    (0 : Int) ≤ (⟨"ADD".toList, "((x)+(y))".toList, 2, ["x".toList, "y".toList]⟩ : Sppe.MacroDef).nparams ∧
    Sppe.substituteSized [⟨"ADD".toList, "((x)+(y))".toList, 2, ["x".toList, "y".toList]⟩]
      (fun _ => []) "return ADD(3,4);".toList = .ok "return ((3)+(4));".toList ∧
    Sppe.expandmacroSized ⟨"ADD".toList, "((x)+(y))".toList, 2, ["x".toList, "y".toList]⟩
      (fun i => if i = 0 then "3".toList else "4".toList) = .ok "((3)+(4))".toList ∧
    Sppe.expandmacroSized ⟨"ADD".toList, "((x)+(y))".toList, 2, ["x".toList, "y".toList]⟩
      (fun i => if i = 0 then "3".toList else "4".toList) ≠ .hang ∧
    Sppe.substitute [⟨"ADD".toList, "((x)+(y))".toList, 2, ["x".toList, "y".toList]⟩]
      (fun _ => []) "return ADD(3,4);".toList = some "return ((3)+(4));".toList :=
  ⟨by decide, by decide, by decide,
    (substitution_ends_or_overruns
      [⟨"ADD".toList, "((x)+(y))".toList, 2, ["x".toList, "y".toList]⟩] (fun _ => [])
      "return ADD(3,4);".toList ⟨"ADD".toList, "((x)+(y))".toList, 2, ["x".toList, "y".toList]⟩
      (fun i => if i = 0 then "3".toList else "4".toList) (by decide)).2.1,
    (substitution_ends_or_overruns
      [⟨"ADD".toList, "((x)+(y))".toList, 2, ["x".toList, "y".toList]⟩] (fun _ => [])
      "return ADD(3,4);".toList ⟨"ADD".toList, "((x)+(y))".toList, 2, ["x".toList, "y".toList]⟩
      (fun i => if i = 0 then "3".toList else "4".toList) (by decide)).2.2.1 _ (by decide)⟩

end SmallC

namespace SmallC

namespace SasE

/-- The name at position `d` of the table `x64_regs_64`. -/
theorem regIndex_64 : ∀ d : Fin 16,
    regIndex (x64_regs_64.getD d "").toList x64_regs_64 = (d : Int) ∧
    digitAt (x64_regs_64.getD d "").toList 0 = false ∧
    (x64_regs_64.getD d "").toList.head? ≠ some '-' ∧
    (x64_regs_64.getD d "").toList.head? ≠ some '$' := by
  decide

/-- The name at position `d` of the table `x64_regs_32`. -/
theorem regIndex_32 : ∀ d : Fin 16,
    regIndex (x64_regs_32.getD d "").toList x64_regs_64 = -1 ∧
    regIndex (x64_regs_32.getD d "").toList x64_regs_32 = (d : Int) ∧
    digitAt (x64_regs_32.getD d "").toList 0 = false ∧
    (x64_regs_32.getD d "").toList.head? ≠ some '-' ∧
    (x64_regs_32.getD d "").toList.head? ≠ some '$' := by
  decide

/-- The REX prefix and the ModR/M byte that the register branch computes. -/
theorem mov_bytes : ∀ d s : Fin 16,
    (if 8 ≤ ((d : Nat) : Int) then
        bor (if 8 ≤ ((s : Nat) : Int) then bor (bor 64 8) 4 else bor 64 8) 1
      else (if 8 ≤ ((s : Nat) : Int) then bor (bor 64 8) 4 else bor 64 8)) =
      72 + (if 8 ≤ (s : Nat) then 4 else 0) + (if 8 ≤ (d : Nat) then 1 else 0) ∧
    (if 8 ≤ ((d : Nat) : Int) then
        bor (if 8 ≤ ((s : Nat) : Int) then bor 64 4 else 64) 1
      else (if 8 ≤ ((s : Nat) : Int) then bor 64 4 else 64)) =
      64 + (if 8 ≤ (s : Nat) then 4 else 0) + (if 8 ≤ (d : Nat) then 1 else 0) ∧
    bor (bor 192 (shl (band ((s : Nat) : Int) 7) 3)) (band ((d : Nat) : Int) 7) =
      192 + (((s : Nat) % 8 * 8 + (d : Nat) % 8 : Nat) : Int) := by
  decide

end SasE

end SmallC

namespace SmallC

namespace SasE

/-- After `emit_byte` the current section is one byte longer. -/
theorem emit_byte_section (b : Int) (st : State) (x : Section)
    (hx : st.sections.get? st.current_section.toNat = some x) :
    (emit_byte b st).sections.get? (emit_byte b st).current_section.toNat =
      some { x with size := x.size + 1 } ∧
    (emit_byte b st).output =
      writeByte st.output (x.data + x.size.toNat) (b % 256).toNat := by
  have hl : st.current_section.toNat < st.sections.length := by
    rw [List.get?_eq_getElem?] at hx
    exact (List.getElem?_eq_some_iff.mp hx).1
  have e : emit_byte b st =
      { st with output := writeByte st.output (x.data + x.size.toNat) (b % 256).toNat,
                sections := st.sections.set st.current_section.toNat { x with size := x.size + 1 },
                output_size := st.output_size + 1 } := by
    simp only [emit_byte, hx]
  rw [e]
  refine ⟨?_, rfl⟩
  simp only []
  rw [List.get?_eq_getElem?, List.getElem?_set_self hl]

theorem curSize_eq (st : State) (x : Section)
    (hx : st.sections.get? st.current_section.toNat = some x) : curSize st = x.size := by
  simp only [curSize, hx]

/-- Three calls of `emit_byte` make the current section three bytes longer. -/
theorem curSize_emit3 (a b c : Int) (st : State) (x : Section)
    (hx : st.sections.get? st.current_section.toNat = some x) :
    curSize (emit_byte c (emit_byte b (emit_byte a st))) = x.size + 3 := by
  obtain ⟨g1, _⟩ := emit_byte_section a st x hx
  obtain ⟨g2, _⟩ := emit_byte_section b _ _ g1
  obtain ⟨g3, _⟩ := emit_byte_section c _ _ g2
  rw [curSize_eq _ _ g3]
  show x.size + 1 + 1 + 1 = x.size + 3
  omega

theorem getD_writeByte (a : List Nat) (i v j : Nat) :
    (writeByte a i v).getD j 0 = if j = i then v else a.getD j 0 := by
  unfold writeByte
  rw [List.getD_eq_getElem?_getD, List.getD_eq_getElem?_getD, List.getElem?_set]
  by_cases h : i = j
  · subst h
    have : i < a.length + (i + 1 - a.length) := by omega
    simp [this]
  · have h' : ¬ j = i := fun e => h e.symm
    simp only [h, h', if_false]
    by_cases hj : j < a.length
    · rw [List.getElem?_append_left hj]
    · rw [List.getElem?_append_right (by omega), List.getElem?_replicate]
      have : a[j]? = none := List.getElem?_eq_none (by omega)
      rw [this]
      split <;> rfl

/-- The bytes that two calls of `emit_byte` store in the buffer `output`:
they stand at the end of the current section, and no other byte changes. -/
theorem output_emit2 (a b : Int) (st : State) (x : Section)
    (hx : st.sections.get? st.current_section.toNat = some x) (hsize : 0 ≤ x.size) :
    (emit_byte b (emit_byte a st)).output.getD (x.data + x.size.toNat) 0 = (a % 256).toNat ∧
    (emit_byte b (emit_byte a st)).output.getD (x.data + x.size.toNat + 1) 0 = (b % 256).toNat ∧
    ∀ j, j < x.data + x.size.toNat ∨ x.data + x.size.toNat + 2 ≤ j →
      (emit_byte b (emit_byte a st)).output.getD j 0 = st.output.getD j 0 := by
  obtain ⟨g1, o1⟩ := emit_byte_section a st x hx
  obtain ⟨g2, o2⟩ := emit_byte_section b _ _ g1
  have e1 : x.data + (x.size + 1).toNat = x.data + x.size.toNat + 1 := by omega
  simp only [] at o2
  rw [o2, o1, e1]
  refine ⟨?_, ?_, ?_⟩
  · rw [getD_writeByte, if_neg (by omega), getD_writeByte, if_pos rfl]
  · rw [getD_writeByte, if_pos rfl]
  · intro j hj
    rw [getD_writeByte, if_neg (by omega), getD_writeByte, if_neg (by omega)]

/-- The bytes that three calls of `emit_byte` store in the buffer `output`. -/
theorem output_emit3 (a b c : Int) (st : State) (x : Section)
    (hx : st.sections.get? st.current_section.toNat = some x) (hsize : 0 ≤ x.size) :
    (emit_byte c (emit_byte b (emit_byte a st))).output.getD (x.data + x.size.toNat) 0 =
      (a % 256).toNat ∧
    (emit_byte c (emit_byte b (emit_byte a st))).output.getD (x.data + x.size.toNat + 1) 0 =
      (b % 256).toNat ∧
    (emit_byte c (emit_byte b (emit_byte a st))).output.getD (x.data + x.size.toNat + 2) 0 =
      (c % 256).toNat ∧
    ∀ j, j < x.data + x.size.toNat ∨ x.data + x.size.toNat + 3 ≤ j →
      (emit_byte c (emit_byte b (emit_byte a st))).output.getD j 0 = st.output.getD j 0 := by
  obtain ⟨g1, o1⟩ := emit_byte_section a st x hx
  obtain ⟨g2, o2⟩ := emit_byte_section b _ _ g1
  obtain ⟨g3, o3⟩ := emit_byte_section c _ _ g2
  have e1 : x.data + (x.size + 1).toNat = x.data + x.size.toNat + 1 := by omega
  have e2 : x.data + (x.size + 1 + 1).toNat = x.data + x.size.toNat + 2 := by omega
  simp only [] at o2 o3
  rw [o3, o2, o1, e1, e2]
  refine ⟨?_, ?_, ?_, ?_⟩
  · rw [getD_writeByte, if_neg (by omega), getD_writeByte, if_neg (by omega), getD_writeByte,
      if_pos rfl]
  · rw [getD_writeByte, if_neg (by omega), getD_writeByte, if_pos rfl]
  · rw [getD_writeByte, if_pos rfl]
  · intro j hj
    rw [getD_writeByte, if_neg (by omega), getD_writeByte, if_neg (by omega), getD_writeByte,
      if_neg (by omega)]

/-- The bytes of the claim as values between 0 and 255. -/
theorem mov_byte_values : ∀ d s : Fin 16,
    (((72 : Int) + (if 8 ≤ (s : Nat) then 4 else 0) + (if 8 ≤ (d : Nat) then 1 else 0)) %
        256).toNat =
      72 + (if 8 ≤ (s : Nat) then 4 else 0) + (if 8 ≤ (d : Nat) then 1 else 0) ∧
    (((64 : Int) + (if 8 ≤ (s : Nat) then 4 else 0) + (if 8 ≤ (d : Nat) then 1 else 0)) %
        256).toNat =
      64 + (if 8 ≤ (s : Nat) then 4 else 0) + (if 8 ≤ (d : Nat) then 1 else 0) ∧
    (((192 : Int) + (((s : Nat) % 8 * 8 + (d : Nat) % 8 : Nat) : Int)) % 256).toNat =
      192 + ((s : Nat) % 8 * 8 + (d : Nat) % 8) := by
  decide

end SasE

/-- C34: for the 64-bit registers number `d` and `s` of the table,
`encode_x64_mov(dst, src)` emits the three bytes REX
`0x48 | (4 if s >= 8) | (1 if d >= 8)`, `0x89` and ModR/M
`0xC0 | ((s & 7) << 3) | (d & 7)`, and the current section grows by 3; for the
32-bit registers it emits the REX prefix without W, `0x40 | ...`, unless both
numbers are below 8, in which case only `0x89` and the ModR/M byte are
emitted.  The bytes stand in the buffer `output` at the end of the current
section (index `data + size`), in this order, and no other byte of `output`
changes. -/
theorem mov_register_encoding (d s : Fin 16) (st : SasE.State) (x : SasE.Section)
    (hx : st.sections.get? st.current_section.toNat = some x) (hsize : 0 ≤ x.size) :
    SasE.encode_x64_mov (SasE.x64_regs_64.getD d "").toList (SasE.x64_regs_64.getD s "").toList
        st =
      SasE.emit_byte (192 + (((s : Nat) % 8 * 8 + (d : Nat) % 8 : Nat) : Int))
        (SasE.emit_byte 137
          (SasE.emit_byte
            (72 + (if 8 ≤ (s : Nat) then 4 else 0) + (if 8 ≤ (d : Nat) then 1 else 0)) st)) ∧
    SasE.curSize (SasE.encode_x64_mov (SasE.x64_regs_64.getD d "").toList
      (SasE.x64_regs_64.getD s "").toList st) = x.size + 3 ∧
    SasE.encode_x64_mov (SasE.x64_regs_32.getD d "").toList (SasE.x64_regs_32.getD s "").toList
        st =
      (if (d : Nat) < 8 ∧ (s : Nat) < 8 then
        SasE.emit_byte (192 + (((s : Nat) % 8 * 8 + (d : Nat) % 8 : Nat) : Int))
          (SasE.emit_byte 137 st)
      else
        SasE.emit_byte (192 + (((s : Nat) % 8 * 8 + (d : Nat) % 8 : Nat) : Int))
          (SasE.emit_byte 137
            (SasE.emit_byte
              (64 + (if 8 ≤ (s : Nat) then 4 else 0) + (if 8 ≤ (d : Nat) then 1 else 0)) st))) ∧
    ((SasE.encode_x64_mov (SasE.x64_regs_64.getD d "").toList
        (SasE.x64_regs_64.getD s "").toList st).output.getD (x.data + x.size.toNat) 0 =
        72 + (if 8 ≤ (s : Nat) then 4 else 0) + (if 8 ≤ (d : Nat) then 1 else 0) ∧
      (SasE.encode_x64_mov (SasE.x64_regs_64.getD d "").toList
        (SasE.x64_regs_64.getD s "").toList st).output.getD (x.data + x.size.toNat + 1) 0 =
        137 ∧
      (SasE.encode_x64_mov (SasE.x64_regs_64.getD d "").toList
        (SasE.x64_regs_64.getD s "").toList st).output.getD (x.data + x.size.toNat + 2) 0 =
        192 + ((s : Nat) % 8 * 8 + (d : Nat) % 8) ∧
      ∀ j, j < x.data + x.size.toNat ∨ x.data + x.size.toNat + 3 ≤ j →
        (SasE.encode_x64_mov (SasE.x64_regs_64.getD d "").toList
          (SasE.x64_regs_64.getD s "").toList st).output.getD j 0 = st.output.getD j 0) ∧
    (¬ ((d : Nat) < 8 ∧ (s : Nat) < 8) →
      (SasE.encode_x64_mov (SasE.x64_regs_32.getD d "").toList
        (SasE.x64_regs_32.getD s "").toList st).output.getD (x.data + x.size.toNat) 0 =
        64 + (if 8 ≤ (s : Nat) then 4 else 0) + (if 8 ≤ (d : Nat) then 1 else 0) ∧
      (SasE.encode_x64_mov (SasE.x64_regs_32.getD d "").toList
        (SasE.x64_regs_32.getD s "").toList st).output.getD (x.data + x.size.toNat + 1) 0 =
        137 ∧
      (SasE.encode_x64_mov (SasE.x64_regs_32.getD d "").toList
        (SasE.x64_regs_32.getD s "").toList st).output.getD (x.data + x.size.toNat + 2) 0 =
        192 + ((s : Nat) % 8 * 8 + (d : Nat) % 8) ∧
      ∀ j, j < x.data + x.size.toNat ∨ x.data + x.size.toNat + 3 ≤ j →
        (SasE.encode_x64_mov (SasE.x64_regs_32.getD d "").toList
          (SasE.x64_regs_32.getD s "").toList st).output.getD j 0 = st.output.getD j 0) ∧
    ((d : Nat) < 8 ∧ (s : Nat) < 8 →
      (SasE.encode_x64_mov (SasE.x64_regs_32.getD d "").toList
        (SasE.x64_regs_32.getD s "").toList st).output.getD (x.data + x.size.toNat) 0 = 137 ∧
      (SasE.encode_x64_mov (SasE.x64_regs_32.getD d "").toList
        (SasE.x64_regs_32.getD s "").toList st).output.getD (x.data + x.size.toNat + 1) 0 =
        192 + ((s : Nat) % 8 * 8 + (d : Nat) % 8) ∧
      ∀ j, j < x.data + x.size.toNat ∨ x.data + x.size.toNat + 2 ≤ j →
        (SasE.encode_x64_mov (SasE.x64_regs_32.getD d "").toList
          (SasE.x64_regs_32.getD s "").toList st).output.getD j 0 = st.output.getD j 0) := by
  obtain ⟨d1, d2, d3, d4⟩ := SasE.regIndex_64 d
  obtain ⟨s1, s2, s3, s4⟩ := SasE.regIndex_64 s
  obtain ⟨e1, e2, e3, e4, e5⟩ := SasE.regIndex_32 d
  obtain ⟨f1, f2, f3, f4, f5⟩ := SasE.regIndex_32 s
  obtain ⟨b1, b2, b3⟩ := SasE.mov_bytes d s
  have hd0 : (0 : Int) ≤ ((d : Nat) : Int) := Int.ofNat_nonneg _
  have hs0 : (0 : Int) ≤ ((s : Nat) : Int) := Int.ofNat_nonneg _
  have h64 : SasE.encode_x64_mov (SasE.x64_regs_64.getD d "").toList
      (SasE.x64_regs_64.getD s "").toList st =
      SasE.emit_byte (192 + (((s : Nat) % 8 * 8 + (d : Nat) % 8 : Nat) : Int))
        (SasE.emit_byte 137
          (SasE.emit_byte
            (72 + (if 8 ≤ (s : Nat) then 4 else 0) + (if 8 ≤ (d : Nat) then 1 else 0)) st)) := by
    have hne : (72 : Int) + (if 8 ≤ (s : Nat) then 4 else 0) + (if 8 ≤ (d : Nat) then 1 else 0) ≠
        64 := by
      split_ifs <;> omega
    unfold SasE.encode_x64_mov
    simp only [d1, s1, d2, s2, d3, s3, d4, s4, hd0, hs0, if_true, or_self, if_false, and_self]
    rw [← b3]
    by_cases hd8 : (8 : Int) ≤ ((d : Nat) : Int) <;> by_cases hs8 : (8 : Int) ≤ ((s : Nat) : Int)
    all_goals simp only [hd8, hs8, if_true, if_false] at b1 ⊢
    all_goals rw [b1]
    all_goals simp only [hne, ne_eq, not_false_eq_true, if_true, Bool.false_eq_true, or_false,
      if_false]
  have h32e : SasE.encode_x64_mov (SasE.x64_regs_32.getD d "").toList
      (SasE.x64_regs_32.getD s "").toList st =
      (if (d : Nat) < 8 ∧ (s : Nat) < 8 then
        SasE.emit_byte (192 + (((s : Nat) % 8 * 8 + (d : Nat) % 8 : Nat) : Int))
          (SasE.emit_byte 137 st)
      else
        SasE.emit_byte (192 + (((s : Nat) % 8 * 8 + (d : Nat) % 8 : Nat) : Int))
          (SasE.emit_byte 137
            (SasE.emit_byte
              (64 + (if 8 ≤ (s : Nat) then 4 else 0) + (if 8 ≤ (d : Nat) then 1 else 0)) st))) := by
    clear b1
    have hm1 : ¬ (0 : Int) ≤ -1 := by decide
    have h32 : ¬ (32 : Int) = 64 := by decide
    unfold SasE.encode_x64_mov
    simp only [e1, f1, e2, f2, e3, f3, e4, f4, e5, f5, hd0, hs0, hm1, if_true, or_self,
      if_false, and_self, Bool.false_eq_true, or_false]
    simp only [if_neg h32]
    rw [← b3]
    have k1 : SasE.bor 64 4 = 68 := by decide
    have k2 : SasE.bor 68 1 = 69 := by decide
    have k3 : SasE.bor 64 1 = 65 := by decide
    clear b2 b3 e1 e2 e3 e4 e5 f1 f2 f3 f4 f5 d1 d2 d3 d4 s1 s2 s3 s4 hx h64
    by_cases hd8 : 8 ≤ (d : Nat) <;> by_cases hs8 : 8 ≤ (s : Nat)
    · have hc : ¬ ((d : Nat) < 8 ∧ (s : Nat) < 8) := by omega
      have hd : (8 : Int) ≤ ((d : Nat) : Int) := by omega
      have hs : (8 : Int) ≤ ((s : Nat) : Int) := by omega
      have n1 : (69 : Int) ≠ 64 := by decide
      have n2 : (64 : Int) + 4 + 1 = 69 := by decide
      simp only [if_neg hc, if_pos hd, if_pos hs, if_pos hd8, if_pos hs8, k1, k2, if_pos n1, n2]
    · have hc : ¬ ((d : Nat) < 8 ∧ (s : Nat) < 8) := by omega
      have hd : (8 : Int) ≤ ((d : Nat) : Int) := by omega
      have hs : ¬ (8 : Int) ≤ ((s : Nat) : Int) := by omega
      have n1 : (65 : Int) ≠ 64 := by decide
      have n2 : (64 : Int) + 0 + 1 = 65 := by decide
      simp only [if_neg hc, if_pos hd, if_neg hs, if_pos hd8, if_neg hs8, k3, if_pos n1, n2]
    · have hc : ¬ ((d : Nat) < 8 ∧ (s : Nat) < 8) := by omega
      have hd : ¬ (8 : Int) ≤ ((d : Nat) : Int) := by omega
      have hs : (8 : Int) ≤ ((s : Nat) : Int) := by omega
      have n1 : (68 : Int) ≠ 64 := by decide
      have n2 : (64 : Int) + 4 + 0 = 68 := by decide
      simp only [if_neg hc, if_neg hd, if_pos hs, if_neg hd8, if_pos hs8, k1, if_pos n1, n2]
    · have hc : (d : Nat) < 8 ∧ (s : Nat) < 8 := by omega
      have hd : ¬ (8 : Int) ≤ ((d : Nat) : Int) := by omega
      have hs : ¬ (8 : Int) ≤ ((s : Nat) : Int) := by omega
      simp only [if_pos hc, if_neg hd, if_neg hs, ne_eq, not_true_eq_false, if_false]
  obtain ⟨v1, v2, v3⟩ := SasE.mov_byte_values d s
  have v4 : (((137 : Int)) % 256).toNat = 137 := by decide
  refine ⟨h64, ?_, h32e, ?_, fun hc => ?_, fun hc => ?_⟩
  · rw [h64]
    exact SasE.curSize_emit3 _ _ _ st x hx
  · rw [h64]
    obtain ⟨o1, o2, o3, o4⟩ := SasE.output_emit3
      (72 + (if 8 ≤ (s : Nat) then 4 else 0) + (if 8 ≤ (d : Nat) then 1 else 0)) 137
      (192 + (((s : Nat) % 8 * 8 + (d : Nat) % 8 : Nat) : Int)) st x hx hsize
    rw [v1] at o1
    rw [v4] at o2
    rw [v3] at o3
    exact ⟨o1, o2, o3, o4⟩
  · rw [h32e, if_neg hc]
    obtain ⟨o1, o2, o3, o4⟩ := SasE.output_emit3
      (64 + (if 8 ≤ (s : Nat) then 4 else 0) + (if 8 ≤ (d : Nat) then 1 else 0)) 137
      (192 + (((s : Nat) % 8 * 8 + (d : Nat) % 8 : Nat) : Int)) st x hx hsize
    rw [v2] at o1
    rw [v4] at o2
    rw [v3] at o3
    exact ⟨o1, o2, o3, o4⟩
  · rw [h32e, if_pos hc]
    obtain ⟨o1, o2, o3⟩ := SasE.output_emit2 137
      (192 + (((s : Nat) % 8 * 8 + (d : Nat) % 8 : Nat) : Int)) st x hx hsize
    rw [v4] at o1
    rw [v3] at o2
    exact ⟨o1, o2, o3⟩

/-- C34 (witness): `mov rbx, r9` at the start of the section `.text` gives
the bytes 4C 89 CB in `output`. -/
theorem mov_register_encoding_witness :
    (SasE.startState 0 "a.s".toList).output = [] ∧
    SasE.encode_x64_mov "rbx".toList "r9".toList (SasE.startState 0 "a.s".toList) =
      SasE.emit_byte 203
        (SasE.emit_byte 137 (SasE.emit_byte 76 (SasE.startState 0 "a.s".toList))) ∧
    (SasE.encode_x64_mov "rbx".toList "r9".toList
      (SasE.startState 0 "a.s".toList)).output.getD 0 0 = 76 ∧
    (SasE.encode_x64_mov "rbx".toList "r9".toList
      (SasE.startState 0 "a.s".toList)).output.getD 1 0 = 137 ∧
    (SasE.encode_x64_mov "rbx".toList "r9".toList
      (SasE.startState 0 "a.s".toList)).output.getD 2 0 = 203 :=
  ⟨rfl,
    (mov_register_encoding 3 9 (SasE.startState 0 "a.s".toList) ⟨".text".toList, 0, 0, 1, 16, 0⟩
      (by decide) (by decide)).1,
    (mov_register_encoding 3 9 (SasE.startState 0 "a.s".toList) ⟨".text".toList, 0, 0, 1, 16, 0⟩
      (by decide) (by decide)).2.2.2.1.1,
    (mov_register_encoding 3 9 (SasE.startState 0 "a.s".toList) ⟨".text".toList, 0, 0, 1, 16, 0⟩
      (by decide) (by decide)).2.2.2.1.2.1,
    (mov_register_encoding 3 9 (SasE.startState 0 "a.s".toList) ⟨".text".toList, 0, 0, 1, 16, 0⟩
      (by decide) (by decide)).2.2.2.1.2.2.1⟩

end SmallC

namespace SmallC

set_option maxRecDepth 100000 in
/-- C35: after the lines `.data`, `.text`, `call foo`, `.data`,
`.byte 9, 9, 9` the relocation table holds one entry for section 0 (`.text`,
5 bytes) at offset 1, and the four bytes at that offset are 09 09 00 00, not
the zero placeholder: the sections `.text` and `.data` both start at index 0
of the buffer, and the bytes emitted into `.data` replaced those of the
call.  In arm64 mode the same lines with `bl foo` leave 09 09 09 94 where
the placeholder 00 00 00 94 was emitted. -/
theorem relocation_placeholder_is_overwritten :
    ((SasE.readLoop SasE.process_directive
        ".data\n.text\ncall foo\n".toList [] (SasE.startState 0 "a.s".toList)).output,
      (SasE.readLoop SasE.process_directive
        ".data\n.text\ncall foo\n".toList [] (SasE.startState 0 "a.s".toList)).relocs) =
      ([232, 0, 0, 0, 0], [⟨1, 0, 2, 0, -4⟩]) ∧
    ((SasE.readLoop SasE.process_directive
        ".data\n.text\ncall foo\n.data\n.byte 9, 9, 9\n".toList []
        (SasE.startState 0 "a.s".toList)).relocs,
      (SasE.readLoop SasE.process_directive
        ".data\n.text\ncall foo\n.data\n.byte 9, 9, 9\n".toList []
        (SasE.startState 0 "a.s".toList)).sections,
      (SasE.readLoop SasE.process_directive
        ".data\n.text\ncall foo\n.data\n.byte 9, 9, 9\n".toList []
        (SasE.startState 0 "a.s".toList)).output) =
      ([⟨1, 0, 2, 0, -4⟩],
        [⟨".text".toList, 0, 5, 1, 16, 0⟩, ⟨".data".toList, 0, 3, 2, 8, 0⟩], [9, 9, 9, 0, 0]) ∧
    ((SasE.readLoop SasE.process_directive
        ".data\n.text\nbl foo\n.data\n.byte 9, 9, 9\n".toList []
        (SasE.startState 1 "a.s".toList)).relocs,
      (SasE.readLoop SasE.process_directive
        ".data\n.text\nbl foo\n.data\n.byte 9, 9, 9\n".toList []
        (SasE.startState 1 "a.s".toList)).sections,
      (SasE.readLoop SasE.process_directive
        ".data\n.text\nbl foo\n.data\n.byte 9, 9, 9\n".toList []
        (SasE.startState 1 "a.s".toList)).output) =
      ([⟨0, 0, 283, 0, 0⟩],
        [⟨".text".toList, 0, 4, 1, 16, 0⟩, ⟨".data".toList, 0, 3, 2, 8, 0⟩], [9, 9, 9, 148]) := by
  refine ⟨?_, ?_, ?_⟩ <;> decide

set_option maxRecDepth 100000 in
/-- C36: after the lines `.byte 1`, `.byte 2`, `.data`, `.byte 3` the
buffer holds 01 02 03, with `.text` (2 bytes) at index 0 and `.data` (1 byte)
at index 2; after the further lines `.text`, `.byte 4` the buffer holds
01 02 04: the third byte of `.text` was stored at index 2, so the content of
`.data` is now 04, a byte emitted while `.text` was current. -/
theorem section_contents_are_overwritten :
    ((SasE.readLoop SasE.process_directive ".byte 1\n.byte 2\n.data\n.byte 3\n".toList []
        (SasE.startState 0 "a.s".toList)).sections,
      (SasE.readLoop SasE.process_directive ".byte 1\n.byte 2\n.data\n.byte 3\n".toList []
        (SasE.startState 0 "a.s".toList)).output) =
      ([⟨".text".toList, 0, 2, 1, 16, 0⟩, ⟨".data".toList, 0, 1, 2, 8, 2⟩], [1, 2, 3]) ∧
    ((SasE.readLoop SasE.process_directive
        ".byte 1\n.byte 2\n.data\n.byte 3\n.text\n.byte 4\n".toList []
        (SasE.startState 0 "a.s".toList)).sections,
      (SasE.readLoop SasE.process_directive
        ".byte 1\n.byte 2\n.data\n.byte 3\n.text\n.byte 4\n".toList []
        (SasE.startState 0 "a.s".toList)).output) =
      ([⟨".text".toList, 0, 3, 1, 16, 0⟩, ⟨".data".toList, 0, 1, 2, 8, 2⟩], [1, 2, 4]) := by
  refine ⟨?_, ?_⟩ <;> decide

set_option maxRecDepth 100000 in
/-- C37: after the lines `.globl main` and `main:` the symbol `main` is
defined in section 0 with value 0 and has the type `SYM_LOCAL` (0):
`add_symbol`, called for the label with `SYM_LOCAL`, stores its type
argument whenever the section is not negative.  After `.globl main` alone the
type is `SYM_GLOBAL` (1), and with the two lines in the other order it stays
`SYM_GLOBAL`. -/
theorem label_definition_resets_binding :
    (SasE.readLoop SasE.process_directive ".globl main\nmain:\n".toList []
        (SasE.startState 0 "a.s".toList)).symbols = [⟨"main".toList, 0, 0, SasE.SYM_LOCAL, 1⟩] ∧
    (SasE.readLoop SasE.process_directive ".globl main\n".toList []
        (SasE.startState 0 "a.s".toList)).symbols = [⟨"main".toList, 0, 0, SasE.SYM_GLOBAL, 0⟩] ∧
    (SasE.readLoop SasE.process_directive "main:\n.globl main\n".toList []
        (SasE.startState 0 "a.s".toList)).symbols = [⟨"main".toList, 0, 0, SasE.SYM_GLOBAL, 1⟩] := by
  refine ⟨by decide, by decide, by decide⟩

end SmallC

namespace SmallC

namespace Sld

/-- The sections that one loop of `layout_sections` places follow each
other: each ends at or below the start of every later one. -/
theorem layoutLoop_pairwise (p : Section → Bool)
    (hp : ∀ (x : Section) (a : Int), p { x with vaddr := a } = p x) (xs : List Section) :
    ∀ (v : Int), (∀ x ∈ xs, 0 ≤ x.size) → 0 ≤ v → v % 16 = 0 →
      v + spaceOf (xs.filter p) < 2147483648 →
      ((layoutLoop p xs v).1.filter p).Pairwise (fun a b => a.vaddr + a.size ≤ b.vaddr) := by
  induction xs with
  | nil =>
    intro v _ _ _ _
    simp [layoutLoop]
  | cons x xs ih =>
    intro v hs h0 h16 hb
    have hsx : 0 ≤ x.size := hs x (List.mem_cons_self _ _)
    have hs' : ∀ y ∈ xs, 0 ≤ y.size := fun y hy => hs y (List.mem_cons_of_mem _ hy)
    by_cases hpx : p x = true
    · have hsp := spaceOf_nonneg (xs.filter p) (fun y hy => hs' y (List.mem_filter.mp hy).1)
      have hb1 : v + (x.size + 16) + spaceOf (xs.filter p) < 2147483648 := by
        rw [spaceOf_filter_cons, if_pos hpx] at hb
        omega
      have ew : Scc.wrap32 (v + x.size) = v + x.size := by unfold Scc.wrap32; omega
      have ea := alignUp_16 (v + x.size) (by omega) (by omega)
      have hr := roundUp_16 (v + x.size)
      have i0 := ih (roundUp 16 (v + x.size)) hs' (by omega) hr.2.2 (by omega)
      obtain ⟨_, _, _, _, i5, _⟩ := layoutLoop_spec p hp xs (roundUp 16 (v + x.size)) hs'
        (by omega) hr.2.2 (by omega)
      have hpx' : p { x with vaddr := v } = true := by rw [hp]; exact hpx
      simp only [layoutLoop, hpx, if_true, ew, ea, List.filter_cons, hpx']
      rw [List.pairwise_cons]
      refine ⟨fun b hb => ?_, i0⟩
      have := i5 b (List.mem_filter.mp hb).1 (List.mem_filter.mp hb).2
      show v + x.size ≤ b.vaddr
      omega
    · have hpf : p x = false := by simpa using hpx
      have hb1 : v + spaceOf (xs.filter p) < 2147483648 := by
        simpa only [List.filter_cons, hpf] using hb
      have el : layoutLoop p (x :: xs) v = (x :: (layoutLoop p xs v).1, (layoutLoop p xs v).2) := by
        simp [layoutLoop, hpf]
      rw [el]
      simp only [List.filter_cons, hpf, Bool.false_eq_true, if_false]
      exact ih v hs' h0 h16 hb1

/-- The space that the sections of a class need does not depend on their addresses. -/
theorem spaceOf_filter_erase (q : Section → Bool)
    (hq : ∀ (x : Section) (a : Int), q { x with vaddr := a } = q x) :
    ∀ (xs ys : List Section), ys.map eraseVaddr = xs.map eraseVaddr →
      spaceOf (ys.filter q) = spaceOf (xs.filter q) := by
  intro xs
  induction xs with
  | nil =>
    intro ys h
    cases ys with
    | nil => rfl
    | cons y ys => simp at h
  | cons x xs ih =>
    intro ys h
    cases ys with
    | nil => simp at h
    | cons y ys =>
      simp only [List.map_cons, List.cons.injEq] at h
      have e1 : q y = q x := by
        have := congrArg q h.1
        simpa only [eraseVaddr, hq] using this
      have e2 : y.size = x.size := size_erase y x h.1
      rw [spaceOf_filter_cons, spaceOf_filter_cons, ih ys h.2, e1, e2]

/-- A relation holds between every two entries of a list if it holds
between the entries of each of three classes and between entries of
different classes. -/
theorem pairwise_of_classes {α : Type} (R : α → α → Prop) (q1 q2 q3 : α → Bool) :
    ∀ (l : List α), (l.filter q1).Pairwise R → (l.filter q2).Pairwise R →
      (l.filter q3).Pairwise R →
      (∀ a ∈ l, ∀ b ∈ l,
        (q1 a = true ∧ q1 b = true) ∨ (q2 a = true ∧ q2 b = true) ∨
          (q3 a = true ∧ q3 b = true) ∨ R a b) →
      l.Pairwise R := by
  intro l
  induction l with
  | nil => intro _ _ _ _; exact List.Pairwise.nil
  | cons a l ih =>
    intro h1 h2 h3 hx
    have t1 : (l.filter q1).Pairwise R := by
      by_cases h : q1 a = true
      · simp only [List.filter_cons, h, if_true, List.pairwise_cons] at h1
        exact h1.2
      · simpa only [List.filter_cons, h, if_false] using h1
    have t2 : (l.filter q2).Pairwise R := by
      by_cases h : q2 a = true
      · simp only [List.filter_cons, h, if_true, List.pairwise_cons] at h2
        exact h2.2
      · simpa only [List.filter_cons, h, if_false] using h2
    have t3 : (l.filter q3).Pairwise R := by
      by_cases h : q3 a = true
      · simp only [List.filter_cons, h, if_true, List.pairwise_cons] at h3
        exact h3.2
      · simpa only [List.filter_cons, h, if_false] using h3
    rw [List.pairwise_cons]
    refine ⟨fun b hb => ?_, ih t1 t2 t3 (fun c hc d hd =>
      hx c (List.mem_cons_of_mem _ hc) d (List.mem_cons_of_mem _ hd))⟩
    rcases hx a (List.mem_cons_self _ _) b (List.mem_cons_of_mem _ hb) with
      ⟨ha, hb1⟩ | ⟨ha, hb1⟩ | ⟨ha, hb1⟩ | h
    · simp only [List.filter_cons, ha, if_true, List.pairwise_cons] at h1
      exact h1.1 b (List.mem_filter.mpr ⟨hb, hb1⟩)
    · simp only [List.filter_cons, ha, if_true, List.pairwise_cons] at h2
      exact h2.1 b (List.mem_filter.mpr ⟨hb, hb1⟩)
    · simp only [List.filter_cons, ha, if_true, List.pairwise_cons] at h3
      exact h3.1 b (List.mem_filter.mpr ⟨hb, hb1⟩)
    · exact h

end Sld

end SmallC

namespace SmallC

/-- C38: for a section table with sizes not below 0 for which the three
loops of `layout_sections` stay below `2^31` (`0x402000` plus the sizes, each
plus 16, of the sections that each loop places), every two sections of the
table after `layout_sections` have disjoint address ranges: one of them
ends at or below the start of the other. -/
theorem laid_out_sections_are_disjoint (secs : List Sld.Section)
    (hsize : ∀ x ∈ secs, 0 ≤ x.size)
    (hfit : 4198400 + 4096 + Sld.spaceOf (secs.filter Sld.isCode) +
      Sld.spaceOf (secs.filter Sld.isData) + Sld.spaceOf (secs.filter Sld.isBss) < 2147483648) :
    (Sld.layout secs).Pairwise
      (fun a b => a.vaddr + a.size ≤ b.vaddr ∨ b.vaddr + b.size ≤ a.vaddr) := by
  have n1 := Sld.spaceOf_nonneg (secs.filter Sld.isCode)
    (fun x hx => hsize x (List.mem_filter.mp hx).1)
  have n2 := Sld.spaceOf_nonneg (secs.filter Sld.isData)
    (fun x hx => hsize x (List.mem_filter.mp hx).1)
  have n3 := Sld.spaceOf_nonneg (secs.filter Sld.isBss)
    (fun x hx => hsize x (List.mem_filter.mp hx).1)
  have hq2 : ∀ (x : Sld.Section) (a : Int),
      (fun y => Sld.isCode y && !Sld.isBss y) { x with vaddr := a } =
        (fun y => Sld.isCode y && !Sld.isBss y) x := fun _ _ => rfl
  -- the first loop
  obtain ⟨a1, -, -, a4, a5, a6⟩ := Sld.layoutLoop_spec Sld.isCode Sld.isCode_vaddr secs
    4198400 hsize (by norm_num) (by norm_num) (by omega)
  have ap := Sld.layoutLoop_pairwise Sld.isCode Sld.isCode_vaddr secs
    4198400 hsize (by norm_num) (by norm_num) (by omega)
  have a7 : ∀ y ∈ (Sld.layoutLoop Sld.isCode secs 4198400).1, 0 ≤ y.size := by
    intro y hy
    obtain ⟨x, hx, he⟩ := Sld.mem_of_map_erase _ _ a1 y hy
    rw [← Sld.size_erase x y he]
    exact hsize x hx
  have fd1 := a6 Sld.isData Sld.isData_vaddr
    (fun x _ h => ((Sld.isData_iff x).mp h).1)
  have sb1 := Sld.spaceOf_filter_erase Sld.isBss Sld.isBss_vaddr secs _ a1
  -- the second loop
  have r1 := Sld.roundUp_4096 (Sld.layoutLoop Sld.isCode secs 4198400).2
  have ea := Sld.alignUp_4096 (Sld.layoutLoop Sld.isCode secs 4198400).2 (by omega) (by omega)
  obtain ⟨b1, -, -, b4, b5, b6⟩ := Sld.layoutLoop_spec Sld.isData Sld.isData_vaddr
    (Sld.layoutLoop Sld.isCode secs 4198400).1
    (Sld.roundUp 4096 (Sld.layoutLoop Sld.isCode secs 4198400).2) a7 (by omega) r1.2.2.1
    (by rw [fd1]; omega)
  have bp := Sld.layoutLoop_pairwise Sld.isData Sld.isData_vaddr
    (Sld.layoutLoop Sld.isCode secs 4198400).1
    (Sld.roundUp 4096 (Sld.layoutLoop Sld.isCode secs 4198400).2) a7 (by omega) r1.2.2.1
    (by rw [fd1]; omega)
  have b7 : ∀ y ∈ (Sld.layoutLoop Sld.isData (Sld.layoutLoop Sld.isCode secs 4198400).1
      (Sld.roundUp 4096 (Sld.layoutLoop Sld.isCode secs 4198400).2)).1, 0 ≤ y.size := by
    intro y hy
    obtain ⟨x, hx, he⟩ := Sld.mem_of_map_erase _ _ b1 y hy
    rw [← Sld.size_erase x y he]
    exact a7 x hx
  have sb2 := Sld.spaceOf_filter_erase Sld.isBss Sld.isBss_vaddr _ _ b1
  have fq2 := b6 (fun y => Sld.isCode y && !Sld.isBss y) hq2 (fun x _ h => by
    cases hd : Sld.isData x
    · rfl
    · have h1 := ((Sld.isData_iff x).mp hd).1
      simp only [h1, Bool.false_and] at h
      exact absurd h (by decide))
  -- the third loop
  have hb3 : (Sld.layoutLoop Sld.isData (Sld.layoutLoop Sld.isCode secs 4198400).1
      (Sld.roundUp 4096 (Sld.layoutLoop Sld.isCode secs 4198400).2)).2 +
      Sld.spaceOf ((Sld.layoutLoop Sld.isData (Sld.layoutLoop Sld.isCode secs 4198400).1
        (Sld.roundUp 4096 (Sld.layoutLoop Sld.isCode secs 4198400).2)).1.filter Sld.isBss) <
      2147483648 := by
    rw [sb2, sb1]
    rw [fd1] at b4
    omega
  obtain ⟨c1, -, -, c4, c5, c6⟩ := Sld.layoutLoop_spec Sld.isBss Sld.isBss_vaddr
    (Sld.layoutLoop Sld.isData (Sld.layoutLoop Sld.isCode secs 4198400).1
      (Sld.roundUp 4096 (Sld.layoutLoop Sld.isCode secs 4198400).2)).1
    (Sld.layoutLoop Sld.isData (Sld.layoutLoop Sld.isCode secs 4198400).1
      (Sld.roundUp 4096 (Sld.layoutLoop Sld.isCode secs 4198400).2)).2
    b7 (by omega) b4.2.1 hb3
  have cp := Sld.layoutLoop_pairwise Sld.isBss Sld.isBss_vaddr
    (Sld.layoutLoop Sld.isData (Sld.layoutLoop Sld.isCode secs 4198400).1
      (Sld.roundUp 4096 (Sld.layoutLoop Sld.isCode secs 4198400).2)).1
    (Sld.layoutLoop Sld.isData (Sld.layoutLoop Sld.isCode secs 4198400).1
      (Sld.roundUp 4096 (Sld.layoutLoop Sld.isCode secs 4198400).2)).2
    b7 (by omega) b4.2.1 hb3
  have fq3 := c6 (fun y => Sld.isCode y && !Sld.isBss y) hq2 (fun x _ h => by
    cases hb : Sld.isBss x
    · rfl
    · simp only [hb, Bool.not_true, Bool.and_false] at h
      exact absurd h (by decide))
  have fd3 := c6 Sld.isData Sld.isData_vaddr (fun x _ h => ((Sld.isData_iff x).mp h).2)
  have hl : Sld.layout secs =
      (Sld.layoutLoop Sld.isBss
        (Sld.layoutLoop Sld.isData (Sld.layoutLoop Sld.isCode secs 4198400).1
          (Sld.roundUp 4096 (Sld.layoutLoop Sld.isCode secs 4198400).2)).1
        (Sld.layoutLoop Sld.isData (Sld.layoutLoop Sld.isCode secs 4198400).1
          (Sld.roundUp 4096 (Sld.layoutLoop Sld.isCode secs 4198400).2)).2).1 := by
    have hb0 : Sld.BASE_ADDR + Sld.PAGE_SIZE = 4198400 := by decide
    unfold Sld.layout
    simp only []
    rw [hb0, ea]
  have c7 : ∀ y ∈ Sld.layout secs, 0 ≤ y.size := by
    intro y hy
    rw [hl] at hy
    obtain ⟨x, hx, he⟩ := Sld.mem_of_map_erase _ _ c1 y hy
    rw [← Sld.size_erase x y he]
    exact b7 x hx
  -- where the sections of each class are in the final table
  have hcode : ∀ y ∈ Sld.layout secs, Sld.isCode y = true → Sld.isBss y = false →
      y.vaddr + y.size ≤ (Sld.layoutLoop Sld.isCode secs 4198400).2 := by
    intro y hy hc hb
    have h1 : y ∈ (Sld.layout secs).filter (fun y => Sld.isCode y && !Sld.isBss y) :=
      List.mem_filter.mpr ⟨hy, by simp only [hc, hb, Bool.not_false, Bool.and_self]⟩
    rw [hl, fq3, fq2] at h1
    exact (a5 y (List.mem_filter.mp h1).1 hc).2.1
  have hdata : ∀ y ∈ Sld.layout secs, Sld.isData y = true →
      Sld.roundUp 4096 (Sld.layoutLoop Sld.isCode secs 4198400).2 ≤ y.vaddr ∧
        y.vaddr + y.size ≤ (Sld.layoutLoop Sld.isData (Sld.layoutLoop Sld.isCode secs 4198400).1
          (Sld.roundUp 4096 (Sld.layoutLoop Sld.isCode secs 4198400).2)).2 := by
    intro y hy hd
    have h1 : y ∈ (Sld.layout secs).filter Sld.isData := List.mem_filter.mpr ⟨hy, hd⟩
    rw [hl, fd3] at h1
    have := b5 y (List.mem_filter.mp h1).1 hd
    exact ⟨this.1, this.2.1⟩
  have hbss : ∀ y ∈ Sld.layout secs, Sld.isBss y = true →
      (Sld.layoutLoop Sld.isData (Sld.layoutLoop Sld.isCode secs 4198400).1
          (Sld.roundUp 4096 (Sld.layoutLoop Sld.isCode secs 4198400).2)).2 ≤ y.vaddr := by
    intro y hy hb
    rw [hl] at hy
    exact (c5 y hy hb).1
  -- the sections of each class follow each other
  have p1 : ((Sld.layout secs).filter Sld.isBss).Pairwise
      (fun a b => a.vaddr + a.size ≤ b.vaddr ∨ b.vaddr + b.size ≤ a.vaddr) := by
    rw [hl]
    exact cp.imp (fun h => Or.inl h)
  have p2 : ((Sld.layout secs).filter (fun y => Sld.isCode y && !Sld.isBss y)).Pairwise
      (fun a b => a.vaddr + a.size ≤ b.vaddr ∨ b.vaddr + b.size ≤ a.vaddr) := by
    rw [hl, fq3, fq2]
    have hsub : List.Sublist
        ((Sld.layoutLoop Sld.isCode secs 4198400).1.filter
          (fun y => Sld.isCode y && !Sld.isBss y))
        ((Sld.layoutLoop Sld.isCode secs 4198400).1.filter Sld.isCode) :=
      List.monotone_filter_right _ (fun x h => by
        simp only [Bool.and_eq_true] at h
        exact h.1)
    exact (ap.sublist hsub).imp (fun h => Or.inl h)
  have p3 : ((Sld.layout secs).filter Sld.isData).Pairwise
      (fun a b => a.vaddr + a.size ≤ b.vaddr ∨ b.vaddr + b.size ≤ a.vaddr) := by
    rw [hl, fd3]
    exact bp.imp (fun h => Or.inl h)
  apply Sld.pairwise_of_classes _ Sld.isBss (fun y => Sld.isCode y && !Sld.isBss y) Sld.isData
    _ p1 p2 p3
  obtain ⟨E1, V1, E2, h12, h23, kcode, kdata, kbss⟩ : ∃ E1 V1 E2 : Int, E1 ≤ V1 ∧ V1 ≤ E2 ∧
      (∀ y ∈ Sld.layout secs, Sld.isCode y = true → Sld.isBss y = false →
        y.vaddr + y.size ≤ E1) ∧
      (∀ y ∈ Sld.layout secs, Sld.isData y = true → V1 ≤ y.vaddr ∧ y.vaddr + y.size ≤ E2) ∧
      (∀ y ∈ Sld.layout secs, Sld.isBss y = true → E2 ≤ y.vaddr) :=
    ⟨_, _, _, r1.1, b4.1, hcode, hdata, hbss⟩
  clear hcode hdata hbss p1 p2 p3 hl fd3 fq3 cp c6 c5 c4 c1 hb3 fq2 sb2 b7 bp b6 b5 b4 b1 ea r1
    sb1 fd1 a7 ap a6 a5 a4 a1 hq2 n1 n2 n3 hfit hsize
  intro a ha b hb
  have sa := c7 a ha
  have sb := c7 b hb
  have ia := Sld.isData_iff a
  have ib := Sld.isData_iff b
  cases hba : Sld.isBss a
  · cases hca : Sld.isCode a
    · have da := kdata a ha (ia.mpr ⟨hca, hba⟩)
      cases hbb : Sld.isBss b
      · cases hcb : Sld.isCode b
        · exact Or.inr (Or.inr (Or.inl ⟨ia.mpr ⟨hca, hba⟩, ib.mpr ⟨hcb, hbb⟩⟩))
        · have cb := kcode b hb hcb hbb
          exact Or.inr (Or.inr (Or.inr (Or.inr (by omega))))
      · have bb := kbss b hb hbb
        exact Or.inr (Or.inr (Or.inr (Or.inl (by omega))))
    · have ca := kcode a ha hca hba
      cases hbb : Sld.isBss b
      · cases hcb : Sld.isCode b
        · have db := kdata b hb (ib.mpr ⟨hcb, hbb⟩)
          exact Or.inr (Or.inr (Or.inr (Or.inl (by omega))))
        · refine Or.inr (Or.inl ⟨?_, ?_⟩)
          · simp only [hca, hba, Bool.not_false, Bool.and_self]
          · simp only [hcb, hbb, Bool.not_false, Bool.and_self]
      · have bb := kbss b hb hbb
        exact Or.inr (Or.inr (Or.inr (Or.inl (by omega))))
  · have ba := kbss a ha hba
    cases hbb : Sld.isBss b
    · cases hcb : Sld.isCode b
      · have db := kdata b hb (ib.mpr ⟨hcb, hbb⟩)
        exact Or.inr (Or.inr (Or.inr (Or.inr (by omega))))
      · have cb := kcode b hb hcb hbb
        exact Or.inr (Or.inr (Or.inr (Or.inr (by omega))))
    · exact Or.inl ⟨rfl, rfl⟩

/-- C38 (witness): a table with an executable, a data and a `NOBITS` section
and a section that is both executable and `NOBITS`. -/
theorem laid_out_sections_are_disjoint_witness :
    (Sld.layout [⟨".text".toList, 1, 6, 0, 10, 0, 16, 0⟩,
        ⟨".data".toList, 1, 3, 0, 8, 0, 8, 16⟩,
        ⟨".bss".toList, 8, 3, 0, 32, 0, 8, 32⟩,
        ⟨".xbss".toList, 8, 7, 0, 4, 0, 8, 32⟩]).Pairwise
      (fun a b => a.vaddr + a.size ≤ b.vaddr ∨ b.vaddr + b.size ≤ a.vaddr) :=
  laid_out_sections_are_disjoint _ (by decide) (by decide)

end SmallC

namespace SmallC

namespace SasF

/-- At a comma the loop of `parse_memory_operand` goes round without
moving on: no amount of fuel lets it end. -/
theorem memLoop_comma (t : Str) : ∀ (fuel : Nat) (sign : Int) (m : MemOperand),
    memLoop fuel (',' :: t) sign m = none := by
  intro fuel
  induction fuel with
  | zero => intro sign m; rfl
  | succ fuel ih =>
    intro sign m
    have h1 : skip_whitespace_str (',' :: t) = ',' :: t := by
      simp [skip_whitespace_str, List.dropWhile]
    have h2 : (',' :: t).takeWhile nameChar = [] := by
      rw [List.takeWhile_cons]
      have : nameChar ',' = false := by decide
      simp [this]
    have h3 : (',' :: t).dropWhile nameChar = ',' :: t := by
      rw [List.dropWhile_cons]
      have : nameChar ',' = false := by decide
      simp [this]
    rw [memLoop]
    have hc : ¬ (',' = ']') := by decide
    simp only [hc, if_false, h1, h2, h3, ne_eq, not_true_eq_false]
    exact ih sign m

/-- The first round of the loop on the text `rax,8]`. -/
theorem memLoop_rax_comma (fuel : Nat) :
    memLoop (fuel + 1) ['r', 'a', 'x', ',', '8', ']'] 1 ⟨-1, -1, 1, 0, 0⟩ =
      memLoop fuel [',', '8', ']'] 1 ⟨0, -1, 1, 0, 1⟩ := by
  rw [memLoop]
  rfl

end SasF

/-- C39: on the operand `[rax,8]` the loop of `parse_memory_operand` never
ends: after the name `rax` the index stands at the comma, which is neither
blank, sign, letter, digit, `*` nor `]`, and no branch moves the index on.
On `[rax+rbx*2+16]` the function returns 1 with base 0, index 3, scale 2 and
displacement 16, and on `[rbx-8]` it returns 1 with base 3, no index and
displacement -8. -/
theorem parse_memory_operand_hangs_at_comma (fuel : Nat) :
    SasF.parse_memory_operand fuel "[rax,8]".toList = none ∧
    SasF.parse_memory_operand 14 "[rax+rbx*2+16]".toList = some (1, ⟨0, 3, 2, 16, 3⟩) ∧
    SasF.parse_memory_operand 7 "[rbx-8]".toList = some (1, ⟨3, -1, 1, -8, 3⟩) := by
  refine ⟨?_, by decide, by decide⟩
  cases fuel with
  | zero => rfl
  | succ fuel =>
    show (SasF.memLoop (fuel + 1) ['r', 'a', 'x', ',', '8', ']'] 1 ⟨-1, -1, 1, 0, 0⟩).map _ =
      none
    rw [SasF.memLoop_rax_comma, SasF.memLoop_comma]
    rfl

/-- C40: for the register 0, the base `rbp` (5), the index `rax` (0), scale
1 and displacement 0, `assemble_mem_instruction` emits the opcode, the ModR/M
byte 04 (mod 00, r/m 100) and the SIB byte 05 (base 101) and no displacement,
where a decoder reads four displacement bytes; with the base `r13` the same
bytes follow the REX prefix 41.  Without an index the base `rbp` is encoded
with mod 01 and one displacement byte.  With an index and no base and the
displacement 8 the function emits mod 01 and four displacement bytes, where a
decoder reads one. -/
theorem sib_base_rbp_gets_no_displacement :
    (SasF.assemble_mem_instruction 139 0 5 0 1 0 ⟨0, 0, 0, 0, []⟩).inst_bytes = [139, 4, 5] ∧
    SasF.decoderDispBytes 0 4 5 = 4 ∧
    (SasF.assemble_mem_instruction 139 0 13 0 1 0 ⟨0, 0, 0, 0, []⟩).inst_bytes =
      [65, 139, 4, 5] ∧
    (SasF.assemble_mem_instruction 139 0 5 (-1) 1 0 ⟨0, 0, 0, 0, []⟩).inst_bytes =
      [139, 69, 0] ∧
    SasF.decoderDispBytes 1 5 0 = 1 ∧
    (SasF.assemble_mem_instruction 139 0 (-1) 1 2 8 ⟨0, 0, 0, 0, []⟩).inst_bytes =
      [139, 68, 77, 8, 0, 0, 0] ∧
    SasF.decoderDispBytes 1 4 5 = 1 := by
  refine ⟨?_, ?_, ?_, ?_, ?_, ?_, ?_⟩ <;> decide

end SmallC

namespace SmallC
namespace Scc

/-- The function `unary` on a number. -/
theorem unary_number (f : Nat) (s : CState) (t : Int) (l1 : Lexer)
    (htok : s.token = T_NUMBER) (hg : gettoken s.lex = .ok t l1) (hst : stopsPostfix t) :
    unary (f + 3) s = .ok (numState s l1 t) := by
  have hp : primary (f + 1) s = .ok (numState s l1 t) := by
    cases htg : s.target <;>
      simp [primary, htok, nexttoken, numState, emit, htg, hg]
  exact unary_of_primary f s _ hp (Or.inl htok) hst

/-- The function `multiplicative` on a number that no operator of its level follows. -/
theorem multiplicative_number (f : Nat) (s : CState) (t : Int) (l1 : Lexer)
    (htok : s.token = T_NUMBER) (hg : gettoken s.lex = .ok t l1) (hst : stopsPostfix t)
    (hm : stopsMul t) : multiplicative (f + 5) s = .ok (numState s l1 t) := by
  rw [multiplicative, unary_number (f + 1) s t l1 htok hg hst]
  simp only [Res.bind]
  exact multiplicativeLoop_exit (f + 3) _ hm

/-- The function `additive` on a number that no operator of its level or the level below follows. -/
theorem additive_number (f : Nat) (s : CState) (t : Int) (l1 : Lexer)
    (htok : s.token = T_NUMBER) (hg : gettoken s.lex = .ok t l1) (hst : stopsPostfix t)
    (hm : stopsMul t) (ha : stopsAdd t) : additive (f + 6) s = .ok (numState s l1 t) := by
  rw [additive, multiplicative_number f s t l1 htok hg hst hm]
  simp only [Res.bind]
  exact additiveLoop_exit (f + 4) _ ha

/-- The lines that `multiplicative` writes behind the operands of `/` and `%`. -/
theorem multiplicative_divide (f : Nat) (s : CState) (op tend : Int) (l1 l2 l3 : Lexer)
    (htok : s.token = T_NUMBER) (h1 : gettoken s.lex = .ok op l1)
    (h2 : gettoken l1 = .ok T_NUMBER l2) (h3 : gettoken l2 = .ok tend l3)
    (hop : op = tk '/' ∨ op = tk '%') (hst : stopsPostfix tend) (hm : stopsMul tend) :
    multiplicative (f + 6) s =
      .ok (match s.target with
        | .x64 =>
          if op = tk '%' then
            emit .movq_rdx_rax (emits [.cqo, .idivq_rbx] (pop .rax (emit .movq_rax_rbx
              (numState (pushState (numState s l1 op) l2 T_NUMBER) l3 tend))))
          else
            emits [.cqo, .idivq_rbx] (pop .rax (emit .movq_rax_rbx
              (numState (pushState (numState s l1 op) l2 T_NUMBER) l3 tend)))
        | .arm64 =>
          if op = tk '/' then
            emit .mov_x0_x2 (emit .sdiv_x2_x1_x0 (pop (.x 1)
              (numState (pushState (numState s l1 op) l2 T_NUMBER) l3 tend)))
          else
            emit .msub_x0_x2_x0_x1 (emit .sdiv_x2_x1_x0 (pop (.x 1)
              (numState (pushState (numState s l1 op) l2 T_NUMBER) l3 tend)))) := by
  have hpo : stopsPostfix op := by
    rcases hop with h | h <;> rw [h] <;> unfold stopsPostfix <;> decide
  have hne : op ≠ tk '*' := by
    rcases hop with h | h <;> rw [h] <;> decide
  have hnx : nexttoken (push (numState s l1 op)) =
      .ok (pushState (numState s l1 op) l2 T_NUMBER) := by
    cases htg : s.target <;>
      simp [nexttoken, push, numState, pushState, emit, htg, h2]
  have hu2 : unary (f + 1 + 3) (pushState (numState s l1 op) l2 T_NUMBER) =
      .ok (numState (pushState (numState s l1 op) l2 T_NUMBER) l3 tend) :=
    unary_number (f + 1) _ tend l3 rfl h3 hst
  have htg2 : (numState (pushState (numState s l1 op) l2 T_NUMBER) l3 tend).target = s.target := by
    cases htg : s.target <;> simp [numState, pushState, push, emit, htg]
  rw [multiplicative, unary_number (f + 2) s op l1 htok h1 hpo]
  simp only [Res.bind]
  rw [multiplicativeLoop]
  have hcond : (numState s l1 op).token = tk '*' ∨ (numState s l1 op).token = tk '/' ∨
      (numState s l1 op).token = tk '%' := by
    rcases hop with h | h
    · exact Or.inr (Or.inl h)
    · exact Or.inr (Or.inr h)
  rw [if_pos hcond]
  simp only [hnx, Res.bind, hu2, htg2]
  have htok3 : (numState s l1 op).token = op := rfl
  rw [htok3]
  simp only [if_neg hne]
  cases htg : s.target
  · simp only []
    rcases hop with h | h
    · have hn : ¬ op = tk '%' := by rw [h]; decide
      simp only [if_neg hn]
      refine multiplicativeLoop_exit (f + 3) _ ?_
      simpa [emits, pop, emit, numState, pushState, push, htg] using hm
    · simp only [if_pos h]
      refine multiplicativeLoop_exit (f + 3) _ ?_
      simpa [emits, pop, emit, numState, pushState, push, htg] using hm
  · simp only []
    rcases hop with h | h
    · simp only [if_pos h]
      refine multiplicativeLoop_exit (f + 3) _ ?_
      simpa [emits, pop, emit, numState, pushState, push, htg] using hm
    · have hn : ¬ op = tk '/' := by rw [h]; decide
      simp only [if_neg hn]
      refine multiplicativeLoop_exit (f + 3) _ ?_
      simpa [emits, pop, emit, numState, pushState, push, htg] using hm

/-- The lines that `additive` writes behind the operands of `-`. -/
theorem additive_subtract (f : Nat) (s : CState) (tend : Int) (l1 l2 l3 : Lexer)
    (htok : s.token = T_NUMBER) (h1 : gettoken s.lex = .ok (tk '-') l1)
    (h2 : gettoken l1 = .ok T_NUMBER l2) (h3 : gettoken l2 = .ok tend l3)
    (hst : stopsPostfix tend) (hm : stopsMul tend) (ha : stopsAdd tend) :
    additive (f + 7) s =
      .ok (match s.target with
        | .x64 =>
          emits [.subq_rax_rdx, .movq_rdx_rax] (pop .rdx
            (numState (pushState (numState s l1 (tk '-')) l2 T_NUMBER) l3 tend))
        | .arm64 =>
          emit .sub_x0_x1_x0 (pop (.x 1)
            (numState (pushState (numState s l1 (tk '-')) l2 T_NUMBER) l3 tend))) := by
  have hpo : stopsPostfix (tk '-') := by unfold stopsPostfix; decide
  have hmo : stopsMul (tk '-') := by unfold stopsMul; decide
  have hne : tk '-' ≠ tk '+' := by decide
  have hnx : nexttoken (push (numState s l1 (tk '-'))) =
      .ok (pushState (numState s l1 (tk '-')) l2 T_NUMBER) := by
    cases htg : s.target <;>
      simp [nexttoken, push, numState, pushState, emit, htg, h2]
  have hu2 : multiplicative (f + 5) (pushState (numState s l1 (tk '-')) l2 T_NUMBER) =
      .ok (numState (pushState (numState s l1 (tk '-')) l2 T_NUMBER) l3 tend) :=
    multiplicative_number f _ tend l3 rfl h3 hst hm
  have htg2 : (numState (pushState (numState s l1 (tk '-')) l2 T_NUMBER) l3 tend).target =
      s.target := by
    cases htg : s.target <;> simp [numState, pushState, push, emit, htg]
  rw [additive, multiplicative_number (f + 1) s (tk '-') l1 htok h1 hpo hmo]
  simp only [Res.bind]
  rw [additiveLoop]
  have hcond : (numState s l1 (tk '-')).token = tk '+' ∨
      (numState s l1 (tk '-')).token = tk '-' := Or.inr rfl
  rw [if_pos hcond]
  simp only [hnx, Res.bind, hu2, htg2]
  have htok3 : (numState s l1 (tk '-')).token = tk '-' := rfl
  rw [htok3]
  simp only [if_neg hne]
  cases htg : s.target
  · simp only []
    refine additiveLoop_exit (f + 4) _ ?_
    simpa [emits, pop, emit, numState, pushState, push, htg] using ha
  · simp only []
    refine additiveLoop_exit (f + 4) _ ?_
    simpa [emits, pop, emit, numState, pushState, push, htg] using ha

/-- The loop of `shift` stops at a token that is no shift operator. -/
theorem shiftLoop_exit (f : Nat) (s : CState) (h1 : s.token ≠ T_SHL) (h2 : s.token ≠ T_SHR) :
    shiftLoop (f + 1) s = .ok s := by
  simp [shiftLoop, h1, h2]

/-- The lines that `shift` writes behind the operands of `<<` and `>>`. -/
theorem shift_shift (f : Nat) (s : CState) (op tend : Int) (l1 l2 l3 : Lexer)
    (htok : s.token = T_NUMBER) (h1 : gettoken s.lex = .ok op l1)
    (h2 : gettoken l1 = .ok T_NUMBER l2) (h3 : gettoken l2 = .ok tend l3)
    (hop : op = T_SHL ∨ op = T_SHR)
    (hst : stopsPostfix tend) (hm : stopsMul tend) (ha : stopsAdd tend)
    (hs1 : tend ≠ T_SHL) (hs2 : tend ≠ T_SHR) :
    shift (f + 8) s =
      .ok (match s.target with
        | .x64 =>
          emit (.shift_cl_rax (if op = T_SHL then "shl" else "shr")) (pop .rax
            (emit .movq_rax_rcx (numState (pushState (numState s l1 op) l2 T_NUMBER) l3 tend)))
        | .arm64 =>
          emit (.shift_x0_x0_x2 (if op = T_SHL then "lsl" else "lsr")) (pop (.x 0)
            (emit .mov_x2_x0 (numState (pushState (numState s l1 op) l2 T_NUMBER) l3 tend)))) := by
  have hpo : stopsPostfix op := by
    rcases hop with h | h <;> rw [h] <;> unfold stopsPostfix <;> decide
  have hmo : stopsMul op := by
    rcases hop with h | h <;> rw [h] <;> unfold stopsMul <;> decide
  have hao : stopsAdd op := by
    rcases hop with h | h <;> rw [h] <;> unfold stopsAdd <;> decide
  have hnx : nexttoken (push (numState s l1 op)) =
      .ok (pushState (numState s l1 op) l2 T_NUMBER) := by
    cases htg : s.target <;>
      simp [nexttoken, push, numState, pushState, emit, htg, h2]
  have hu2 : additive (f + 6) (pushState (numState s l1 op) l2 T_NUMBER) =
      .ok (numState (pushState (numState s l1 op) l2 T_NUMBER) l3 tend) :=
    additive_number f _ tend l3 rfl h3 hst hm ha
  have htg2 : (numState (pushState (numState s l1 op) l2 T_NUMBER) l3 tend).target = s.target := by
    cases htg : s.target <;> simp [numState, pushState, push, emit, htg]
  rw [shift, additive_number (f + 1) s op l1 htok h1 hpo hmo hao]
  simp only [Res.bind]
  rw [shiftLoop]
  have hcond : (numState s l1 op).token = T_SHL ∨ (numState s l1 op).token = T_SHR := hop
  rw [if_pos hcond]
  simp only [hnx, Res.bind, hu2, htg2]
  have htok3 : (numState s l1 op).token = op := rfl
  rw [htok3]
  cases htg : s.target
  · simp only []
    refine shiftLoop_exit (f + 5) _ ?_ ?_
    · simpa [emits, pop, emit, numState, pushState, push, htg] using hs1
    · simpa [emits, pop, emit, numState, pushState, push, htg] using hs2
  · simp only []
    refine shiftLoop_exit (f + 5) _ ?_ ?_
    · simpa [emits, pop, emit, numState, pushState, push, htg] using hs1
    · simpa [emits, pop, emit, numState, pushState, push, htg] using hs2

/-- From `shift` up to `expression`: nothing is added when the next token
is none of the operators of the levels in between. -/
theorem expression_of_shift (f : Nat) (s s1 : CState) (e1 : shift (f + 2) s = .ok s1)
    (hu : stopsUpper s1.token) : expression (f + 11) s = .ok s1 := by
  obtain ⟨h1, h2, h3, h4, h5, h6, h7, h8, h9, h10, h11, h12, h13, h14, h15, h16, _, _⟩ := hu
  have e2 : relational (f + 3) s = .ok s1 := by
    simp [relational, e1, Res.bind, relationalLoop, h13, h14, h15, h16]
  have e3 : equality (f + 4) s = .ok s1 := by
    simp [equality, e2, Res.bind, equalityLoop, h11, h12]
  have e4 : bitwise_and (f + 5) s = .ok s1 := by
    simp [bitwise_and, e3, Res.bind, bitwise_andLoop, h10]
  have e5 : bitwise_xor (f + 6) s = .ok s1 := by
    simp [bitwise_xor, e4, Res.bind, bitwise_xorLoop, h9]
  have e6 : bitwise_or (f + 7) s = .ok s1 := by
    simp [bitwise_or, e5, Res.bind, bitwise_orLoop, h8]
  have e7 : logical_and (f + 8) s = .ok s1 := by
    simp [logical_and, e6, Res.bind, logical_andLoop, h7]
  have e8 : logical_or (f + 9) s = .ok s1 := by
    simp [logical_or, e7, Res.bind, logical_orLoop, h6]
  have e9 : assignment (f + 10) s = .ok s1 := by
    simp [assignment, e8, Res.bind, assignmentLoop, h1, h2, h3, h4, h5]
  simp [expression, e9]

/-- The output after the two operands are compiled. -/
theorem out_operands (s : CState) (op tend : Int) (l1 l2 l3 : Lexer) :
    (numState (pushState (numState s l1 op) l2 T_NUMBER) l3 tend).out =
      s.out ++ (match s.target with
        | .x64 => [.movq_imm_rax s.lex.tokval, .pushq_rax, .movq_imm_rax l2.tokval]
        | .arm64 => [.mov_x0_imm s.lex.tokval, .str_x0_push, .mov_x0_imm l2.tokval]) := by
  cases htg : s.target <;> simp [numState, pushState, push, emit, htg]

theorem token_operands (s : CState) (op tend : Int) (l1 l2 l3 : Lexer) :
    (numState (pushState (numState s l1 op) l2 T_NUMBER) l3 tend).token = tend ∧
    (numState (pushState (numState s l1 op) l2 T_NUMBER) l3 tend).lex = l3 ∧
    (numState (pushState (numState s l1 op) l2 T_NUMBER) l3 tend).target = s.target := by
  cases htg : s.target <;> simp [numState, pushState, push, emit, htg]

/-- From `multiplicative` to `additive` when no `+` or `-` follows. -/
theorem additive_of_multiplicative (f : Nat) (s s1 : CState)
    (h : multiplicative (f + 1) s = .ok s1) (ha : stopsAdd s1.token) :
    additive (f + 2) s = .ok s1 := by
  rw [additive, h]
  simp only [Res.bind]
  exact additiveLoop_exit f s1 ha

end Scc
end SmallC

namespace SmallC
namespace Scc

theorem imm64_small (n : Nat) (h : n < 2147483648) : imm64 (n : Int) = n := by
  rw [imm64_natCast]
  exact Nat.mod_eq_of_lt (by unfold W; omega)

theorem signed64_small (n : Nat) (h : n < 2147483648) : signed64 n = (n : Int) := by
  unfold signed64
  have e : n % W = n := Nat.mod_eq_of_lt (by unfold W; omega)
  rw [e, if_pos (by omega)]

/-- The x86-64 lines of `a - b` leave the difference in `%rax`. -/
theorem exec_subtract (n k : Nat) (hn : n < 2147483648) (hk : k < 2147483648) (m : Machine) :
    ∃ m1, exec [.movq_imm_rax (n : Int), .pushq_rax, .movq_imm_rax (k : Int), .popq .rdx,
        .subq_rax_rdx, .movq_rdx_rax] m = some m1 ∧ m1.rax = imm64 ((n : Int) - (k : Int)) := by
  refine ⟨_, rfl, ?_⟩
  simp only [imm64_small n hn, imm64_small k hk]
  rw [load64_store64 _ _ _ _ rfl (by unfold W; omega)]
  simp only [imm64, W]
  omega

/-- The line `idivq %rbx` on small non-negative operands. -/
theorem exec1_idivq (m : Machine) (n k : Nat) (hn : n < 2147483648) (hk : k < 2147483648)
    (hk0 : k ≠ 0) (hrax : m.rax = n) (hrbx : m.rbx = k) (hrdx : m.rdx = 0) :
    exec1 m .idivq_rbx =
      some { m with rax := imm64 (Int.tdiv (n : Int) (k : Int)),
                    rdx := imm64 (Int.tmod (n : Int) (k : Int)) } := by
  have hq : n / k ≤ n := Nat.div_le_self n k
  have e1 : Int.tdiv (n : Int) (k : Int) = ((n / k : Nat) : Int) := rfl
  have hnW : n % W = n := Nat.mod_eq_of_lt (by unfold W; omega)
  have e0 : signed64 0 * (W : Int) + ((n : Nat) : Int) = (n : Int) := by
    rw [signed64_small 0 (by omega)]; simp
  have hk1 : ¬ ((k : Int) = 0) := by omega
  have hr0 : ¬ (((n / k : Nat) : Int) < -9223372036854775808 ∨
      9223372036854775807 < ((n / k : Nat) : Int)) := by
    clear e1 e0 hnW hrax hrbx hrdx
    generalize n / k = q at hq
    omega
  have hr : ¬ (Int.tdiv (n : Int) (k : Int) < -9223372036854775808 ∨
      9223372036854775807 < Int.tdiv (n : Int) (k : Int)) := hr0
  unfold exec1
  simp only [hrax, hrbx, hrdx, hnW, e0, signed64_small k hk, if_neg hk1, if_neg hr]

/-- The line `cqo` on a small non-negative value. -/
theorem exec1_cqo (m : Machine) (n : Nat) (hn : n < 2147483648) (hrax : m.rax = n) :
    exec1 m .cqo = some { m with rdx := 0 } := by
  have hnW : n % W = n := Nat.mod_eq_of_lt (by unfold W; omega)
  have hlt : n < 9223372036854775808 := by omega
  unfold exec1
  rw [hrax, hnW, if_pos hlt]

/-- The lines `cqo; idivq %rbx` on small non-negative operands. -/
theorem exec_cqo_idivq (m : Machine) (n k : Nat) (hn : n < 2147483648) (hk : k < 2147483648)
    (hk0 : k ≠ 0) (hrax : m.rax = n) (hrbx : m.rbx = k) (rest : List Asm) :
    exec (.cqo :: .idivq_rbx :: rest) m =
      exec rest { m with rax := imm64 (Int.tdiv (n : Int) (k : Int)),
                         rdx := imm64 (Int.tmod (n : Int) (k : Int)) } := by
  have h2 := exec1_idivq { m with rdx := 0 } n k hn hk hk0 hrax hrbx rfl
  rw [exec, exec1_cqo m n hn hrax]
  simp only []
  rw [exec, h2]

/-- The x86-64 lines of a division up to `cqo`: `%rax` holds the left operand
and `%rbx` the right one. -/
theorem exec_division_operands (n k : Nat) (hn : n < 2147483648) (hk : k < 2147483648)
    (m : Machine) :
    ∃ m5, exec [.movq_imm_rax (n : Int), .pushq_rax, .movq_imm_rax (k : Int),
        .movq_rax_rbx, .popq .rax] m = some m5 ∧ m5.rax = n ∧ m5.rbx = k := by
  have hl : load64 (store64 m.mem ((m.rsp + (W - 8)) % W) (imm64 (n : Int)))
      ((m.rsp + (W - 8)) % W) = n := by
    rw [imm64_small n hn]
    exact load64_store64 _ _ _ _ rfl (by unfold W; omega)
  refine ⟨_, rfl, ?_, ?_⟩
  · simp only [hl]
  · simp only [imm64_small k hk]

/-- The x86-64 lines of `a / b` leave the quotient in `%rax`. -/
theorem exec_divide (n k : Nat) (hn : n < 2147483648) (hk : k < 2147483648) (hk0 : k ≠ 0)
    (m : Machine) :
    ∃ m1, exec [.movq_imm_rax (n : Int), .pushq_rax, .movq_imm_rax (k : Int), .movq_rax_rbx,
        .popq .rax, .cqo, .idivq_rbx] m = some m1 ∧
      m1.rax = imm64 (Int.tdiv (n : Int) (k : Int)) := by
  obtain ⟨m5, h5, r1, r2⟩ := exec_division_operands n k hn hk m
  have ha := exec_append [.movq_imm_rax (n : Int), .pushq_rax, .movq_imm_rax (k : Int),
    .movq_rax_rbx, .popq .rax] [.cqo, .idivq_rbx] m
  have hb : (some m5).bind (exec [.cqo, .idivq_rbx]) = exec [.cqo, .idivq_rbx] m5 := rfl
  rw [h5, hb, exec_cqo_idivq m5 n k hn hk hk0 r1 r2] at ha
  exact ⟨_, ha, rfl⟩

/-- The x86-64 lines of `a % b` leave the remainder in `%rax`. -/
theorem exec_modulo (n k : Nat) (hn : n < 2147483648) (hk : k < 2147483648) (hk0 : k ≠ 0)
    (m : Machine) :
    ∃ m1, exec [.movq_imm_rax (n : Int), .pushq_rax, .movq_imm_rax (k : Int), .movq_rax_rbx,
        .popq .rax, .cqo, .idivq_rbx, .movq_rdx_rax] m = some m1 ∧
      m1.rax = imm64 (Int.tmod (n : Int) (k : Int)) := by
  obtain ⟨m5, h5, r1, r2⟩ := exec_division_operands n k hn hk m
  have ha := exec_append [.movq_imm_rax (n : Int), .pushq_rax, .movq_imm_rax (k : Int),
    .movq_rax_rbx, .popq .rax] [.cqo, .idivq_rbx, .movq_rdx_rax] m
  have hb : (some m5).bind (exec [.cqo, .idivq_rbx, .movq_rdx_rax]) =
      exec [.cqo, .idivq_rbx, .movq_rdx_rax] m5 := rfl
  rw [h5, hb, exec_cqo_idivq m5 n k hn hk hk0 r1 r2] at ha
  exact ⟨_, ha, rfl⟩

/-- The value of a left shift of a small literal. -/
theorem imm64_shl (n k : Nat) : imm64 ((n : Int) * 2 ^ k) = (n <<< k) % W := by
  have e : (n : Int) * 2 ^ k = ((n * 2 ^ k : Nat) : Int) := by push_cast; rfl
  rw [e, imm64_natCast, Nat.shiftLeft_eq]

/-- The value of a right shift of a small literal. -/
theorem imm64_shr (n k : Nat) (hn : n < 2147483648) : imm64 ((n : Int) / 2 ^ k) = n >>> k := by
  have e : (n : Int) / 2 ^ k = ((n / 2 ^ k : Nat) : Int) := by push_cast; rfl
  have hq : n / 2 ^ k ≤ n := Nat.div_le_self n _
  rw [e, imm64_natCast, Nat.shiftRight_eq_div_pow]
  exact Nat.mod_eq_of_lt (by unfold W; omega)

/-- The x86-64 lines of `a << b` leave the shifted value in `%rax`. -/
theorem exec_shl (n k : Nat) (hn : n < 2147483648) (hk : k < 64) (m : Machine) :
    ∃ m1, exec [.movq_imm_rax (n : Int), .pushq_rax, .movq_imm_rax (k : Int), .movq_rax_rcx,
        .popq .rax, .shift_cl_rax "shl"] m = some m1 ∧
      m1.rax = imm64 ((n : Int) * 2 ^ k) := by
  have hnW : n % W = n := Nat.mod_eq_of_lt (by unfold W; omega)
  have hk64 : k % 64 = k := Nat.mod_eq_of_lt hk
  refine ⟨_, rfl, ?_⟩
  simp only [imm64_small n hn, imm64_small k (by omega),
    load64_store64 _ _ _ _ rfl (show n < W by unfold W; omega), hnW, hk64, imm64_shl]

/-- The x86-64 lines of `a >> b` leave the shifted value in `%rax`. -/
theorem exec_shr (n k : Nat) (hn : n < 2147483648) (hk : k < 64) (m : Machine) :
    ∃ m1, exec [.movq_imm_rax (n : Int), .pushq_rax, .movq_imm_rax (k : Int), .movq_rax_rcx,
        .popq .rax, .shift_cl_rax "shr"] m = some m1 ∧
      m1.rax = imm64 ((n : Int) / 2 ^ k) := by
  have hnW : n % W = n := Nat.mod_eq_of_lt (by unfold W; omega)
  have hk64 : k % 64 = k := Nat.mod_eq_of_lt hk
  refine ⟨_, rfl, ?_⟩
  simp only [imm64_small n hn, imm64_small k (by omega),
    load64_store64 _ _ _ _ rfl (show n < W by unfold W; omega), hnW, hk64, imm64_shr n k hn]

/-- The AArch64 lines of `a - b` leave the difference in `x0`. -/
theorem execArm_subtract (n k : Nat) (hn : n < 2147483648) (hk : k < 2147483648)
    (m : ArmMachine) :
    ∃ m1, execArm [.mov_x0_imm (n : Int), .str_x0_push, .mov_x0_imm (k : Int), .ldr_pop (.x 1),
        .sub_x0_x1_x0] m = some m1 ∧ m1.x 0 = imm64 ((n : Int) - (k : Int)) := by
  refine ⟨_, rfl, ?_⟩
  simp only [ArmMachine.setX, if_true, imm64_small n hn, imm64_small k hk,
    if_neg (show ¬ (0 = 1) by decide)]
  rw [load64_store64 _ _ _ _ rfl (by unfold W; omega)]
  simp only [imm64, W]
  omega

/-- The AArch64 lines of `a / b` leave the quotient in `x0`. -/
theorem execArm_divide (n k : Nat) (hn : n < 2147483648) (hk : k < 2147483648)
    (m : ArmMachine) :
    ∃ m1, execArm [.mov_x0_imm (n : Int), .str_x0_push, .mov_x0_imm (k : Int), .ldr_pop (.x 1),
        .sdiv_x2_x1_x0, .mov_x0_x2] m = some m1 ∧
      m1.x 0 = imm64 (Int.tdiv (n : Int) (k : Int)) := by
  refine ⟨_, rfl, ?_⟩
  simp only [ArmMachine.setX, if_true, imm64_small n hn, imm64_small k hk,
    if_neg (show ¬ (0 = 1) by decide), if_neg (show ¬ (0 = 2) by decide),
    if_neg (show ¬ (1 = 2) by decide),
    load64_store64 _ _ _ _ rfl (show n < W by unfold W; omega), signed64_small n hn,
    signed64_small k hk]

/-- The AArch64 lines of `a % b` leave the remainder in `x0`. -/
theorem execArm_modulo (n k : Nat) (hn : n < 2147483648) (hk : k < 2147483648)
    (m : ArmMachine) :
    ∃ m1, execArm [.mov_x0_imm (n : Int), .str_x0_push, .mov_x0_imm (k : Int), .ldr_pop (.x 1),
        .sdiv_x2_x1_x0, .msub_x0_x2_x0_x1] m = some m1 ∧
      m1.x 0 = imm64 (Int.tmod (n : Int) (k : Int)) := by
  refine ⟨_, rfl, ?_⟩
  have e1 : Int.tdiv (n : Int) (k : Int) = ((n / k : Nat) : Int) := rfl
  have e2 : Int.tmod (n : Int) (k : Int) = ((n % k : Nat) : Int) := rfl
  have hq : n / k ≤ n := Nat.div_le_self n k
  have hr : n % k ≤ n := Nat.mod_le n k
  have hm : n / k * k ≤ n := Nat.div_mul_le_self n k
  have hd : n / k * k + n % k = n := by
    rw [Nat.mul_comm]; exact Nat.div_add_mod n k
  simp only [ArmMachine.setX, if_true, imm64_small n hn, imm64_small k hk,
    if_neg (show ¬ (0 = 1) by decide), if_neg (show ¬ (0 = 2) by decide),
    if_neg (show ¬ (1 = 2) by decide),
    load64_store64 _ _ _ _ rfl (show n < W by unfold W; omega), signed64_small n hn,
    signed64_small k hk, e1, e2, imm64_small (n / k) (by omega), imm64_small (n % k) (by omega)]
  generalize n / k * k = p at hm hd
  generalize n % k = r at hr hd
  simp only [W]
  omega

/-- The AArch64 lines of `a << b` leave the shifted value in `x0`. -/
theorem execArm_shl (n k : Nat) (hn : n < 2147483648) (hk : k < 64) (m : ArmMachine) :
    ∃ m1, execArm [.mov_x0_imm (n : Int), .str_x0_push, .mov_x0_imm (k : Int), .mov_x2_x0,
        .ldr_pop (.x 0), .shift_x0_x0_x2 "lsl"] m = some m1 ∧
      m1.x 0 = imm64 ((n : Int) * 2 ^ k) := by
  have hnW : n % W = n := Nat.mod_eq_of_lt (by unfold W; omega)
  have hk64 : k % 64 = k := Nat.mod_eq_of_lt hk
  refine ⟨_, rfl, ?_⟩
  simp only [ArmMachine.setX, if_true, imm64_small n hn, imm64_small k (by omega),
    if_neg (show ¬ (0 = 2) by decide), if_neg (show ¬ (2 = 0) by decide),
    load64_store64 _ _ _ _ rfl (show n < W by unfold W; omega), hnW, hk64, imm64_shl]

/-- The AArch64 lines of `a >> b` leave the shifted value in `x0`. -/
theorem execArm_shr (n k : Nat) (hn : n < 2147483648) (hk : k < 64) (m : ArmMachine) :
    ∃ m1, execArm [.mov_x0_imm (n : Int), .str_x0_push, .mov_x0_imm (k : Int), .mov_x2_x0,
        .ldr_pop (.x 0), .shift_x0_x0_x2 "lsr"] m = some m1 ∧
      m1.x 0 = imm64 ((n : Int) / 2 ^ k) := by
  have hnW : n % W = n := Nat.mod_eq_of_lt (by unfold W; omega)
  have hk64 : k % 64 = k := Nat.mod_eq_of_lt hk
  refine ⟨_, rfl, ?_⟩
  simp only [ArmMachine.setX, if_true, imm64_small n hn, imm64_small k (by omega),
    if_neg (show ¬ (0 = 2) by decide), if_neg (show ¬ (2 = 0) by decide),
    load64_store64 _ _ _ _ rfl (show n < W by unfold W; omega), hnW, hk64, imm64_shr n k hn]

end Scc
end SmallC

namespace SmallC
namespace Scc

set_option maxRecDepth 100000 in
/-- The tokens of `7 - 2;`. -/
theorem lex_7_minus_2 :
    gettoken (Lexer.start "t.c".toList "7 - 2;".toList) =
        .ok T_NUMBER (lexerAt "7 - 2;".toList " - 2;".toList 7) ∧
    gettoken (lexerAt "7 - 2;".toList " - 2;".toList 7) =
        .ok (tk '-') (lexerAt "7 - 2;".toList " 2;".toList 7) ∧
    gettoken (lexerAt "7 - 2;".toList " 2;".toList 7) =
        .ok T_NUMBER (lexerAt "7 - 2;".toList ";".toList 2) ∧
    gettoken (lexerAt "7 - 2;".toList ";".toList 2) =
        .ok (tk ';') (lexerAt "7 - 2;".toList [] 2) := by
  decide

set_option maxRecDepth 100000 in
/-- The tokens of `40 >> 3;`. -/
theorem lex_40_shr_3 :
    gettoken (Lexer.start "t.c".toList "40 >> 3;".toList) =
        .ok T_NUMBER (lexerAt "40 >> 3;".toList " >> 3;".toList 40) ∧
    gettoken (lexerAt "40 >> 3;".toList " >> 3;".toList 40) =
        .ok T_SHR (lexerAt "40 >> 3;".toList " 3;".toList 40) ∧
    gettoken (lexerAt "40 >> 3;".toList " 3;".toList 40) =
        .ok T_NUMBER (lexerAt "40 >> 3;".toList ";".toList 3) ∧
    gettoken (lexerAt "40 >> 3;".toList ";".toList 3) =
        .ok (tk ';') (lexerAt "40 >> 3;".toList [] 3) := by
  decide

set_option maxRecDepth 100000 in
/-- The tokens of `3000000000 - 1;`: the first literal wraps in `tokval`. -/
theorem lex_large_minus_1 :
    gettoken (Lexer.start "t.c".toList "3000000000 - 1;".toList) =
        .ok T_NUMBER (lexerAt "3000000000 - 1;".toList " - 1;".toList (-1294967296)) ∧
    gettoken (lexerAt "3000000000 - 1;".toList " - 1;".toList (-1294967296)) =
        .ok (tk '-') (lexerAt "3000000000 - 1;".toList " 1;".toList (-1294967296)) ∧
    gettoken (lexerAt "3000000000 - 1;".toList " 1;".toList (-1294967296)) =
        .ok T_NUMBER (lexerAt "3000000000 - 1;".toList ";".toList 1) ∧
    gettoken (lexerAt "3000000000 - 1;".toList ";".toList 1) =
        .ok (tk ';') (lexerAt "3000000000 - 1;".toList [] 1) := by
  decide

/-- The values of the five operators on natural numbers. -/
theorem binopValue_cases (n k : Nat) :
    binopValue (tk '-') n k = imm64 ((n : Int) - (k : Int)) ∧
    binopValue (tk '/') n k = imm64 (Int.tdiv (n : Int) (k : Int)) ∧
    binopValue (tk '%') n k = imm64 (Int.tmod (n : Int) (k : Int)) ∧
    binopValue T_SHL n k = imm64 ((n : Int) * 2 ^ k) ∧
    binopValue T_SHR n k = imm64 ((n : Int) / 2 ^ k) := by
  have t : ((k : Int)).toNat = k := Int.toNat_ofNat k
  refine ⟨?_, ?_, ?_, ?_, ?_⟩
  · rw [binopValue, if_pos rfl]
  · rw [binopValue, if_neg (by decide), if_pos rfl]
  · rw [binopValue, if_neg (by decide), if_neg (by decide), if_pos rfl]
  · rw [binopValue, if_neg (by decide), if_neg (by decide), if_neg (by decide), if_pos rfl, t]
  · rw [binopValue, if_neg (by decide), if_neg (by decide), if_neg (by decide),
      if_neg (by decide), t]

/-- The compilation of `a op b` for the five operators: the state in which `expression`
returns. -/
theorem expression_binop (f : Nat) (s : CState) (op tend : Int) (l1 l2 l3 : Lexer)
    (htok : s.token = T_NUMBER) (h1 : gettoken s.lex = .ok op l1)
    (h2 : gettoken l1 = .ok T_NUMBER l2) (h3 : gettoken l2 = .ok tend l3)
    (hend : endsExpression tend)
    (hop : op = tk '-' ∨ op = tk '/' ∨ op = tk '%' ∨ op = T_SHL ∨ op = T_SHR) :
    ∃ s1, expression (f + 17) s = .ok s1 ∧ s1.token = tend ∧ s1.lex = l3 ∧
      s1.out = s.out ++ (match s.target with
        | .x64 =>
          [.movq_imm_rax s.lex.tokval, .pushq_rax, .movq_imm_rax l2.tokval] ++
            (if op = tk '-' then [.popq .rdx, .subq_rax_rdx, .movq_rdx_rax]
            else if op = tk '/' then [.movq_rax_rbx, .popq .rax, .cqo, .idivq_rbx]
            else if op = tk '%' then [.movq_rax_rbx, .popq .rax, .cqo, .idivq_rbx, .movq_rdx_rax]
            else if op = T_SHL then [.movq_rax_rcx, .popq .rax, .shift_cl_rax "shl"]
            else [.movq_rax_rcx, .popq .rax, .shift_cl_rax "shr"])
        | .arm64 =>
          [.mov_x0_imm s.lex.tokval, .str_x0_push, .mov_x0_imm l2.tokval] ++
            (if op = tk '-' then [.ldr_pop (.x 1), .sub_x0_x1_x0]
            else if op = tk '/' then [.ldr_pop (.x 1), .sdiv_x2_x1_x0, .mov_x0_x2]
            else if op = tk '%' then [.ldr_pop (.x 1), .sdiv_x2_x1_x0, .msub_x0_x2_x0_x1]
            else if op = T_SHL then [.mov_x2_x0, .ldr_pop (.x 0), .shift_x0_x0_x2 "lsl"]
            else [.mov_x2_x0, .ldr_pop (.x 0), .shift_x0_x0_x2 "lsr"])) := by
  obtain ⟨hst, hm, ha, hu⟩ := endsExpression_stops tend hend
  have hs1 : tend ≠ T_SHL := hu.2.2.2.2.2.2.2.2.2.2.2.2.2.2.2.2.1
  have hs2 : tend ≠ T_SHR := hu.2.2.2.2.2.2.2.2.2.2.2.2.2.2.2.2.2
  obtain ⟨t1, t2, t3⟩ := token_operands s op tend l1 l2 l3
  have ho := out_operands s op tend l1 l2 l3
  rcases hop with h | h | h | h | h
  · subst h
    have e := additive_subtract f s tend l1 l2 l3 htok h1 h2 h3 hst hm ha
    generalize numState (pushState (numState s l1 (tk '-')) l2 T_NUMBER) l3 tend = N
      at e t1 t2 t3 ho
    cases htg : s.target <;> simp only [htg] at e ho t3
    · refine ⟨_, expression_of_additive (f + 6) s _ e ?_, ?_, ?_, ?_⟩
      · simpa [emits, emit, pop, t1, t3] using hu
      · simp [emits, emit, pop, t1, t3]
      · simp [emits, emit, pop, t2, t3]
      · simp [emits, emit, pop, t3, ho]
    · refine ⟨_, expression_of_additive (f + 6) s _ e ?_, ?_, ?_, ?_⟩
      · simpa [emits, emit, pop, t1, t3] using hu
      · simp [emits, emit, pop, t1, t3]
      · simp [emits, emit, pop, t2, t3]
      · simp [emits, emit, pop, t3, ho]
  · subst h
    have e := multiplicative_divide f s (tk '/') tend l1 l2 l3 htok h1 h2 h3 (Or.inl rfl) hst hm
    rw [if_neg (by decide), if_pos rfl] at e
    generalize numState (pushState (numState s l1 (tk '/')) l2 T_NUMBER) l3 tend = N
      at e t1 t2 t3 ho
    cases htg : s.target <;> simp only [htg] at e ho t3
    · refine ⟨_, expression_of_additive (f + 6) s _
        (additive_of_multiplicative (f + 5) s _ e ?_) ?_, ?_, ?_, ?_⟩
      · simpa [emits, emit, pop, t1, t3] using ha
      · simpa [emits, emit, pop, t1, t3] using hu
      · simp [emits, emit, pop, t1, t3]
      · simp [emits, emit, pop, t2, t3]
      · simp [emits, emit, pop, t3, ho, tkv]
    · refine ⟨_, expression_of_additive (f + 6) s _
        (additive_of_multiplicative (f + 5) s _ e ?_) ?_, ?_, ?_, ?_⟩
      · simpa [emits, emit, pop, t1, t3] using ha
      · simpa [emits, emit, pop, t1, t3] using hu
      · simp [emits, emit, pop, t1, t3]
      · simp [emits, emit, pop, t2, t3]
      · simp [emits, emit, pop, t3, ho, tkv]
  · subst h
    have e := multiplicative_divide f s (tk '%') tend l1 l2 l3 htok h1 h2 h3 (Or.inr rfl) hst hm
    rw [if_pos rfl, if_neg (by decide)] at e
    generalize numState (pushState (numState s l1 (tk '%')) l2 T_NUMBER) l3 tend = N
      at e t1 t2 t3 ho
    cases htg : s.target <;> simp only [htg] at e ho t3
    · refine ⟨_, expression_of_additive (f + 6) s _
        (additive_of_multiplicative (f + 5) s _ e ?_) ?_, ?_, ?_, ?_⟩
      · simpa [emits, emit, pop, t1, t3] using ha
      · simpa [emits, emit, pop, t1, t3] using hu
      · simp [emits, emit, pop, t1, t3]
      · simp [emits, emit, pop, t2, t3]
      · simp [emits, emit, pop, t3, ho, tkv]
    · refine ⟨_, expression_of_additive (f + 6) s _
        (additive_of_multiplicative (f + 5) s _ e ?_) ?_, ?_, ?_, ?_⟩
      · simpa [emits, emit, pop, t1, t3] using ha
      · simpa [emits, emit, pop, t1, t3] using hu
      · simp [emits, emit, pop, t1, t3]
      · simp [emits, emit, pop, t2, t3]
      · simp [emits, emit, pop, t3, ho, tkv]
  · subst h
    have e := shift_shift f s T_SHL tend l1 l2 l3 htok h1 h2 h3 (Or.inl rfl) hst hm ha hs1 hs2
    rw [if_pos rfl, if_pos rfl] at e
    generalize numState (pushState (numState s l1 T_SHL) l2 T_NUMBER) l3 tend = N
      at e t1 t2 t3 ho
    cases htg : s.target <;> simp only [htg] at e ho t3
    · refine ⟨_, expression_of_shift (f + 6) s _ e ?_, ?_, ?_, ?_⟩
      · simpa [emits, emit, pop, t1, t3] using hu
      · simp [emits, emit, pop, t1, t3]
      · simp [emits, emit, pop, t2, t3]
      · simp [emits, emit, pop, t3, ho, tkv, Tv]
    · refine ⟨_, expression_of_shift (f + 6) s _ e ?_, ?_, ?_, ?_⟩
      · simpa [emits, emit, pop, t1, t3] using hu
      · simp [emits, emit, pop, t1, t3]
      · simp [emits, emit, pop, t2, t3]
      · simp [emits, emit, pop, t3, ho, tkv, Tv]
  · subst h
    have e := shift_shift f s T_SHR tend l1 l2 l3 htok h1 h2 h3 (Or.inr rfl) hst hm ha hs1 hs2
    rw [if_neg (by decide), if_neg (by decide)] at e
    generalize numState (pushState (numState s l1 T_SHR) l2 T_NUMBER) l3 tend = N
      at e t1 t2 t3 ho
    cases htg : s.target <;> simp only [htg] at e ho t3
    · refine ⟨_, expression_of_shift (f + 6) s _ e ?_, ?_, ?_, ?_⟩
      · simpa [emits, emit, pop, t1, t3] using hu
      · simp [emits, emit, pop, t1, t3]
      · simp [emits, emit, pop, t2, t3]
      · simp [emits, emit, pop, t3, ho, tkv, Tv]
    · refine ⟨_, expression_of_shift (f + 6) s _ e ?_, ?_, ?_, ?_⟩
      · simpa [emits, emit, pop, t1, t3] using hu
      · simp [emits, emit, pop, t1, t3]
      · simp [emits, emit, pop, t2, t3]
      · simp [emits, emit, pop, t3, ho, tkv, Tv]

/-- The x86-64 lines of `3000000000 - 1` as they are emitted, run from any
machine state. -/
theorem exec_large_minus_1 (m : Machine) :
    ∃ m1, exec [.movq_imm_rax (-1294967296), .pushq_rax, .movq_imm_rax 1, .popq .rdx,
        .subq_rax_rdx, .movq_rdx_rax] m = some m1 ∧ m1.rax = 18446744072414584319 := by
  have e1 : imm64 (-1294967296) = 18446744072414584320 := by decide
  have e2 : imm64 1 = 1 := by decide
  refine ⟨_, rfl, ?_⟩
  simp only [e1, e2]
  rw [load64_store64 _ _ _ _ rfl (by decide)]
  decide

end Scc

/-- C31 (as stated) fails for a literal that does not fit the `int` variable
`tokval`: for `3000000000 - 1` the compiler emits `movq $-1294967296, %rax`
for the left operand, and the emitted x86-64 lines leave
`2^64 - 1294967297` in `%rax`, which is not `3000000000 - 1`. -/
theorem subtraction_of_large_literal_wraps :
    ∃ s1, Scc.compileExpression 17
        (Scc.CState.start .x64 "t.c".toList "3000000000 - 1;".toList) = .ok s1 ∧
      s1.token = Scc.tk ';' ∧
      s1.out = [.movq_imm_rax (-1294967296), .pushq_rax, .movq_imm_rax 1, .popq .rdx,
        .subq_rax_rdx, .movq_rdx_rax] ∧
      ∀ m : Scc.Machine, ∃ m1, Scc.exec s1.out m = some m1 ∧
        m1.rax = 18446744072414584319 ∧
        m1.rax ≠ Scc.binopValue (Scc.tk '-') 3000000000 1 := by
  obtain ⟨g0, g1, g2, g3⟩ := Scc.lex_large_minus_1
  obtain ⟨s1, e, t, _, o⟩ := Scc.expression_binop 0
    (Scc.stateAt .x64 "3000000000 - 1;".toList " - 1;".toList (-1294967296) Scc.T_NUMBER)
    (Scc.tk '-') (Scc.tk ';') _ _ _ rfl g1 g2 g3 (by unfold Scc.endsExpression; decide)
    (Or.inl rfl)
  have o1 : s1.out = [.movq_imm_rax (-1294967296), .pushq_rax, .movq_imm_rax 1, .popq .rdx,
      .subq_rax_rdx, .movq_rdx_rax] := by
    rw [o]
    rfl
  refine ⟨s1, ?_, t, o1, ?_⟩
  · have hs : Scc.nexttoken (Scc.CState.start .x64 "t.c".toList "3000000000 - 1;".toList) =
        .ok (Scc.stateAt .x64 "3000000000 - 1;".toList " - 1;".toList (-1294967296)
          Scc.T_NUMBER) := by
      have hl : (Scc.CState.start .x64 "t.c".toList "3000000000 - 1;".toList).lex =
          Scc.Lexer.start "t.c".toList "3000000000 - 1;".toList := rfl
      rw [Scc.nexttoken, hl, g0]
      rfl
    rw [Scc.compileExpression, hs]
    exact e
  · intro m
    obtain ⟨m1, x1, x2⟩ := Scc.exec_large_minus_1 m
    refine ⟨m1, ?_, x2, ?_⟩
    · rw [o1]
      exact x1
    · rw [x2]
      decide

/-- C31 (as amended): let the lexer deliver a literal token with `tokval = a`,
then one of the operators `-`, `/`, `%`, `<<`, `>>`, then a literal token with
`tokval = b`, then a token that ends the expression, where `a` and `b` are at
most 2147483647, `b` is not zero for `/` and `%`, and `b < 64` for the shifts.
Then `expression` returns with fuel 17 or more, has consumed exactly these
tokens, and the lines it emitted, run from any machine state, leave `a op b`
in the accumulator with `a` as the left operand: in `%rax` on x86-64 and in
`x0` on AArch64, the difference modulo `2^64`, the quotient and the remainder
of the division that truncates towards zero, and the shifted 64-bit value. -/
theorem operand_order_of_binary_operators (f : Nat) (s : Scc.CState) (op tend : Int)
    (l1 l2 l3 : Scc.Lexer) (a b : Nat)
    (htok : s.token = Scc.T_NUMBER) (hva : s.lex.tokval = a)
    (h1 : Scc.gettoken s.lex = .ok op l1) (h2 : Scc.gettoken l1 = .ok Scc.T_NUMBER l2)
    (hvb : l2.tokval = b) (h3 : Scc.gettoken l2 = .ok tend l3)
    (hend : Scc.endsExpression tend)
    (hop : op = Scc.tk '-' ∨ op = Scc.tk '/' ∨ op = Scc.tk '%' ∨ op = Scc.T_SHL ∨
      op = Scc.T_SHR)
    (ha : a ≤ 2147483647) (hb : b ≤ 2147483647)
    (hdiv : op = Scc.tk '/' ∨ op = Scc.tk '%' → b ≠ 0)
    (hsh : op = Scc.T_SHL ∨ op = Scc.T_SHR → b < 64) :
    ∃ s1, Scc.expression (f + 17) s = .ok s1 ∧ s1.token = tend ∧ s1.lex = l3 ∧
      ∃ code, s1.out = s.out ++ code ∧
        (s.target = .x64 → ∀ m : Scc.Machine, ∃ m1, Scc.exec code m = some m1 ∧
          m1.rax = Scc.binopValue op a b) ∧
        (s.target = .arm64 → ∀ m : Scc.ArmMachine, ∃ m1, Scc.execArm code m = some m1 ∧
          m1.x 0 = Scc.binopValue op a b) := by
  obtain ⟨s1, e, t, l, o⟩ := Scc.expression_binop f s op tend l1 l2 l3 htok h1 h2 h3 hend hop
  obtain ⟨v1, v2, v3, v4, v5⟩ := Scc.binopValue_cases a b
  have ha1 : a < 2147483648 := by omega
  have hb1 : b < 2147483648 := by omega
  rw [hva, hvb] at o
  refine ⟨s1, e, t, l, _, o, ?_, ?_⟩
  · intro htg m
    simp only [htg]
    rcases hop with h | h | h | h | h
    · subst h
      rw [if_pos rfl, v1]
      exact Scc.exec_subtract a b ha1 hb1 m
    · subst h
      rw [if_neg (by decide), if_pos rfl, v2]
      exact Scc.exec_divide a b ha1 hb1 (hdiv (Or.inl rfl)) m
    · subst h
      rw [if_neg (by decide), if_neg (by decide), if_pos rfl, v3]
      exact Scc.exec_modulo a b ha1 hb1 (hdiv (Or.inr rfl)) m
    · subst h
      rw [if_neg (by decide), if_neg (by decide), if_neg (by decide), if_pos rfl, v4]
      exact Scc.exec_shl a b ha1 (hsh (Or.inl rfl)) m
    · subst h
      rw [if_neg (by decide), if_neg (by decide), if_neg (by decide), if_neg (by decide), v5]
      exact Scc.exec_shr a b ha1 (hsh (Or.inr rfl)) m
  · intro htg m
    simp only [htg]
    rcases hop with h | h | h | h | h
    · subst h
      rw [if_pos rfl, v1]
      exact Scc.execArm_subtract a b ha1 hb1 m
    · subst h
      rw [if_neg (by decide), if_pos rfl, v2]
      exact Scc.execArm_divide a b ha1 hb1 m
    · subst h
      rw [if_neg (by decide), if_neg (by decide), if_pos rfl, v3]
      exact Scc.execArm_modulo a b ha1 hb1 m
    · subst h
      rw [if_neg (by decide), if_neg (by decide), if_neg (by decide), if_pos rfl, v4]
      exact Scc.execArm_shl a b ha1 (hsh (Or.inl rfl)) m
    · subst h
      rw [if_neg (by decide), if_neg (by decide), if_neg (by decide), if_neg (by decide), v5]
      exact Scc.execArm_shr a b ha1 (hsh (Or.inr rfl)) m

/-- C31, an instance on each target: `7 - 2` on x86-64 leaves 5 in `%rax`,
and `40 >> 3` on AArch64 leaves 5 in `x0`. -/
theorem operand_order_of_binary_operators_witness :
    (∃ s1, Scc.expression 17
        (Scc.stateAt .x64 "7 - 2;".toList " - 2;".toList 7 Scc.T_NUMBER) = .ok s1 ∧
      s1.token = Scc.tk ';' ∧ s1.lex = Scc.lexerAt "7 - 2;".toList [] 2 ∧
      ∃ code, s1.out = [] ++ code ∧
        (Scc.Target.x64 = .x64 → ∀ m : Scc.Machine, ∃ m1, Scc.exec code m = some m1 ∧
          m1.rax = Scc.binopValue (Scc.tk '-') ((7 : Nat) : Int) ((2 : Nat) : Int)) ∧
        (Scc.Target.x64 = .arm64 → ∀ m : Scc.ArmMachine, ∃ m1,
          Scc.execArm code m = some m1 ∧
          m1.x 0 = Scc.binopValue (Scc.tk '-') ((7 : Nat) : Int) ((2 : Nat) : Int))) ∧
    Scc.binopValue (Scc.tk '-') 7 2 = 5 ∧
    (∃ s1, Scc.expression 17
        (Scc.stateAt .arm64 "40 >> 3;".toList " >> 3;".toList 40 Scc.T_NUMBER) = .ok s1 ∧
      s1.token = Scc.tk ';' ∧ s1.lex = Scc.lexerAt "40 >> 3;".toList [] 3 ∧
      ∃ code, s1.out = [] ++ code ∧
        (Scc.Target.arm64 = .x64 → ∀ m : Scc.Machine, ∃ m1, Scc.exec code m = some m1 ∧
          m1.rax = Scc.binopValue Scc.T_SHR ((40 : Nat) : Int) ((3 : Nat) : Int)) ∧
        (Scc.Target.arm64 = .arm64 → ∀ m : Scc.ArmMachine, ∃ m1,
          Scc.execArm code m = some m1 ∧
          m1.x 0 = Scc.binopValue Scc.T_SHR ((40 : Nat) : Int) ((3 : Nat) : Int))) ∧
    Scc.binopValue Scc.T_SHR 40 3 = 5 :=
  ⟨operand_order_of_binary_operators 0
      (Scc.stateAt .x64 "7 - 2;".toList " - 2;".toList 7 Scc.T_NUMBER) (Scc.tk '-') (Scc.tk ';')
      _ _ _ 7 2 rfl rfl Scc.lex_7_minus_2.2.1 Scc.lex_7_minus_2.2.2.1 rfl
      Scc.lex_7_minus_2.2.2.2 (by unfold Scc.endsExpression; decide) (Or.inl rfl)
      (by decide) (by decide) (fun _ => by decide) (fun _ => by decide),
    by decide,
    operand_order_of_binary_operators 0
      (Scc.stateAt .arm64 "40 >> 3;".toList " >> 3;".toList 40 Scc.T_NUMBER) Scc.T_SHR
      (Scc.tk ';') _ _ _ 40 3 rfl rfl Scc.lex_40_shr_3.2.1 Scc.lex_40_shr_3.2.2.1 rfl
      Scc.lex_40_shr_3.2.2.2 (by unfold Scc.endsExpression; decide)
      (Or.inr (Or.inr (Or.inr (Or.inr rfl))))
      (by decide) (by decide) (fun _ => by decide) (fun _ => by decide),
    by decide⟩

end SmallC

namespace SmallC
namespace Scc

theorem drawnIn_append (a b : List Asm) : drawnIn (a ++ b) = drawnIn a ++ drawnIn b :=
  List.filterMap_append _ _ _

theorem labelsIn_append (a b : List Asm) : labelsIn (a ++ b) = labelsIn a ++ labelsIn b :=
  List.filterMap_append _ _ _

theorem stringsIn_append (a b : List Asm) : stringsIn (a ++ b) = stringsIn a ++ stringsIn b :=
  List.filterMap_append _ _ _

theorem jumpsIn_append (a b : List Asm) : jumpsIn (a ++ b) = jumpsIn a ++ jumpsIn b :=
  List.filterMap_append _ _ _

theorem FreshL.nil (lo hi : Int) : FreshL lo hi [] :=
  ⟨List.nodup_nil, fun _ h => absurd h (List.not_mem_nil _)⟩

/-- Numbers of two ranges, one below the other. -/
theorem FreshL.fresh_append {a b c : Int} {x y : List Int} (hx : FreshL a b x) (hy : FreshL b c y)
    (hab : a ≤ b) (hbc : b ≤ c) : FreshL a c (x ++ y) := by
  refine ⟨List.nodup_append.mpr ⟨hx.1, hy.1, ?_⟩, ?_⟩
  · intro n h1 h2
    have := (hx.2 n h1).2
    have := (hy.2 n h2).1
    omega
  · intro n hn
    rcases List.mem_append.mp hn with h | h
    · have := hx.2 n h
      omega
    · have := hy.2 n h
      omega

/-- The loop labels around the statement are the same in two states with
the same entries below `wsp`. -/
theorem Pending.of_loops {s s1 : CState} (hw : s1.wsp = s.wsp)
    (hl : ∀ i : Nat, (i : Int) < s.wsp →
      s1.breaklab.getD i 0 = s.breaklab.getD i 0 ∧ s1.contlab.getD i 0 = s.contlab.getD i 0)
    {n : Int} (h : Pending s1 n) : Pending s n := by
  obtain ⟨i, hi, hn⟩ := h
  rw [hw] at hi
  obtain ⟨e1, e2⟩ := hl i hi
  exact ⟨i, hi, by rw [← e1, ← e2]; exact hn⟩

theorem Done.done_trans {s s1 s2 : CState} (h1 : Done s s1) (h2 : Done s1 s2) : Done s s2 := by
  obtain ⟨l1, w1, p1, c1, o1, f1, j1⟩ := h1
  obtain ⟨l2, w2, p2, c2, o2, f2, j2⟩ := h2
  refine ⟨by omega, by rw [w2, w1], ?_, c1 ++ c2, by rw [o2, o1, List.append_assoc], ?_, ?_⟩
  · intro i hi
    obtain ⟨a1, a2⟩ := p1 i hi
    obtain ⟨b1, b2⟩ := p2 i (by rw [w1]; exact hi)
    exact ⟨by rw [b1, a1], by rw [b2, a2]⟩
  · rw [drawnIn_append]
    exact FreshL.fresh_append f1 f2 l1 l2
  · intro n hn
    rw [jumpsIn_append] at hn
    rw [labelsIn_append]
    rcases List.mem_append.mp hn with h | h
    · rcases j1 n h with h3 | h3
      · exact Or.inl (List.mem_append_left _ h3)
      · exact Or.inr h3
    · rcases j2 n h with h3 | h3
      · exact Or.inl (List.mem_append_right _ h3)
      · exact Or.inr (Pending.of_loops w1 p1 h3)

/-- Lines that define no label and hold no jump, and changes of other
variables, keep `Done`. -/
theorem Done.done_append {s s1 : CState} (h : Done s s1) (s2 : CState) (l : List Asm)
    (e1 : s2.lab = s1.lab) (e2 : s2.out = s1.out ++ l) (e3 : s2.wsp = s1.wsp)
    (e4 : s2.breaklab = s1.breaklab) (e5 : s2.contlab = s1.contlab)
    (hd : drawnIn l = []) (hj : jumpsIn l = []) : Done s s2 := by
  refine Done.done_trans h ⟨by omega, e3, fun i _ => ⟨by rw [e4], by rw [e5]⟩, l, e2, ?_, ?_⟩
  · rw [hd, e1]
    exact FreshL.nil _ _
  · intro n hn
    rw [hj] at hn
    exact absurd hn (List.not_mem_nil _)

/-- A change of variables other than those of the label relations. -/
theorem Done.congr {s s1 : CState} (h : Done s s1) (s2 : CState) (e : s2.sig = s1.sig) :
    Done s s2 := by
  simp only [CState.sig, Prod.mk.injEq] at e
  obtain ⟨e1, e2, e3, e4, e5⟩ := e
  exact Done.done_append h s2 [] e1 (by rw [e2, List.append_nil]) e3 e4 e5 rfl rfl

theorem Done.emit {s s1 : CState} {a : Asm} (hd : a.drawn = none) (hj : a.jumpTo = none)
    (h : Done s s1) : Done s (emit a s1) :=
  Done.done_append h _ [a] rfl rfl rfl rfl rfl (by simp [drawnIn, hd]) (by simp [jumpsIn, hj])

theorem Done.emits {s s1 : CState} {l : List Asm} (hd : drawnIn l = []) (hj : jumpsIn l = [])
    (h : Done s s1) : Done s (emits l s1) :=
  Done.done_append h _ l rfl rfl rfl rfl rfl hd hj

theorem Done.push {s s1 : CState} (h : Done s s1) : Done s (push s1) := by
  unfold Scc.push
  cases s1.target
  · exact Done.done_append h _ [.pushq_rax] rfl rfl rfl rfl rfl rfl rfl
  · exact Done.done_append h _ [.str_x0_push] rfl rfl rfl rfl rfl rfl rfl

theorem Done.pop {s s1 : CState} {r : Reg} (h : Done s s1) : Done s (pop r s1) := by
  unfold Scc.pop
  cases s1.target
  · exact Done.done_append h _ [.popq r] rfl rfl rfl rfl rfl rfl rfl
  · exact Done.done_append h _ [.ldr_pop r] rfl rfl rfl rfl rfl rfl rfl

theorem Res.Good.ok {s s1 : CState} (h : Done s s1) : Res.Good s (.ok s1) := h

end Scc
end SmallC

namespace SmallC
namespace Scc

theorem out_label (n : Int) (s : CState) : (emit_label n s).out = s.out ++ [.label n] := rfl

theorem Done.popArgsLoop {s s1 : CState} (i : Nat) (h : Done s s1) :
    Done s (popArgsLoop i s1) := by
  induction i generalizing s1 with
  | zero => exact h
  | succ i ih =>
    rw [Scc.popArgsLoop]
    split
    · exact ih (Done.pop h)
    · exact ih (Done.pop h)

theorem Done.popArgs {s s1 : CState} (n : Nat) (h : Done s s1) : Done s (popArgs n s1) := by
  unfold Scc.popArgs
  split <;> split <;> first | exact Done.popArgsLoop n h | exact h

theorem Done.emit_load_local {s s1 : CState} (off : Int) (h : Done s s1) :
    Done s (emit_load_local off s1) := by
  unfold Scc.emit_load_local
  split <;> exact Done.emit rfl rfl h

theorem Done.loadSymbol {s s1 : CState} (y : Symbol) (h : Done s s1) :
    Done s (loadSymbol y s1) := by
  unfold Scc.loadSymbol
  repeat' first
    | exact h
    | exact Done.emit_load_local _ h
    | refine Done.emit (by rfl) (by rfl) ?_
    | refine Done.emits (by rfl) (by rfl) ?_
    | split

theorem Done.compoundOp {s s1 : CState} (op : Int) (h : Done s s1) :
    Done s (compoundOp op s1) := by
  unfold Scc.compoundOp
  repeat' first
      | exact h
      | refine Done.emit (by rfl) (by rfl) ?_
      | refine Done.emits (by rfl) (by rfl) ?_
      | refine Done.pop ?_
      | refine Done.push ?_
      | split

end Scc
end SmallC

namespace SmallC
namespace Scc

end Scc
end SmallC

namespace SmallC
namespace Scc

end Scc
end SmallC

namespace SmallC
namespace Scc

end Scc
end SmallC

namespace SmallC
namespace Scc

/-! ## A function whose body is `if (number) ;`

What `compile` does on such a program, derived from the tokens that the
lexer delivers. -/

end Scc
end SmallC

namespace SmallC

namespace Scc

end Scc

end SmallC
